import Mathlib

/-!
# testfs: directory layer, path resolution and file commands

A shallow embedding of `src/dir.c` and `src/file.c`.

* A byte is a natural number, a C string is the list of its bytes before the
  terminating NUL, a buffer is a list of bytes.
* `struct inode *` is an inode number into the volume state `super_block`, or,
  for the helpers of `dir.c` that touch nothing but the directory they are
  given, the inode value itself.
* `assert` failures abort the program: functions that can abort return an
  `Option`, `none` standing for the abort.  Loops are recursive functions with
  a fuel argument that bounds the number of iterations.
* `int` values are integers, offsets and sizes are natural numbers (they stay
  far below `2^31`), and the one comparison of the source that mixes `int` and
  `size_t` is taken modulo `2^64`.
* `malloc` does not fail, except for the request of a negative size in
  `testfs_next_dirent`.
* `BLOCK_SIZE` and `MAX_FILE_SIZE` (`testfs.h` is absent) are arguments of the
  functions that use them.
-/

namespace TestFS

/-! ## Constants -/

/-- Error number of `<errno.h>`. -/
def ENOENT : Int := 2
/-- Error number of `<errno.h>`. -/
def EEXIST : Int := 17
/-- Error number of `<errno.h>`. -/
def ENOTDIR : Int := 20
/-- Error number of `<errno.h>`. -/
def EISDIR : Int := 21
/-- Error number of `<errno.h>`. -/
def EINVAL : Int := 22
/-- Error number of `<errno.h>`. -/
def E2BIG : Int := 7
/-- Error number of `<errno.h>`. -/
def ENOTEMPTY : Int := 39

/-- Modelled from the spec: `sizeof(struct dirent)` (`dir.h` is absent).  The
fixed header of a directory entry holds the inode number and the name length,
two C `int`s of four bytes each. -/
def sizeof_dirent : Nat := 8

/-- The character `/`. -/
def SLASH : Nat := 47

/-- The character `.`. -/
def DOT : Nat := 46

/-! ## Bytes, integers and C strings -/

/-- The four bytes of a C `int`, least significant first (two's complement). -/
def int_bytes (z : Int) : List Nat :=
  let n := (z % 4294967296).toNat
  [n % 256, n / 256 % 256, n / 65536 % 256, n / 16777216 % 256]

/-- The C `int` stored in the first four bytes of a buffer. -/
def bytes_int (b : List Nat) : Int :=
  let n := b.getD 0 0 + 256 * b.getD 1 0 + 65536 * b.getD 2 0 + 16777216 * b.getD 3 0
  if n < 2147483648 then (n : Int) else (n : Int) - 4294967296

/-- The C string held in a buffer: the bytes before the first NUL. -/
def cstr (buf : List Nat) : List Nat := buf.takeWhile (fun b => b != 0)

/-- A list of bytes is the content of a C string: no NUL, every byte below 256. -/
def is_cstring (s : List Nat) : Prop := ∀ b ∈ s, 0 < b ∧ b < 256

instance (s : List Nat) : Decidable (is_cstring s) := by
  unfold is_cstring; infer_instance

/-- A buffer of `n` zero bytes. -/
def zeros (n : Nat) : List Nat := List.replicate n 0

/-- The buffer `buf` after `bytes` have been copied to its start. -/
def read_into (buf bytes : List Nat) : List Nat := bytes ++ buf.drop bytes.length

/-- The stored bytes `data` after `buf` has been written at offset `start`;
a gap between the end of `data` and `start` reads as zero. -/
def write_bytes (data : List Nat) (start : Nat) (buf : List Nat) : List Nat :=
  (data ++ zeros (start - data.length)).take start ++ buf ++ data.drop (start + buf.length)

/-! ## Inodes -/

/-- Modelled from the spec: the inode types of `inode.h` (absent). -/
inductive inode_type where
  | I_NONE
  | I_FILE
  | I_DIR
deriving DecidableEq, Repr

/-- Modelled from the spec: the in-memory inode (`inode.h` is absent), reduced to
its type, its size and the bytes that its data blocks hold, by logical offset.
A byte that `data` does not reach lies in an unallocated block and reads as
zero. -/
structure inode where
  i_type : inode_type
  i_size : Nat
  data : List Nat
deriving DecidableEq, Repr

/-- Modelled from the spec: `testfs_read_data` (`inode.c` is absent).  "If
`start ≥ size`: return 0 bytes. If `start + len > size`: clamp to
`size − start`"; unallocated blocks read as zero.  The result is the list of
the bytes read. -/
def testfs_read_data (ino : inode) (start len : Nat) : List Nat :=
  if ino.i_size ≤ start then []
  else (List.range (min len (ino.i_size - start))).map (fun i => ino.data.getD (start + i) 0)

/-- Modelled from the spec: `testfs_write_data` (`inode.c` is absent).  A write
that ends beyond `MAX_FILE_SIZE` fails with `E2BIG` and changes nothing;
otherwise the bytes are stored and `size = max(size, start + len)`.  The
return value on success is 0, as the comment on `testfs_write_dirent` in
`dir.c` states ("return 0 on success").  This is the effect of a write on the
inode when the blocks that it needs are free: the allocation of blocks, with
the error `NO_SPACE`, is added by `write_data_at` for the writes of the
directory layer, and what is proved of the commands that write file data
through this function is proved of the calls that return no error. -/
def testfs_write_data (MAX_FILE_SIZE : Nat) (ino : inode) (start : Nat) (buf : List Nat) :
    Int × inode :=
  if MAX_FILE_SIZE < start + buf.length then (-E2BIG, ino)
  else (0, { ino with i_size := max ino.i_size (start + buf.length),
                      data := write_bytes ino.data start buf })

/-- Modelled from the spec: `testfs_truncate_data` (`inode.c` is absent).  "If
`new_size < size`: free every data block whose first byte lies at offset
`≥ new_size`" and update the size; "if `new_size ≥ size`: only adjust `size`". -/
def testfs_truncate_data (BLOCK_SIZE : Nat) (ino : inode) (new_size : Nat) : inode :=
  if new_size < ino.i_size then
    { ino with i_size := new_size,
               data := ino.data.take (((new_size + BLOCK_SIZE - 1) / BLOCK_SIZE) * BLOCK_SIZE) }
  else { ino with i_size := new_size }

/-! ## Directory entries (`dir.c`) -/

/-- A directory entry as `testfs_next_dirent` returns it: the header fields and
the `d_name_len` bytes that follow the header (`D_NAME`). -/
structure dirent where
  d_inode_nr : Int
  d_name_len : Int
  d_name : List Nat
deriving DecidableEq, Repr

/-- The bytes of the entry that `testfs_write_dirent` builds: the header, then
`strcpy(D_NAME(d), name)` in a buffer of `len` bytes. -/
def dirent_bytes (inode_nr : Int) (len : Nat) (name : List Nat) : List Nat :=
  int_bytes inode_nr ++ int_bytes len ++ read_into (zeros len) ((name ++ [0]).take len)

/-- `testfs_next_dirent` (dir.c:23-73).  The result is `none` when the assertion
on the inode type fails, and otherwise the entry (`none` for NULL) with the
updated `*offset`.  The local header `d` and the allocated entry start as zero
bytes; a negative `d_name_len` makes `malloc` fail or return a block shorter
than the header, and is taken as the NULL return. -/
def testfs_next_dirent (BLOCK_SIZE : Nat) (dir : inode) (offset : Nat) :
    Option (Option dirent × Nat) :=
  if dir.i_type ≠ inode_type.I_DIR then none
  else if dir.i_size ≤ offset then some (none, offset)
  else
    let offset1 :=
      if (offset + sizeof_dirent) / BLOCK_SIZE > offset / BLOCK_SIZE then
        ((offset + sizeof_dirent) / BLOCK_SIZE) * BLOCK_SIZE
      else offset
    let d1 := read_into (zeros sizeof_dirent) (testfs_read_data dir offset1 sizeof_dirent)
    let offset2 := if bytes_int (d1.drop 4) = 0 then (offset1 / BLOCK_SIZE + 1) * BLOCK_SIZE
      else offset1
    let d2 := if bytes_int (d1.drop 4) = 0 then
        read_into d1 (testfs_read_data dir offset2 sizeof_dirent)
      else d1
    let len := bytes_int (d2.drop 4)
    if len < 0 then some (none, offset2)
    else
      let name := read_into (zeros len.toNat)
        (testfs_read_data dir (offset2 + sizeof_dirent) len.toNat)
      some (some ⟨bytes_int d2, len, name⟩, offset2 + sizeof_dirent + len.toNat)

/-- `testfs_write_dirent` (dir.c:109-148).  `none` is the failed assertion
`inode_nr >= 0`. -/
def testfs_write_dirent (BLOCK_SIZE MAX_FILE_SIZE : Nat) (dir : inode) (name : List Nat)
    (len : Nat) (inode_nr : Int) (offset : Nat) : Option (Int × inode) :=
  let total_bytes := sizeof_dirent + len
  if inode_nr < 0 then none
  else
    let d := dirent_bytes inode_nr len name
    if (offset + total_bytes) / BLOCK_SIZE > offset / BLOCK_SIZE then
      let next_offset := ((offset + total_bytes) / BLOCK_SIZE) * BLOCK_SIZE
      let total := next_offset - offset
      let r := testfs_write_data MAX_FILE_SIZE dir offset (zeros total)
      if r.1 < 0 then some (r.1, r.2)
      else some (testfs_write_data MAX_FILE_SIZE r.2 next_offset d)
    else some (testfs_write_data MAX_FILE_SIZE dir offset d)

/-- The loop of `testfs_add_dirent` (dir.c:171-190): the result is
`(ret, found, p_offset)` at the exit of the loop. -/
def add_dirent_loop (BLOCK_SIZE : Nat) (dir : inode) (name : List Nat) (len : Nat) :
    Nat → Nat → Option (Int × Bool × Nat)
  | 0, _ => none
  | fuel + 1, offset =>
    match testfs_next_dirent BLOCK_SIZE dir offset with
    | none => none
    | some (none, _) => some (0, false, offset)
    | some (some d, offset') =>
      if d.d_inode_nr ≥ 0 ∧ cstr d.d_name = name then some (-EEXIST, false, offset)
      else if d.d_inode_nr ≥ 0 ∨ d.d_name_len ≠ (len : Int) then
        add_dirent_loop BLOCK_SIZE dir name len fuel offset'
      else some (0, true, offset)

/-- `testfs_add_dirent` (dir.c:158-203).  `none` is a failed assertion: the
inode type, `found || p_offset == size`, or the one of `testfs_write_dirent`. -/
def testfs_add_dirent (BLOCK_SIZE MAX_FILE_SIZE : Nat) (dir : inode) (name : List Nat)
    (inode_nr : Int) : Option (Int × inode) :=
  let len := name.length + 1
  if dir.i_type ≠ inode_type.I_DIR then none
  else
    match add_dirent_loop BLOCK_SIZE dir name len (dir.i_size + 1) 0 with
    | none => none
    | some (ret, found, p_offset) =>
      if ret < 0 then some (ret, dir)
      else if ¬ (found = true ∨ p_offset = dir.i_size) then none
      else testfs_write_dirent BLOCK_SIZE MAX_FILE_SIZE dir name len inode_nr p_offset

/-- The entries that successive calls of `testfs_next_dirent` return from
`offset` on, each with the offset at which its header was read, up to the
first NULL. -/
def dirents_from (BLOCK_SIZE : Nat) (dir : inode) : Nat → Nat → List (Nat × dirent)
  | 0, _ => []
  | fuel + 1, offset =>
    match testfs_next_dirent BLOCK_SIZE dir offset with
    | some (some d, offset') =>
      (offset' - sizeof_dirent - d.d_name_len.toNat, d) ::
        dirents_from BLOCK_SIZE dir fuel offset'
    | _ => []

/-- The entries of a directory, in the order in which `testfs_next_dirent`
returns them from offset 0. -/
def dirents (BLOCK_SIZE : Nat) (dir : inode) : List dirent :=
  (dirents_from BLOCK_SIZE dir (dir.i_size + 1) 0).map Prod.snd

/-! ## The volume -/

/-- Modelled from the spec: the transaction kinds of `tx.h` (absent). -/
inductive tx_type where
  | TX_NONE
  | TX_WRITE
  | TX_CREATE
  | TX_RM
  | TX_UMOUNT
deriving DecidableEq, Repr

/-- Modelled from the spec: the mounted volume (`super.h` and `inode.h` are
absent).  `inodes` is the logical inode table (the cached copy of an inode when
there is one, its on-disk copy otherwise: an inode is synced when it leaves
the cache), `i_count` the reference count of each inode in the inode cache
(0: not cached), then the two freemaps and the transaction in progress. -/
structure super_block where
  inodes : Nat → inode
  i_count : Nat → Nat
  inode_freemap : List Bool
  block_freemap : List Bool
  tx_in_progress : tx_type

/-- The volume with the inode `nr` replaced by `ino`. -/
def set_inode (sb : super_block) (nr : Nat) (ino : inode) : super_block :=
  { sb with inodes := fun n => if n = nr then ino else sb.inodes n }

/-- Modelled from the spec: `testfs_get_inode` (`inode.c` is absent).  "If
present, increment refcount and return; else allocate a new in-memory inode,
read its dinode, set refcount to 1, insert, return." -/
def testfs_get_inode (sb : super_block) (nr : Nat) : super_block :=
  { sb with i_count := fun n => if n = nr then sb.i_count n + 1 else sb.i_count n }

/-- Modelled from the spec: `testfs_put_inode` (`inode.c` is absent).
"Decrement refcount; if it reaches 0 and the inode is dirty, sync it; then
unlink and free." -/
def testfs_put_inode (sb : super_block) (nr : Nat) : super_block :=
  { sb with i_count := fun n => if n = nr then sb.i_count n - 1 else sb.i_count n }

/-- Modelled from the spec: `testfs_tx_start` (`tx.c` is absent).  It "asserts
no transaction is in progress and sets `tx_in_progress = kind`". -/
def testfs_tx_start (sb : super_block) (kind : tx_type) : Option super_block :=
  if sb.tx_in_progress ≠ tx_type.TX_NONE then none
  else some { sb with tx_in_progress := kind }

/-- Modelled from the spec: `testfs_tx_commit` (`tx.c` is absent).  It
"requires the current kind" and clears `tx_in_progress`; the flushes do not
change the logical state. -/
def testfs_tx_commit (sb : super_block) (kind : tx_type) : Option super_block :=
  if sb.tx_in_progress ≠ kind then none
  else some { sb with tx_in_progress := tx_type.TX_NONE }

/-- Modelled from the spec: the command context of `testfs.h` (absent): the
current directory, the command words and their number. -/
structure context where
  cur_dir : Nat
  cmd : List (List Nat)
  nargs : Nat

/-! ## Removing entries (`dir.c`) -/

/-- The loop of `testfs_remove_dirent_allowed` (dir.c:226-231): its `ret`. -/
def remove_allowed_loop (BLOCK_SIZE : Nat) (dir : inode) : Nat → Nat → Option Int
  | 0, _ => none
  | fuel + 1, offset =>
    match testfs_next_dirent BLOCK_SIZE dir offset with
    | none => none
    | some (none, _) => some 0
    | some (some d, offset') =>
      if d.d_inode_nr < 0 ∨ cstr d.d_name = [DOT] ∨ cstr d.d_name = [DOT, DOT] then
        remove_allowed_loop BLOCK_SIZE dir fuel offset'
      else some (-ENOTEMPTY)

/-- `testfs_remove_dirent_allowed` (dir.c:206-237). -/
def testfs_remove_dirent_allowed (BLOCK_SIZE : Nat) (sb : super_block) (inode_nr : Nat) :
    Option (Int × super_block) :=
  let sb1 := testfs_get_inode sb inode_nr
  let dir := sb1.inodes inode_nr
  if dir.i_type ≠ inode_type.I_DIR then some (0, testfs_put_inode sb1 inode_nr)
  else
    match remove_allowed_loop BLOCK_SIZE dir (dir.i_size + 1) 0 with
    | none => none
    | some ret => some (ret, testfs_put_inode sb1 inode_nr)

/-- The loop of `testfs_remove_dirent` (dir.c:258-286): its `ret` and the
volume at the exit of the loop.  The entry is written back at `p_offset`, the
value that `offset` had before the call of `testfs_next_dirent`. -/
def remove_dirent_loop (BLOCK_SIZE MAX_FILE_SIZE : Nat) (sb : super_block) (dir : Nat)
    (name : List Nat) : Nat → Nat → Option (Int × super_block)
  | 0, _ => none
  | fuel + 1, offset =>
    match testfs_next_dirent BLOCK_SIZE (sb.inodes dir) offset with
    | none => none
    | some (none, _) => some (-ENOENT, sb)
    | some (some d, offset') =>
      if d.d_inode_nr < 0 ∨ cstr d.d_name ≠ name then
        remove_dirent_loop BLOCK_SIZE MAX_FILE_SIZE sb dir name fuel offset'
      else
        match testfs_remove_dirent_allowed BLOCK_SIZE sb d.d_inode_nr.toNat with
        | none => none
        | some (ret, sb1) =>
          if ret < 0 then some (ret, sb1)
          else
            let r := testfs_write_data MAX_FILE_SIZE (sb1.inodes dir) offset
              (int_bytes (-1) ++ int_bytes d.d_name_len ++ d.d_name)
            some (if r.1 ≥ 0 then d.d_inode_nr else r.1, set_inode sb1 dir r.2)

/-- `testfs_remove_dirent` (dir.c:245-288). -/
def testfs_remove_dirent (BLOCK_SIZE MAX_FILE_SIZE : Nat) (sb : super_block) (dir : Nat)
    (name : List Nat) : Option (Int × super_block) :=
  if name = [DOT] ∨ name = [DOT, DOT] then some (-EINVAL, sb)
  else remove_dirent_loop BLOCK_SIZE MAX_FILE_SIZE sb dir name ((sb.inodes dir).i_size + 1) 0

/-! ## Path resolution (`dir.c`) -/

/-- The search for the first `/` (dir.c:477-482), from index `i` on: the value
of `name_offset` after the loop. -/
def first_slash : List Nat → Nat → Int
  | [], _ => -1
  | c :: cs, i => if c = SLASH then (i : Int) else first_slash cs (i + 1)

/-- The lookup loop of `testfs_dir_name_to_inode_nr_rec` (dir.c:510-516): its
`ret`, which starts as `-ENOENT`. -/
def lookup_loop (BLOCK_SIZE : Nat) (dir : inode) (name_to_search : List Nat) :
    Nat → Nat → Option Int
  | 0, _ => none
  | fuel + 1, offset =>
    match testfs_next_dirent BLOCK_SIZE dir offset with
    | none => none
    | some (none, _) => some (-ENOENT)
    | some (some d, offset') =>
      if d.d_inode_nr < 0 ∨ cstr d.d_name ≠ name_to_search then
        lookup_loop BLOCK_SIZE dir name_to_search fuel offset'
      else some d.d_inode_nr

/-- `testfs_dir_name_to_inode_nr_rec` (dir.c:456-539): the return value, the
volume and `*dir` at the return; `none` is a failed assertion.  The fuel
bounds the depth of the recursion, which consumes a character of `name` at
each call.  The comparison `name_offset == (strlen(name) - 1)` is between an
`int` and a `size_t` and is made modulo `2^64`. -/
def testfs_dir_name_to_inode_nr_rec (BLOCK_SIZE : Nat) :
    Nat → super_block → Nat → List Nat → Option (Int × super_block × Nat)
  | 0, _, _, _ => none
  | fuel + 1, sb, dir, name =>
    if (sb.inodes dir).i_type ≠ inode_type.I_DIR then none
    else if name = [SLASH] then some (0, sb, dir)
    else
      let name_offset := first_slash name 0
      if name_offset = 0 then
        let sb1 := testfs_get_inode sb 0
        let sb2 := testfs_put_inode sb1 dir
        testfs_dir_name_to_inode_nr_rec BLOCK_SIZE fuel sb2 0 (name.drop 1)
      else if name_offset % 18446744073709551616
          = ((name.length : Int) - 1) % 18446744073709551616 then
        some (-ENOENT, sb, dir)
      else
        let name_to_search := if name_offset ≠ -1 then name.take name_offset.toNat else name
        match lookup_loop BLOCK_SIZE (sb.inodes dir) name_to_search
            ((sb.inodes dir).i_size + 1) 0 with
        | none => none
        | some ret =>
          if name_offset ≠ -1 then
            if ret < 0 then some (ret, sb, dir)
            else
              let sb1 := testfs_get_inode sb ret.toNat
              let sb2 := testfs_put_inode sb1 dir
              testfs_dir_name_to_inode_nr_rec BLOCK_SIZE fuel sb2 ret.toNat
                (name.drop (name_offset.toNat + 1))
          else some (ret, sb, dir)

/-- `testfs_dir_name_to_inode_nr` (dir.c:547-560): the return value, the volume
and `*dir` at the return.  For the empty name the source reads `name[-1]`,
which is outside the string: the model has no result there (`none`), as for a
failed assertion. -/
def testfs_dir_name_to_inode_nr (BLOCK_SIZE : Nat) (sb : super_block) (dir : Nat)
    (name : List Nat) : Option (Int × super_block × Nat) :=
  let current_inode_number := dir
  if name = [] then none
  else if name.getLast? = some SLASH ∧ name ≠ [SLASH] then some (-EINVAL, sb, dir)
  else
    match testfs_dir_name_to_inode_nr_rec BLOCK_SIZE (name.length + 1) sb dir name with
    | none => none
    | some (ret, sb1, dir1) =>
      if dir1 ≠ current_inode_number then
        some (ret, testfs_get_inode (testfs_put_inode sb1 dir1) current_inode_number,
          current_inode_number)
      else some (ret, sb1, dir1)

/-! ## Commands (`dir.c`, `file.c`) -/

/-- `cmd_cd` (dir.c:567-600). -/
def cmd_cd (BLOCK_SIZE : Nat) (sb : super_block) (c : context) :
    Option (Int × super_block × context) :=
  if c.nargs ≠ 2 then some (-EINVAL, sb, c)
  else
    match testfs_dir_name_to_inode_nr BLOCK_SIZE sb c.cur_dir (c.cmd.getD 1 []) with
    | none => none
    | some (inode_nr, sb1, cur) =>
      if inode_nr < 0 then some (inode_nr, sb1, { c with cur_dir := cur })
      else
        let sb2 := testfs_get_inode sb1 inode_nr.toNat
        if (sb2.inodes inode_nr.toNat).i_type ≠ inode_type.I_DIR then
          some (-ENOTDIR, testfs_put_inode sb2 inode_nr.toNat, { c with cur_dir := cur })
        else some (0, testfs_put_inode sb2 cur, { c with cur_dir := inode_nr.toNat })

/-- `cmd_rm` (dir.c:764-787).  `testfs_remove_inode` belongs to the absent
`inode.c` and is an argument of the model: what is proved of `cmd_rm` holds
for every behaviour of it.  `testfs_sync_inode` does not change the logical
state. -/
def cmd_rm (BLOCK_SIZE MAX_FILE_SIZE : Nat)
    (testfs_remove_inode : super_block → Nat → super_block)
    (sb : super_block) (c : context) : Option (Int × super_block × context) :=
  if c.nargs ≠ 2 then some (-EINVAL, sb, c)
  else
    match testfs_tx_start sb tx_type.TX_RM with
    | none => none
    | some sb1 =>
      match testfs_remove_dirent BLOCK_SIZE MAX_FILE_SIZE sb1 c.cur_dir (c.cmd.getD 1 []) with
      | none => none
      | some (inode_nr, sb2) =>
        if inode_nr < 0 then
          match testfs_tx_commit sb2 tx_type.TX_RM with
          | none => none
          | some sb3 => some (inode_nr, sb3, c)
        else
          let sb3 := testfs_get_inode sb2 inode_nr.toNat
          let sb4 := testfs_remove_inode sb3 inode_nr.toNat
          match testfs_tx_commit sb4 tx_type.TX_RM with
          | none => none
          | some sb5 => some (0, sb5, c)

/-- `cmd_write` (file.c:119-152). -/
def cmd_write (BLOCK_SIZE MAX_FILE_SIZE : Nat) (sb : super_block) (c : context) :
    Option (Int × super_block × context) :=
  if c.nargs ≠ 3 then some (-EINVAL, sb, c)
  else
    let filename := c.cmd.getD 1 []
    let content := c.cmd.getD 2 []
    match testfs_dir_name_to_inode_nr BLOCK_SIZE sb c.cur_dir filename with
    | none => none
    | some (inode_nr, sb1, cur) =>
      if inode_nr < 0 then some (inode_nr, sb1, { c with cur_dir := cur })
      else
        let sb2 := testfs_get_inode sb1 inode_nr.toNat
        if (sb2.inodes inode_nr.toNat).i_type = inode_type.I_DIR then
          some (-EISDIR, testfs_put_inode sb2 inode_nr.toNat, { c with cur_dir := cur })
        else
          let size := content.length
          match testfs_tx_start sb2 tx_type.TX_WRITE with
          | none => none
          | some sb3 =>
            let r := testfs_write_data MAX_FILE_SIZE (sb3.inodes inode_nr.toNat) 0 content
            let ino := if r.1 ≥ 0 then testfs_truncate_data BLOCK_SIZE r.2 size else r.2
            match testfs_tx_commit (set_inode sb3 inode_nr.toNat ino) tx_type.TX_WRITE with
            | none => none
            | some sb4 =>
              some (r.1, testfs_put_inode sb4 inode_nr.toNat, { c with cur_dir := cur })

/-- The loop of `cmd_cat` (file.c:18-40) over the remaining arguments: the
return value, the volume, `c->cur_dir` and the bytes printed so far. -/
def cmd_cat_loop (BLOCK_SIZE : Nat) :
    List (List Nat) → super_block → Nat → List Nat → Option (Int × super_block × Nat × List Nat)
  | [], sb, cur, out => some (0, sb, cur, out)
  | arg :: args, sb, cur, out =>
    match testfs_dir_name_to_inode_nr BLOCK_SIZE sb cur arg with
    | none => none
    | some (inode_nr, sb1, cur1) =>
      if inode_nr < 0 then some (inode_nr, sb1, cur1, out)
      else
        let sb2 := testfs_get_inode sb1 inode_nr.toNat
        let ino := sb2.inodes inode_nr.toNat
        if ino.i_type = inode_type.I_DIR then
          some (-EISDIR, testfs_put_inode sb2 inode_nr.toNat, cur1, out)
        else
          let sz := ino.i_size
          let out1 := if sz > 0 then
              out ++ cstr (read_into (zeros (sz + 1)) (testfs_read_data ino 0 sz)) ++ [10]
            else out
          cmd_cat_loop BLOCK_SIZE args (testfs_put_inode sb2 inode_nr.toNat) cur1 out1

/-- `cmd_cat` (file.c:6-43): the return value, the volume, the context and the
bytes printed. -/
def cmd_cat (BLOCK_SIZE : Nat) (sb : super_block) (c : context) :
    Option (Int × super_block × context × List Nat) :=
  if c.nargs < 2 then some (-EINVAL, sb, c, [])
  else
    match cmd_cat_loop BLOCK_SIZE ((c.cmd.drop 1).take (c.nargs - 1)) sb c.cur_dir [] with
    | none => none
    | some (ret, sb1, cur, out) => some (ret, sb1, { c with cur_dir := cur }, out)

/-! ## Auxiliary definitions for the proofs -/

/-- The parts of the volume that path resolution never touches are the same
in `sb` and `sb'`. -/
def same_but_counts (sb sb' : super_block) : Prop :=
  sb'.inodes = sb.inodes ∧ sb'.inode_freemap = sb.inode_freemap ∧
  sb'.block_freemap = sb.block_freemap ∧ sb'.tx_in_progress = sb.tx_in_progress

/-- Two volumes hold the same directories: an inode that is a directory in one
of them is the same inode in the other. -/
def agree_on_dirs (sb sb' : super_block) : Prop :=
  ∀ n, ((sb.inodes n).i_type = inode_type.I_DIR ∨ (sb'.inodes n).i_type = inode_type.I_DIR) →
    sb'.inodes n = sb.inodes n

/-- The return value and the final `*dir` of a resolution, without the volume. -/
def ret_dir (r : Option (Int × super_block × Nat)) : Option (Int × Nat) :=
  r.map (fun x => (x.1, x.2.2))

/-- Successive calls of `testfs_next_dirent` from `offset` on: the entries
returned before the first NULL, in order; `none` when an assertion fails or
when no NULL is returned within `fuel` calls. -/
def next_dirent_all (BLOCK_SIZE : Nat) (dir : inode) : Nat → Nat → Option (List dirent)
  | 0, _ => none
  | fuel + 1, offset =>
    match testfs_next_dirent BLOCK_SIZE dir offset with
    | none => none
    | some (none, _) => some []
    | some (some d, offset') =>
      (next_dirent_all BLOCK_SIZE dir fuel offset').map (fun ds => d :: ds)

/-- The entry is live (not a tombstone) and its name is `name`. -/
def live_named (name : List Nat) (d : dirent) : Bool :=
  decide (0 ≤ d.d_inode_nr) && decide (cstr d.d_name = name)

/-- The entry is live and is neither `.` nor `..`. -/
def live_other (d : dirent) : Bool :=
  decide (0 ≤ d.d_inode_nr) && !decide (cstr d.d_name = [DOT]) &&
    !decide (cstr d.d_name = [DOT, DOT])

/-- The inode number of the first non-tombstone entry of the directory whose
name is `name`, or `-ENOENT` when there is none. -/
def lookup_spec (BLOCK_SIZE : Nat) (dir : inode) (name : List Nat) : Int :=
  match (dirents BLOCK_SIZE dir).find? (live_named name) with
  | some d => d.d_inode_nr
  | none => -ENOENT

/-- The value that `testfs_dir_name_to_inode_nr_rec(sb, &dir, name)` returns
(`none` when an assertion fails). -/
def resolve_rec (BLOCK_SIZE : Nat) (sb : super_block) (dir : Nat) (name : List Nat) :
    Option Int :=
  (testfs_dir_name_to_inode_nr_rec BLOCK_SIZE (name.length + 1) sb dir name).map Prod.fst

/-! ## The layout of a directory -/

/-- The number of bytes of the entry for `name`: the header, the name and its
terminating NUL. -/
def entry_total (name : List Nat) : Nat := sizeof_dirent + (name.length + 1)

/-- An entry `(name, inode_nr)` that the directory layer can store in one block:
the name is a C string, the inode number is a C `int` (a negative one marks a
tombstone), and header and name fit in a block. -/
def valid_entry (BLOCK_SIZE : Nat) (e : List Nat × Int) : Prop :=
  is_cstring e.1 ∧ -2147483648 ≤ e.2 ∧ e.2 < 2147483648 ∧ entry_total e.1 ≤ BLOCK_SIZE

instance (BLOCK_SIZE : Nat) (e : List Nat × Int) : Decidable (valid_entry BLOCK_SIZE e) := by
  unfold valid_entry; infer_instance

/-- The bytes that hold the entries `es` from offset `p` on: an entry follows
the previous one directly, unless the test of `testfs_write_dirent`,
`(p + total) / BLOCK_SIZE > p / BLOCK_SIZE`, sends it to the start of a later
block, after zero padding. -/
def lay (BLOCK_SIZE : Nat) : Nat → List (List Nat × Int) → List Nat
  | _, [] => []
  | p, e :: es =>
    if (p + entry_total e.1) / BLOCK_SIZE > p / BLOCK_SIZE then
      zeros (((p + entry_total e.1) / BLOCK_SIZE) * BLOCK_SIZE - p)
        ++ dirent_bytes e.2 (e.1.length + 1) e.1
        ++ lay BLOCK_SIZE (((p + entry_total e.1) / BLOCK_SIZE) * BLOCK_SIZE + entry_total e.1) es
    else dirent_bytes e.2 (e.1.length + 1) e.1 ++ lay BLOCK_SIZE (p + entry_total e.1) es

/-- A well-formed directory with the entries `es` (live ones and tombstones):
its data is the layout of `es` and its size is the end of the last entry. -/
def wf_dir (BLOCK_SIZE : Nat) (dir : inode) (es : List (List Nat × Int)) : Prop :=
  dir.i_type = inode_type.I_DIR ∧ dir.data = lay BLOCK_SIZE 0 es ∧
  dir.i_size = dir.data.length ∧ ∀ e ∈ es, valid_entry BLOCK_SIZE e

/-- The entry `(name, inode_nr)` as `testfs_next_dirent` returns it. -/
def entry_dirent (e : List Nat × Int) : dirent := ⟨e.2, (e.1.length + 1 : Nat), e.1 ++ [0]⟩

/-- The offset at which the entry for `name` is stored when the previous entry
ends at `p`. -/
def entry_offset (BLOCK_SIZE : Nat) (p : Nat) (name : List Nat) : Nat :=
  if (p + entry_total name) / BLOCK_SIZE > p / BLOCK_SIZE then
    ((p + entry_total name) / BLOCK_SIZE) * BLOCK_SIZE
  else p

/-- The entry `e` is a live entry with the name `name`. -/
def is_live_named (name : List Nat) (e : List Nat × Int) : Prop := 0 ≤ e.2 ∧ e.1 = name

/-- The entry `e` is a tombstone whose `d_name_len` is `strlen(name) + 1`. -/
def is_reusable (name : List Nat) (e : List Nat × Int) : Prop :=
  e.2 < 0 ∧ e.1.length = name.length

instance (name : List Nat) (e : List Nat × Int) : Decidable (is_live_named name e) := by
  unfold is_live_named; infer_instance

instance (name : List Nat) (e : List Nat × Int) : Decidable (is_reusable name e) := by
  unfold is_reusable; infer_instance

/-- The offsets at which the layout stores the entries `es` from offset `p` on. -/
def lay_offsets (BLOCK_SIZE : Nat) : Nat → List (List Nat × Int) → List Nat
  | _, [] => []
  | p, e :: es =>
    entry_offset BLOCK_SIZE p e.1 ::
      lay_offsets BLOCK_SIZE (entry_offset BLOCK_SIZE p e.1 + entry_total e.1) es

/-! ## Sample volume for the witnesses -/

/-- A directory without entries, as `testfs_create_inode` leaves it. -/
def empty_dir : inode := ⟨inode_type.I_DIR, 0, []⟩

/-- Successive `testfs_add_dirent` calls, all of which succeed (`none` is a
failed call or a failed assertion). -/
def add_dirents (BLOCK_SIZE MAX_FILE_SIZE : Nat) : inode → List (List Nat × Int) → Option inode
  | dir, [] => some dir
  | dir, (name, inode_nr) :: es =>
    match testfs_add_dirent BLOCK_SIZE MAX_FILE_SIZE dir name inode_nr with
    | none => none
    | some (ret, dir') =>
      if ret < 0 then none else add_dirents BLOCK_SIZE MAX_FILE_SIZE dir' es

/-- The root directory of the sample volume: `.`, `..`, the directory `a`
(inode 1) and the file `f` (inode 2). -/
def sample_root : inode :=
  (add_dirents 256 65536 empty_dir [([46], 0), ([46, 46], 0), ([97], 1), ([102], 2)]).getD empty_dir

/-- The directory `a` of the sample volume: `.`, `..` and the file `b` (inode 3). -/
def sample_a : inode :=
  (add_dirents 256 65536 empty_dir [([46], 1), ([46, 46], 0), ([98], 3)]).getD empty_dir

/-- The sample volume: block size 256, root directory held by the context. -/
def sample_sb : super_block where
  inodes := fun n =>
    if n = 0 then sample_root
    else if n = 1 then sample_a
    else if n = 2 then ⟨inode_type.I_FILE, 5, [104, 101, 108, 108, 111]⟩
    else if n = 3 then ⟨inode_type.I_FILE, 0, []⟩
    else ⟨inode_type.I_NONE, 0, []⟩
  i_count := fun n => if n = 0 then 1 else 0
  inode_freemap := [true, true, true, true, false, false, false, false]
  block_freemap := [true, true, true, false, false, false, false, false]
  tx_in_progress := tx_type.TX_NONE

/-- A volume whose root directory holds one live entry, with the empty name
(inode 5). -/
def noname_sb : super_block where
  inodes := fun n =>
    if n = 0 then (add_dirents 256 65536 empty_dir [([], 5)]).getD empty_dir
    else ⟨inode_type.I_FILE, 0, []⟩
  i_count := fun n => if n = 0 then 1 else 0
  inode_freemap := [true, false, false, false, false, true, false, false]
  block_freemap := [true, false, false, false, false, false, false, false]
  tx_in_progress := tx_type.TX_NONE

/-- A well-formed directory of one block with a tombstone (formerly `ab`) and
the live entry `cd` (inode 2). -/
def tombstone_dir : inode :=
  ⟨inode_type.I_DIR, 22, lay 256 0 [([97, 98], -1), ([99, 100], 2)]⟩

/-- A directory of two blocks of 256 bytes in which every entry lies inside one
block, zero bytes occur only between the end of an entry and the start of the
next block, and the size is the end of the last entry, but which is not a
layout: the tombstone at offset 256 (formerly `b`) would have fit behind the
live entry `a` (inode 1) in the first block. -/
def gap_dir : inode :=
  ⟨inode_type.I_DIR, 266, dirent_bytes 1 2 [97] ++ zeros 246 ++ dirent_bytes (-1) 2 [98]⟩

/-- A volume whose root directory holds two files: one with a name of 200
characters `a` (inode 1), whose entry takes 209 bytes, and one with a name of
50 characters `b` (inode 2), whose entry of 59 bytes does not fit in the first
block of 256 bytes and is stored at offset 256. -/
def padded_sb : super_block where
  inodes := fun n =>
    if n = 0 then
      (add_dirents 256 65536 empty_dir
        [(List.replicate 200 97, 1), (List.replicate 50 98, 2)]).getD empty_dir
    else ⟨inode_type.I_FILE, 0, []⟩
  i_count := fun n => if n = 0 then 1 else 0
  inode_freemap := [true, true, true, false, false, false, false, false]
  block_freemap := [true, true, false, false, false, false, false, false]
  tx_in_progress := tx_type.TX_NONE

/-! ## Writing and reading at an offset (`file.c`) -/

/-- The value of `ENOSPC` in `errno.h`. -/
def ENOSPC : Int := 28

/-- The value of `LONG_MAX` for a 64-bit `long`. -/
def LONG_MAX : Int := 9223372036854775807

/-- The C library predicate `isspace` in the "C" locale. -/
def isspace (b : Nat) : Bool := b = 32 || (9 ≤ b && b ≤ 13)

/-- The C library predicate `isdigit`. -/
def isdigit (b : Nat) : Bool := 48 ≤ b && b ≤ 57

/-- The digits that `strtol` consumes: the value accumulated and the rest of
the string. -/
def strtol_digits : List Nat → Nat → Nat × List Nat
  | [], acc => (acc, [])
  | d :: ds, acc => if isdigit d then strtol_digits ds (acc * 10 + (d - 48)) else (acc, d :: ds)

/-- The C library function `strtol(s, &temp, 10)` for a 64-bit `long`: the value
and the string that `temp` points to.  White space is skipped, a sign is
optional, the value is clamped to the range of `long`, and when no digit
follows `temp` is `s` itself. -/
def strtol (s : List Nat) : Int × List Nat :=
  let s1 := s.dropWhile isspace
  let neg := s1.head? = some 45
  let s2 := if s1.head? = some 45 ∨ s1.head? = some 43 then s1.drop 1 else s1
  if (s2.head?.map isdigit) = some true then
    let r := strtol_digits s2 0
    let v : Int := if neg then -(r.1 : Int) else (r.1 : Int)
    (max (-LONG_MAX - 1) (min LONG_MAX v), r.2)
  else (0, s)

/-- `cmd_owrite` (file.c:154-195).  `offset` is a `long` that is not negative
where it is used; its conversion to the parameter type of `testfs_write_data`
(`inode.h` is absent) is the identity in this model. -/
def cmd_owrite (BLOCK_SIZE MAX_FILE_SIZE : Nat) (sb : super_block) (c : context) :
    Option (Int × super_block × context) :=
  if c.nargs ≠ 4 then some (-EINVAL, sb, c)
  else
    let filename := c.cmd.getD 1 []
    let content := c.cmd.getD 3 []
    let p := strtol (c.cmd.getD 2 [])
    let offset := p.1
    if p.2 ≠ [] then some (-EINVAL, sb, c)
    else if offset < 0 then some (-EINVAL, sb, c)
    else
      match testfs_dir_name_to_inode_nr BLOCK_SIZE sb c.cur_dir filename with
      | none => none
      | some (inode_nr, sb1, cur) =>
        if inode_nr < 0 then some (inode_nr, sb1, { c with cur_dir := cur })
        else
          let sb2 := testfs_get_inode sb1 inode_nr.toNat
          if (sb2.inodes inode_nr.toNat).i_type = inode_type.I_DIR then
            some (-EISDIR, testfs_put_inode sb2 inode_nr.toNat, { c with cur_dir := cur })
          else
            let size := content.length
            match testfs_tx_start sb2 tx_type.TX_WRITE with
            | none => none
            | some sb3 =>
              let r := testfs_write_data MAX_FILE_SIZE (sb3.inodes inode_nr.toNat)
                offset.toNat content
              let ino := if r.1 ≥ 0 then testfs_truncate_data BLOCK_SIZE r.2 (size + offset.toNat)
                else r.2
              match testfs_tx_commit (set_inode sb3 inode_nr.toNat ino) tx_type.TX_WRITE with
              | none => none
              | some sb4 =>
                some (r.1, testfs_put_inode sb4 inode_nr.toNat, { c with cur_dir := cur })

/-- `cmd_oread` (file.c:197-261): the return value, the volume, the context and
the bytes printed.  `size` is an `int`: the value of `strtol` is reduced to 32
bits in two's complement. -/
def cmd_oread (BLOCK_SIZE : Nat) (sb : super_block) (c : context) :
    Option (Int × super_block × context × List Nat) :=
  if c.nargs ≠ 4 then some (-EINVAL, sb, c, [])
  else
    let p := strtol (c.cmd.getD 2 [])
    let offset := p.1
    if p.2 ≠ [] then some (-EINVAL, sb, c, [])
    else
      let q := strtol (c.cmd.getD 3 [])
      let size : Int := (q.1 + 2147483648) % 4294967296 - 2147483648
      if q.2 ≠ [] then some (-EINVAL, sb, c, [])
      else if offset < 0 ∨ size < 0 then some (-EINVAL, sb, c, [])
      else if size = 0 then some (0, sb, c, [])
      else
        match testfs_dir_name_to_inode_nr BLOCK_SIZE sb c.cur_dir (c.cmd.getD 1 []) with
        | none => none
        | some (inode_nr, sb1, cur) =>
          if inode_nr < 0 then some (inode_nr, sb1, { c with cur_dir := cur }, [])
          else
            let sb2 := testfs_get_inode sb1 inode_nr.toNat
            let ino := sb2.inodes inode_nr.toNat
            if ino.i_type = inode_type.I_DIR then
              some (-EISDIR, testfs_put_inode sb2 inode_nr.toNat, { c with cur_dir := cur }, [])
            else
              let file_size : Int := ino.i_size
              if file_size > 0 then
                if offset ≥ file_size then
                  some (-EINVAL, testfs_put_inode sb2 inode_nr.toNat,
                    { c with cur_dir := cur }, [])
                else
                  let size1 := if offset + size > file_size then file_size - offset else size
                  let buf := testfs_read_data ino offset.toNat size1.toNat ++ [0]
                  some (0, testfs_put_inode sb2 inode_nr.toNat, { c with cur_dir := cur },
                    cstr buf ++ [10])
              else some (0, testfs_put_inode sb2 inode_nr.toNat, { c with cur_dir := cur }, [])

/-! ## Bitmaps (`bitmap.c` is absent) -/

/-- Modelled from the spec: `BITS_PER_WORD` of the absent `bitmap.h`.  A freemap
is "a bitmap of capacity `BLOCK_SIZE · REGION_SIZE · 8`", which `super.c`
creates with `BLOCK_SIZE * INODE_FREEMAP_SIZE * BITS_PER_WORD` bits (and
comments as "64 * 1 * 8"). -/
def BITS_PER_WORD : Nat := 8

/-- Modelled from the spec: `bitmap_alloc` (`bitmap.c` is absent), on a bitmap
given as the list of its bits.  It "returns the lowest clear bit's index and
sets it (fails with `NO_SPACE` if full)": the return value, the bitmap and
`*index`. -/
def bitmap_alloc (b : List Bool) : Int × List Bool × Nat :=
  let index := b.findIdx (fun x => !x)
  if index < b.length then (0, b.set index true, index) else (-ENOSPC, b, 0)

/-- Modelled from the spec: `bitmap_unmark` (`bitmap.c` is absent).  It clears
the bit at `index`, which "must currently be set (asserted)"; `none` is the
failed assertion. -/
def bitmap_unmark (b : List Bool) (index : Nat) : Option (List Bool) :=
  if index < b.length ∧ b.getD index false = true then some (b.set index false) else none

/-- Modelled from the spec: `bitmap_nr_allocated` (`bitmap.c` is absent), "the
popcount". -/
def bitmap_nr_allocated (b : List Bool) : Nat := b.count true

/-- The byte `j` of the buffer of a bitmap: bit `k` of the byte is the bit
`8 * j + k` of the bitmap. -/
def bitmap_byte (b : List Bool) (j : Nat) : Nat :=
  ((List.range 8).map (fun k => if b.getD (8 * j + k) false then 2 ^ k else 0)).sum

/-- Modelled from the spec: `bitmap_getdata` (`bitmap.c` is absent), which
"exposes the raw byte buffer for block I/O": eight bits to the byte. -/
def bitmap_getdata (b : List Bool) : List Nat :=
  (List.range ((b.length + 7) / 8)).map (bitmap_byte b)

/-! ## The backing file and the freemaps (`block.c`, `super.c`) -/

/-- Modelled from the spec: what `block.c` and the freemap functions of
`super.c` use of `struct super_block` (`super.h` is absent) besides the two
bitmaps: the bytes of the backing file `sb->dev`, by position, and the region
starts of `sb->sb`, in blocks. -/
structure device where
  bytes : Nat → Nat
  inode_freemap_start : Nat
  block_freemap_start : Nat
  data_blocks_start : Nat

/-- `write_blocks` (block.c:17-32): `nr` blocks of the buffer `blocks` go to the
file position `start * BLOCK_SIZE`. -/
def write_blocks (BLOCK_SIZE : Nat) (dev : device) (blocks : List Nat) (start nr : Nat) :
    device :=
  { dev with bytes := fun p =>
      if start * BLOCK_SIZE ≤ p ∧ p < start * BLOCK_SIZE + nr * BLOCK_SIZE then
        blocks.getD (p - start * BLOCK_SIZE) 0
      else dev.bytes p }

/-- `zero_blocks` (block.c:34-40). -/
def zero_blocks (BLOCK_SIZE : Nat) (dev : device) (start nr : Nat) : device :=
  (List.range nr).foldl (fun d i => write_blocks BLOCK_SIZE d (zeros BLOCK_SIZE) (start + i) 1) dev

/-- `testfs_write_inode_freemap` (super.c:171-180). -/
def testfs_write_inode_freemap (BLOCK_SIZE : Nat) (sb : super_block) (dev : device)
    (inode_nr : Nat) : device :=
  let freemap := bitmap_getdata sb.inode_freemap
  let nr := inode_nr / (BLOCK_SIZE * BITS_PER_WORD)
  write_blocks BLOCK_SIZE dev (freemap.drop (nr * BLOCK_SIZE)) (dev.inode_freemap_start + nr) 1

/-- `testfs_write_block_freemap` (super.c:182-191). -/
def testfs_write_block_freemap (BLOCK_SIZE : Nat) (sb : super_block) (dev : device)
    (block_nr : Nat) : device :=
  let freemap := bitmap_getdata sb.block_freemap
  let nr := block_nr / (BLOCK_SIZE * BITS_PER_WORD)
  write_blocks BLOCK_SIZE dev (freemap.drop (nr * BLOCK_SIZE)) (dev.block_freemap_start + nr) 1

/-- `testfs_get_block_freemap` (super.c:194-204). -/
def testfs_get_block_freemap (BLOCK_SIZE : Nat) (sb : super_block) (dev : device) :
    Int × super_block × device :=
  let r := bitmap_alloc sb.block_freemap
  if r.1 < 0 then (r.1, sb, dev)
  else
    let sb1 := { sb with block_freemap := r.2.1 }
    (r.2.2, sb1, testfs_write_block_freemap BLOCK_SIZE sb1 dev r.2.2)

/-- `testfs_put_block_freemap` (super.c:207-211). -/
def testfs_put_block_freemap (BLOCK_SIZE : Nat) (sb : super_block) (dev : device)
    (block_nr : Nat) : Option (super_block × device) :=
  match bitmap_unmark sb.block_freemap block_nr with
  | none => none
  | some b =>
    let sb1 := { sb with block_freemap := b }
    some (sb1, testfs_write_block_freemap BLOCK_SIZE sb1 dev block_nr)

/-- `testfs_get_inode_freemap` (super.c:214-224). -/
def testfs_get_inode_freemap (BLOCK_SIZE : Nat) (sb : super_block) (dev : device) :
    Int × super_block × device :=
  let r := bitmap_alloc sb.inode_freemap
  if r.1 < 0 then (r.1, sb, dev)
  else
    let sb1 := { sb with inode_freemap := r.2.1 }
    (r.2.2, sb1, testfs_write_inode_freemap BLOCK_SIZE sb1 dev r.2.2)

/-- `testfs_put_inode_freemap` (super.c:227-231). -/
def testfs_put_inode_freemap (BLOCK_SIZE : Nat) (sb : super_block) (dev : device)
    (inode_nr : Nat) : Option (super_block × device) :=
  match bitmap_unmark sb.inode_freemap inode_nr with
  | none => none
  | some b =>
    let sb1 := { sb with inode_freemap := b }
    some (sb1, testfs_write_inode_freemap BLOCK_SIZE sb1 dev inode_nr)

/-- `testfs_alloc_block` (super.c:235-244): the return value, the volume, the
backing file and the caller's buffer `block`. -/
def testfs_alloc_block (BLOCK_SIZE : Nat) (sb : super_block) (dev : device) (block : List Nat) :
    Int × super_block × device × List Nat :=
  let r := testfs_get_block_freemap BLOCK_SIZE sb dev
  let phy_block_nr := r.1
  if phy_block_nr < 0 then (phy_block_nr, r.2.1, r.2.2, block)
  else ((r.2.2.data_blocks_start : Int) + phy_block_nr, r.2.1, r.2.2,
    read_into block (zeros BLOCK_SIZE))

/-- `testfs_free_block` (super.c:248-255); `none` is a failed assertion. -/
def testfs_free_block (BLOCK_SIZE : Nat) (sb : super_block) (dev : device) (block_nr : Nat) :
    Option (Int × super_block × device) :=
  let dev1 := zero_blocks BLOCK_SIZE dev block_nr 1
  let rel : Int := (block_nr : Int) - dev1.data_blocks_start
  if rel < 0 then none
  else
    match testfs_put_block_freemap BLOCK_SIZE sb dev1 rel.toNat with
    | none => none
    | some (sb1, dev2) => some (0, sb1, dev2)

/-- The on-disk freemap region that starts at block `start` holds the buffer
of the bitmap `b`. -/
def freemap_on_disk (BLOCK_SIZE : Nat) (dev : device) (start : Nat) (b : List Bool) : Prop :=
  ∀ j, j < (bitmap_getdata b).length →
    dev.bytes (start * BLOCK_SIZE + j) = (bitmap_getdata b).getD j 0

instance (BLOCK_SIZE : Nat) (dev : device) (start : Nat) (b : List Bool) :
    Decidable (freemap_on_disk BLOCK_SIZE dev start b) := by
  unfold freemap_on_disk; infer_instance

/-! ## Creating and removing inodes (`inode.c` is absent) -/

/-- The errno value `ENOMEM`. -/
def ENOMEM : Int := 12

/-- Modelled from the spec: the number of blocks that an inode holds, data
blocks and pointer blocks.  The block indices below `NR_DIRECT_BLOCKS` are
direct, the next `PTRS_PER_BLOCK` go through the indirect block, and the
following ones through the double-indirect block and one inner block for each
`PTRS_PER_BLOCK` of them; "pointer blocks themselves are data blocks allocated
from the block freemap".  `data` holds the bytes of the blocks of the inode, so
the data blocks held are those that `data` reaches (a hole counts as held). -/
def nr_blocks (BLOCK_SIZE NR_DIRECT_BLOCKS PTRS_PER_BLOCK : Nat) (ino : inode) : Nat :=
  let n := (ino.data.length + BLOCK_SIZE - 1) / BLOCK_SIZE
  n + (if NR_DIRECT_BLOCKS < n then 1 else 0)
    + (if NR_DIRECT_BLOCKS + PTRS_PER_BLOCK < n then
        1 + (n - (NR_DIRECT_BLOCKS + PTRS_PER_BLOCK) + PTRS_PER_BLOCK - 1) / PTRS_PER_BLOCK
      else 0)

/-- Modelled from the spec: `n` blocks taken from the block freemap, each by
`bitmap_alloc` ("lowest clear bit"); `none` when the freemap is full before
the `n` blocks are found (`NO_SPACE`). -/
def acquire_blocks : Nat → List Bool → Option (List Bool)
  | 0, b => some b
  | n + 1, b =>
    let r := bitmap_alloc b
    if r.1 < 0 then none else acquire_blocks n r.2.1

/-- The bitmap with its highest set bit cleared. -/
def clear_last : List Bool → List Bool
  | [] => []
  | x :: xs => if xs.contains true then x :: clear_last xs else false :: xs

/-- Modelled from the spec: `n` blocks given back to the block freemap.  The
block pointers of an inode are not part of the model, so that which bits an
inode holds is not recorded: the highest set bits are cleared, and only the
number of set bits is meant after a release. -/
def release_blocks : Nat → List Bool → List Bool
  | 0, b => b
  | n + 1, b => release_blocks n (clear_last b)

/-- Modelled from the spec: `testfs_create_inode` (`inode.c` is absent).
"Create allocates an inode number via the freemap, initialises the dinode
(type, size=0, all pointers zero), inserts into the cache, returns with
refcount 1": the return value, the volume and the number of the inode `*in`. -/
def testfs_create_inode (sb : super_block) (type : inode_type) : Int × super_block × Nat :=
  let r := bitmap_alloc sb.inode_freemap
  if r.1 < 0 then (r.1, sb, 0)
  else
    (0, { sb with inode_freemap := r.2.1,
                  inodes := fun n => if n = r.2.2 then ⟨type, 0, []⟩ else sb.inodes n,
                  i_count := fun n => if n = r.2.2 then 1 else sb.i_count n }, r.2.2)

/-- Modelled from the spec: `testfs_remove_inode` (`inode.c` is absent).
"Remove truncates to zero, frees the inode number, sets type = NONE, syncs,
and drops the cache entry"; the truncation gives the data blocks and the
pointer blocks of the inode back.  `none` is the failed assertion of
`bitmap_unmark`. -/
def testfs_remove_inode (BLOCK_SIZE NR_DIRECT_BLOCKS PTRS_PER_BLOCK : Nat) (sb : super_block)
    (nr : Nat) : Option super_block :=
  match bitmap_unmark sb.inode_freemap nr with
  | none => none
  | some b =>
    some { sb with inode_freemap := b,
                   block_freemap :=
                     release_blocks
                       (nr_blocks BLOCK_SIZE NR_DIRECT_BLOCKS PTRS_PER_BLOCK (sb.inodes nr))
                       sb.block_freemap,
                   inodes := fun n => if n = nr then ⟨inode_type.I_NONE, 0, []⟩ else sb.inodes n,
                   i_count := fun n => if n = nr then 0 else sb.i_count n }

/-- Modelled from the spec: `testfs_write_data` (`inode.c` is absent) on the
inode `nr` of the volume, with the allocation of its blocks.  "Allocation
proceeds block-at-a-time on demand, including any required
indirect/double-indirect pointer blocks": the blocks that the inode newly
holds are taken from the block freemap.  When too few are free the write
fails with `NO_SPACE`, and, as for `E2BIG`, nothing is changed ("succeed or
fail atomically per-call"). -/
def write_data_at (BLOCK_SIZE MAX_FILE_SIZE NR_DIRECT_BLOCKS PTRS_PER_BLOCK : Nat)
    (sb : super_block) (nr start : Nat) (buf : List Nat) : Int × super_block :=
  let r := testfs_write_data MAX_FILE_SIZE (sb.inodes nr) start buf
  if r.1 < 0 then (r.1, sb)
  else
    match acquire_blocks
        (nr_blocks BLOCK_SIZE NR_DIRECT_BLOCKS PTRS_PER_BLOCK r.2
          - nr_blocks BLOCK_SIZE NR_DIRECT_BLOCKS PTRS_PER_BLOCK (sb.inodes nr))
        sb.block_freemap with
    | none => (-ENOSPC, sb)
    | some b => (r.1, { set_inode sb nr r.2 with block_freemap := b })

/-- `testfs_write_dirent` (dir.c:109-148) on the inode `dir` of the volume,
with the two calls of `testfs_write_data` as `write_data_at`.  `malloc_ok`
tells whether the `malloc` calls of the function succeed: when the first one
returns NULL the function returns `-ENOMEM` before its assertion and before
any write (dir.c:114-116); a NULL from the second one (dir.c:128-131) gives the
same result for an `inode_nr` that is not negative.  `none` is the failed
assertion `inode_nr >= 0`. -/
def write_dirent_at (BLOCK_SIZE MAX_FILE_SIZE NR_DIRECT_BLOCKS PTRS_PER_BLOCK : Nat)
    (malloc_ok : Bool) (sb : super_block) (dir : Nat) (name : List Nat) (len : Nat)
    (inode_nr : Int) (offset : Nat) : Option (Int × super_block) :=
  let total_bytes := sizeof_dirent + len
  if ¬ malloc_ok then some (-ENOMEM, sb)
  else if inode_nr < 0 then none
  else
    let d := dirent_bytes inode_nr len name
    if (offset + total_bytes) / BLOCK_SIZE > offset / BLOCK_SIZE then
      let next_offset := ((offset + total_bytes) / BLOCK_SIZE) * BLOCK_SIZE
      let total := next_offset - offset
      let r := write_data_at BLOCK_SIZE MAX_FILE_SIZE NR_DIRECT_BLOCKS PTRS_PER_BLOCK sb dir
        offset (zeros total)
      if r.1 < 0 then some (r.1, r.2)
      else
        some (write_data_at BLOCK_SIZE MAX_FILE_SIZE NR_DIRECT_BLOCKS PTRS_PER_BLOCK r.2 dir
          next_offset d)
    else
      some (write_data_at BLOCK_SIZE MAX_FILE_SIZE NR_DIRECT_BLOCKS PTRS_PER_BLOCK sb dir
        offset d)

/-- `testfs_add_dirent` (dir.c:158-203) on the inode `dir` of the volume: the
scan of `add_dirent_loop`, the assertion, and the write of the entry with the
allocation of blocks (`write_dirent_at`).  `none` is a failed assertion. -/
def add_dirent_at (BLOCK_SIZE MAX_FILE_SIZE NR_DIRECT_BLOCKS PTRS_PER_BLOCK : Nat)
    (malloc_ok : Bool) (sb : super_block) (dir : Nat) (name : List Nat) (inode_nr : Int) :
    Option (Int × super_block) :=
  let len := name.length + 1
  if (sb.inodes dir).i_type ≠ inode_type.I_DIR then none
  else
    match add_dirent_loop BLOCK_SIZE (sb.inodes dir) name len ((sb.inodes dir).i_size + 1) 0 with
    | none => none
    | some (ret, found, p_offset) =>
      if ret < 0 then some (ret, sb)
      else if ¬ (found = true ∨ p_offset = (sb.inodes dir).i_size) then none
      else
        write_dirent_at BLOCK_SIZE MAX_FILE_SIZE NR_DIRECT_BLOCKS PTRS_PER_BLOCK malloc_ok sb dir
          name len inode_nr p_offset

/-! ## Creating files and directories (`dir.c`) -/

/-- `testfs_create_empty_dir` (dir.c:290-305); `cdir` is the number of the
inode `cdir`, and `malloc1` and `malloc2` tell whether the `malloc` calls of
`testfs_write_dirent` succeed in the insertion of `.` and in that of `..`. -/
def testfs_create_empty_dir (BLOCK_SIZE MAX_FILE_SIZE NR_DIRECT_BLOCKS PTRS_PER_BLOCK : Nat)
    (malloc1 malloc2 : Bool) (sb : super_block) (p_inode_nr : Nat) (cdir : Nat) :
    Option (Int × super_block) :=
  if (sb.inodes cdir).i_type ≠ inode_type.I_DIR then none
  else
    match add_dirent_at BLOCK_SIZE MAX_FILE_SIZE NR_DIRECT_BLOCKS PTRS_PER_BLOCK malloc1 sb cdir
        [DOT] cdir with
    | none => none
    | some (ret, sb1) =>
      if ret < 0 then some (ret, sb1)
      else
        match add_dirent_at BLOCK_SIZE MAX_FILE_SIZE NR_DIRECT_BLOCKS PTRS_PER_BLOCK malloc2 sb1
            cdir [DOT, DOT] p_inode_nr with
        | none => none
        | some (ret, sb2) =>
          if ret < 0 then
            match testfs_remove_dirent BLOCK_SIZE MAX_FILE_SIZE sb2 cdir [DOT] with
            | none => none
            | some (_, sb3) => some (ret, sb3)
          else some (0, sb2)

/-- The search for the last `/` (dir.c:330-332): the value of `name_offset`
after the loop that starts with `name_offset = i - 1`. -/
def last_slash (name : List Nat) : Nat → Int
  | 0 => -1
  | i + 1 => if name.getD i 0 = SLASH then (i : Int) else last_slash name i

/-- The value of `name_offset` after the search for the last `/` and the
adjustment for a `/` at index 0 (dir.c:330-340). -/
def create_name_offset (name : List Nat) : Int :=
  if last_slash name name.length = 0 then last_slash name name.length + 1
  else last_slash name name.length

/-- The global `namelen` of `dir.c` (line 14), which no function assigns. -/
def namelen : Int := 0

/-- The assignment `c->cmd[1] = path` (dir.c:352); `cmd` is an array of
`MAX_ARGS + 1` pointers. -/
def set_cmd1 (cmd : List (List Nat)) (path : List Nat) : List (List Nat) :=
  match cmd with
  | [] => [[], path]
  | [a] => [a, path]
  | a :: _ :: t => a :: path :: t

/-- `testfs_dir_name_to_inode_nr` (dir.c:547-560) for a `name` that points
into a longer string, in which the byte `before` precedes it: for the empty
name the test `name[strlen(name) - 1] == '/'` reads that byte. -/
def testfs_dir_name_to_inode_nr_in (BLOCK_SIZE : Nat) (sb : super_block) (dir : Nat)
    (before : Nat) (name : List Nat) : Option (Int × super_block × Nat) :=
  let current_inode_number := dir
  if name = [] then
    if before = SLASH then some (-EINVAL, sb, dir)
    else
      match testfs_dir_name_to_inode_nr_rec BLOCK_SIZE (name.length + 1) sb dir name with
      | none => none
      | some (ret, sb1, dir1) =>
        if dir1 ≠ current_inode_number then
          some (ret, testfs_get_inode (testfs_put_inode sb1 dir1) current_inode_number,
            current_inode_number)
        else some (ret, sb1, dir1)
  else testfs_dir_name_to_inode_nr BLOCK_SIZE sb dir name

/-- The call `testfs_dir_name_to_inode_nr(sb, &c->cur_dir, name_to_create)` of
`testfs_create_file_or_dir` (dir.c:374): `before` is the byte in front of
`name_to_create` when it points into `name`. -/
def create_lookup (BLOCK_SIZE : Nat) (sb : super_block) (dir : Nat) (before : Option Nat)
    (name_to_create : List Nat) : Option (Int × super_block × Nat) :=
  match before with
  | some b => testfs_dir_name_to_inode_nr_in BLOCK_SIZE sb dir b name_to_create
  | none => testfs_dir_name_to_inode_nr BLOCK_SIZE sb dir name_to_create

/-- The part of `testfs_create_file_or_dir` between `testfs_tx_start` and the
label that is reached (dir.c:372-407, and line 419 on the path through
`out`): the value of `ret`, the volume and the context at `testfs_tx_commit`.
`testfs_sync_inode` does not change the logical state, and the `malloc` calls
of `testfs_write_dirent` are taken to succeed. -/
def create_body (BLOCK_SIZE MAX_FILE_SIZE NR_DIRECT_BLOCKS PTRS_PER_BLOCK : Nat)
    (sb : super_block) (c : context)
    (type : inode_type) (before : Option Nat) (name_to_create : List Nat) :
    Option (Int × super_block × context) :=
  match create_lookup BLOCK_SIZE sb c.cur_dir before name_to_create with
  | none => none
  | some (inode_nr, sb1, cur) =>
    let c1 := { c with cur_dir := cur }
    if inode_nr ≥ 0 then some (-EEXIST, sb1, c1)
    else
      let r := testfs_create_inode sb1 type
      if r.1 < 0 then some (r.1, r.2.1, c1)
      else
        let inode_nr := r.2.2
        match (if type = inode_type.I_DIR then
            testfs_create_empty_dir BLOCK_SIZE MAX_FILE_SIZE NR_DIRECT_BLOCKS PTRS_PER_BLOCK
              true true r.2.1 c1.cur_dir inode_nr
          else some (0, r.2.1)) with
        | none => none
        | some (ret, sb3) =>
          if ret < 0 then
            match testfs_remove_inode BLOCK_SIZE NR_DIRECT_BLOCKS PTRS_PER_BLOCK sb3
                inode_nr with
            | none => none
            | some sb4 => some (ret, sb4, c1)
          else
            match add_dirent_at BLOCK_SIZE MAX_FILE_SIZE NR_DIRECT_BLOCKS PTRS_PER_BLOCK true sb3
                c1.cur_dir name_to_create inode_nr with
            | none => none
            | some (ret, sb4) =>
              if ret < 0 then
                match testfs_remove_inode BLOCK_SIZE NR_DIRECT_BLOCKS PTRS_PER_BLOCK sb4
                    inode_nr with
                | none => none
                | some sb5 => some (ret, sb5, c1)
              else some (0, testfs_put_inode sb4 inode_nr, c1)

/-- The part of `testfs_create_file_or_dir` from the test of the length of the
name on (dir.c:366-427), `name_offset` and `current_inode` being those of the
first part. -/
def create_tail (BLOCK_SIZE MAX_FILE_SIZE NR_DIRECT_BLOCKS PTRS_PER_BLOCK : Nat)
    (sb : super_block) (c : context)
    (type : inode_type) (before : Option Nat) (name_to_create : List Nat) (name_offset : Int)
    (current_inode : Nat) : Option (Int × super_block × context) :=
  if ((BLOCK_SIZE : Int) - sizeof_dirent) % 18446744073709551616
      < (namelen + 1) % 18446744073709551616 then some (-EINVAL, sb, c)
  else
    match testfs_tx_start sb tx_type.TX_CREATE with
    | none => none
    | some sb1 =>
      match create_body BLOCK_SIZE MAX_FILE_SIZE NR_DIRECT_BLOCKS PTRS_PER_BLOCK sb1 c type
          before name_to_create with
      | none => none
      | some (ret, sb2, c1) =>
        match testfs_tx_commit sb2 tx_type.TX_CREATE with
        | none => none
        | some sb3 =>
          if name_offset > 0 then
            some (ret, testfs_get_inode (testfs_put_inode sb3 c1.cur_dir) current_inode,
              { c1 with cur_dir := current_inode })
          else some (ret, sb3, c1)

/-- `testfs_create_file_or_dir` (dir.c:311-428) as the command handlers call
it, with a context and a name.  The string that `c->cmd[1]` points to is
freed after `cmd_cd`; the model keeps the path there. -/
def testfs_create_file_or_dir (BLOCK_SIZE MAX_FILE_SIZE NR_DIRECT_BLOCKS PTRS_PER_BLOCK : Nat)
    (sb : super_block) (c : context) (type : inode_type) (name : List Nat) :
    Option (Int × super_block × context) :=
  if name = [SLASH] then some (-EEXIST, sb, c)
  else
    let name_offset := last_slash name name.length
    if name_offset ≥ 0 then
      let name_offset := if name_offset = 0 then name_offset + 1 else name_offset
      let path := name.take name_offset.toNat
      let current_inode := c.cur_dir
      match cmd_cd BLOCK_SIZE sb { c with cmd := set_cmd1 c.cmd path } with
      | none => none
      | some (ret, sb1, c1) =>
        if ret < 0 then some (ret, sb1, c1)
        else
          create_tail BLOCK_SIZE MAX_FILE_SIZE NR_DIRECT_BLOCKS PTRS_PER_BLOCK sb1 c1 type
            (some (name.getD name_offset.toNat 0)) (name.drop (name_offset.toNat + 1))
            name_offset current_inode
    else
      create_tail BLOCK_SIZE MAX_FILE_SIZE NR_DIRECT_BLOCKS PTRS_PER_BLOCK sb c type none name
        name_offset c.cur_dir

/-- The loop of `cmd_create` (dir.c:729-733): `n` is the number of the
iterations that remain and `i` the index of the next argument. -/
def cmd_create_loop (BLOCK_SIZE MAX_FILE_SIZE NR_DIRECT_BLOCKS PTRS_PER_BLOCK : Nat) :
    Nat → Nat → super_block → context → Option (Int × super_block × context)
  | 0, _, sb, c => some (0, sb, c)
  | n + 1, i, sb, c =>
    match testfs_create_file_or_dir BLOCK_SIZE MAX_FILE_SIZE NR_DIRECT_BLOCKS PTRS_PER_BLOCK sb c
        inode_type.I_FILE (c.cmd.getD i []) with
    | none => none
    | some (ret, sb1, c1) =>
      if ret < 0 then some (ret, sb1, c1)
      else
        cmd_create_loop BLOCK_SIZE MAX_FILE_SIZE NR_DIRECT_BLOCKS PTRS_PER_BLOCK n (i + 1) sb1 c1

/-- `cmd_create` (dir.c:719-736). -/
def cmd_create (BLOCK_SIZE MAX_FILE_SIZE NR_DIRECT_BLOCKS PTRS_PER_BLOCK : Nat)
    (sb : super_block) (c : context) : Option (Int × super_block × context) :=
  if c.nargs < 2 then some (-EINVAL, sb, c)
  else
    cmd_create_loop BLOCK_SIZE MAX_FILE_SIZE NR_DIRECT_BLOCKS PTRS_PER_BLOCK (c.nargs - 1) 1 sb c

/-- `cmd_mkdir` (dir.c:789-797). -/
def cmd_mkdir (BLOCK_SIZE MAX_FILE_SIZE NR_DIRECT_BLOCKS PTRS_PER_BLOCK : Nat)
    (sb : super_block) (c : context) : Option (Int × super_block × context) :=
  if c.nargs ≠ 2 then some (-EINVAL, sb, c)
  else
    testfs_create_file_or_dir BLOCK_SIZE MAX_FILE_SIZE NR_DIRECT_BLOCKS PTRS_PER_BLOCK sb c
      inode_type.I_DIR (c.cmd.getD 1 [])

/-- The function that `cmd_rm` is given for `testfs_remove_inode`: a failed
assertion of it leaves the volume as it is. -/
def remove_inode_or_keep (BLOCK_SIZE NR_DIRECT_BLOCKS PTRS_PER_BLOCK : Nat) (sb : super_block)
    (nr : Nat) : super_block :=
  (testfs_remove_inode BLOCK_SIZE NR_DIRECT_BLOCKS PTRS_PER_BLOCK sb nr).getD sb

/-! ## Further sample volumes -/

/-- A freshly formatted volume of blocks of 256 bytes: the root directory
(inode 0) holds `.` and `..` in one data block, and the context holds the
root. -/
def fresh_sb : super_block where
  inodes := fun n =>
    if n = 0 then (add_dirents 256 65536 empty_dir [([46], 0), ([46, 46], 0)]).getD empty_dir
    else ⟨inode_type.I_NONE, 0, []⟩
  i_count := fun n => if n = 0 then 1 else 0
  inode_freemap := [true, false, false, false, false, false, false, false]
  block_freemap := [true, false, false, false, false, false, false, false]
  tx_in_progress := tx_type.TX_NONE

/-- A volume of blocks of 16 bytes with three data blocks, of which the root
directory holds two (`.` at offset 0 and `..` at offset 16): one data block is
free. -/
def tight_sb : super_block where
  inodes := fun n =>
    if n = 0 then (add_dirents 16 65536 empty_dir [([46], 0), ([46, 46], 0)]).getD empty_dir
    else ⟨inode_type.I_NONE, 0, []⟩
  i_count := fun n => if n = 0 then 1 else 0
  inode_freemap := [true, false, false, false]
  block_freemap := [true, true, false]
  tx_in_progress := tx_type.TX_NONE

/-- Both on-disk freemap regions hold the buffers of the in-memory freemaps. -/
def freemaps_on_disk (BLOCK_SIZE : Nat) (sb : super_block) (dev : device) : Prop :=
  freemap_on_disk BLOCK_SIZE dev dev.inode_freemap_start sb.inode_freemap ∧
  freemap_on_disk BLOCK_SIZE dev dev.block_freemap_start sb.block_freemap

instance (BLOCK_SIZE : Nat) (sb : super_block) (dev : device) :
    Decidable (freemaps_on_disk BLOCK_SIZE sb dev) := by
  unfold freemaps_on_disk; infer_instance

/-- The layout of the freemap regions: the inode freemap has `ni` blocks and the
block freemap `nb`, each bitmap has the capacity of its region, and the
regions lie in this order in front of the data blocks. -/
def freemap_layout (BLOCK_SIZE ni nb : Nat) (sb : super_block) (dev : device) : Prop :=
  sb.inode_freemap.length = BLOCK_SIZE * ni * BITS_PER_WORD ∧
  sb.block_freemap.length = BLOCK_SIZE * nb * BITS_PER_WORD ∧
  dev.inode_freemap_start + ni ≤ dev.block_freemap_start ∧
  dev.block_freemap_start + nb ≤ dev.data_blocks_start

instance (BLOCK_SIZE ni nb : Nat) (sb : super_block) (dev : device) :
    Decidable (freemap_layout BLOCK_SIZE ni nb sb dev) := by
  unfold freemap_layout; infer_instance

/-- A volume of blocks of 2 bytes whose freemaps have one block (16 bits) each:
inodes 0 and 1 and the data blocks 0, 1 and 2 are allocated. -/
def small_sb : super_block where
  inodes := fun _ => ⟨inode_type.I_NONE, 0, []⟩
  i_count := fun _ => 0
  inode_freemap := [true, true] ++ List.replicate 14 false
  block_freemap := [true, true, true] ++ List.replicate 13 false
  tx_in_progress := tx_type.TX_NONE

/-- The backing file of `small_sb`: the superblock in block 0, the inode freemap
in block 1 (bytes 2 and 3), the block freemap in block 2 (bytes 4 and 5), and
the data blocks from block 5 on. -/
def small_dev : device where
  bytes := fun p => if p = 2 then 3 else if p = 4 then 7 else 0
  inode_freemap_start := 1
  block_freemap_start := 2
  data_blocks_start := 5

/-- The volume `small_sb` with a full block freemap. -/
def full_sb : super_block := { small_sb with block_freemap := List.replicate 16 true }

/-- The backing file of `full_sb`. -/
def full_dev : device :=
  { small_dev with bytes := fun p => if p = 2 then 3 else if p = 4 ∨ p = 5 then 255 else 0 }

/-- A volume of blocks of 64 bytes whose root directory holds `.`, `..` and the
empty files `f1`, `f2` and `f3` (inodes 1 to 3) in 54 bytes of its one data
block. -/
def brim_sb : super_block where
  inodes := fun n =>
    if n = 0 then
      (add_dirents 64 65536 empty_dir
        [([46], 0), ([46, 46], 0), ([102, 49], 1), ([102, 50], 2), ([102, 51], 3)]).getD empty_dir
    else if n ≤ 3 then ⟨inode_type.I_FILE, 0, []⟩
    else ⟨inode_type.I_NONE, 0, []⟩
  i_count := fun n => if n = 0 then 1 else 0
  inode_freemap := [true, true, true, true, false, false, false, false]
  block_freemap := [true, false, false, false, false, false, false, false]
  tx_in_progress := tx_type.TX_NONE

/-! ## Recursive printing (`file.c`) -/

/-- The loop of `cmd_catr` over the entries of the inode `inn` (file.c:75-112):
the volume, the context and the bytes printed at the label `out`.  `call` is
the recursive call `cmd_catr(sb, c)`, and `tmp_inode` the directory stored at
the entry of `cmd_catr`.  The `malloc` of the buffer is taken to succeed. -/
def cmd_catr_loop (BLOCK_SIZE : Nat)
    (call : super_block → context → Option (Int × super_block × context × List Nat))
    (inn tmp_inode : Nat) :
    Nat → Nat → super_block → context → List Nat → Option (super_block × context × List Nat)
  | 0, _, _, _, _ => none
  | fuel + 1, offset, sb, c, out =>
    match testfs_next_dirent BLOCK_SIZE (sb.inodes inn) offset with
    | none => none
    | some (none, _) => some (sb, c, out)
    | some (some d, offset') =>
      if d.d_inode_nr < 0 then
        cmd_catr_loop BLOCK_SIZE call inn tmp_inode fuel offset' sb c out
      else if cstr d.d_name ≠ [DOT] ∧ cstr d.d_name ≠ [DOT, DOT] then
        let cin := d.d_inode_nr.toNat
        let sb1 := testfs_get_inode sb cin
        if (sb1.inodes cin).i_type = inode_type.I_DIR then
          match call sb1 { c with cur_dir := cin } with
          | none => none
          | some (ret, sb2, c2, out2) =>
            if ret < 0 then some (testfs_put_inode sb2 cin, c2, out ++ out2)
            else
              cmd_catr_loop BLOCK_SIZE call inn tmp_inode fuel offset'
                (testfs_put_inode sb2 cin) { c2 with cur_dir := tmp_inode } (out ++ out2)
        else
          let sz := (sb1.inodes cin).i_size
          let out1 := out ++ cstr d.d_name ++ [58, 10]
          let out2 := if sz > 0 then
              out1 ++ cstr (read_into (zeros (sz + 1)) (testfs_read_data (sb1.inodes cin) 0 sz))
                ++ [10]
            else out1
          cmd_catr_loop BLOCK_SIZE call inn tmp_inode fuel offset'
            (testfs_put_inode sb1 cin) c out2
      else cmd_catr_loop BLOCK_SIZE call inn tmp_inode fuel offset' sb c out

/-- `cmd_catr` (file.c:45-117): the return value, the volume, the context and
the bytes printed.  The fuel bounds the depth of the recursion over the
directory tree; `none` is a failed assertion or a recursion deeper than the
fuel. -/
def cmd_catr (BLOCK_SIZE : Nat) :
    Nat → super_block → context → Option (Int × super_block × context × List Nat)
  | 0, _, _ => none
  | fuel + 1, sb, c =>
    if c.nargs > 2 then some (-EINVAL, sb, c, [])
    else
      let cdir := if c.nargs = 2 then c.cmd.getD 1 [] else [DOT]
      let tmp_inode := c.cur_dir
      match testfs_dir_name_to_inode_nr BLOCK_SIZE sb c.cur_dir cdir with
      | none => none
      | some (inode_nr, sb1, cur) =>
        if inode_nr < 0 then some (inode_nr, sb1, { c with cur_dir := cur }, [])
        else
          let inn := inode_nr.toNat
          let sb2 := testfs_get_inode sb1 inn
          match cmd_catr_loop BLOCK_SIZE (cmd_catr BLOCK_SIZE fuel) inn tmp_inode
              ((sb2.inodes inn).i_size + 1) 0 sb2 { c with cur_dir := cur } [] with
          | none => none
          | some (sb3, c3, out) => some (0, testfs_put_inode sb3 inn, c3, out)

/-! ## Formatting, mounting and unmounting (`super.c`, `block.c`) -/

/-- The value of a C `int` expression whose mathematical value is `z`
(two's complement, 32 bits). -/
def int32 (z : Int) : Int := (z + 2147483648) % 4294967296 - 2147483648

/-- Modelled from the spec: `sizeof(struct dsuper_block)` (`super.h` is
absent): six fields of four bytes, "copy only 24 bytes" (super.c:84). -/
def sizeof_dsuper_block : Nat := 24

/-- Modelled from the spec: `struct dsuper_block` (`super.h` is absent), the
fields in the order in which the spec lists the content of block 0: the five
region starts, in blocks, and the modification timestamp. -/
structure dsuper_block where
  inode_freemap_start : Int
  block_freemap_start : Int
  csum_table_start : Int
  inode_blocks_start : Int
  data_blocks_start : Int
  modification_time : Int
deriving DecidableEq, Repr

/-- The bytes of a `struct dsuper_block` in memory. -/
def dsuper_bytes (d : dsuper_block) : List Nat :=
  int_bytes d.inode_freemap_start ++ int_bytes d.block_freemap_start ++
  int_bytes d.csum_table_start ++ int_bytes d.inode_blocks_start ++
  int_bytes d.data_blocks_start ++ int_bytes d.modification_time

/-- The `struct dsuper_block` that `memcpy` makes of the first bytes of a
buffer. -/
def bytes_dsuper (b : List Nat) : dsuper_block :=
  ⟨bytes_int b, bytes_int (b.drop 4), bytes_int (b.drop 8), bytes_int (b.drop 12),
   bytes_int (b.drop 16), bytes_int (b.drop 20)⟩

/-- `read_blocks` (block.c:67-98, without the KLEE part): the `nr` blocks at
the file position `start * BLOCK_SIZE` of a file of `size` bytes.  A negative
position makes `fseek` fail, and `fread` returns the number of whole blocks in
front of the end of the file: when these are fewer than `nr` the program
exits (`none`). -/
def read_blocks (BLOCK_SIZE : Nat) (bytes : Nat → Nat) (size : Nat) (start : Int) (nr : Nat) :
    Option (List Nat) :=
  if start < 0 then none
  else if (size - start.toNat * BLOCK_SIZE) / BLOCK_SIZE < nr then none
  else some ((List.range (nr * BLOCK_SIZE)).map (fun i => bytes (start.toNat * BLOCK_SIZE + i)))

/-- The position `p` lies in the `nr` blocks from block `start` on. -/
def in_region (BLOCK_SIZE : Nat) (start : Int) (nr p : Nat) : Prop :=
  start.toNat * BLOCK_SIZE ≤ p ∧ p < start.toNat * BLOCK_SIZE + nr * BLOCK_SIZE

instance (BLOCK_SIZE : Nat) (start : Int) (nr p : Nat) :
    Decidable (in_region BLOCK_SIZE start nr p) := by
  unfold in_region; infer_instance

/-- The part of `struct super_block` that `super.c` uses between mount and
unmount: the copy `sb->sb` of the on-disk super block, the buffers of the two
free maps, the checksum table, the transaction state and the backing file. -/
structure mounted where
  sb : dsuper_block
  inode_freemap : List Nat
  block_freemap : List Nat
  csum_table : List Nat
  tx_in_progress : tx_type
  dev : device

/-- `testfs_write_super_block` (super.c:131-138): `now` is the value of
`time(NULL)`.  The result is `sb->sb` and the backing file; `none` is the
failed assertion on the size of the block. -/
def testfs_write_super_block (BLOCK_SIZE : Nat) (now : Int) (sb : dsuper_block) (dev : device) :
    Option (dsuper_block × device) :=
  if ¬ sizeof_dsuper_block ≤ BLOCK_SIZE then none
  else
    let sb1 := { sb with modification_time := int32 now }
    some (sb1, write_blocks BLOCK_SIZE dev (read_into (zeros BLOCK_SIZE) (dsuper_bytes sb1)) 0 1)

/-- `testfs_make_super_block` (super.c:12-34): the arguments after the block
size are the constants `SUPER_BLOCK_SIZE`, `INODE_FREEMAP_SIZE`,
`BLOCK_FREEMAP_SIZE`, `CSUM_TABLE_SIZE` and `NR_INODE_BLOCKS` of the absent
headers, and the value of `time(NULL)`.  The file is opened with mode `w`, so
that it is empty before block 0 is written. -/
def testfs_make_super_block (BLOCK_SIZE : Nat)
    (SUPER_BLOCK_SIZE INODE_FREEMAP_SIZE BLOCK_FREEMAP_SIZE CSUM_TABLE_SIZE NR_INODE_BLOCKS : Int)
    (now : Int) : Option (dsuper_block × device) :=
  let inode_freemap_start := int32 SUPER_BLOCK_SIZE
  let block_freemap_start := int32 (inode_freemap_start + INODE_FREEMAP_SIZE)
  let csum_table_start := int32 (block_freemap_start + BLOCK_FREEMAP_SIZE)
  let inode_blocks_start := int32 (csum_table_start + CSUM_TABLE_SIZE)
  let data_blocks_start := int32 (inode_blocks_start + NR_INODE_BLOCKS)
  testfs_write_super_block BLOCK_SIZE now
    ⟨inode_freemap_start, block_freemap_start, csum_table_start, inode_blocks_start,
     data_blocks_start, 0⟩
    ⟨fun _ => 0, inode_freemap_start.toNat, block_freemap_start.toNat, data_blocks_start.toNat⟩

/-- What `testfs_init_super_block` gets from the C library and from
`bitmap_create` (`bitmap.c` is absent): whether the two `malloc` calls
succeed, the `errno` that `open` and `fdopen` leave (0 when they succeed), and
the return values of the two `bitmap_create` calls. -/
structure environment where
  malloc_sb : Bool
  open_errno : Int
  fdopen_errno : Int
  bitmap_create_inode : Int
  bitmap_create_block : Int
  malloc_csum : Bool
deriving DecidableEq, Repr

/-- `testfs_init_super_block` (super.c:61-125): the return value and `*sbp`
when it is set.  `bytes` is the content of the backing file and `size` its
length, and the arguments after the block size are the constants
`INODE_FREEMAP_SIZE`, `BLOCK_FREEMAP_SIZE` and `CSUM_TABLE_SIZE`.  `none` is
an exit in `read_blocks`. -/
def testfs_init_super_block (BLOCK_SIZE INODE_FREEMAP_SIZE BLOCK_FREEMAP_SIZE CSUM_TABLE_SIZE : Nat)
    (env : environment) (bytes : Nat → Nat) (size : Nat) : Option (Int × Option mounted) :=
  if ¬ env.malloc_sb then some (-ENOMEM, none)
  else if env.open_errno ≠ 0 then some (env.open_errno, none)
  else if env.fdopen_errno ≠ 0 then some (env.fdopen_errno, none)
  else
    match read_blocks BLOCK_SIZE bytes size 0 1 with
    | none => none
    | some block =>
      let sb := bytes_dsuper block
      if env.bitmap_create_inode < 0 then some (env.bitmap_create_inode, none)
      else
        match read_blocks BLOCK_SIZE bytes size sb.inode_freemap_start INODE_FREEMAP_SIZE with
        | none => none
        | some inode_freemap =>
          if env.bitmap_create_block < 0 then some (env.bitmap_create_block, none)
          else
            match read_blocks BLOCK_SIZE bytes size sb.block_freemap_start
                BLOCK_FREEMAP_SIZE with
            | none => none
            | some block_freemap =>
              if ¬ env.malloc_csum then some (-ENOMEM, none)
              else
                match read_blocks BLOCK_SIZE bytes size sb.csum_table_start CSUM_TABLE_SIZE with
                | none => none
                | some csum_table =>
                  some (0, some ⟨sb, inode_freemap, block_freemap, csum_table, tx_type.TX_NONE,
                    ⟨bytes, sb.inode_freemap_start.toNat, sb.block_freemap_start.toNat,
                     sb.data_blocks_start.toNat⟩⟩)

/-- `testfs_close_super_block` (super.c:140-169) on a volume whose two free
maps are present: the backing file when it is closed.  `none` is a failed
assertion, in `testfs_tx_start`, `testfs_write_super_block` or
`testfs_tx_commit`, or an exit in `write_blocks`, where a negative position
makes `fseek` fail. -/
def testfs_close_super_block (BLOCK_SIZE INODE_FREEMAP_SIZE BLOCK_FREEMAP_SIZE : Nat) (now : Int)
    (m : mounted) : Option device :=
  if m.tx_in_progress ≠ tx_type.TX_NONE then none
  else
    match testfs_write_super_block BLOCK_SIZE now m.sb m.dev with
    | none => none
    | some (sb1, dev1) =>
      if sb1.inode_freemap_start < 0 then none
      else
        let dev2 := write_blocks BLOCK_SIZE dev1 m.inode_freemap sb1.inode_freemap_start.toNat
          INODE_FREEMAP_SIZE
        if sb1.block_freemap_start < 0 then none
        else
          some (write_blocks BLOCK_SIZE dev2 m.block_freemap sb1.block_freemap_start.toNat
            BLOCK_FREEMAP_SIZE)

/-- The content of a backing file of blocks of 64 bytes: the super block with
the region starts 1, 2, 3, 4, 5 and the timestamp 7, the byte 9 at the
position `extra`, and zero elsewhere. -/
def sample_disk (extra : Nat) : Nat → Nat := fun p =>
  if p = extra then 9
  else (dsuper_bytes ⟨1, 2, 3, 4, 5, 7⟩).getD p 0

/-- The environment in which every call of the C library succeeds. -/
def good_env : environment := ⟨true, 0, 0, 0, 0, true⟩

/-! ## Directories with padded blocks -/

/-- The offset at which an entry is stored when the previous one ends at `p`:
directly behind it, or at the start of the next block. -/
def stored_offset (BLOCK_SIZE p : Nat) (skip : Bool) : Nat :=
  if skip then (p / BLOCK_SIZE + 1) * BLOCK_SIZE else p

/-- The bytes that hold the entries `es` from offset `p` on, when each entry
either follows the previous one directly or, if it is marked, starts the next
block, with zero bytes from the end of the previous entry up to there. -/
def lay_blocks (BLOCK_SIZE : Nat) : Nat → List ((List Nat × Int) × Bool) → List Nat
  | _, [] => []
  | p, (e, skip) :: es =>
    zeros (stored_offset BLOCK_SIZE p skip - p) ++ dirent_bytes e.2 (e.1.length + 1) e.1
      ++ lay_blocks BLOCK_SIZE (stored_offset BLOCK_SIZE p skip + entry_total e.1) es

/-- Each of the entries laid out by `lay_blocks` from `p` on lies inside one
block: its first and its last byte have the same block number. -/
def in_one_block (BLOCK_SIZE : Nat) : Nat → List ((List Nat × Int) × Bool) → Prop
  | _, [] => True
  | p, (e, skip) :: es =>
    stored_offset BLOCK_SIZE p skip / BLOCK_SIZE
      = (stored_offset BLOCK_SIZE p skip + entry_total e.1 - 1) / BLOCK_SIZE ∧
    in_one_block BLOCK_SIZE (stored_offset BLOCK_SIZE p skip + entry_total e.1) es

/-- The test of `in_one_block`. -/
def in_one_block_decidable (BLOCK_SIZE : Nat) : ∀ (es : List ((List Nat × Int) × Bool)) (p : Nat),
    Decidable (in_one_block BLOCK_SIZE p es)
  | [], _ => isTrue trivial
  | (e, skip) :: es, p =>
    @instDecidableAnd _ _ _
      (in_one_block_decidable BLOCK_SIZE es (stored_offset BLOCK_SIZE p skip + entry_total e.1))

instance (BLOCK_SIZE p : Nat) (es : List ((List Nat × Int) × Bool)) :
    Decidable (in_one_block BLOCK_SIZE p es) := in_one_block_decidable BLOCK_SIZE es p

/-- A well-formed directory: each entry lies inside one block, zero bytes
occur only between the end of an entry and the start of the next block, and
the size is the end of the last entry. -/
def wf_blocks_dir (BLOCK_SIZE : Nat) (dir : inode) (es : List ((List Nat × Int) × Bool)) : Prop :=
  dir.i_type = inode_type.I_DIR ∧ dir.data = lay_blocks BLOCK_SIZE 0 es ∧
  dir.i_size = dir.data.length ∧ (∀ g ∈ es, valid_entry BLOCK_SIZE g.1) ∧
  in_one_block BLOCK_SIZE 0 es

instance (BLOCK_SIZE : Nat) (dir : inode) (es : List ((List Nat × Int) × Bool)) :
    Decidable (wf_blocks_dir BLOCK_SIZE dir es) := by
  unfold wf_blocks_dir; infer_instance

/-! ## Sample volumes for the later commands -/

/-- A volume whose root directory is `tombstone_dir`: a tombstone of the
former entry `ab` and the file `cd` (inode 2). -/
def tombstone_sb : super_block where
  inodes := fun n =>
    if n = 0 then tombstone_dir
    else if n = 2 then ⟨inode_type.I_FILE, 0, []⟩
    else ⟨inode_type.I_NONE, 0, []⟩
  i_count := fun n => if n = 0 then 1 else 0
  inode_freemap := [true, false, true, false]
  block_freemap := [true, false, false, false]
  tx_in_progress := tx_type.TX_NONE

/-- A volume with the directory `a` (inode 1) in the root directory and the
directory `s` (inode 2) in `a`. -/
def tree_sb : super_block where
  inodes := fun n =>
    if n = 0 then
      (add_dirents 256 65536 empty_dir [([46], 0), ([46, 46], 0), ([97], 1)]).getD empty_dir
    else if n = 1 then
      (add_dirents 256 65536 empty_dir [([46], 1), ([46, 46], 0), ([115], 2)]).getD empty_dir
    else if n = 2 then
      (add_dirents 256 65536 empty_dir [([46], 2), ([46, 46], 1)]).getD empty_dir
    else ⟨inode_type.I_NONE, 0, []⟩
  i_count := fun n => if n = 0 then 1 else 0
  inode_freemap := [true, true, true, false]
  block_freemap := [true, true, true, false]
  tx_in_progress := tx_type.TX_NONE

/-- The volume `tight_sb` with five more data blocks, all free. -/
def narrow_sb : super_block :=
  { tight_sb with block_freemap := [true, true, false, false, false, false, false, false] }

/-! ## Path resolution: what it leaves unchanged -/

theorem same_but_counts_refl (sb : super_block) : same_but_counts sb sb := ⟨rfl, rfl, rfl, rfl⟩

theorem same_but_counts_trans {a b c : super_block} (h1 : same_but_counts a b)
    (h2 : same_but_counts b c) : same_but_counts a c := by
  obtain ⟨h11, h12, h13, h14⟩ := h1
  obtain ⟨h21, h22, h23, h24⟩ := h2
  exact ⟨h21.trans h11, h22.trans h12, h23.trans h13, h24.trans h14⟩

theorem same_but_counts_get_put (sb : super_block) (a b : Nat) :
    same_but_counts sb (testfs_put_inode (testfs_get_inode sb a) b) := ⟨rfl, rfl, rfl, rfl⟩

theorem super_block_ext {sb sb' : super_block} (h : same_but_counts sb sb')
    (hc : ∀ n, sb'.i_count n = sb.i_count n) : sb' = sb := by
  obtain ⟨h1, h2, h3, h4⟩ := h
  cases sb; cases sb'
  simp only at h1 h2 h3 h4 hc
  have : ∀ (f g : Nat → Nat), (∀ n, f n = g n) → f = g := fun f g h => funext h
  simp [h1, h2, h3, h4, this _ _ hc]

/-- The reference counts after taking a reference on `a` and dropping the one
on `b`, when `b` is referenced. -/
theorem count_get_put (sb : super_block) (a b : Nat) (hb : 1 ≤ sb.i_count b) (n : Nat) :
    (testfs_put_inode (testfs_get_inode sb a) b).i_count n + (if n = b then 1 else 0)
      = sb.i_count n + (if n = a then 1 else 0) := by
  simp only [testfs_put_inode, testfs_get_inode]
  by_cases h1 : n = b
  · subst h1
    by_cases h2 : n = a
    · subst h2; simp only [if_true]; omega
    · simp only [if_true, if_neg h2]; omega
  · by_cases h2 : n = a
    · subst h2; simp only [if_true, if_neg h1]
    · simp only [if_neg h1, if_neg h2]

/-- Path resolution changes nothing but reference counts, and it moves exactly
one reference: from the directory it started in to the one it ended in. -/
theorem rec_effect (BS : Nat) : ∀ (fuel : Nat) (sb : super_block) (dir : Nat) (name : List Nat)
    (ret : Int) (sb' : super_block) (dir' : Nat),
    testfs_dir_name_to_inode_nr_rec BS fuel sb dir name = some (ret, sb', dir') →
    same_but_counts sb sb' ∧
    (1 ≤ sb.i_count dir → ∀ n, sb'.i_count n + (if n = dir then 1 else 0)
      = sb.i_count n + (if n = dir' then 1 else 0)) := by
  intro fuel
  induction fuel with
  | zero => intro sb dir name ret sb' dir' h; simp [testfs_dir_name_to_inode_nr_rec] at h
  | succ fuel ih =>
    intro sb dir name ret sb' dir' h
    simp only [testfs_dir_name_to_inode_nr_rec] at h
    have step : ∀ (a : Nat) (nm : List Nat),
        testfs_dir_name_to_inode_nr_rec BS fuel (testfs_put_inode (testfs_get_inode sb a) dir) a nm
          = some (ret, sb', dir') →
        same_but_counts sb sb' ∧
        (1 ≤ sb.i_count dir → ∀ n, sb'.i_count n + (if n = dir then 1 else 0)
          = sb.i_count n + (if n = dir' then 1 else 0)) := by
      intro a nm hh
      obtain ⟨h1, h2⟩ := ih _ _ _ _ _ _ hh
      refine ⟨same_but_counts_trans (same_but_counts_get_put _ _ _) h1, ?_⟩
      intro hd n
      have e1 := count_get_put sb a dir hd
      have ha : 1 ≤ (testfs_put_inode (testfs_get_inode sb a) dir).i_count a := by
        have := e1 a
        simp only [if_true] at this
        by_cases hab : a = dir
        · subst hab; simp only [if_true] at this; omega
        · simp only [if_neg hab] at this; omega
      have e2 := h2 ha n
      have e3 := e1 n
      omega
    repeat' split at h
    all_goals first
      | exact step _ _ h
      | (simp only [Option.some.injEq, Prod.mk.injEq] at h
         obtain ⟨-, rfl, rfl⟩ := h
         exact ⟨same_but_counts_refl _, fun _ _ => rfl⟩)
      | simp at h

/-- Path resolution returns the same value and ends in the same directory on
two volumes that hold the same directories. -/
theorem rec_agree (BS : Nat) : ∀ (fuel : Nat) (sb sb' : super_block) (dir : Nat)
    (name : List Nat), agree_on_dirs sb sb' →
    ret_dir (testfs_dir_name_to_inode_nr_rec BS fuel sb' dir name)
      = ret_dir (testfs_dir_name_to_inode_nr_rec BS fuel sb dir name) := by
  intro fuel
  induction fuel with
  | zero => intro sb sb' dir name _; rfl
  | succ fuel ih =>
    intro sb sb' dir name hag
    have step : ∀ (a b d : Nat) (nm : List Nat),
        ret_dir (testfs_dir_name_to_inode_nr_rec BS fuel
          (testfs_put_inode (testfs_get_inode sb' a) b) d nm)
        = ret_dir (testfs_dir_name_to_inode_nr_rec BS fuel
          (testfs_put_inode (testfs_get_inode sb a) b) d nm) :=
      fun a b d nm => ih _ _ _ _ hag
    by_cases hd : (sb.inodes dir).i_type = inode_type.I_DIR
    · have he : sb'.inodes dir = sb.inodes dir := hag dir (Or.inl hd)
      simp only [testfs_dir_name_to_inode_nr_rec, he]
      repeat' split
      all_goals first
        | rfl
        | exact step _ _ _ _
    · have hd' : (sb'.inodes dir).i_type ≠ inode_type.I_DIR := by
        intro h
        exact hd ((hag dir (Or.inr h)) ▸ h)
      simp [testfs_dir_name_to_inode_nr_rec, hd, hd']

/-- A call of `testfs_dir_name_to_inode_nr` that returns leaves the whole volume
and `*dir` as they were, when the caller holds a reference on `*dir`. -/
theorem name_to_inode_nr_state (BS : Nat) (sb : super_block) (dir : Nat) (name : List Nat)
    (ret : Int) (sb' : super_block) (dir' : Nat) (hcnt : 1 ≤ sb.i_count dir)
    (h : testfs_dir_name_to_inode_nr BS sb dir name = some (ret, sb', dir')) :
    sb' = sb ∧ dir' = dir := by
  simp only [testfs_dir_name_to_inode_nr] at h
  split_ifs at h with h1 h2
  · simp only [Option.some.injEq, Prod.mk.injEq] at h
    exact ⟨h.2.1.symm, h.2.2.symm⟩
  · split at h
    · simp at h
    · rename_i r sb1 dir1 hrec
      obtain ⟨hs, hc⟩ := rec_effect BS _ _ _ _ _ _ _ hrec
      have hc := hc hcnt
      split_ifs at h with h3
      · simp only [Option.some.injEq, Prod.mk.injEq] at h
        obtain ⟨-, rfl, rfl⟩ := h
        refine ⟨super_block_ext (same_but_counts_trans hs ⟨rfl, rfl, rfl, rfl⟩) ?_, rfl⟩
        intro n
        have e1 := hc n
        have e2 := hc dir1
        simp only [if_true, if_neg h3] at e2
        simp only [testfs_get_inode, testfs_put_inode]
        by_cases ha : n = dir
        · by_cases hb : n = dir1
          · exact absurd (hb.symm.trans ha) h3
          · simp only [if_pos ha, if_neg hb] at e1 ⊢; omega
        · by_cases hb : n = dir1
          · subst hb; simp only [if_true, if_neg ha] at e1 ⊢; omega
          · simp only [if_neg ha, if_neg hb] at e1 ⊢; omega
      · have h3 : dir1 = dir := not_not.mp h3
        simp only [Option.some.injEq, Prod.mk.injEq] at h
        obtain ⟨-, rfl, rfl⟩ := h
        subst h3
        exact ⟨super_block_ext hs (fun n => by have := hc n; omega), rfl⟩

/-- C4: when `testfs_dir_name_to_inode_nr(sb, &cur, name)` returns for a
non-empty `name` (the model has no return for the empty one), with an inode
number or with an error, `cur` is the inode number it was before the call and
every inode has the reference count it had before the call (the caller holds
a reference on `cur`, as a context does); indeed the whole volume is as
before. -/
theorem resolution_restores_cur_and_counts (BS : Nat) (sb : super_block) (cur : Nat)
    (name : List Nat) (ret : Int) (sb' : super_block) (cur' : Nat)
    (hheld : 1 ≤ sb.i_count cur)
    (hret : testfs_dir_name_to_inode_nr BS sb cur name = some (ret, sb', cur')) :
    cur' = cur ∧ (∀ n, sb'.i_count n = sb.i_count n) ∧ sb' = sb := by
  have h := name_to_inode_nr_state BS sb cur name ret sb' cur' hheld hret
  exact ⟨h.2, fun n => by rw [h.1], h.1⟩

/-- Witness of C4: the absolute path `/a/b` from the root of the sample volume. -/
theorem resolution_restores_cur_and_counts_witness :
    ∃ ret sb' cur', 1 ≤ sample_sb.i_count 0 ∧
      testfs_dir_name_to_inode_nr 256 sample_sb 0 [47, 97, 47, 98] = some (ret, sb', cur') ∧
      ret = 3 ∧ cur' = 0 ∧ (∀ n, sb'.i_count n = sample_sb.i_count n) ∧ sb' = sample_sb := by
  have hsome : (testfs_dir_name_to_inode_nr 256 sample_sb 0 [47, 97, 47, 98]).isSome = true := by
    decide
  have hval : (testfs_dir_name_to_inode_nr 256 sample_sb 0 [47, 97, 47, 98]).map Prod.fst
      = some 3 := by decide
  obtain ⟨⟨ret, sb', cur'⟩, h⟩ := Option.isSome_iff_exists.mp hsome
  have hr : ret = 3 := by simpa [h] using hval
  have := resolution_restores_cur_and_counts 256 sample_sb 0 [47, 97, 47, 98] ret sb' cur'
    (by decide) h
  exact ⟨ret, sb', cur', by decide, h, hr, this⟩

/-- C5: for a path of length at least 2 that ends in `/`,
`testfs_dir_name_to_inode_nr` returns `-EINVAL`, and `cmd_cd` with that path
returns `-EINVAL` and leaves the context, `c->cur_dir` included, and the volume
unchanged; the path `/` is not rejected and resolves to inode 0 (from a
current directory that is a directory, as the function asserts). -/
theorem trailing_slash_is_invalid (BS : Nat) (sb : super_block) (c : context) (name : List Nat)
    (hlen : 2 ≤ name.length) (hlast : name.getLast? = some SLASH) :
    testfs_dir_name_to_inode_nr BS sb c.cur_dir name = some (-EINVAL, sb, c.cur_dir) ∧
    (c.cmd.getD 1 [] = name → cmd_cd BS sb c = some (-EINVAL, sb, c)) ∧
    ((sb.inodes c.cur_dir).i_type = inode_type.I_DIR →
      testfs_dir_name_to_inode_nr BS sb c.cur_dir [SLASH] = some (0, sb, c.cur_dir)) := by
  have hne : name ≠ [] := by
    intro h; rw [h] at hlen; simp at hlen
  have hns : name ≠ [SLASH] := by
    intro h; rw [h] at hlen; simp at hlen
  have h1 : testfs_dir_name_to_inode_nr BS sb c.cur_dir name = some (-EINVAL, sb, c.cur_dir) := by
    simp [testfs_dir_name_to_inode_nr, hne, hns, hlast]
  refine ⟨h1, ?_, ?_⟩
  · intro hc
    simp only [cmd_cd]
    split_ifs with hn
    · rfl
    · rw [hc, h1]
      simp [EINVAL]
  · intro hd
    simp [testfs_dir_name_to_inode_nr, testfs_dir_name_to_inode_nr_rec, hd]

/-- Witness of C5: `cd a/` from the root of the sample volume. -/
theorem trailing_slash_is_invalid_witness :
    2 ≤ [97, 47].length ∧ [97, 47].getLast? = some SLASH ∧
    testfs_dir_name_to_inode_nr 256 sample_sb 0 [97, 47] = some (-EINVAL, sample_sb, 0) ∧
    cmd_cd 256 sample_sb ⟨0, [[99, 100], [97, 47]], 2⟩
      = some (-EINVAL, sample_sb, ⟨0, [[99, 100], [97, 47]], 2⟩) ∧
    testfs_dir_name_to_inode_nr 256 sample_sb 0 [SLASH] = some (0, sample_sb, 0) := by
  have h := trailing_slash_is_invalid 256 sample_sb ⟨0, [[99, 100], [97, 47]], 2⟩ [97, 47]
    (by decide) (by decide)
  exact ⟨by decide, by decide, h.1, h.2.1 (by decide), h.2.2 (by decide)⟩

/-! ## Bytes -/

theorem cstr_append_nul (s rest : List Nat) (hs : is_cstring s) : cstr (s ++ 0 :: rest) = s := by
  induction s with
  | nil => simp [cstr]
  | cons a t ih =>
    have ha : a ≠ 0 := by
      have := (hs a (List.mem_cons_self _ _)).1; omega
    have ht : is_cstring t := fun b hb => hs b (List.mem_cons_of_mem _ hb)
    have := ih ht
    simp only [cstr] at this ⊢
    have hb : (a != 0) = true := by simpa using ha
    simp only [List.cons_append, List.takeWhile_cons, hb, if_true, this]

theorem getD_append_left (pre x : List Nat) (i : Nat) (h : i < pre.length) :
    (pre ++ x).getD i 0 = pre.getD i 0 := by
  simp [List.getD, List.getElem?_append_left h]

theorem getD_append_right (pre x : List Nat) (i : Nat) :
    (pre ++ x).getD (pre.length + i) 0 = x.getD i 0 := by
  simp [List.getD, List.getElem?_append_right]

/-- Reading back a segment of the stored bytes. -/
theorem range_map_getD (pre x post : List Nat) :
    (List.range x.length).map (fun i => (pre ++ x ++ post).getD (pre.length + i) 0) = x := by
  apply List.ext_getElem
  · simp
  · intro i h1 h2
    simp only [List.length_map, List.length_range] at h1
    simp only [List.getElem_map, List.getElem_range, List.append_assoc]
    rw [getD_append_right, getD_append_left _ _ _ h1]
    simp [List.getD, List.getElem?_eq_getElem h1]

/-- `testfs_read_data` returns a segment that lies below the size of the file. -/
theorem read_data_segment (ino : inode) (pre x post : List Nat)
    (hd : ino.data = pre ++ x ++ post) (hsz : pre.length + x.length ≤ ino.i_size) :
    testfs_read_data ino pre.length x.length = x := by
  simp only [testfs_read_data]
  split_ifs with h
  · have : x.length = 0 := by omega
    simp [List.length_eq_zero.mp this]
  · have : min x.length (ino.i_size - pre.length) = x.length := by omega
    rw [this, hd]
    exact range_map_getD pre x post

/-! ## `testfs_dir_name_to_inode_nr` on two volumes with the same directories -/

theorem name_to_inode_nr_frame (BS : Nat) (sb : super_block) (dir : Nat) (name : List Nat)
    (ret : Int) (sb' : super_block) (dir' : Nat)
    (h : testfs_dir_name_to_inode_nr BS sb dir name = some (ret, sb', dir')) :
    same_but_counts sb sb' ∧ dir' = dir := by
  simp only [testfs_dir_name_to_inode_nr] at h
  split_ifs at h with h1 h2
  · simp only [Option.some.injEq, Prod.mk.injEq] at h
    obtain ⟨-, rfl, rfl⟩ := h
    exact ⟨same_but_counts_refl _, rfl⟩
  · split at h
    · simp at h
    · rename_i r sb1 dir1 hrec
      have hs := (rec_effect BS _ _ _ _ _ _ _ hrec).1
      split_ifs at h with h3
      · simp only [Option.some.injEq, Prod.mk.injEq] at h
        obtain ⟨-, rfl, rfl⟩ := h
        exact ⟨same_but_counts_trans hs ⟨rfl, rfl, rfl, rfl⟩, rfl⟩
      · simp only [Option.some.injEq, Prod.mk.injEq] at h
        obtain ⟨-, rfl, rfl⟩ := h
        exact ⟨hs, not_not.mp h3⟩

theorem name_to_inode_nr_agree (BS : Nat) (sb sb' : super_block) (dir : Nat) (name : List Nat)
    (hag : agree_on_dirs sb sb') :
    (testfs_dir_name_to_inode_nr BS sb' dir name).map Prod.fst
      = (testfs_dir_name_to_inode_nr BS sb dir name).map Prod.fst := by
  have hrec := rec_agree BS (name.length + 1) sb sb' dir name hag
  simp only [testfs_dir_name_to_inode_nr]
  split_ifs with h1 h2
  · rfl
  · rfl
  · cases h : testfs_dir_name_to_inode_nr_rec BS (name.length + 1) sb dir name with
    | none =>
      cases h' : testfs_dir_name_to_inode_nr_rec BS (name.length + 1) sb' dir name with
      | none => rfl
      | some r' => rw [h, h'] at hrec; simp [ret_dir] at hrec
    | some r =>
      cases h' : testfs_dir_name_to_inode_nr_rec BS (name.length + 1) sb' dir name with
      | none => rw [h, h'] at hrec; simp [ret_dir] at hrec
      | some r' =>
        rw [h, h'] at hrec
        obtain ⟨a, b, c⟩ := r
        obtain ⟨a', b', c'⟩ := r'
        simp only [ret_dir, Option.map_some', Option.some.injEq, Prod.mk.injEq] at hrec
        obtain ⟨rfl, rfl⟩ := hrec
        simp only
        split_ifs <;> rfl

/-! ## `cmd_write` followed by `cmd_cat` -/

/-- The inode that `cmd_write` leaves: size and content. -/
theorem write_truncate_inode (BS MAXFS : Nat) (ino : inode) (content : List Nat) (hBS : 0 < BS)
    (hfit : ¬ MAXFS < 0 + content.length) :
    let ino' := testfs_truncate_data BS (testfs_write_data MAXFS ino 0 content).2 content.length
    ino'.i_type = ino.i_type ∧ ino'.i_size = content.length ∧
      ∃ rest, ino'.data = [] ++ content ++ rest := by
  have hround : content.length ≤ ((content.length + BS - 1) / BS) * BS := by
    have h1 := Nat.div_add_mod (content.length + BS - 1) BS
    have h2 := Nat.mod_lt (content.length + BS - 1) hBS
    have h3 : BS * ((content.length + BS - 1) / BS) = ((content.length + BS - 1) / BS) * BS :=
      Nat.mul_comm _ _
    omega
  simp only [testfs_write_data, if_neg hfit, testfs_truncate_data, write_bytes]
  split_ifs with h
  · refine ⟨rfl, rfl, ?_⟩
    simp only [Nat.zero_add, List.take_zero, List.nil_append]
    rw [List.take_append_eq_append_take, List.take_of_length_le hround]
    exact ⟨_, rfl⟩
  · refine ⟨rfl, rfl, ?_⟩
    simp only [Nat.zero_add, List.take_zero, List.nil_append]
    exact ⟨_, rfl⟩

/-- What a successful `cmd_write` has done: the name resolves to an inode `f`
that is not a directory, and the volume differs from the one before the call
in that inode only, which holds the content. -/
theorem cmd_write_success (BS MAXFS : Nat) (sb : super_block) (cur : Nat)
    (w filename content : List Nat) (ret : Int) (sb' : super_block) (c' : context)
    (hBS : 0 < BS)
    (hw : cmd_write BS MAXFS sb ⟨cur, [w, filename, content], 3⟩ = some (ret, sb', c'))
    (hret : 0 ≤ ret) :
    ∃ f : Nat, (testfs_dir_name_to_inode_nr BS sb cur filename).map Prod.fst = some (f : Int) ∧
      (sb.inodes f).i_type ≠ inode_type.I_DIR ∧
      (sb'.inodes f).i_type = (sb.inodes f).i_type ∧
      (sb'.inodes f).i_size = content.length ∧
      (∃ rest, (sb'.inodes f).data = [] ++ content ++ rest) ∧
      (∀ n, n ≠ f → sb'.inodes n = sb.inodes n) ∧ c'.cur_dir = cur := by
  simp only [cmd_write, ne_eq, not_true_eq_false, if_false, List.getD_cons_succ,
    List.getD_cons_zero] at hw
  cases hres : testfs_dir_name_to_inode_nr BS sb cur filename with
  | none => rw [hres] at hw; simp at hw
  | some r =>
    obtain ⟨inode_nr, sb1, cur1⟩ := r
    obtain ⟨⟨hin, -, -, -⟩, hcur⟩ := name_to_inode_nr_frame BS sb cur filename _ _ _ hres
    rw [hres] at hw
    simp only at hw
    split_ifs at hw with h1 h2
    · simp only [Option.some.injEq, Prod.mk.injEq] at hw
      omega
    · simp only [Option.some.injEq, Prod.mk.injEq] at hw
      have := hw.1
      simp only [EISDIR] at this
      omega
    · have hnn : (inode_nr.toNat : Int) = inode_nr := Int.toNat_of_nonneg (by omega)
      simp only [testfs_tx_start, testfs_tx_commit, testfs_get_inode, set_inode,
        testfs_put_inode] at hw h2
      split at hw
      · simp at hw
      · rename_i sb3 hst
        split_ifs at hst with h3
        simp only [Option.some.injEq] at hst
        subst hst
        simp only [ne_eq, not_true_eq_false, if_false] at hw
        by_cases hfit : MAXFS < 0 + content.length
        · simp only [testfs_write_data, if_pos hfit, Option.some.injEq, Prod.mk.injEq] at hw
          have := hw.1
          simp only [E2BIG] at this
          omega
        · obtain ⟨k1, k2, k3⟩ := write_truncate_inode BS MAXFS (sb1.inodes inode_nr.toNat)
            content hBS hfit
          have hr0 : (testfs_write_data MAXFS (sb1.inodes inode_nr.toNat) 0 content).1 = 0 := by
            simp only [testfs_write_data, if_neg hfit]
          rw [hr0] at hw
          simp only [ge_iff_le, le_refl, if_true, Option.some.injEq, Prod.mk.injEq] at hw
          obtain ⟨-, rfl, rfl⟩ := hw
          refine ⟨inode_nr.toNat, by simp [hnn], ?_, ?_, ?_, ?_, ?_, hcur⟩
          · rw [← hin]; exact h2
          · simp only [if_true]; rw [← hin]; exact k1
          · simp only [if_true]; exact k2
          · simp only [if_true]; exact k3
          · intro n hn
            simp only [if_neg hn, hin]

/-- C1: after `cmd_write` of the content `s` to a file has succeeded (it
returned a non-negative value), whatever the file held before, the size of
the file is `strlen(s)`, reading the whole file yields `s`, and `cmd_cat` on
the same name returns 0 and prints `s` (followed by a newline; nothing at all
for the empty content). -/
theorem write_then_cat (BS MAXFS : Nat) (sb : super_block) (cur : Nat)
    (w cat filename content : List Nat) (ret : Int) (sb' : super_block) (c' : context)
    (hBS : 0 < BS) (hs : is_cstring content)
    (hw : cmd_write BS MAXFS sb ⟨cur, [w, filename, content], 3⟩ = some (ret, sb', c'))
    (hret : 0 ≤ ret) :
    ∃ f : Nat, (testfs_dir_name_to_inode_nr BS sb cur filename).map Prod.fst = some (f : Int) ∧
      (sb'.inodes f).i_size = content.length ∧
      testfs_read_data (sb'.inodes f) 0 (sb'.inodes f).i_size = content ∧
      ∃ sb'', cmd_cat BS sb' ⟨c'.cur_dir, [cat, filename], 2⟩
        = some (0, sb'', ⟨c'.cur_dir, [cat, filename], 2⟩,
            if content = [] then [] else content ++ [10]) := by
  obtain ⟨f, hf, hty, hty', hsz, ⟨rest, hdata⟩, hother, hcur⟩ :=
    cmd_write_success BS MAXFS sb cur w filename content ret sb' c' hBS hw hret
  have hread : testfs_read_data (sb'.inodes f) 0 (sb'.inodes f).i_size = content := by
    rw [hsz]
    exact read_data_segment (sb'.inodes f) [] content rest hdata (by simp [hsz])
  refine ⟨f, hf, hsz, hread, ?_⟩
  have hag : agree_on_dirs sb sb' := by
    intro n hn
    by_cases hnf : n = f
    · subst hnf
      rcases hn with hn | hn
      · exact absurd hn hty
      · exact absurd (hty' ▸ hn) hty
    · exact hother n hnf
  have hres := name_to_inode_nr_agree BS sb sb' cur filename hag
  rw [hf] at hres
  cases hr : testfs_dir_name_to_inode_nr BS sb' cur filename with
  | none => rw [hr] at hres; simp at hres
  | some r =>
    obtain ⟨inode_nr, sb1, cur1⟩ := r
    rw [hr] at hres
    simp only [Option.map_some', Option.some.injEq] at hres
    subst hres
    obtain ⟨⟨hin, -, -, -⟩, hc1⟩ := name_to_inode_nr_frame BS sb' cur filename _ _ _ hr
    subst hc1
    have hnd : ¬ (sb'.inodes f).i_type = inode_type.I_DIR := by rw [hty']; exact hty
    refine ⟨testfs_put_inode (testfs_get_inode sb1 f) f, ?_⟩
    simp only [cmd_cat, hcur, show ¬ (2 < 2) by omega, if_false, List.drop_succ_cons,
      List.drop_zero, List.take_succ_cons, List.take_zero, cmd_cat_loop, hr,
      show ¬ ((f : Int) < 0) by omega, Int.toNat_ofNat, testfs_get_inode, hin, hnd, hread, hsz]
    by_cases he : content = []
    · subst he
      simp
    · have hpos : 0 < content.length := List.length_pos.mpr he
      have hread' : testfs_read_data (sb'.inodes f) 0 content.length = content := by
        rw [← hsz]; exact hread
      have hnul : read_into (zeros (content.length + 1)) content = content ++ 0 :: [] := by
        simp [read_into, zeros, List.drop_replicate]
      simp only [gt_iff_lt, hpos, if_true, hread', hnul, cstr_append_nul content [] hs,
        if_neg he, List.nil_append]

/-- Witness of C1: `write f hi` in the root of the sample volume, where `f`
held `hello`. -/
theorem write_then_cat_witness :
    ∃ ret sb' c', 0 < 256 ∧ is_cstring [104, 105] ∧
      cmd_write 256 65536 sample_sb ⟨0, [[119], [102], [104, 105]], 3⟩ = some (ret, sb', c') ∧
      0 ≤ ret ∧
      ∃ f : Nat, (testfs_dir_name_to_inode_nr 256 sample_sb 0 [102]).map Prod.fst
          = some (f : Int) ∧
        (sb'.inodes f).i_size = [104, 105].length ∧
        testfs_read_data (sb'.inodes f) 0 (sb'.inodes f).i_size = [104, 105] ∧
        ∃ sb'', cmd_cat 256 sb' ⟨c'.cur_dir, [[99], [102]], 2⟩
          = some (0, sb'', ⟨c'.cur_dir, [[99], [102]], 2⟩,
              if [104, 105] = [] then [] else [104, 105] ++ [10]) := by
  have hsome : (cmd_write 256 65536 sample_sb ⟨0, [[119], [102], [104, 105]], 3⟩).isSome
      = true := by decide
  have hval : (cmd_write 256 65536 sample_sb ⟨0, [[119], [102], [104, 105]], 3⟩).map Prod.fst
      = some 0 := by decide
  obtain ⟨⟨ret, sb', c'⟩, h⟩ := Option.isSome_iff_exists.mp hsome
  have hr : ret = 0 := by simpa [h] using hval
  exact ⟨ret, sb', c', by decide, by decide, h, by omega,
    write_then_cat 256 65536 sample_sb 0 [119] [99] [102] [104, 105] ret sb' c'
      (by decide) (by decide) h (by omega)⟩

/-! ## Block arithmetic -/

theorem lt_next_block (BS o : Nat) (hBS : 0 < BS) : o < (o / BS + 1) * BS := by
  have h1 := Nat.div_add_mod o BS
  have h2 := Nat.mod_lt o hBS
  have h3 : (o / BS + 1) * BS = BS * (o / BS) + BS := by
    rw [Nat.add_mul, Nat.one_mul, Nat.mul_comm]
  omega

theorem block_start_le (BS o : Nat) : (o / BS) * BS ≤ o := Nat.div_mul_le_self o BS

/-- When `o + t` lies in a later block than `o`, the start of that block lies
after `o` and at most at `o + t`. -/
theorem straddle_bounds (BS o t : Nat) (hBS : 0 < BS) (h : (o + t) / BS > o / BS) :
    o < ((o + t) / BS) * BS ∧ ((o + t) / BS) * BS ≤ o + t := by
  refine ⟨?_, block_start_le BS (o + t)⟩
  have h1 : (o / BS + 1) * BS ≤ ((o + t) / BS) * BS := Nat.mul_le_mul_right BS h
  have h2 := lt_next_block BS o hBS
  omega

/-! ## Progress of `testfs_next_dirent` -/

/-- An entry that `testfs_next_dirent` returns starts below the size of the
directory and the offset moves on by at least the size of the header. -/
theorem next_dirent_progress (BS : Nat) (dir : inode) (offset : Nat) (d : dirent) (offset' : Nat)
    (hBS : 0 < BS) (h : testfs_next_dirent BS dir offset = some (some d, offset')) :
    offset < dir.i_size ∧ offset + sizeof_dirent ≤ offset' := by
  simp only [testfs_next_dirent] at h
  split_ifs at h with h1 h2 h3 h4 h5 h6 h7 h8
  all_goals simp only [Option.some.injEq, Prod.mk.injEq] at h
  all_goals try (exact absurd h.1 (by simp))
  all_goals obtain ⟨-, h⟩ := h
  all_goals refine ⟨by omega, ?_⟩
  · have := (straddle_bounds BS offset sizeof_dirent hBS h3).1
    have := lt_next_block BS (((offset + sizeof_dirent) / BS) * BS) hBS
    omega
  · have := (straddle_bounds BS offset sizeof_dirent hBS h3).1
    omega
  · have := lt_next_block BS offset hBS
    omega
  · omega

/-- On a directory the assertion of `testfs_next_dirent` holds. -/
theorem next_dirent_ne_none (BS : Nat) (dir : inode) (offset : Nat)
    (hdir : dir.i_type = inode_type.I_DIR) : testfs_next_dirent BS dir offset ≠ none := by
  simp only [testfs_next_dirent, hdir, ne_eq, not_true_eq_false, if_false]
  split_ifs <;> simp

/-! ## The scanning loops and the list of entries -/

theorem remove_allowed_loop_found (BS : Nat) (dir : inode) : ∀ (fuel offset : Nat),
    (∃ e ∈ (dirents_from BS dir fuel offset).map Prod.snd, live_other e = true) →
    remove_allowed_loop BS dir fuel offset = some (-ENOTEMPTY) := by
  intro fuel
  induction fuel with
  | zero => intro offset h; simp [dirents_from] at h
  | succ fuel ih =>
    intro offset h
    simp only [dirents_from] at h
    simp only [remove_allowed_loop]
    cases hn : testfs_next_dirent BS dir offset with
    | none => rw [hn] at h; simp at h
    | some r =>
      obtain ⟨od, o'⟩ := r
      cases od with
      | none => rw [hn] at h; simp at h
      | some d =>
        rw [hn] at h
        simp only [List.map_cons, List.mem_cons, exists_eq_or_imp] at h
        simp only
        split_ifs with hc
        · rcases h with h | h
          · exfalso
            simp only [live_other, Bool.and_eq_true, decide_eq_true_eq, Bool.not_eq_true',
              decide_eq_false_iff_not] at h
            rcases hc with hc | hc | hc
            · omega
            · exact h.1.2 hc
            · exact h.2 hc
          · exact ih o' h
        · rfl

theorem remove_dirent_loop_refused (BS MAXFS : Nat) (sb : super_block) (dir : Nat)
    (name : List Nat) (e : dirent) (r : Int) (sb1 : super_block)
    (hall : testfs_remove_dirent_allowed BS sb e.d_inode_nr.toNat = some (r, sb1))
    (hr : r < 0) : ∀ (fuel offset : Nat),
    ((dirents_from BS (sb.inodes dir) fuel offset).map Prod.snd).find? (live_named name)
      = some e →
    remove_dirent_loop BS MAXFS sb dir name fuel offset = some (r, sb1) := by
  intro fuel
  induction fuel with
  | zero => intro offset h; simp [dirents_from] at h
  | succ fuel ih =>
    intro offset h
    simp only [dirents_from] at h
    simp only [remove_dirent_loop]
    cases hn : testfs_next_dirent BS (sb.inodes dir) offset with
    | none => rw [hn] at h; simp at h
    | some x =>
      obtain ⟨od, o'⟩ := x
      cases od with
      | none => rw [hn] at h; simp at h
      | some d =>
        rw [hn] at h
        simp only [List.map_cons, List.find?_cons] at h
        simp only
        split_ifs with hc
        · have hl : live_named name d = false := by
            simp only [live_named, Bool.and_eq_false_iff, decide_eq_false_iff_not]
            rcases hc with hc | hc
            · left; omega
            · right; exact hc
          rw [hl] at h
          exact ih o' h
        · have hl : live_named name d = true := by
            simp only [not_or, not_lt, ne_eq, not_not] at hc
            simp [live_named, hc.1, hc.2]
          rw [hl] at h
          simp only [Option.some.injEq] at h
          subst h
          rw [hall]
          simp [hr]

theorem lookup_loop_eq (BS : Nat) (dir : inode) (name : List Nat) (hBS : 0 < BS)
    (hdir : dir.i_type = inode_type.I_DIR) : ∀ (fuel offset : Nat),
    dir.i_size - offset + 8 ≤ 8 * fuel →
    lookup_loop BS dir name fuel offset = some
      (match ((dirents_from BS dir fuel offset).map Prod.snd).find? (live_named name) with
        | some d => d.d_inode_nr
        | none => -ENOENT) := by
  intro fuel
  induction fuel with
  | zero => intro offset h; omega
  | succ fuel ih =>
    intro offset h
    simp only [dirents_from, lookup_loop]
    cases hn : testfs_next_dirent BS dir offset with
    | none => exact absurd hn (next_dirent_ne_none BS dir offset hdir)
    | some x =>
      obtain ⟨od, o'⟩ := x
      cases od with
      | none => simp
      | some d =>
        obtain ⟨p1, p2⟩ := next_dirent_progress BS dir offset d o' hBS hn
        simp only [sizeof_dirent] at p2
        simp only [List.map_cons, List.find?_cons]
        split_ifs with hc
        · have hl : live_named name d = false := by
            simp only [live_named, Bool.and_eq_false_iff, decide_eq_false_iff_not]
            rcases hc with hc | hc
            · left; omega
            · right; exact hc
          rw [hl]
          exact ih o' (by omega)
        · have hl : live_named name d = true := by
            simp only [not_or, not_lt, ne_eq, not_not] at hc
            simp [live_named, hc.1, hc.2]
          rw [hl]

/-- The lookup loop of the path resolution computes `lookup_spec`. -/
theorem lookup_loop_spec (BS : Nat) (dir : inode) (name : List Nat) (hBS : 0 < BS)
    (hdir : dir.i_type = inode_type.I_DIR) :
    lookup_loop BS dir name (dir.i_size + 1) 0 = some (lookup_spec BS dir name) := by
  rw [lookup_loop_eq BS dir name hBS hdir (dir.i_size + 1) 0 (by omega)]
  rfl

/-! ## `cmd_rm` on a directory that is not empty -/

/-- `testfs_remove_dirent_allowed` refuses a directory that has a live entry
other than `.` and `..`, and leaves the volume as it was. -/
theorem remove_dirent_allowed_refuses (BS : Nat) (sb : super_block) (n : Nat)
    (hty : (sb.inodes n).i_type = inode_type.I_DIR)
    (hne : ∃ x ∈ dirents BS (sb.inodes n), live_other x = true) :
    testfs_remove_dirent_allowed BS sb n = some (-ENOTEMPTY, sb) := by
  have hloop := remove_allowed_loop_found BS (sb.inodes n) ((sb.inodes n).i_size + 1) 0 hne
  have hsb : testfs_put_inode (testfs_get_inode sb n) n = sb := by
    refine super_block_ext ⟨rfl, rfl, rfl, rfl⟩ ?_
    intro m
    simp only [testfs_put_inode, testfs_get_inode]
    split_ifs <;> omega
  simp only [testfs_remove_dirent_allowed]
  have e1 : (testfs_get_inode sb n).inodes n = sb.inodes n := rfl
  rw [e1]
  simp only [hty, ne_eq, not_true_eq_false, if_false, hloop, hsb]

/-- C10 (amended): when the current directory has a live entry `d`, other than
`.` and `..`, that names a directory with at least one non-tombstone entry
other than `.` and `..`, `cmd_rm d` (no transaction being in progress)
returns `-ENOTEMPTY` and leaves the whole volume unchanged: the parent
directory, the target inode, both freemaps, the reference counts. -/
theorem rm_nonempty_dir (BS MAXFS : Nat) (testfs_remove_inode : super_block → Nat → super_block)
    (sb : super_block) (c : context) (d : List Nat) (e : dirent)
    (hnargs : c.nargs = 2) (hcmd : c.cmd.getD 1 [] = d)
    (htx : sb.tx_in_progress = tx_type.TX_NONE)
    (hdot : d ≠ [DOT]) (hdotdot : d ≠ [DOT, DOT])
    (hfind : (dirents BS (sb.inodes c.cur_dir)).find? (live_named d) = some e)
    (hty : (sb.inodes e.d_inode_nr.toNat).i_type = inode_type.I_DIR)
    (hne : ∃ x ∈ dirents BS (sb.inodes e.d_inode_nr.toNat), live_other x = true) :
    cmd_rm BS MAXFS testfs_remove_inode sb c = some (-ENOTEMPTY, sb, c) := by
  have hall := remove_dirent_allowed_refuses BS { sb with tx_in_progress := tx_type.TX_RM }
    e.d_inode_nr.toNat hty hne
  have hloop := remove_dirent_loop_refused BS MAXFS { sb with tx_in_progress := tx_type.TX_RM }
    c.cur_dir d e (-ENOTEMPTY) _ hall (by simp [ENOTEMPTY])
    ((sb.inodes c.cur_dir).i_size + 1) 0 hfind
  have hback : ({ ({ sb with tx_in_progress := tx_type.TX_RM } : super_block) with
      tx_in_progress := tx_type.TX_NONE } : super_block) = sb := by
    cases sb
    simp only at htx
    simp [htx]
  simp only [cmd_rm, hnargs, ne_eq, not_true_eq_false, if_false, testfs_tx_start, htx, hcmd,
    testfs_remove_dirent, hdot, hdotdot, or_self, hloop, testfs_tx_commit,
    show (-ENOTEMPTY : Int) < 0 by simp [ENOTEMPTY], if_true, hback]

/-- Witness of C10: `rm a` in the root of the sample volume, where `a` holds
the file `b`. -/
theorem rm_nonempty_dir_witness :
    (⟨0, [[114, 109], [97]], 2⟩ : context).nargs = 2 ∧
    sample_sb.tx_in_progress = tx_type.TX_NONE ∧ [97] ≠ [DOT] ∧ [97] ≠ [DOT, DOT] ∧
    (dirents 256 (sample_sb.inodes 0)).find? (live_named [97]) = some ⟨1, 2, [97, 0]⟩ ∧
    (sample_sb.inodes 1).i_type = inode_type.I_DIR ∧
    (∃ x ∈ dirents 256 (sample_sb.inodes 1), live_other x = true) ∧
    cmd_rm 256 65536 (fun sb _ => sb) sample_sb ⟨0, [[114, 109], [97]], 2⟩
      = some (-ENOTEMPTY, sample_sb, ⟨0, [[114, 109], [97]], 2⟩) :=
  ⟨rfl, rfl, by decide, by decide, by decide, by decide, by decide,
    rm_nonempty_dir 256 65536 (fun sb _ => sb) sample_sb ⟨0, [[114, 109], [97]], 2⟩ [97]
      ⟨1, 2, [97, 0]⟩ rfl rfl rfl (by decide) (by decide) (by decide) (by decide) (by decide)⟩

/-- C10 as stated fails for the entry `.`: the root of the sample volume has
the live entry `.`, which names a directory (the root itself) with live
entries other than `.` and `..`, and `cmd_rm .` returns `-EINVAL`, not
`-ENOTEMPTY`. -/
theorem rm_dot_returns_einval :
    (dirents 256 (sample_sb.inodes 0)).find? (live_named [DOT]) = some ⟨0, 2, [46, 0]⟩ ∧
    (sample_sb.inodes 0).i_type = inode_type.I_DIR ∧
    (∃ x ∈ dirents 256 (sample_sb.inodes 0), live_other x = true) ∧
    (cmd_rm 256 65536 (fun sb _ => sb) sample_sb ⟨0, [[114, 109], [DOT]], 2⟩).map Prod.fst
      = some (-EINVAL) ∧
    (cmd_rm 256 65536 (fun sb _ => sb) sample_sb ⟨0, [[114, 109], [DOT]], 2⟩).map Prod.fst
      ≠ some (-ENOTEMPTY) := by
  decide

/-! ## The search for the first `/` -/

theorem first_slash_none (name : List Nat) (h : SLASH ∉ name) : ∀ i, first_slash name i = -1 := by
  induction name with
  | nil => intro i; rfl
  | cons a t ih =>
    intro i
    have ha : a ≠ SLASH := fun e => h (e ▸ List.mem_cons_self _ _)
    have ht : SLASH ∉ t := fun e => h (List.mem_cons_of_mem _ e)
    simp only [first_slash, if_neg ha, ih ht]

theorem first_slash_append (head rest : List Nat) (h : SLASH ∉ head) :
    ∀ i, first_slash (head ++ SLASH :: rest) i = ((i + head.length : Nat) : Int) := by
  induction head with
  | nil => intro i; simp [first_slash]
  | cons a t ih =>
    intro i
    have ha : a ≠ SLASH := fun e => h (e ▸ List.mem_cons_self _ _)
    have ht : SLASH ∉ t := fun e => h (List.mem_cons_of_mem _ e)
    show first_slash (a :: (t ++ SLASH :: rest)) i = _
    simp only [first_slash, if_neg ha, ih ht, List.length_cons]
    congr 1
    omega

theorem first_slash_range (name : List Nat) : ∀ i,
    first_slash name i = -1 ∨
      ((i : Int) ≤ first_slash name i ∧ first_slash name i < (i : Int) + name.length) := by
  induction name with
  | nil => intro i; left; rfl
  | cons a t ih =>
    intro i
    simp only [first_slash]
    split_ifs with h
    · right; simp only [List.length_cons]; omega
    · rcases ih (i + 1) with h1 | h1
      · left; exact h1
      · right; simp only [List.length_cons]; push_cast at h1 ⊢; omega

/-! ## Fuel of the path resolution -/

/-- More fuel than the length of the name does not change the result. -/
theorem rec_fuel_succ (BS : Nat) : ∀ (fuel : Nat) (sb : super_block) (dir : Nat)
    (name : List Nat), name.length < fuel →
    testfs_dir_name_to_inode_nr_rec BS (fuel + 1) sb dir name
      = testfs_dir_name_to_inode_nr_rec BS fuel sb dir name := by
  intro fuel
  induction fuel with
  | zero => intro sb dir name h; omega
  | succ fuel ih =>
    intro sb dir name hlen
    have hr := first_slash_range name 0
    have hdrop1 : first_slash name 0 = 0 → (name.drop 1).length < fuel := by
      intro h3
      have : name ≠ [] := by
        intro e; rw [e] at h3; simp [first_slash] at h3
      have := List.length_pos.mpr this
      simp only [List.length_drop]
      omega
    have hdropk : first_slash name 0 ≠ -1 →
        (name.drop ((first_slash name 0).toNat + 1)).length < fuel := by
      intro h5
      simp only [List.length_drop]
      rcases hr with hr | hr
      · exact absurd hr h5
      · omega
    rw [testfs_dir_name_to_inode_nr_rec]
    conv => rhs; rw [testfs_dir_name_to_inode_nr_rec]
    simp only
    repeat' split
    all_goals first
      | rfl
      | exact ih _ _ _ (hdrop1 ‹_›)
      | exact ih _ _ _ (hdropk ‹_›)

theorem rec_fuel_ge (BS : Nat) (sb : super_block) (dir : Nat) (name : List Nat) :
    ∀ k, testfs_dir_name_to_inode_nr_rec BS (name.length + 1 + k) sb dir name
      = testfs_dir_name_to_inode_nr_rec BS (name.length + 1) sb dir name := by
  intro k
  induction k with
  | zero => rfl
  | succ k ih =>
    rw [← ih, ← Nat.add_assoc]
    exact rec_fuel_succ BS _ sb dir name (by omega)

/-! ## The recursion of the path resolution -/

theorem map_fst_ret_dir (r : Option (Int × super_block × Nat)) :
    (ret_dir r).map Prod.fst = r.map Prod.fst := by
  cases r <;> rfl

/-- The value of a recursive call: it depends neither on the reference counts
nor on fuel beyond the length of the name. -/
theorem rec_value (BS : Nat) (sb sb2 : super_block) (d : Nat) (nm : List Nat) (fuel : Nat)
    (hin : sb2.inodes = sb.inodes) (hf : nm.length + 1 ≤ fuel) :
    (testfs_dir_name_to_inode_nr_rec BS fuel sb2 d nm).map Prod.fst = resolve_rec BS sb d nm := by
  obtain ⟨k, rfl⟩ := Nat.exists_eq_add_of_le hf
  rw [rec_fuel_ge, resolve_rec, ← map_fst_ret_dir, ← map_fst_ret_dir
    (testfs_dir_name_to_inode_nr_rec BS (nm.length + 1) sb d nm)]
  congr 1
  apply rec_agree
  intro n _
  rw [hin]

/-- C3 (amended): from a current directory that is a directory,
`testfs_dir_name_to_inode_nr_rec` computes this recursion, for names shorter
than `2^31`: the name `/` yields 0; the empty name yields `-ENOENT`; a
non-empty name without `/` yields the inode number of the first non-tombstone
entry of the current directory whose name equals it, or `-ENOENT` when there
is none (`lookup_spec`); `/` followed by a non-empty `rest` yields the result
of resolving `rest` from the root, inode 0; `head/rest` with `head` non-empty
and slash-free and `rest` non-empty yields `-ENOENT` when `head` has no live
entry in the current directory and otherwise the result of resolving `rest`
from the inode that `head` names. -/
theorem rec_computes_recursion (BS : Nat) (sb : super_block) (cur : Nat) (hBS : 0 < BS)
    (hdir : (sb.inodes cur).i_type = inode_type.I_DIR) :
    resolve_rec BS sb cur [SLASH] = some 0 ∧
    resolve_rec BS sb cur [] = some (-ENOENT) ∧
    (∀ name : List Nat, name ≠ [] → SLASH ∉ name → name.length < 2147483648 →
      resolve_rec BS sb cur name = some (lookup_spec BS (sb.inodes cur) name)) ∧
    (∀ rest : List Nat, rest ≠ [] →
      resolve_rec BS sb cur (SLASH :: rest) = resolve_rec BS sb 0 rest) ∧
    (∀ head rest : List Nat, head ≠ [] → SLASH ∉ head → rest ≠ [] →
      (head ++ SLASH :: rest).length < 2147483648 →
      resolve_rec BS sb cur (head ++ SLASH :: rest)
        = if lookup_spec BS (sb.inodes cur) head < 0 then some (-ENOENT)
          else resolve_rec BS sb (lookup_spec BS (sb.inodes cur) head).toNat rest) := by
  refine ⟨?_, ?_, ?_, ?_, ?_⟩
  · simp [resolve_rec, testfs_dir_name_to_inode_nr_rec, hdir]
  · simp [resolve_rec, testfs_dir_name_to_inode_nr_rec, hdir, first_slash, SLASH]
  · intro name hne hns hlen
    have hlen' := List.length_pos.mpr hne
    have hfs := first_slash_none name hns 0
    have hn1 : name ≠ [SLASH] := by
      intro e; rw [e] at hns; simp at hns
    have hmod : ¬ ((-1 : Int) % 18446744073709551616
        = ((name.length : Int) - 1) % 18446744073709551616) := by omega
    simp only [resolve_rec, testfs_dir_name_to_inode_nr_rec, hdir, ne_eq, not_true_eq_false,
      if_false, hn1, hfs, hmod, lookup_loop_spec BS _ name hBS hdir]
    simp
  · intro rest hne
    have hn1 : SLASH :: rest ≠ [SLASH] := by simpa using hne
    have hstep := rec_value BS sb (testfs_put_inode (testfs_get_inode sb 0) cur) 0 rest
      (rest.length + 1) rfl (le_refl _)
    simp only [resolve_rec, List.length_cons]
    rw [testfs_dir_name_to_inode_nr_rec]
    simp only [hdir, ne_eq, not_true_eq_false, if_false, hn1, first_slash, if_true,
      List.drop_succ_cons, List.drop_zero]
    exact hstep
  · intro head rest hh hns hr hlen
    have hfs := first_slash_append head rest hns 0
    simp only [Nat.zero_add] at hfs
    have hhl := List.length_pos.mpr hh
    have hrl := List.length_pos.mpr hr
    have hn1 : head ++ SLASH :: rest ≠ [SLASH] := by
      intro e
      have := congrArg List.length e
      simp at this
      omega
    have hl : ((head ++ SLASH :: rest).length : Int) = head.length + 1 + rest.length := by
      simp; omega
    have h0 : ¬ ((head.length : Int) = 0) := by omega
    have hmod : ¬ ((head.length : Int) % 18446744073709551616
        = (((head ++ SLASH :: rest).length : Int) - 1) % 18446744073709551616) := by
      simp only [List.length_append, List.length_cons] at hlen
      omega
    have hm1 : ¬ ((head.length : Int) = -1) := by omega
    have htake : (head ++ SLASH :: rest).take head.length = head := by simp
    have hdrop : (head ++ SLASH :: rest).drop (head.length + 1) = rest := by
      rw [← List.drop_drop]; simp
    simp only [resolve_rec]
    rw [testfs_dir_name_to_inode_nr_rec]
    simp only [hdir, ne_eq, not_true_eq_false, if_false, hn1, hfs, h0, hmod]
    simp only [if_pos hm1, Int.toNat_ofNat, htake, hdrop, lookup_loop_spec BS _ head hBS hdir]
    by_cases hlt : lookup_spec BS (sb.inodes cur) head < 0
    · have : lookup_spec BS (sb.inodes cur) head = -ENOENT := by
        simp only [lookup_spec] at hlt ⊢
        split at hlt
        · rename_i d hd
          have := List.find?_some hd
          simp only [live_named, Bool.and_eq_true, decide_eq_true_eq] at this
          omega
        · rfl
      rw [this] at hlt ⊢
      simp only [if_pos hlt, Option.map_some']
    · simp only [if_neg hlt]
      exact rec_value BS sb _ _ rest _ rfl (by simp)

/-- Witness of C3: the names `/`, `f`, `/a` and `a/b` from the root of the
sample volume. -/
theorem rec_computes_recursion_witness :
    0 < 256 ∧ (sample_sb.inodes 0).i_type = inode_type.I_DIR ∧
    resolve_rec 256 sample_sb 0 [SLASH] = some 0 ∧
    resolve_rec 256 sample_sb 0 [102] = some (lookup_spec 256 (sample_sb.inodes 0) [102]) ∧
    resolve_rec 256 sample_sb 0 (SLASH :: [97]) = resolve_rec 256 sample_sb 0 [97] ∧
    resolve_rec 256 sample_sb 0 ([97] ++ SLASH :: [98])
      = (if lookup_spec 256 (sample_sb.inodes 0) [97] < 0 then some (-ENOENT)
        else resolve_rec 256 sample_sb (lookup_spec 256 (sample_sb.inodes 0) [97]).toNat [98]) :=
  have h := rec_computes_recursion 256 sample_sb 0 (by decide) (by decide)
  ⟨by decide, by decide, h.1, h.2.2.1 [102] (by decide) (by decide) (by decide),
    h.2.2.2.1 [97] (by decide),
    h.2.2.2.2 [97] [98] (by decide) (by decide) (by decide) (by decide)⟩

/-- C3 as stated fails for the empty name: it has no `/`, the root of
`noname_sb` has a live entry whose name equals it (inode 5), and the function
returns `-ENOENT`.  For the same reason `/` followed by the empty rest does
not yield the result of resolving that rest from the root: `/` yields 0. -/
theorem empty_name_is_not_looked_up :
    SLASH ∉ ([] : List Nat) ∧ (noname_sb.inodes 0).i_type = inode_type.I_DIR ∧
    dirents 256 (noname_sb.inodes 0) = [⟨5, 1, [0]⟩] ∧
    lookup_spec 256 (noname_sb.inodes 0) [] = 5 ∧
    resolve_rec 256 noname_sb 0 [] = some (-ENOENT) ∧
    resolve_rec 256 noname_sb 0 (SLASH :: []) = some 0 := by
  decide

/-! ## Integers as bytes -/

theorem int_bytes_length (z : Int) : (int_bytes z).length = 4 := rfl

theorem bytes_int_int_bytes (z : Int) (rest : List Nat) (h1 : -2147483648 ≤ z)
    (h2 : z < 2147483648) : bytes_int (int_bytes z ++ rest) = z := by
  simp only [bytes_int, int_bytes, List.cons_append, List.nil_append, List.getD_cons_zero,
    List.getD_cons_succ]
  have h3 : 0 ≤ z % 4294967296 := Int.emod_nonneg _ (by omega)
  have h4 : z % 4294967296 < 4294967296 := Int.emod_lt_of_pos _ (by omega)
  obtain ⟨n, hn⟩ := Int.eq_ofNat_of_zero_le h3
  rw [hn] at h4 ⊢
  simp only [Int.toNat_ofNat]
  have h5 : n % 256 + 256 * (n / 256 % 256) + 65536 * (n / 65536 % 256)
      + 16777216 * (n / 16777216 % 256) = n := by omega
  rw [h5]
  split_ifs with h6 <;> omega

theorem dirent_bytes_eq (nr : Int) (name : List Nat) :
    dirent_bytes nr (name.length + 1) name
      = int_bytes nr ++ int_bytes ((name.length + 1 : Nat) : Int) ++ (name ++ [0]) := by
  simp only [dirent_bytes]
  congr 1
  have : (name ++ [0]).length = name.length + 1 := by simp
  rw [List.take_of_length_le (by omega)]
  simp [read_into, zeros, this]

theorem dirent_bytes_length (nr : Int) (name : List Nat) :
    (dirent_bytes nr (name.length + 1) name).length = entry_total name := by
  rw [dirent_bytes_eq]
  simp [int_bytes_length, entry_total, sizeof_dirent]
  omega

/-! ## `testfs_next_dirent` on a laid out entry -/

/-- An entry that crosses into a later block and fits in a block starts at the
start of the next block. -/
theorem cross_next (BS p t : Nat) (hBS : 0 < BS) (ht : t ≤ BS) (h : (p + t) / BS > p / BS) :
    (p + t) / BS = p / BS + 1 := by
  have h1 := lt_next_block BS p hBS
  have h2 : p + t < (p / BS + 2) * BS := by
    have : (p / BS + 2) * BS = (p / BS + 1) * BS + BS := by
      rw [Nat.add_mul, Nat.add_mul]; omega
    omega
  have h3 : (p + t) / BS < p / BS + 2 := (Nat.div_lt_iff_lt_mul hBS).mpr h2
  omega

theorem no_header_cross (BS p : Nat) (hBS : 0 < BS) (h : ¬ (p + 8) / BS > p / BS) :
    p + 8 < (p / BS + 1) * BS := by
  have h1 := lt_next_block BS (p + 8) hBS
  have h2 : ((p + 8) / BS + 1) * BS ≤ (p / BS + 1) * BS :=
    Nat.mul_le_mul_right BS (by omega)
  omega

/-- The two reads that `testfs_next_dirent` makes of an entry stored at the
offset `pre.length`. -/
theorem read_entry_at (dir : inode) (pre rest : List Nat) (e : List Nat × Int)
    (hdata : dir.data = pre ++ dirent_bytes e.2 (e.1.length + 1) e.1 ++ rest)
    (hsize : pre.length + entry_total e.1 ≤ dir.i_size) :
    testfs_read_data dir pre.length 8 = int_bytes e.2 ++ int_bytes ((e.1.length + 1 : Nat) : Int) ∧
    testfs_read_data dir (pre.length + 8) (e.1.length + 1) = e.1 ++ [0] := by
  rw [dirent_bytes_eq] at hdata
  simp only [entry_total, sizeof_dirent] at hsize
  constructor
  · have := read_data_segment dir pre (int_bytes e.2 ++ int_bytes ((e.1.length + 1 : Nat) : Int))
      ((e.1 ++ [0]) ++ rest) (by rw [hdata]; simp) (by simp [int_bytes_length]; omega)
    simpa [int_bytes_length] using this
  · have := read_data_segment dir
      (pre ++ (int_bytes e.2 ++ int_bytes ((e.1.length + 1 : Nat) : Int))) (e.1 ++ [0]) rest
      (by rw [hdata]; simp) (by simp [int_bytes_length]; omega)
    simpa [int_bytes_length] using this

theorem entry_offset_ge (BS p : Nat) (name : List Nat) (hBS : 0 < BS) :
    p ≤ entry_offset BS p name := by
  simp only [entry_offset]
  split_ifs with h
  · exact le_of_lt (straddle_bounds BS p _ hBS h).1
  · exact le_refl _

theorem lay_cons (BS p : Nat) (e : List Nat × Int) (es : List (List Nat × Int)) :
    lay BS p (e :: es) = zeros (entry_offset BS p e.1 - p)
      ++ dirent_bytes e.2 (e.1.length + 1) e.1
      ++ lay BS (entry_offset BS p e.1 + entry_total e.1) es := by
  rw [lay]
  unfold entry_offset
  split_ifs with h
  · rfl
  · rw [Nat.sub_self]; rfl

theorem zeros_length (n : Nat) : (zeros n).length = n := by simp [zeros]

theorem zeros_add (a b : Nat) : zeros (a + b) = zeros a ++ zeros b := by
  unfold zeros
  exact List.replicate_add a b 0

theorem bytes_int_zeros : bytes_int (List.drop 4 (zeros 8)) = 0 := by decide

theorem header_name_len (e : List Nat × Int) (BS : Nat) (hB31 : BS < 2147483648)
    (hv : valid_entry BS e) :
    bytes_int (List.drop 4 (int_bytes e.2 ++ int_bytes ((e.1.length + 1 : Nat) : Int)))
      = ((e.1.length + 1 : Nat) : Int) := by
  have h4 : List.drop 4 (int_bytes e.2 ++ int_bytes ((e.1.length + 1 : Nat) : Int))
      = int_bytes ((e.1.length + 1 : Nat) : Int) ++ [] := by
    rw [List.drop_append_of_le_length (by simp [int_bytes_length])]
    simp [int_bytes]
  rw [h4]
  obtain ⟨-, -, -, ht⟩ := hv
  simp only [entry_total, sizeof_dirent] at ht
  exact bytes_int_int_bytes _ _ (by omega) (by omega)

/-- `testfs_next_dirent`, called at the end of the previous entry, returns the
entry that the layout stores next, after skipping the padding before it. -/
theorem next_dirent_at (BS : Nat) (dir : inode) (pre rest : List Nat) (e : List Nat × Int)
    (hBS : 0 < BS) (hB31 : BS < 2147483648) (hdir : dir.i_type = inode_type.I_DIR)
    (hv : valid_entry BS e)
    (hdata : dir.data = pre ++ zeros (entry_offset BS pre.length e.1 - pre.length)
      ++ dirent_bytes e.2 (e.1.length + 1) e.1 ++ rest)
    (hsize : entry_offset BS pre.length e.1 + entry_total e.1 ≤ dir.i_size) :
    testfs_next_dirent BS dir pre.length
      = some (some (entry_dirent e), entry_offset BS pre.length e.1 + entry_total e.1) := by
  have hge := entry_offset_ge BS pre.length e.1 hBS
  have hlen : (pre ++ zeros (entry_offset BS pre.length e.1 - pre.length)).length
      = entry_offset BS pre.length e.1 := by
    simp [zeros_length]; omega
  obtain ⟨r1, r2⟩ := read_entry_at dir
    (pre ++ zeros (entry_offset BS pre.length e.1 - pre.length)) rest e hdata
    (by rw [hlen]; exact hsize)
  rw [hlen] at r1 r2
  have hnl := header_name_len e BS hB31 hv
  have hnr : bytes_int (int_bytes e.2 ++ int_bytes ((e.1.length + 1 : Nat) : Int)) = e.2 :=
    bytes_int_int_bytes _ _ hv.2.1 hv.2.2.1
  have ht8 : 8 < entry_total e.1 := by simp [entry_total, sizeof_dirent]
  have hhdr : read_into (zeros 8) (int_bytes e.2 ++ int_bytes ((e.1.length + 1 : Nat) : Int))
      = int_bytes e.2 ++ int_bytes ((e.1.length + 1 : Nat) : Int) := by
    simp [read_into, int_bytes_length, zeros]
  have hhdr' : read_into (zeros 8) (zeros 8) = zeros 8 := by decide
  have hhdr2 : read_into (zeros 8) (int_bytes e.2 ++ int_bytes ((e.1.length + 1 : Nat) : Int))
      = int_bytes e.2 ++ int_bytes ((e.1.length + 1 : Nat) : Int) := hhdr
  have hname : read_into (zeros (e.1.length + 1)) (e.1 ++ [0]) = e.1 ++ [0] := by
    simp [read_into, zeros]
  have hlt : ¬ dir.i_size ≤ pre.length := by omega
  have hne0 : ¬ (((e.1.length + 1 : Nat) : Int) = 0) := by omega
  have hnn : ¬ (((e.1.length + 1 : Nat) : Int) < 0) := by omega
  simp only [testfs_next_dirent, hdir, ne_eq, not_true_eq_false, if_false, hlt, sizeof_dirent]
  by_cases hc : (pre.length + entry_total e.1) / BS > pre.length / BS
  · -- the entry starts the next block
    have hq : entry_offset BS pre.length e.1 = (pre.length / BS + 1) * BS := by
      simp only [entry_offset, if_pos hc]
      rw [cross_next BS _ _ hBS hv.2.2.2 hc]
    by_cases hh : (pre.length + 8) / BS > pre.length / BS
    · have hh' : (pre.length + 8) / BS = pre.length / BS + 1 := by
        have : (pre.length + 8) / BS ≤ (pre.length + entry_total e.1) / BS :=
          Nat.div_le_div_right (by omega)
        have := cross_next BS _ _ hBS hv.2.2.2 hc
        omega
      have ho1 : (pre.length + 8) / BS * BS = entry_offset BS pre.length e.1 := by
        rw [hh', hq]
      simp only [gt_iff_lt] at hh
      simp only [gt_iff_lt, if_pos hh, ho1, r1, hhdr, hnl, hne0, if_false, hnn, hnr,
        Int.toNat_ofNat, r2, hname, entry_dirent, entry_total, sizeof_dirent]
      congr 2
      omega
    · have hroom := no_header_cross BS pre.length hBS hh
      have hz : testfs_read_data dir pre.length 8 = zeros 8 := by
        have hsplit : zeros (entry_offset BS pre.length e.1 - pre.length)
            = zeros 8 ++ zeros (entry_offset BS pre.length e.1 - pre.length - 8) := by
          rw [← zeros_add]; congr 1; omega
        have := read_data_segment dir pre (zeros 8)
          (zeros (entry_offset BS pre.length e.1 - pre.length - 8)
            ++ dirent_bytes e.2 (e.1.length + 1) e.1 ++ rest)
          (by rw [hdata, hsplit]; simp) (by simp [zeros_length]; omega)
        simpa [zeros_length] using this
      simp only [gt_iff_lt] at hh
      simp only [gt_iff_lt, if_neg hh, hz, hhdr', bytes_int_zeros, if_true, ← hq, r1, hhdr,
        hnl, hnn, if_false, hnr, Int.toNat_ofNat, r2, hname, entry_dirent, entry_total,
        sizeof_dirent]
      congr 2
      omega
  · have hq : entry_offset BS pre.length e.1 = pre.length := by
      simp only [entry_offset, if_neg hc]
    have hh : ¬ (pre.length / BS < (pre.length + 8) / BS) := by
      have : (pre.length + 8) / BS ≤ (pre.length + entry_total e.1) / BS :=
        Nat.div_le_div_right (by omega)
      omega
    rw [hq] at r1 r2 ⊢
    simp only [gt_iff_lt, if_neg hh, r1, hhdr, hnl, hne0, if_false, hnn, hnr,
      Int.toNat_ofNat, r2, hname, entry_dirent, entry_total, sizeof_dirent]
    congr 2
    omega

/-! ## Scanning a laid out directory -/

/-- The end of the layout of `es` that starts at `p`. -/
theorem lay_end_cons (BS p : Nat) (e : List Nat × Int) (es : List (List Nat × Int))
    (hBS : 0 < BS) :
    p + (lay BS p (e :: es)).length
      = (entry_offset BS p e.1 + entry_total e.1)
        + (lay BS (entry_offset BS p e.1 + entry_total e.1) es).length := by
  have := entry_offset_ge BS p e.1 hBS
  rw [lay_cons]
  simp only [List.length_append, zeros_length, dirent_bytes_length]
  omega

theorem lay_append (BS : Nat) (hBS : 0 < BS) : ∀ (a b : List (List Nat × Int)) (p : Nat),
    lay BS p (a ++ b) = lay BS p a ++ lay BS (p + (lay BS p a).length) b := by
  intro a
  induction a with
  | nil => intro b p; simp [lay]
  | cons e a ih =>
    intro b p
    have he := lay_end_cons BS p e a hBS
    rw [lay_cons] at he
    rw [List.cons_append, lay_cons, lay_cons, ih, he]
    simp only [List.append_assoc]

theorem lay_length_ge (BS : Nat) : ∀ (es : List (List Nat × Int)) (p : Nat),
    9 * es.length ≤ (lay BS p es).length := by
  intro es
  induction es with
  | nil => intro p; simp
  | cons e es ih =>
    intro p
    have := ih (entry_offset BS p e.1 + entry_total e.1)
    rw [lay_cons]
    simp only [List.length_append, zeros_length, dirent_bytes_length, List.length_cons,
      entry_total, sizeof_dirent] at this ⊢
    omega

theorem next_dirent_at_end (BS : Nat) (dir : inode) (offset : Nat)
    (hdir : dir.i_type = inode_type.I_DIR) (h : dir.i_size ≤ offset) :
    testfs_next_dirent BS dir offset = some (none, offset) := by
  simp [testfs_next_dirent, hdir, h]

/-- The first step of a scan of a laid out directory. -/
theorem next_dirent_lay (BS : Nat) (dir : inode) (pre : List Nat) (e : List Nat × Int)
    (es : List (List Nat × Int)) (hBS : 0 < BS) (hB31 : BS < 2147483648)
    (hdir : dir.i_type = inode_type.I_DIR) (hv : valid_entry BS e)
    (hdata : dir.data = pre ++ lay BS pre.length (e :: es))
    (hsize : dir.i_size = dir.data.length) :
    testfs_next_dirent BS dir pre.length
      = some (some (entry_dirent e), entry_offset BS pre.length e.1 + entry_total e.1) ∧
    ∃ pre', pre'.length = entry_offset BS pre.length e.1 + entry_total e.1 ∧
      dir.data = pre' ++ lay BS pre'.length es := by
  have hge := entry_offset_ge BS pre.length e.1 hBS
  rw [lay_cons] at hdata
  constructor
  · apply next_dirent_at BS dir pre
      (lay BS (entry_offset BS pre.length e.1 + entry_total e.1) es) e hBS hB31 hdir hv
    · rw [hdata]; simp only [List.append_assoc]
    · rw [hsize, hdata]
      simp only [List.length_append, zeros_length, dirent_bytes_length]
      omega
  · refine ⟨pre ++ zeros (entry_offset BS pre.length e.1 - pre.length)
      ++ dirent_bytes e.2 (e.1.length + 1) e.1, ?_, ?_⟩
    · simp only [List.length_append, zeros_length, dirent_bytes_length]; omega
    · have hl : (pre ++ zeros (entry_offset BS pre.length e.1 - pre.length)
          ++ dirent_bytes e.2 (e.1.length + 1) e.1).length
          = entry_offset BS pre.length e.1 + entry_total e.1 := by
        simp only [List.length_append, zeros_length, dirent_bytes_length]; omega
      rw [hl, hdata]
      simp only [List.append_assoc]

theorem dirents_from_lay (BS : Nat) (dir : inode) (hBS : 0 < BS) (hB31 : BS < 2147483648)
    (hdir : dir.i_type = inode_type.I_DIR) (hsize : dir.i_size = dir.data.length) :
    ∀ (es : List (List Nat × Int)) (pre : List Nat) (fuel : Nat),
    (∀ e ∈ es, valid_entry BS e) → dir.data = pre ++ lay BS pre.length es → es.length < fuel →
    dirents_from BS dir fuel pre.length
      = (lay_offsets BS pre.length es).zip (es.map entry_dirent) := by
  intro es
  induction es with
  | nil =>
    intro pre fuel _ hdata hf
    obtain ⟨fuel, rfl⟩ := Nat.exists_eq_succ_of_ne_zero (by omega : fuel ≠ 0)
    have hend : dir.i_size ≤ pre.length := by
      rw [hsize, hdata]; simp [lay]
    simp [dirents_from, next_dirent_at_end BS dir pre.length hdir hend, lay_offsets]
  | cons e es ih =>
    intro pre fuel hv hdata hf
    obtain ⟨fuel, rfl⟩ := Nat.exists_eq_succ_of_ne_zero (by omega : fuel ≠ 0)
    obtain ⟨hn, pre', hl, hd'⟩ := next_dirent_lay BS dir pre e es hBS hB31 hdir
      (hv e (List.mem_cons_self _ _)) hdata hsize
    have := ih pre' fuel (fun x hx => hv x (List.mem_cons_of_mem _ hx)) hd'
      (by simp only [List.length_cons] at hf; omega)
    rw [hl] at this
    simp only [dirents_from, hn, this, lay_offsets, List.map_cons, List.zip_cons_cons,
      entry_dirent, entry_total, sizeof_dirent, Int.toNat_ofNat]
    congr 2
    omega

/-- The entries that `testfs_next_dirent` returns from a well-formed directory
are the entries of its layout, in order. -/
theorem dirents_wf (BS : Nat) (dir : inode) (es : List (List Nat × Int)) (hBS : 0 < BS)
    (hB31 : BS < 2147483648) (hwf : wf_dir BS dir es) :
    dirents BS dir = es.map entry_dirent := by
  obtain ⟨hdir, hdata, hsize, hv⟩ := hwf
  have hlen := lay_length_ge BS es 0
  have := dirents_from_lay BS dir hBS hB31 hdir hsize es [] (dir.i_size + 1) hv
    (by simpa using hdata) (by rw [hsize, hdata]; omega)
  simp only [dirents, List.length_nil] at this ⊢
  rw [this]
  have hzl : (lay_offsets BS 0 es).length = (es.map entry_dirent).length := by
    simp only [List.length_map]
    clear this hlen hdata hv
    generalize 0 = p
    induction es generalizing p with
    | nil => rfl
    | cons e es ih => simp [lay_offsets, ih]
  exact List.map_snd_zip _ _ (le_of_eq hzl.symm)

/-! ## The loop of `testfs_add_dirent` on a laid out directory -/

theorem cstr_entry_name (e : List Nat × Int) (hs : is_cstring e.1) :
    cstr (entry_dirent e).d_name = e.1 := cstr_append_nul e.1 [] hs

/-- One iteration of the loop on the entry `e` of the layout. -/
theorem add_loop_step (BS : Nat) (dir : inode) (name : List Nat) (pre : List Nat)
    (e : List Nat × Int) (es : List (List Nat × Int)) (fuel : Nat)
    (hBS : 0 < BS) (hB31 : BS < 2147483648)
    (hdir : dir.i_type = inode_type.I_DIR) (hv : valid_entry BS e)
    (hdata : dir.data = pre ++ lay BS pre.length (e :: es))
    (hsize : dir.i_size = dir.data.length) :
    add_dirent_loop BS dir name (name.length + 1) (fuel + 1) pre.length
      = if is_live_named name e then some (-EEXIST, false, pre.length)
        else if is_reusable name e then some (0, true, pre.length)
        else add_dirent_loop BS dir name (name.length + 1) fuel
          (entry_offset BS pre.length e.1 + entry_total e.1) := by
  obtain ⟨hn, -⟩ := next_dirent_lay BS dir pre e es hBS hB31 hdir hv hdata hsize
  have hc := cstr_entry_name e hv.1
  simp only [add_dirent_loop, hn, hc, is_live_named, is_reusable]
  have h1 : (entry_dirent e).d_inode_nr = e.2 := rfl
  have h2 : (entry_dirent e).d_name_len = ((e.1.length + 1 : Nat) : Int) := rfl
  rw [h1, h2]
  by_cases ha : 0 ≤ e.2 ∧ e.1 = name
  · simp only [ge_iff_le, ha, and_self, if_true]
  · simp only [ge_iff_le, ha, if_false]
    by_cases hb : e.2 < 0 ∧ e.1.length = name.length
    · have : ¬ (0 ≤ e.2 ∨ ((e.1.length + 1 : Nat) : Int) ≠ ((name.length + 1 : Nat) : Int)) := by
        push_cast; omega
      rw [if_neg this, if_pos hb]
    · have : (0 ≤ e.2 ∨ ((e.1.length + 1 : Nat) : Int) ≠ ((name.length + 1 : Nat) : Int)) := by
        push_cast; omega
      rw [if_pos this, if_neg hb]

/-- The loop passes the entries that are neither a live entry with the name nor
a reusable tombstone. -/
theorem add_loop_skip (BS : Nat) (dir : inode) (name : List Nat)
    (tail : List (List Nat × Int)) (k : Nat) (hBS : 0 < BS) (hB31 : BS < 2147483648)
    (hdir : dir.i_type = inode_type.I_DIR) (hsize : dir.i_size = dir.data.length) :
    ∀ (es1 : List (List Nat × Int)) (pre : List Nat),
    (∀ e ∈ es1, valid_entry BS e ∧ ¬ is_live_named name e ∧ ¬ is_reusable name e) →
    dir.data = pre ++ lay BS pre.length (es1 ++ tail) →
    ∃ pre', pre'.length = pre.length + (lay BS pre.length es1).length ∧
      dir.data = pre' ++ lay BS pre'.length tail ∧
      add_dirent_loop BS dir name (name.length + 1) (es1.length + k) pre.length
        = add_dirent_loop BS dir name (name.length + 1) k pre'.length := by
  intro es1
  induction es1 with
  | nil =>
    intro pre _ hdata
    exact ⟨pre, by simp [lay], by simpa using hdata, by simp⟩
  | cons e es1 ih =>
    intro pre hall hdata
    obtain ⟨hv, hnl, hnr⟩ := hall e (List.mem_cons_self _ _)
    rw [List.cons_append] at hdata
    obtain ⟨-, pre1, hl1, hd1⟩ := next_dirent_lay BS dir pre e (es1 ++ tail) hBS hB31 hdir hv
      hdata hsize
    obtain ⟨pre', hl', hd', hloop⟩ := ih pre1 (fun x hx => hall x (List.mem_cons_of_mem _ hx)) hd1
    refine ⟨pre', ?_, hd', ?_⟩
    · rw [hl', hl1, lay_end_cons BS pre.length e es1 hBS]
    · have hstep := add_loop_step BS dir name pre e (es1 ++ tail) (es1.length + k) hBS hB31
        hdir hv hdata hsize
      rw [if_neg hnl, if_neg hnr] at hstep
      have hf : (e :: es1).length + k = (es1.length + k) + 1 := by
        simp only [List.length_cons]; omega
      rw [hf, hstep, ← hl1, hloop]

/-! ## Writing an entry -/

theorem write_bytes_mid (A X C Y : List Nat) (h : X.length = Y.length) :
    write_bytes (A ++ X ++ C) A.length Y = A ++ Y ++ C := by
  simp only [write_bytes]
  have h1 : A.length - (A ++ X ++ C).length = 0 := by
    simp only [List.length_append]; omega
  rw [h1]
  simp only [zeros, List.replicate_zero, List.append_nil, List.append_assoc]
  rw [List.take_append_of_le_length (le_refl _), List.take_length]
  congr 2
  rw [← h, ← List.append_assoc, ← List.length_append, List.drop_append_of_le_length (le_refl _),
    List.drop_length, List.nil_append]

theorem write_bytes_end (A Y : List Nat) : write_bytes A A.length Y = A ++ Y := by
  simp only [write_bytes, Nat.sub_self, zeros, List.replicate_zero, List.append_nil,
    List.take_length]
  rw [List.drop_of_length_le (by omega)]
  simp

/-- A write that does not fail stores the bytes and extends the size. -/
theorem write_data_nonneg (MAXFS : Nat) (ino : inode) (start : Nat) (buf : List Nat)
    (h : 0 ≤ (testfs_write_data MAXFS ino start buf).1) :
    testfs_write_data MAXFS ino start buf
      = (0, { ino with i_size := max ino.i_size (start + buf.length),
                       data := write_bytes ino.data start buf }) := by
  simp only [testfs_write_data] at h ⊢
  split_ifs at h ⊢ with h1
  · simp only [E2BIG] at h; omega
  · rfl

/-- What a successful `testfs_write_dirent` stores. -/
theorem write_dirent_ok (BS MAXFS : Nat) (dir : inode) (name : List Nat) (nr : Int) (p : Nat)
    (ret : Int) (dir' : inode)
    (h : testfs_write_dirent BS MAXFS dir name (name.length + 1) nr p = some (ret, dir'))
    (hret : 0 ≤ ret) :
    0 ≤ nr ∧ dir'.i_type = dir.i_type ∧
    ((p + entry_total name) / BS > p / BS →
      dir'.data = write_bytes (write_bytes dir.data p (zeros (entry_offset BS p name - p)))
        (entry_offset BS p name) (dirent_bytes nr (name.length + 1) name) ∧
      dir'.i_size = max (max dir.i_size (p + (entry_offset BS p name - p)))
        (entry_offset BS p name + entry_total name)) ∧
    (¬ (p + entry_total name) / BS > p / BS →
      dir'.data = write_bytes dir.data p (dirent_bytes nr (name.length + 1) name) ∧
      dir'.i_size = max dir.i_size (p + entry_total name)) := by
  simp only [testfs_write_dirent] at h
  have hdl := dirent_bytes_length nr name
  have het : sizeof_dirent + (name.length + 1) = entry_total name := rfl
  rw [het] at h
  by_cases h1 : nr < 0
  · simp [h1] at h
  · rw [if_neg h1] at h
    by_cases h2 : (p + entry_total name) / BS > p / BS
    · have hq : entry_offset BS p name = ((p + entry_total name) / BS) * BS := by
        simp only [entry_offset, if_pos h2]
      rw [if_pos h2, ← hq] at h
      refine ⟨by omega, ?_, fun _ => ?_, fun hn => absurd h2 hn⟩
      all_goals
        by_cases h3 : (testfs_write_data MAXFS dir p (zeros (entry_offset BS p name - p))).1 < 0
        · rw [if_pos h3] at h
          simp only [Option.some.injEq, Prod.mk.injEq] at h
          omega
        · rw [if_neg h3] at h
          simp only [Option.some.injEq] at h
          have e1 := write_data_nonneg MAXFS dir p (zeros (entry_offset BS p name - p))
            (by omega)
          rw [e1] at h
          have e2 := write_data_nonneg MAXFS _ (entry_offset BS p name)
            (dirent_bytes nr (name.length + 1) name) (by rw [h]; exact hret)
          rw [e2] at h
          simp only [Prod.mk.injEq] at h
          obtain ⟨-, rfl⟩ := h
          first
            | rfl
            | (refine ⟨rfl, ?_⟩; simp only [zeros_length, hdl])
    · rw [if_neg h2] at h
      simp only [Option.some.injEq] at h
      have e2 := write_data_nonneg MAXFS dir p (dirent_bytes nr (name.length + 1) name)
        (by rw [h]; exact hret)
      rw [e2] at h
      simp only [Prod.mk.injEq] at h
      obtain ⟨-, rfl⟩ := h
      refine ⟨by omega, rfl, fun hc => absurd hc h2, fun _ => ⟨rfl, ?_⟩⟩
      simp only [hdl]

/-! ## `testfs_add_dirent` on a well-formed directory -/

theorem entry_offset_congr (BS p : Nat) (a b : List Nat) (h : a.length = b.length) :
    entry_offset BS p a = entry_offset BS p b := by
  simp only [entry_offset, entry_total, h]

theorem entry_total_congr (a b : List Nat) (h : a.length = b.length) :
    entry_total a = entry_total b := by
  simp only [entry_total, h]

/-- The loop of `testfs_add_dirent` ends at the size of a well-formed directory
that has neither a live entry with the name nor a reusable tombstone. -/
theorem add_loop_to_end (BS : Nat) (dir : inode) (es : List (List Nat × Int)) (name : List Nat)
    (hBS : 0 < BS) (hB31 : BS < 2147483648) (hwf : wf_dir BS dir es)
    (hpass : ∀ e ∈ es, ¬ is_live_named name e ∧ ¬ is_reusable name e) :
    add_dirent_loop BS dir name (name.length + 1) (dir.i_size + 1) 0
      = some (0, false, dir.i_size) := by
  obtain ⟨hdir, hdata, hsize, hv⟩ := hwf
  have hlen := lay_length_ge BS es 0
  obtain ⟨k, hk⟩ : ∃ k, dir.i_size + 1 = es.length + (k + 1) :=
    ⟨dir.i_size - es.length, by rw [hsize, hdata]; omega⟩
  obtain ⟨pre', hl', hd', hloop⟩ := add_loop_skip BS dir name [] (k + 1) hBS hB31 hdir hsize es []
    (fun e he => ⟨hv e he, hpass e he⟩) (by simpa using hdata)
  have hend : pre'.length = dir.i_size := by
    rw [hl', hsize, hdata]; simp
  rw [hk]
  simp only [List.length_nil] at hloop
  rw [hloop, hend]
  simp only [add_dirent_loop, next_dirent_at_end BS dir dir.i_size hdir (le_refl _)]

/-- The loop of `testfs_add_dirent` stops before the first reusable tombstone
when no live entry with the name precedes it. -/
theorem add_loop_to_tombstone (BS : Nat) (dir : inode) (es1 es2 : List (List Nat × Int))
    (t : List Nat × Int) (name : List Nat)
    (hBS : 0 < BS) (hB31 : BS < 2147483648) (hwf : wf_dir BS dir (es1 ++ t :: es2))
    (hpass : ∀ e ∈ es1, ¬ is_live_named name e ∧ ¬ is_reusable name e)
    (ht : is_reusable name t) :
    add_dirent_loop BS dir name (name.length + 1) (dir.i_size + 1) 0
      = some (0, true, (lay BS 0 es1).length) := by
  obtain ⟨hdir, hdata, hsize, hv⟩ := hwf
  have hlen := lay_length_ge BS (es1 ++ t :: es2) 0
  obtain ⟨k, hk⟩ : ∃ k, dir.i_size + 1 = es1.length + (k + 1) :=
    ⟨dir.i_size - es1.length, by
      rw [hsize, hdata]; simp only [List.length_append, List.length_cons] at hlen; omega⟩
  obtain ⟨pre', hl', hd', hloop⟩ := add_loop_skip BS dir name (t :: es2) (k + 1) hBS hB31 hdir
    hsize es1 []
    (fun e he => ⟨hv e (List.mem_append_left _ he), hpass e he⟩) (by simpa using hdata)
  simp only [List.length_nil, Nat.zero_add] at hloop hl'
  have hstep := add_loop_step BS dir name pre' t es2 k hBS hB31 hdir
    (hv t (List.mem_append_right _ (List.mem_cons_self _ _))) hd' hsize
  have hnl : ¬ is_live_named name t := by
    intro h; have := ht.1; have := h.1; omega
  rw [if_neg hnl, if_pos ht] at hstep
  rw [hk, hloop, hstep, hl']

/-- Appending: without a live entry with the name and without a reusable
tombstone, a successful `testfs_add_dirent` appends the layout of the new
entry, padding included, to the data of a well-formed directory. -/
theorem add_dirent_wf_append (BS MAXFS : Nat) (dir : inode) (es : List (List Nat × Int))
    (name : List Nat) (nr : Int) (ret : Int) (dir' : inode)
    (hBS : 0 < BS) (hB31 : BS < 2147483648) (hwf : wf_dir BS dir es)
    (hpass : ∀ e ∈ es, ¬ is_live_named name e ∧ ¬ is_reusable name e)
    (hres : testfs_add_dirent BS MAXFS dir name nr = some (ret, dir')) (hret : 0 ≤ ret) :
    0 ≤ nr ∧ dir'.i_type = inode_type.I_DIR ∧
    dir'.data = dir.data ++ lay BS dir.i_size [(name, nr)] ∧
    dir'.i_size = dir'.data.length := by
  have hloop := add_loop_to_end BS dir es name hBS hB31 hwf hpass
  obtain ⟨hdir, hdata, hsize, hv⟩ := hwf
  simp only [testfs_add_dirent, hdir, ne_eq, not_true_eq_false, if_false, hloop,
    lt_self_iff_false, Bool.false_eq_true, false_or, not_true_eq_false] at hres
  obtain ⟨hnr, hty, hc, hnc⟩ := write_dirent_ok BS MAXFS dir name nr dir.i_size ret dir' hres hret
  have hge := entry_offset_ge BS dir.i_size name hBS
  have hlay : lay BS dir.i_size [(name, nr)]
      = zeros (entry_offset BS dir.i_size name - dir.i_size)
        ++ dirent_bytes nr (name.length + 1) name := by
    rw [lay_cons]; simp [lay]
  refine ⟨hnr, hty.trans hdir, ?_⟩
  by_cases hcross : (dir.i_size + entry_total name) / BS > dir.i_size / BS
  · obtain ⟨hd, hs⟩ := hc hcross
    have e1 : write_bytes dir.data dir.i_size (zeros (entry_offset BS dir.i_size name - dir.i_size))
        = dir.data ++ zeros (entry_offset BS dir.i_size name - dir.i_size) := by
      rw [hsize]; exact write_bytes_end _ _
    have e2 : (dir.data ++ zeros (entry_offset BS dir.i_size name - dir.i_size)).length
        = entry_offset BS dir.i_size name := by
      simp only [List.length_append, zeros_length]; omega
    have hd' : dir'.data = dir.data ++ zeros (entry_offset BS dir.i_size name - dir.i_size)
        ++ dirent_bytes nr (name.length + 1) name := by
      rw [hd, e1]
      have := write_bytes_end (dir.data ++ zeros (entry_offset BS dir.i_size name - dir.i_size))
        (dirent_bytes nr (name.length + 1) name)
      rw [e2] at this
      exact this
    refine ⟨by rw [hd', hlay, List.append_assoc], ?_⟩
    rw [hs, hd']
    simp only [List.length_append, zeros_length, dirent_bytes_length]
    omega
  · obtain ⟨hd, hs⟩ := hnc hcross
    have hq : entry_offset BS dir.i_size name = dir.i_size := by
      simp only [entry_offset, if_neg hcross]
    have hd' : dir'.data = dir.data ++ dirent_bytes nr (name.length + 1) name := by
      rw [hd, hsize]; exact write_bytes_end _ _
    refine ⟨?_, ?_⟩
    · rw [hd', hlay, hq, Nat.sub_self]; rfl
    · rw [hs, hd']
      simp only [List.length_append, dirent_bytes_length]
      omega

/-- Reuse: when a reusable tombstone `t` comes before any live entry with the
name, a successful `testfs_add_dirent` replaces `t` by the new entry in the
layout of a well-formed directory, and the size is unchanged. -/
theorem add_dirent_wf_reuse (BS MAXFS : Nat) (dir : inode) (es1 es2 : List (List Nat × Int))
    (t : List Nat × Int) (name : List Nat) (nr : Int) (ret : Int) (dir' : inode)
    (hBS : 0 < BS) (hB31 : BS < 2147483648) (hwf : wf_dir BS dir (es1 ++ t :: es2))
    (hpass : ∀ e ∈ es1, ¬ is_live_named name e ∧ ¬ is_reusable name e)
    (ht : is_reusable name t)
    (hres : testfs_add_dirent BS MAXFS dir name nr = some (ret, dir')) (hret : 0 ≤ ret) :
    0 ≤ nr ∧ dir'.i_type = inode_type.I_DIR ∧
    dir'.data = lay BS 0 (es1 ++ (name, nr) :: es2) ∧ dir'.i_size = dir.i_size ∧
    dir'.data = write_bytes dir.data (entry_offset BS (lay BS 0 es1).length t.1)
      (dirent_bytes nr (name.length + 1) name) := by
  have hloop := add_loop_to_tombstone BS dir es1 es2 t name hBS hB31 hwf hpass ht
  obtain ⟨hdir, hdata, hsize, hv⟩ := hwf
  simp only [testfs_add_dirent, hdir, ne_eq, not_true_eq_false, if_false, hloop,
    lt_self_iff_false, true_or, not_true_eq_false] at hres
  obtain ⟨hnr, hty, hc, hnc⟩ := write_dirent_ok BS MAXFS dir name nr _ ret dir' hres hret
  have hge := entry_offset_ge BS (lay BS 0 es1).length name hBS
  have hqt : entry_offset BS (lay BS 0 es1).length t.1
      = entry_offset BS (lay BS 0 es1).length name := entry_offset_congr _ _ _ _ ht.2
  have htt : entry_total t.1 = entry_total name := entry_total_congr _ _ ht.2
  have hold : dir.data = lay BS 0 es1
      ++ zeros (entry_offset BS (lay BS 0 es1).length name - (lay BS 0 es1).length)
      ++ dirent_bytes t.2 (t.1.length + 1) t.1
      ++ lay BS (entry_offset BS (lay BS 0 es1).length name + entry_total name) es2 := by
    rw [hdata, lay_append BS hBS, Nat.zero_add, lay_cons, hqt, htt]
    simp only [List.append_assoc]
  have hnew : lay BS 0 (es1 ++ (name, nr) :: es2) = lay BS 0 es1
      ++ zeros (entry_offset BS (lay BS 0 es1).length name - (lay BS 0 es1).length)
      ++ dirent_bytes nr (name.length + 1) name
      ++ lay BS (entry_offset BS (lay BS 0 es1).length name + entry_total name) es2 := by
    rw [lay_append BS hBS, Nat.zero_add, lay_cons]
    simp only [List.append_assoc]
  have hbl : (dirent_bytes t.2 (t.1.length + 1) t.1).length
      = (dirent_bytes nr (name.length + 1) name).length := by
    rw [dirent_bytes_length, dirent_bytes_length, htt]
  have hql : (lay BS 0 es1
      ++ zeros (entry_offset BS (lay BS 0 es1).length name - (lay BS 0 es1).length)).length
      = entry_offset BS (lay BS 0 es1).length name := by
    simp only [List.length_append, zeros_length]; omega
  have hw2 : write_bytes dir.data (entry_offset BS (lay BS 0 es1).length name)
      (dirent_bytes nr (name.length + 1) name) = lay BS 0 (es1 ++ (name, nr) :: es2) := by
    rw [hnew, hold]
    have := write_bytes_mid (lay BS 0 es1
      ++ zeros (entry_offset BS (lay BS 0 es1).length name - (lay BS 0 es1).length))
      (dirent_bytes t.2 (t.1.length + 1) t.1)
      (lay BS (entry_offset BS (lay BS 0 es1).length name + entry_total name) es2)
      (dirent_bytes nr (name.length + 1) name) hbl
    rw [hql] at this
    exact this
  have hsz : entry_offset BS (lay BS 0 es1).length name + entry_total name ≤ dir.i_size := by
    rw [hsize, hold]
    simp only [List.length_append, zeros_length, dirent_bytes_length, htt]
    omega
  refine ⟨hnr, hty.trans hdir, ?_⟩
  by_cases hcross : ((lay BS 0 es1).length + entry_total name) / BS > (lay BS 0 es1).length / BS
  · obtain ⟨hd, hs⟩ := hc hcross
    have e1 : write_bytes dir.data (lay BS 0 es1).length
        (zeros (entry_offset BS (lay BS 0 es1).length name - (lay BS 0 es1).length))
        = dir.data := by
      conv => lhs; rw [hold]
      have := write_bytes_mid (lay BS 0 es1)
        (zeros (entry_offset BS (lay BS 0 es1).length name - (lay BS 0 es1).length))
        (dirent_bytes t.2 (t.1.length + 1) t.1
          ++ lay BS (entry_offset BS (lay BS 0 es1).length name + entry_total name) es2)
        (zeros (entry_offset BS (lay BS 0 es1).length name - (lay BS 0 es1).length)) rfl
      simp only [List.append_assoc] at this ⊢
      rw [this, hold]
      simp only [List.append_assoc]
    rw [e1] at hd
    refine ⟨hd.trans hw2, ?_, by rw [hqt]; exact hd⟩
    rw [hs]
    omega
  · obtain ⟨hd, hs⟩ := hnc hcross
    have hq : entry_offset BS (lay BS 0 es1).length name = (lay BS 0 es1).length := by
      simp only [entry_offset, if_neg hcross]
    rw [hq] at hw2 hsz
    refine ⟨hd.trans hw2, ?_, by rw [hqt, hq]; exact hd⟩
    rw [hs]
    omega

/-! ## Adding entries to an empty directory and reading them back -/

theorem next_dirent_all_lay (BS : Nat) (dir : inode) (hBS : 0 < BS) (hB31 : BS < 2147483648)
    (hdir : dir.i_type = inode_type.I_DIR) (hsize : dir.i_size = dir.data.length) :
    ∀ (es : List (List Nat × Int)) (pre : List Nat) (fuel : Nat),
    (∀ e ∈ es, valid_entry BS e) → dir.data = pre ++ lay BS pre.length es → es.length < fuel →
    next_dirent_all BS dir fuel pre.length = some (es.map entry_dirent) := by
  intro es
  induction es with
  | nil =>
    intro pre fuel _ hdata hf
    obtain ⟨fuel, rfl⟩ := Nat.exists_eq_succ_of_ne_zero (by omega : fuel ≠ 0)
    have hend : dir.i_size ≤ pre.length := by
      rw [hsize, hdata]; simp [lay]
    simp [next_dirent_all, next_dirent_at_end BS dir pre.length hdir hend]
  | cons e es ih =>
    intro pre fuel hv hdata hf
    obtain ⟨fuel, rfl⟩ := Nat.exists_eq_succ_of_ne_zero (by omega : fuel ≠ 0)
    obtain ⟨hn, pre', hl, hd'⟩ := next_dirent_lay BS dir pre e es hBS hB31 hdir
      (hv e (List.mem_cons_self _ _)) hdata hsize
    have := ih pre' fuel (fun x hx => hv x (List.mem_cons_of_mem _ hx)) hd'
      (by simp only [List.length_cons] at hf; omega)
    rw [hl] at this
    simp only [next_dirent_all, hn, this, List.map_cons, Option.map_some']

/-- Successive calls of `testfs_next_dirent` on a well-formed directory return
its entries in order and then NULL. -/
theorem next_dirent_all_wf (BS : Nat) (dir : inode) (es : List (List Nat × Int)) (hBS : 0 < BS)
    (hB31 : BS < 2147483648) (hwf : wf_dir BS dir es) :
    next_dirent_all BS dir (dir.i_size + 1) 0 = some (es.map entry_dirent) := by
  obtain ⟨hdir, hdata, hsize, hv⟩ := hwf
  have hlen := lay_length_ge BS es 0
  exact next_dirent_all_lay BS dir hBS hB31 hdir hsize es [] (dir.i_size + 1) hv
    (by simpa using hdata) (by rw [hsize, hdata]; omega)

/-- Adding entries with new names to a well-formed directory without
tombstones keeps it well-formed and appends the entries in order. -/
theorem add_dirents_wf (BS MAXFS : Nat) (hBS : 0 < BS) (hB31 : BS < 2147483648) :
    ∀ (es es0 : List (List Nat × Int)) (dir0 dir : inode),
    wf_dir BS dir0 es0 → (∀ e ∈ es0, 0 ≤ e.2) →
    ((es0 ++ es).map Prod.fst).Nodup →
    (∀ e ∈ es, is_cstring e.1 ∧ e.2 < 2147483648 ∧ entry_total e.1 ≤ BS) →
    add_dirents BS MAXFS dir0 es = some dir →
    wf_dir BS dir (es0 ++ es) ∧ ∀ e ∈ es0 ++ es, 0 ≤ e.2 := by
  intro es
  induction es with
  | nil =>
    intro es0 dir0 dir hwf hlive _ _ hadd
    simp only [add_dirents, Option.some.injEq] at hadd
    subst hadd
    rw [List.append_nil]
    exact ⟨hwf, hlive⟩
  | cons e es ih =>
    intro es0 dir0 dir hwf hlive hnd hv hadd
    simp only [add_dirents] at hadd
    split at hadd
    · simp at hadd
    · rename_i ret dir1 hres
      split_ifs at hadd with hneg
      have hret : 0 ≤ ret := by omega
      have hpass : ∀ x ∈ es0, ¬ is_live_named e.1 x ∧ ¬ is_reusable e.1 x := by
        intro x hx
        refine ⟨fun h => ?_, fun h => ?_⟩
        · have hmem : x.1 ∈ es0.map Prod.fst := List.mem_map_of_mem _ hx
          rw [List.map_append, List.map_cons] at hnd
          have hmem2 : x.1 ∈ e.1 :: es.map Prod.fst := by
            rw [h.2]; exact List.mem_cons_self _ _
          exact (List.nodup_append.mp hnd).2.2 hmem hmem2
        · have := hlive x hx
          have := h.1
          omega
      obtain ⟨hnr, hty, hdata1, hsize1⟩ := add_dirent_wf_append BS MAXFS dir0 es0 e.1 e.2 ret dir1
        hBS hB31 hwf hpass hres hret
      obtain ⟨hdir0, hdata0, hsize0, hv0⟩ := hwf
      have hve := hv e (List.mem_cons_self _ _)
      have hwf1 : wf_dir BS dir1 (es0 ++ [e]) := by
        refine ⟨hty, ?_, hsize1, ?_⟩
        · rw [hdata1, lay_append BS hBS, Nat.zero_add, hdata0, hsize0, hdata0]
        · intro x hx
          rcases List.mem_append.mp hx with hx | hx
          · exact hv0 x hx
          · rw [List.mem_singleton] at hx
            subst hx
            exact ⟨hve.1, by omega, hve.2.1, hve.2.2⟩
      have hlive1 : ∀ x ∈ es0 ++ [e], 0 ≤ x.2 := by
        intro x hx
        rcases List.mem_append.mp hx with hx | hx
        · exact hlive x hx
        · rw [List.mem_singleton] at hx
          subst hx
          exact hnr
      have := ih (es0 ++ [e]) dir1 dir hwf1 hlive1 (by simpa using hnd)
        (fun x hx => hv x (List.mem_cons_of_mem _ hx)) hadd
      rw [List.append_assoc, List.singleton_append] at this
      exact this

/-- C2: starting from an empty directory, after `testfs_add_dirent` has
succeeded for the pairwise distinct names `n1..nk` (C strings) with the inode
numbers `i1..ik` (C `int`s), each entry of at most `BLOCK_SIZE` bytes, the
successive calls of `testfs_next_dirent` from offset 0 return exactly the
entries `(n1,i1),...,(nk,ik)` in insertion order, each with
`d_name_len = strlen(n)+1`, and then NULL. -/
theorem add_then_iterate (BS MAXFS : Nat) (es : List (List Nat × Int)) (dir : inode)
    (hB31 : BS < 2147483648)
    (hv : ∀ e ∈ es, is_cstring e.1 ∧ e.2 < 2147483648 ∧ entry_total e.1 ≤ BS)
    (hnd : (es.map Prod.fst).Nodup)
    (hadd : add_dirents BS MAXFS empty_dir es = some dir) :
    next_dirent_all BS dir (dir.i_size + 1) 0
      = some (es.map (fun e => ⟨e.2, ((e.1.length + 1 : Nat) : Int), e.1 ++ [0]⟩)) := by
  cases es with
  | nil =>
    simp only [add_dirents, Option.some.injEq] at hadd
    subst hadd
    simp [next_dirent_all, testfs_next_dirent, empty_dir]
  | cons e es =>
    have hBS : 0 < BS := by
      have := (hv e (List.mem_cons_self _ _)).2.2
      simp only [entry_total, sizeof_dirent] at this
      omega
    have hwf0 : wf_dir BS empty_dir [] := ⟨rfl, rfl, rfl, by simp⟩
    obtain ⟨hwf, -⟩ := add_dirents_wf BS MAXFS hBS hB31 (e :: es) [] empty_dir dir hwf0
      (by simp) (by simpa using hnd) hv hadd
    rw [List.nil_append] at hwf
    exact next_dirent_all_wf BS dir (e :: es) hBS hB31 hwf

/-- Witness of C2: the entries `.`, `..`, `a` and `f` of the sample root. -/
theorem add_then_iterate_witness :
    256 < 2147483648 ∧
    (∀ e ∈ [([46], (0 : Int)), ([46, 46], 0), ([97], 1), ([102], 2)],
      is_cstring e.1 ∧ e.2 < 2147483648 ∧ entry_total e.1 ≤ 256) ∧
    ([([46], (0 : Int)), ([46, 46], 0), ([97], 1), ([102], 2)].map Prod.fst).Nodup ∧
    add_dirents 256 65536 empty_dir [([46], 0), ([46, 46], 0), ([97], 1), ([102], 2)]
      = some sample_root ∧
    next_dirent_all 256 sample_root (sample_root.i_size + 1) 0
      = some [⟨0, 2, [46, 0]⟩, ⟨0, 3, [46, 46, 0]⟩, ⟨1, 2, [97, 0]⟩, ⟨2, 2, [102, 0]⟩] :=
  ⟨by decide, by decide, by decide, by decide,
    add_then_iterate 256 65536 [([46], 0), ([46, 46], 0), ([97], 1), ([102], 2)] sample_root
      (by decide) (by decide) (by decide) (by decide)⟩

/-- C7 (amended): let `dir` be a well-formed directory (its data is the layout
of its entries `es`, live ones and tombstones) with no live entry named
`name`, where `name` fits in a block with its header, and let
`testfs_add_dirent` succeed.  If some tombstone has `d_name_len` equal to
`strlen(name)+1`, the new entry is written at the offset of the first such
tombstone `t`, in its place in the layout, and the size of the directory is
unchanged.  Otherwise the new entry is appended at the end of the directory,
after zero padding to the start of the next block when the straddle test of
`testfs_write_dirent` fires, and the existing data is unchanged. -/
theorem add_dirent_reuses_or_appends (BS MAXFS : Nat) (dir : inode)
    (es : List (List Nat × Int)) (name : List Nat) (nr : Int) (ret : Int) (dir' : inode)
    (hBS : 0 < BS) (hB31 : BS < 2147483648) (hwf : wf_dir BS dir es)
    (hname : is_cstring name) (hfit : entry_total name ≤ BS) (hnr : nr < 2147483648)
    (hnolive : ∀ e ∈ es, ¬ is_live_named name e)
    (hres : testfs_add_dirent BS MAXFS dir name nr = some (ret, dir')) (hret : 0 ≤ ret) :
    (∀ es1 t es2, es = es1 ++ t :: es2 → is_reusable name t →
      (∀ e ∈ es1, ¬ is_reusable name e) →
      wf_dir BS dir' (es1 ++ (name, nr) :: es2) ∧ dir'.i_size = dir.i_size ∧
      dir'.data = write_bytes dir.data (entry_offset BS (lay BS 0 es1).length t.1)
        (dirent_bytes nr (name.length + 1) name)) ∧
    ((∀ e ∈ es, ¬ is_reusable name e) →
      wf_dir BS dir' (es ++ [(name, nr)]) ∧
      dir'.data = dir.data ++ zeros (entry_offset BS dir.i_size name - dir.i_size)
        ++ dirent_bytes nr (name.length + 1) name ∧
      entry_offset BS dir.i_size name
        = (if (dir.i_size + entry_total name) / BS > dir.i_size / BS
            then (dir.i_size / BS + 1) * BS else dir.i_size)) := by
  constructor
  · intro es1 t es2 hes ht hes1
    subst hes
    obtain ⟨h0, hty, hdata, hsize, hw⟩ := add_dirent_wf_reuse BS MAXFS dir es1 es2 t name nr ret
      dir' hBS hB31 hwf
      (fun e he => ⟨hnolive e (List.mem_append_left _ he), hes1 e he⟩) ht hres hret
    obtain ⟨hdir, hdata0, hsize0, hv⟩ := hwf
    refine ⟨⟨hty, hdata, ?_, ?_⟩, hsize, hw⟩
    · rw [hsize, hsize0, hdata, hdata0, lay_append BS hBS, lay_append BS hBS, lay_cons, lay_cons]
      simp only [List.length_append, zeros_length, dirent_bytes_length,
        entry_offset_congr BS _ _ _ ht.2, entry_total_congr _ _ ht.2]
    · intro x hx
      rcases List.mem_append.mp hx with hx | hx
      · exact hv x (List.mem_append_left _ hx)
      · rcases List.mem_cons.mp hx with hx | hx
        · subst hx
          exact ⟨hname, by omega, hnr, hfit⟩
        · exact hv x (List.mem_append_right _ (List.mem_cons_of_mem _ hx))
  · intro hnone
    obtain ⟨h0, hty, hdata, hsize⟩ := add_dirent_wf_append BS MAXFS dir es name nr ret dir'
      hBS hB31 hwf (fun e he => ⟨hnolive e he, hnone e he⟩) hres hret
    obtain ⟨hdir, hdata0, hsize0, hv⟩ := hwf
    have hlay : lay BS dir.i_size [(name, nr)]
        = zeros (entry_offset BS dir.i_size name - dir.i_size)
          ++ dirent_bytes nr (name.length + 1) name := by
      rw [lay_cons]; simp [lay]
    refine ⟨⟨hty, ?_, hsize, ?_⟩, by rw [hdata, hlay, List.append_assoc], ?_⟩
    · rw [hdata, lay_append BS hBS, Nat.zero_add, hdata0, hsize0, hdata0]
    · intro x hx
      rcases List.mem_append.mp hx with hx | hx
      · exact hv x hx
      · rw [List.mem_singleton] at hx
        subst hx
        exact ⟨hname, by omega, hnr, hfit⟩
    · simp only [entry_offset]
      split_ifs with hc
      · rw [cross_next BS _ _ hBS hfit hc]
      · rfl

/-- Witness of C7: the entry `xy` (inode 5) takes the place of the tombstone
of a directory that holds the tombstone and the live entry `cd`. -/
theorem add_dirent_reuses_or_appends_witness :
    0 < 256 ∧ 256 < 2147483648 ∧
    wf_dir 256 tombstone_dir [([97, 98], -1), ([99, 100], 2)] ∧
    is_cstring [120, 121] ∧ entry_total [120, 121] ≤ 256 ∧ (5 : Int) < 2147483648 ∧
    (∀ e ∈ [([97, 98], (-1 : Int)), ([99, 100], 2)], ¬ is_live_named [120, 121] e) ∧
    testfs_add_dirent 256 65536 tombstone_dir [120, 121] 5
      = some (0, ⟨inode_type.I_DIR, 22, lay 256 0 [([120, 121], 5), ([99, 100], 2)]⟩) ∧
    wf_dir 256 ⟨inode_type.I_DIR, 22, lay 256 0 [([120, 121], 5), ([99, 100], 2)]⟩
      ([] ++ ([120, 121], 5) :: [([99, 100], 2)]) ∧
    (⟨inode_type.I_DIR, 22, lay 256 0 [([120, 121], 5), ([99, 100], 2)]⟩ : inode).i_size
      = tombstone_dir.i_size :=
  have hwf : wf_dir 256 tombstone_dir [([97, 98], -1), ([99, 100], 2)] :=
    ⟨rfl, rfl, by decide, by decide⟩
  have h := (add_dirent_reuses_or_appends 256 65536 tombstone_dir
    [([97, 98], -1), ([99, 100], 2)] [120, 121] 5 0
    ⟨inode_type.I_DIR, 22, lay 256 0 [([120, 121], 5), ([99, 100], 2)]⟩
    (by decide) (by decide) hwf (by decide) (by decide) (by decide) (by decide) (by decide)
    (by decide)).1 [] ([97, 98], -1) [([99, 100], 2)] rfl (by decide) (by decide)
  ⟨by decide, by decide, hwf, by decide, by decide, by decide, by decide, by decide, h.1, h.2.1⟩

set_option maxRecDepth 1000000 in
/-- C7 as stated fails for a name that does not fit in a block: with blocks of
256 bytes, adding a name of 591 characters (an entry of 600 bytes) to the empty
directory succeeds, pads up to offset 512, which is not the start of the next
block, and stores the entry at 512, across two block boundaries
(`testfs_next_dirent` then returns an entry without name at offset 256 before
the new one).  It also fails on `gap_dir`, whose reusable tombstone at offset
256 follows padding that no entry needed: the new entry `x` is written at
offset 10, where the padding starts, and the tombstone stays. -/
theorem add_dirent_long_name_skips_a_block :
    wf_dir 256 empty_dir [] ∧
    (testfs_add_dirent 256 65536 empty_dir (List.replicate 591 97) 7).map
      (fun r => (r.1, r.2.i_size, r.2.data.take 512)) = some (0, 1112, zeros 512) ∧
    (testfs_add_dirent 256 65536 empty_dir (List.replicate 591 97) 7).map
      (fun r => (dirents_from 256 r.2 3 0).map (fun x => (x.1, x.2.d_inode_nr, x.2.d_name_len)))
      = some [(256, 0, 0), (512, 7, 592)] ∧
    (0 / 256 + 1) * 256 ≠ 512 ∧
    dirents_from 256 gap_dir (gap_dir.i_size + 1) 0
      = [(0, ⟨1, 2, [97, 0]⟩), (256, ⟨-1, 2, [98, 0]⟩)] ∧
    (testfs_add_dirent 256 65536 gap_dir [120] 5).map
      (fun r => (r.1, r.2.i_size, dirents_from 256 r.2 (r.2.i_size + 1) 0))
      = some (0, 266, [(0, ⟨1, 2, [97, 0]⟩), (10, ⟨5, 2, [120, 0]⟩), (256, ⟨-1, 2, [98, 0]⟩)]) := by
  refine ⟨⟨rfl, rfl, rfl, by simp⟩, ?_, ?_, by decide, ?_, ?_⟩ <;> decide

/-! ## Defects of `testfs_add_dirent` and `testfs_remove_dirent` -/

set_option maxRecDepth 1000000 in
/-- C8 fails on the code: in the root of `padded_sb` the entry of the second
file is stored at offset 256, after zero padding from offset 209 on.
Removing it succeeds and returns its inode number 2, but the tombstone is
written at offset 209, where the scan stood before the call of
`testfs_next_dirent`: the padding byte at 209 changes from 0 to 255, and the
`d_inode_nr` field of the entry itself, at offset 256, does not become -1, it
is overwritten by bytes of the name. -/
theorem remove_dirent_writes_into_padding :
    (dirents_from 256 (padded_sb.inodes 0) 3 0).map (fun x => (x.1, x.2.d_inode_nr))
      = [(0, 1), (256, 2)] ∧
    (padded_sb.inodes 0).data.getD 209 0 = 0 ∧
    (testfs_remove_dirent 256 65536 padded_sb 0 (List.replicate 50 98)).map
      (fun r => (r.1, (r.2.inodes 0).i_size, (r.2.inodes 0).data.getD 209 0,
        bytes_int ((r.2.inodes 0).data.drop 256)))
      = some (2, 315, 255, 1650614882) := by
  decide

set_option maxRecDepth 1000000 in
/-- C9 fails on the code: two `testfs_add_dirent` calls on the empty directory
(names of 200 and of 50 characters, blocks of 256 bytes) followed by
`testfs_remove_dirent` of the second name leave a tombstone of 59 bytes at
offset 209, which straddles the block boundary at 256. -/
theorem remove_dirent_leaves_straddling_entry :
    add_dirents 256 65536 empty_dir [(List.replicate 200 97, 1), (List.replicate 50 98, 2)]
      = some (padded_sb.inodes 0) ∧
    (testfs_remove_dirent 256 65536 padded_sb 0 (List.replicate 50 98)).map
      (fun r => (r.1, (dirents_from 256 (r.2.inodes 0) 2 0).map
        (fun x => (x.1, x.2.d_inode_nr, x.2.d_name_len))))
      = some (2, [(0, 1, 201), (209, -1, 51)]) ∧
    209 / 256 ≠ (209 + (sizeof_dirent + 51) - 1) / 256 := by
  decide

/-! ## The fuel of the loops is enough

On a directory every loop over `testfs_next_dirent` ends before its fuel runs
out: an entry moves the offset on by at least the size of the header, and the
loop ends when the offset reaches the size of the directory.  A result `none`
of the functions of the model is therefore a failed assertion. -/

theorem add_dirent_loop_returns (BS : Nat) (dir : inode) (name : List Nat) (len : Nat)
    (hBS : 0 < BS) (hdir : dir.i_type = inode_type.I_DIR) : ∀ (fuel offset : Nat),
    dir.i_size - offset + 8 ≤ 8 * fuel →
    (add_dirent_loop BS dir name len fuel offset).isSome = true := by
  intro fuel
  induction fuel with
  | zero => intro offset h; omega
  | succ fuel ih =>
    intro offset h
    simp only [add_dirent_loop]
    cases hn : testfs_next_dirent BS dir offset with
    | none => exact absurd hn (next_dirent_ne_none BS dir offset hdir)
    | some x =>
      obtain ⟨od, o'⟩ := x
      cases od with
      | none => rfl
      | some d =>
        obtain ⟨p1, p2⟩ := next_dirent_progress BS dir offset d o' hBS hn
        simp only [sizeof_dirent] at p2
        simp only
        split_ifs
        · rfl
        · exact ih o' (by omega)
        · rfl

theorem remove_allowed_loop_returns (BS : Nat) (dir : inode)
    (hBS : 0 < BS) (hdir : dir.i_type = inode_type.I_DIR) : ∀ (fuel offset : Nat),
    dir.i_size - offset + 8 ≤ 8 * fuel →
    (remove_allowed_loop BS dir fuel offset).isSome = true := by
  intro fuel
  induction fuel with
  | zero => intro offset h; omega
  | succ fuel ih =>
    intro offset h
    simp only [remove_allowed_loop]
    cases hn : testfs_next_dirent BS dir offset with
    | none => exact absurd hn (next_dirent_ne_none BS dir offset hdir)
    | some x =>
      obtain ⟨od, o'⟩ := x
      cases od with
      | none => rfl
      | some d =>
        obtain ⟨p1, p2⟩ := next_dirent_progress BS dir offset d o' hBS hn
        simp only [sizeof_dirent] at p2
        simp only
        split_ifs
        · exact ih o' (by omega)
        · rfl

/-- `testfs_remove_dirent_allowed` always returns. -/
theorem remove_dirent_allowed_returns (BS : Nat) (sb : super_block) (n : Nat) (hBS : 0 < BS) :
    (testfs_remove_dirent_allowed BS sb n).isSome = true := by
  simp only [testfs_remove_dirent_allowed]
  split_ifs with h
  · rfl
  · have hd : ((testfs_get_inode sb n).inodes n).i_type = inode_type.I_DIR := not_not.mp h
    have := remove_allowed_loop_returns BS _ hBS hd
      (((testfs_get_inode sb n).inodes n).i_size + 1) 0 (by omega)
    obtain ⟨r, hr⟩ := Option.isSome_iff_exists.mp this
    rw [hr]
    rfl

theorem remove_dirent_loop_returns (BS MAXFS : Nat) (sb : super_block) (dir : Nat)
    (name : List Nat) (hBS : 0 < BS) (hdir : (sb.inodes dir).i_type = inode_type.I_DIR) :
    ∀ (fuel offset : Nat), (sb.inodes dir).i_size - offset + 8 ≤ 8 * fuel →
    (remove_dirent_loop BS MAXFS sb dir name fuel offset).isSome = true := by
  intro fuel
  induction fuel with
  | zero => intro offset h; omega
  | succ fuel ih =>
    intro offset h
    simp only [remove_dirent_loop]
    cases hn : testfs_next_dirent BS (sb.inodes dir) offset with
    | none => exact absurd hn (next_dirent_ne_none BS _ offset hdir)
    | some x =>
      obtain ⟨od, o'⟩ := x
      cases od with
      | none => rfl
      | some d =>
        obtain ⟨p1, p2⟩ := next_dirent_progress BS _ offset d o' hBS hn
        simp only [sizeof_dirent] at p2
        simp only
        split_ifs
        · exact ih o' (by omega)
        · obtain ⟨r, hr⟩ := Option.isSome_iff_exists.mp
            (remove_dirent_allowed_returns BS sb d.d_inode_nr.toNat hBS)
          rw [hr]
          obtain ⟨ret, sb1⟩ := r
          simp only
          split_ifs <;> rfl

/-- `testfs_remove_dirent` returns on every directory. -/
theorem remove_dirent_returns (BS MAXFS : Nat) (sb : super_block) (dir : Nat)
    (name : List Nat) (hBS : 0 < BS) (hdir : (sb.inodes dir).i_type = inode_type.I_DIR) :
    (testfs_remove_dirent BS MAXFS sb dir name).isSome = true := by
  simp only [testfs_remove_dirent]
  split_ifs
  · rfl
  · exact remove_dirent_loop_returns BS MAXFS sb dir name hBS hdir _ 0 (by omega)

/-- Path resolution returns when every inode it can reach is a directory: its
fuel, the length of the name plus one, is enough. -/
theorem rec_returns (BS : Nat) (hBS : 0 < BS) : ∀ (fuel : Nat) (sb : super_block) (dir : Nat)
    (name : List Nat), (∀ n, (sb.inodes n).i_type = inode_type.I_DIR) → name.length < fuel →
    (testfs_dir_name_to_inode_nr_rec BS fuel sb dir name).isSome = true := by
  intro fuel
  induction fuel with
  | zero => intro sb dir name _ h; omega
  | succ fuel ih =>
    intro sb dir name hall hlen
    have hr := first_slash_range name 0
    have hdrop1 : first_slash name 0 = 0 → (name.drop 1).length < fuel := by
      intro h3
      have : name ≠ [] := by
        intro e; rw [e] at h3; simp [first_slash] at h3
      have := List.length_pos.mpr this
      simp only [List.length_drop]
      omega
    have hdropk : first_slash name 0 ≠ -1 →
        (name.drop ((first_slash name 0).toNat + 1)).length < fuel := by
      intro h5
      simp only [List.length_drop]
      rcases hr with hr | hr
      · exact absurd hr h5
      · omega
    have hstep : ∀ (a b d : Nat) (nm : List Nat), nm.length < fuel →
        (testfs_dir_name_to_inode_nr_rec BS fuel
          (testfs_put_inode (testfs_get_inode sb a) b) d nm).isSome = true :=
      fun a b d nm h => ih _ _ _ hall h
    rw [testfs_dir_name_to_inode_nr_rec]
    simp only [hall dir, ne_eq, not_true_eq_false, if_false,
      lookup_loop_spec BS (sb.inodes dir) _ hBS (hall dir)]
    repeat' split
    all_goals first
      | rfl
      | exact hstep _ _ _ _ (hdrop1 ‹_›)
      | exact hstep _ _ _ _ (hdropk ‹_›)

/-! ## `cmd_owrite` -/

/-- The bytes in front of the offset of a write are those that a read of the
file returns. -/
theorem take_padded_eq_read (ino : inode) (k : Nat) (hk : k ≤ ino.i_size) :
    (ino.data ++ zeros (k - ino.data.length)).take k = testfs_read_data ino 0 k := by
  simp only [testfs_read_data]
  split_ifs with h
  · have : k = 0 := by omega
    subst this
    simp
  · have hmin : min k (ino.i_size - 0) = k := by omega
    rw [hmin]
    apply List.ext_getElem
    · simp only [List.length_take, List.length_append, zeros, List.length_replicate,
        List.length_map, List.length_range]
      omega
    · intro i h1 h2
      simp only [List.getElem_take, List.getElem_map, List.getElem_range, Nat.zero_add]
      by_cases hi : i < ino.data.length
      · rw [List.getElem_append_left hi]
        simp [List.getD_eq_getElem?_getD, List.getElem?_eq_getElem hi]
      · rw [List.getElem_append_right (by omega)]
        simp [zeros, List.getD_eq_getElem?_getD, List.getElem?_eq_none (by omega : ino.data.length ≤ i)]

/-- The inode that `cmd_owrite` leaves: size and content. -/
theorem owrite_inode (BS MAXFS : Nat) (ino : inode) (k : Nat) (content : List Nat) (hBS : 0 < BS)
    (hk : k ≤ ino.i_size) (hfit : ¬ MAXFS < k + content.length) :
    let ino' := testfs_truncate_data BS (testfs_write_data MAXFS ino k content).2
      (content.length + k)
    ino'.i_type = ino.i_type ∧ ino'.i_size = k + content.length ∧
      testfs_read_data ino' 0 (k + content.length) = testfs_read_data ino 0 k ++ content := by
  have hround : k + content.length ≤ ((content.length + k + BS - 1) / BS) * BS := by
    have h1 := Nat.div_add_mod (content.length + k + BS - 1) BS
    have h2 := Nat.mod_lt (content.length + k + BS - 1) hBS
    have h3 : BS * ((content.length + k + BS - 1) / BS)
        = ((content.length + k + BS - 1) / BS) * BS := Nat.mul_comm _ _
    omega
  have hpre := take_padded_eq_read ino k hk
  have hlen : ((ino.data ++ zeros (k - ino.data.length)).take k).length = k := by
    simp only [List.length_take, List.length_append, zeros, List.length_replicate]
    omega
  intro ino'
  have hdata : ∃ rest, ino'.data
      = [] ++ ((ino.data ++ zeros (k - ino.data.length)).take k ++ content) ++ rest := by
    simp only [ino', testfs_write_data, if_neg hfit, testfs_truncate_data, write_bytes]
    split_ifs with h
    · simp only [List.nil_append]
      rw [List.take_append_eq_append_take,
        List.take_of_length_le (by rw [List.length_append, hlen]; exact hround)]
      exact ⟨_, rfl⟩
    · simp only [List.nil_append]
      exact ⟨_, rfl⟩
  have hsz : ino'.i_size = k + content.length := by
    simp only [ino', testfs_write_data, if_neg hfit, testfs_truncate_data]
    split_ifs <;> simp only <;> omega
  refine ⟨?_, hsz, ?_⟩
  · simp only [ino', testfs_write_data, if_neg hfit, testfs_truncate_data]
    split_ifs <;> rfl
  · obtain ⟨rest, hd⟩ := hdata
    have := read_data_segment ino' [] _ rest hd
      (by simp only [List.length_nil, List.length_append, hlen, hsz]; omega)
    simp only [List.length_nil, List.length_append, hlen] at this
    rw [this, hpre]

/-- C19 (amended): `cmd_owrite` of the content `s` at the offset `k` of a file
of at least `k` bytes returns, with the current directory as before, no
transaction in progress and every other inode unchanged; and when it returns
no error (the write has found its blocks and ends within `MAX_FILE_SIZE`), it
has replaced the bytes from `k` on by `s`, kept the bytes in front of `k`, and
cut the file off at `k + strlen(s)`: the bytes at or beyond `k + strlen(s)` are
no longer part of the file. -/
theorem owrite_replaces_and_truncates (BS MAXFS : Nat) (sb : super_block) (cur : Nat)
    (w filename off content : List Nat) (k f : Nat) (hBS : 0 < BS)
    (htx : sb.tx_in_progress = tx_type.TX_NONE)
    (hoff : strtol off = ((k : Int), []))
    (hres : (testfs_dir_name_to_inode_nr BS sb cur filename).map Prod.fst = some (f : Int))
    (hty : (sb.inodes f).i_type ≠ inode_type.I_DIR)
    (hk : k ≤ (sb.inodes f).i_size) :
    ∃ ret sb' c',
      cmd_owrite BS MAXFS sb ⟨cur, [w, filename, off, content], 4⟩ = some (ret, sb', c') ∧
      c'.cur_dir = cur ∧
      (∀ n, n ≠ f → sb'.inodes n = sb.inodes n) ∧
      sb'.tx_in_progress = tx_type.TX_NONE ∧
      (0 ≤ ret →
        (sb'.inodes f).i_size = k + content.length ∧
        testfs_read_data (sb'.inodes f) 0 (k + content.length)
          = testfs_read_data (sb.inodes f) 0 k ++ content) := by
  cases hr : testfs_dir_name_to_inode_nr BS sb cur filename with
  | none => rw [hr] at hres; simp at hres
  | some r =>
    obtain ⟨inode_nr, sb1, cur1⟩ := r
    rw [hr] at hres
    simp only [Option.map_some', Option.some.injEq] at hres
    subst hres
    obtain ⟨⟨hin, -, -, htx1⟩, hcur⟩ := name_to_inode_nr_frame BS sb cur filename _ _ _ hr
    subst hcur
    have hnd : ¬ (sb1.inodes f).i_type = inode_type.I_DIR := by rw [hin]; exact hty
    by_cases hfit' : MAXFS < k + content.length
    · have hr0 : testfs_write_data MAXFS (sb1.inodes f) k content = (-E2BIG, sb1.inodes f) := by
        simp only [testfs_write_data, if_pos hfit']
      have hcmd : cmd_owrite BS MAXFS sb ⟨cur1, [w, filename, off, content], 4⟩
          = some (-E2BIG, testfs_put_inode { set_inode { testfs_get_inode sb1 f with
                tx_in_progress := tx_type.TX_WRITE } f (sb1.inodes f) with
              tx_in_progress := tx_type.TX_NONE } f,
            ⟨cur1, [w, filename, off, content], 4⟩) := by
        simp only [cmd_owrite, ne_eq, not_true_eq_false, if_false, List.getD_cons_succ,
          List.getD_cons_zero, hoff, hr, show ¬ ((k : Int) < 0) by omega,
          show ¬ ((f : Int) < 0) by omega, Int.toNat_ofNat, testfs_get_inode, hnd,
          testfs_tx_start, htx1, htx, testfs_tx_commit, set_inode, hr0, ge_iff_le,
          show ¬ ((0 : Int) ≤ -E2BIG) by decide, if_true]
      refine ⟨_, _, _, hcmd, rfl, ?_, rfl, fun h => absurd h (by decide)⟩
      intro n hn
      simp only [testfs_put_inode, set_inode, testfs_get_inode, if_neg hn, hin]
    · obtain ⟨k1, k2, k3⟩ := owrite_inode BS MAXFS (sb1.inodes f) k content hBS
        (by rw [hin]; exact hk) hfit'
      have hr0 : (testfs_write_data MAXFS (sb1.inodes f) k content).1 = 0 := by
        simp only [testfs_write_data, if_neg hfit']
      have hcmd : cmd_owrite BS MAXFS sb ⟨cur1, [w, filename, off, content], 4⟩
          = some (0, testfs_put_inode { set_inode { testfs_get_inode sb1 f with
                tx_in_progress := tx_type.TX_WRITE } f
              (testfs_truncate_data BS (testfs_write_data MAXFS (sb1.inodes f) k content).2
                (content.length + k)) with tx_in_progress := tx_type.TX_NONE } f,
            ⟨cur1, [w, filename, off, content], 4⟩) := by
        simp only [cmd_owrite, ne_eq, not_true_eq_false, if_false, List.getD_cons_succ,
          List.getD_cons_zero, hoff, hr, show ¬ ((k : Int) < 0) by omega,
          show ¬ ((f : Int) < 0) by omega, Int.toNat_ofNat, testfs_get_inode, hnd,
          testfs_tx_start, htx1, htx, testfs_tx_commit, set_inode, hr0, ge_iff_le, le_refl,
          if_true]
      refine ⟨_, _, _, hcmd, rfl, ?_, rfl, fun _ => ⟨?_, ?_⟩⟩
      · intro n hn
        simp only [testfs_put_inode, set_inode, testfs_get_inode, if_neg hn, hin]
      · simp only [testfs_put_inode, set_inode, if_true]; exact k2
      · simp only [testfs_put_inode, set_inode, if_true]; rw [← hin]; exact k3

set_option maxRecDepth 1000000 in
/-- Witness of C19 (amended): `owrite f 2 XX` in the root of the sample
volume, where `f` holds `hello`; the call returns 0, and the file then holds
the 4 bytes `heXX`. -/
theorem owrite_replaces_and_truncates_witness :
    (cmd_owrite 256 65536 sample_sb
        ⟨0, [[111, 119, 114, 105, 116, 101], [102], [50], [88, 88]], 4⟩).map
      (fun r => (r.1, (r.2.1.inodes 2).i_size,
        testfs_read_data (r.2.1.inodes 2) 0 4)) = some (0, 4, [104, 101, 88, 88]) ∧
    ∃ ret sb' c', cmd_owrite 256 65536 sample_sb
        ⟨0, [[111, 119, 114, 105, 116, 101], [102], [50], [88, 88]], 4⟩ = some (ret, sb', c') ∧
      c'.cur_dir = 0 ∧
      (∀ n, n ≠ 2 → sb'.inodes n = sample_sb.inodes n) ∧
      sb'.tx_in_progress = tx_type.TX_NONE ∧
      (0 ≤ ret →
        (sb'.inodes 2).i_size = 2 + [88, 88].length ∧
        testfs_read_data (sb'.inodes 2) 0 (2 + [88, 88].length)
          = testfs_read_data (sample_sb.inodes 2) 0 2 ++ [88, 88]) :=
  ⟨by decide,
    owrite_replaces_and_truncates 256 65536 sample_sb 0 [111, 119, 114, 105, 116, 101] [102] [50]
      [88, 88] 2 2 (by decide) (by decide) (by decide) (by decide) (by decide) (by decide)⟩

set_option maxRecDepth 1000000 in
/-- C19 (counterexample): in the sample volume, where the file `a/b` is empty,
`write a/b hello`, `owrite a/b 2 XX` and `oread a/b 0 5` all return 0, and
`oread` prints `heXX` and a newline, not `heXXo`: the file has 4 bytes after
the `owrite`. -/
theorem owrite_cuts_the_tail_off :
    ((cmd_write 256 65536 sample_sb ⟨0, [[119], [97, 47, 98], [104, 101, 108, 108, 111]], 3⟩).bind
      (fun r1 => (cmd_owrite 256 65536 r1.2.1
          ⟨r1.2.2.cur_dir, [[111], [97, 47, 98], [50], [88, 88]], 4⟩).bind
        (fun r2 => (cmd_oread 256 r2.2.1
            ⟨r2.2.2.cur_dir, [[111], [97, 47, 98], [48], [53]], 4⟩).map
          (fun r3 => (r1.1, r2.1, r3.1, (r2.2.1.inodes 3).i_size, r3.2.2.2)))))
      = some (0, 0, 0, 4, [104, 101, 88, 88, 10]) := by
  decide

/-! ## `cmd_rm` and names with a path -/

theorem remove_dirent_loop_absent (BS MAXFS : Nat) (sb : super_block) (dir : Nat)
    (name : List Nat) (hBS : 0 < BS) (hdir : (sb.inodes dir).i_type = inode_type.I_DIR) :
    ∀ (fuel offset : Nat), (sb.inodes dir).i_size - offset + 8 ≤ 8 * fuel →
    ((dirents_from BS (sb.inodes dir) fuel offset).map Prod.snd).find? (live_named name) = none →
    remove_dirent_loop BS MAXFS sb dir name fuel offset = some (-ENOENT, sb) := by
  intro fuel
  induction fuel with
  | zero => intro offset h; omega
  | succ fuel ih =>
    intro offset h hfind
    simp only [dirents_from] at hfind
    simp only [remove_dirent_loop]
    cases hn : testfs_next_dirent BS (sb.inodes dir) offset with
    | none => exact absurd hn (next_dirent_ne_none BS _ offset hdir)
    | some r =>
      obtain ⟨od, o'⟩ := r
      cases od with
      | none => rfl
      | some d =>
        rw [hn] at hfind
        simp only [List.map_cons, List.find?_cons] at hfind
        have hp := next_dirent_progress BS _ offset d o' hBS hn
        simp only [sizeof_dirent] at hp
        cases hl : live_named name d with
        | true => rw [hl] at hfind; simp at hfind
        | false =>
          rw [hl] at hfind
          have hskip : d.d_inode_nr < 0 ∨ cstr d.d_name ≠ name := by
            simp only [live_named, Bool.and_eq_false_imp, decide_eq_true_eq,
              decide_eq_false_iff_not] at hl
            by_cases h0 : d.d_inode_nr < 0
            · exact Or.inl h0
            · exact Or.inr (hl (by omega))
          simp only [hskip, if_true]
          exact ih o' (by omega) hfind

/-- C11 (amended): `cmd_rm` does not resolve a path: it looks for an entry of
the current directory whose name is its whole argument.  When no live entry of
the current directory has that name, as for an argument `dir/base` in a
directory whose entry names hold no `/`, it returns `-ENOENT` (`-EINVAL` for
`.` and `..`) and leaves the volume as it was, whatever the argument resolves
to as a path. -/
theorem rm_takes_argument_as_entry_name (BS MAXFS : Nat)
    (testfs_remove_inode : super_block → Nat → super_block)
    (sb : super_block) (c : context) (name : List Nat) (hBS : 0 < BS)
    (hnargs : c.nargs = 2) (hcmd : c.cmd.getD 1 [] = name)
    (htx : sb.tx_in_progress = tx_type.TX_NONE)
    (hdir : (sb.inodes c.cur_dir).i_type = inode_type.I_DIR)
    (habs : (dirents BS (sb.inodes c.cur_dir)).find? (live_named name) = none) :
    cmd_rm BS MAXFS testfs_remove_inode sb c
      = some (if name = [DOT] ∨ name = [DOT, DOT] then -EINVAL else -ENOENT, sb, c) := by
  have hback : ({ ({ sb with tx_in_progress := tx_type.TX_RM } : super_block) with
      tx_in_progress := tx_type.TX_NONE } : super_block) = sb := by
    cases sb
    simp only at htx
    simp [htx]
  simp only [cmd_rm, hnargs, ne_eq, not_true_eq_false, if_false, testfs_tx_start, htx, hcmd,
    testfs_remove_dirent]
  by_cases hd : name = [DOT] ∨ name = [DOT, DOT]
  · simp only [hd, if_true, testfs_tx_commit, ne_eq, not_true_eq_false, if_false,
      show (-EINVAL : Int) < 0 by simp [EINVAL], hback]
  · have hloop := remove_dirent_loop_absent BS MAXFS
      { sb with tx_in_progress := tx_type.TX_RM } c.cur_dir name hBS hdir
      ((sb.inodes c.cur_dir).i_size + 1) 0 (by simp only; omega) habs
    simp only at hloop
    simp only [hd, if_false, hloop, testfs_tx_commit, ne_eq, not_true_eq_false,
      show (-ENOENT : Int) < 0 by simp [ENOENT], if_true, hback]

/-- Witness of C11 (amended): `rm a/b` in the root of the sample volume, where
`a/b` resolves to the file with inode 3. -/
theorem rm_takes_argument_as_entry_name_witness :
    (testfs_dir_name_to_inode_nr 256 sample_sb 0 [97, 47, 98]).map Prod.fst = some 3 ∧
    cmd_rm 256 65536 (remove_inode_or_keep 256 4 64) sample_sb ⟨0, [[114, 109], [97, 47, 98]], 2⟩
      = some (if [97, 47, 98] = [DOT] ∨ [97, 47, 98] = [DOT, DOT] then -EINVAL else -ENOENT,
          sample_sb, ⟨0, [[114, 109], [97, 47, 98]], 2⟩) :=
  ⟨by decide,
    rm_takes_argument_as_entry_name 256 65536 (remove_inode_or_keep 256 4 64) sample_sb
      ⟨0, [[114, 109], [97, 47, 98]], 2⟩ [97, 47, 98] (by decide) rfl rfl rfl (by decide)
      (by decide)⟩

set_option maxRecDepth 1000000 in
/-- C11 (counterexample): on a freshly formatted volume `mkdir a` and
`touch a/b` return 0, then `rm a/b` returns `-ENOENT` and `rm a` returns
`-ENOTEMPTY`; the directory `a` (inode 1) still holds the live entry `b`, and
the root the live entry `a`. -/
theorem rm_does_not_resolve_a_path :
    ((cmd_mkdir 256 65536 4 64 fresh_sb ⟨0, [[109], [97]], 2⟩).bind (fun r1 =>
      (cmd_create 256 65536 4 64 r1.2.1 ⟨r1.2.2.cur_dir, [[116], [97, 47, 98]], 2⟩).bind (fun r2 =>
        (cmd_rm 256 65536 (remove_inode_or_keep 256 4 64) r2.2.1
            ⟨r2.2.2.cur_dir, [[114], [97, 47, 98]], 2⟩).bind (fun r3 =>
          (cmd_rm 256 65536 (remove_inode_or_keep 256 4 64) r3.2.1
              ⟨r3.2.2.cur_dir, [[114], [97]], 2⟩).map (fun r4 =>
            ([r1.1, r2.1, r3.1, r4.1],
              (dirents 256 (r4.2.1.inodes 1)).map (fun d => (d.d_inode_nr, cstr d.d_name)),
              (dirents 256 (r4.2.1.inodes 0)).map (fun d => (d.d_inode_nr, cstr d.d_name))))))))
      = some ([0, 0, -ENOENT, -ENOTEMPTY], [(1, [46]), (0, [46, 46]), (2, [98])],
          [(0, [46]), (0, [46, 46]), (1, [97])]) := by
  decide

/-! ## `testfs_create_file_or_dir` and a name in the root directory -/

set_option maxRecDepth 1000000 in
/-- C12: on a freshly formatted volume, `touch /x` returns 0, and the root
directory then holds no entry named `x`: the new entry (inode 1) has the empty
name. -/
theorem create_in_root_by_path_loses_the_name :
    (cmd_create 256 65536 4 64 fresh_sb ⟨0, [[116], [47, 120]], 2⟩).map (fun r =>
      (r.1, r.2.2.cur_dir,
        (dirents 256 (r.2.1.inodes 0)).map (fun d => (d.d_inode_nr, cstr d.d_name))))
      = some (0, 0, [(0, [46]), (0, [46, 46]), (1, [])]) := by
  decide

/-! ## The rollback of `testfs_create_empty_dir` -/

set_option maxRecDepth 1000000 in
/-- C16: the rollback of `testfs_create_empty_dir` removes nothing.  Its call
`testfs_remove_dirent(sb, cdir, ".")` returns `-EINVAL` and leaves every volume
as it is, because that function refuses the names `.` and `..`.  On a freshly
formatted volume of blocks of 256 bytes, when the insertion of `..` into the
new directory (inode 1) fails with `-ENOMEM` because `malloc` returns NULL in
`testfs_write_dirent`, `testfs_create_empty_dir` returns `-ENOMEM`, and the new
directory still holds the live entry `.`, in its 10 bytes, which a lookup of
`.` finds. -/
theorem create_empty_dir_keeps_dot :
    (∀ (BS MAXFS : Nat) (sb : super_block) (cdir : Nat),
      testfs_remove_dirent BS MAXFS sb cdir [DOT] = some (-EINVAL, sb)) ∧
    (testfs_create_empty_dir 256 65536 4 64 true false
        (testfs_create_inode fresh_sb inode_type.I_DIR).2.1 0 1).map
        (fun r => (r.1, (dirents 256 (r.2.inodes 1)).map (fun d => (d.d_inode_nr, cstr d.d_name))))
      = some (-ENOMEM, [(1, [46])]) ∧
    (testfs_create_empty_dir 256 65536 4 64 true false
        (testfs_create_inode fresh_sb inode_type.I_DIR).2.1 0 1).map
        (fun r => ((r.2.inodes 1).i_size, lookup_spec 256 (r.2.inodes 1) [46]))
      = some (10, 1) ∧
    (testfs_create_inode fresh_sb inode_type.I_DIR).2.2 = 1 := by
  refine ⟨fun BS MAXFS sb cdir => ?_, by decide, by decide, by decide⟩
  simp [testfs_remove_dirent]

/-! ## What the steps of `testfs_create_file_or_dir` leave unchanged -/

theorem remove_dirent_allowed_frame (BS : Nat) (sb : super_block) (n : Nat) (r : Int)
    (sb' : super_block) (h : testfs_remove_dirent_allowed BS sb n = some (r, sb')) :
    same_but_counts sb sb' := by
  simp only [testfs_remove_dirent_allowed] at h
  split_ifs at h
  · simp only [Option.some.injEq, Prod.mk.injEq] at h
    obtain ⟨-, rfl⟩ := h
    exact ⟨rfl, rfl, rfl, rfl⟩
  · split at h
    · simp at h
    · simp only [Option.some.injEq, Prod.mk.injEq] at h
      obtain ⟨-, rfl⟩ := h
      exact ⟨rfl, rfl, rfl, rfl⟩

theorem remove_dirent_loop_frame (BS MAXFS : Nat) (sb : super_block) (dir : Nat)
    (name : List Nat) (r : Int) (sb' : super_block) : ∀ (fuel offset : Nat),
    remove_dirent_loop BS MAXFS sb dir name fuel offset = some (r, sb') →
    sb'.inode_freemap = sb.inode_freemap ∧ sb'.block_freemap = sb.block_freemap ∧
      sb'.tx_in_progress = sb.tx_in_progress := by
  intro fuel
  induction fuel with
  | zero => intro offset h; simp [remove_dirent_loop] at h
  | succ fuel ih =>
    intro offset h
    simp only [remove_dirent_loop] at h
    cases hn : testfs_next_dirent BS (sb.inodes dir) offset with
    | none => rw [hn] at h; simp at h
    | some x =>
      obtain ⟨od, o'⟩ := x
      rw [hn] at h
      cases od with
      | none =>
        simp only [Option.some.injEq, Prod.mk.injEq] at h
        obtain ⟨-, rfl⟩ := h
        exact ⟨rfl, rfl, rfl⟩
      | some d =>
        simp only at h
        split_ifs at h with hskip
        · exact ih _ h
        · cases hall : testfs_remove_dirent_allowed BS sb d.d_inode_nr.toNat with
          | none => rw [hall] at h; simp at h
          | some y =>
            obtain ⟨ret, sb1⟩ := y
            obtain ⟨-, h2, h3, h4⟩ := remove_dirent_allowed_frame BS _ _ _ _ hall
            rw [hall] at h
            simp only at h
            split_ifs at h
            all_goals simp only [Option.some.injEq, Prod.mk.injEq] at h
            all_goals obtain ⟨-, rfl⟩ := h
            all_goals exact ⟨h2, h3, h4⟩

theorem remove_dirent_frame (BS MAXFS : Nat) (sb : super_block) (dir : Nat)
    (name : List Nat) (r : Int) (sb' : super_block)
    (h : testfs_remove_dirent BS MAXFS sb dir name = some (r, sb')) :
    sb'.inode_freemap = sb.inode_freemap ∧ sb'.block_freemap = sb.block_freemap ∧
      sb'.tx_in_progress = sb.tx_in_progress := by
  simp only [testfs_remove_dirent] at h
  split_ifs at h
  · simp only [Option.some.injEq, Prod.mk.injEq] at h
    obtain ⟨-, rfl⟩ := h
    exact ⟨rfl, rfl, rfl⟩
  · exact remove_dirent_loop_frame BS MAXFS sb dir name r sb' _ _ h

theorem write_data_at_frame (BS MAXFS NRD PPB : Nat) (sb : super_block) (nr start : Nat)
    (buf : List Nat) :
    (write_data_at BS MAXFS NRD PPB sb nr start buf).2.inode_freemap = sb.inode_freemap ∧
    (write_data_at BS MAXFS NRD PPB sb nr start buf).2.tx_in_progress = sb.tx_in_progress ∧
    (write_data_at BS MAXFS NRD PPB sb nr start buf).2.i_count = sb.i_count := by
  simp only [write_data_at]
  split_ifs
  · exact ⟨rfl, rfl, rfl⟩
  · split
    · exact ⟨rfl, rfl, rfl⟩
    · exact ⟨rfl, rfl, rfl⟩

theorem write_dirent_at_frame (BS MAXFS NRD PPB : Nat) (m : Bool) (sb : super_block)
    (dir : Nat) (name : List Nat) (len : Nat) (nr : Int) (offset : Nat) (r : Int)
    (sb' : super_block)
    (h : write_dirent_at BS MAXFS NRD PPB m sb dir name len nr offset = some (r, sb')) :
    sb'.inode_freemap = sb.inode_freemap ∧ sb'.tx_in_progress = sb.tx_in_progress ∧
      sb'.i_count = sb.i_count := by
  unfold write_dirent_at at h
  simp only at h
  by_cases hm : ¬ m = true
  · rw [if_pos hm] at h
    simp only [Option.some.injEq, Prod.mk.injEq] at h
    obtain ⟨-, rfl⟩ := h
    exact ⟨rfl, rfl, rfl⟩
  rw [if_neg hm] at h
  by_cases hn : nr < 0
  · rw [if_pos hn] at h
    simp at h
  rw [if_neg hn] at h
  by_cases hs : (offset + (sizeof_dirent + len)) / BS > offset / BS
  · rw [if_pos hs] at h
    obtain ⟨a1, a2, a3⟩ := write_data_at_frame BS MAXFS NRD PPB sb dir offset
      (zeros ((offset + (sizeof_dirent + len)) / BS * BS - offset))
    by_cases hr : (write_data_at BS MAXFS NRD PPB sb dir offset
        (zeros ((offset + (sizeof_dirent + len)) / BS * BS - offset))).1 < 0
    · rw [if_pos hr] at h
      simp only [Option.some.injEq, Prod.mk.injEq] at h
      obtain ⟨-, rfl⟩ := h
      exact ⟨a1, a2, a3⟩
    · rw [if_neg hr] at h
      simp only [Option.some.injEq] at h
      have h2 := congrArg Prod.snd h
      simp only at h2
      rw [← h2]
      obtain ⟨b1, b2, b3⟩ := write_data_at_frame BS MAXFS NRD PPB
        (write_data_at BS MAXFS NRD PPB sb dir offset
          (zeros ((offset + (sizeof_dirent + len)) / BS * BS - offset))).2 dir
        ((offset + (sizeof_dirent + len)) / BS * BS) (dirent_bytes nr len name)
      exact ⟨b1.trans a1, b2.trans a2, b3.trans a3⟩
  · rw [if_neg hs] at h
    simp only [Option.some.injEq] at h
    have h2 := congrArg Prod.snd h
    simp only at h2
    rw [← h2]
    exact write_data_at_frame BS MAXFS NRD PPB sb dir offset _

theorem add_dirent_at_frame (BS MAXFS NRD PPB : Nat) (m : Bool) (sb : super_block) (dir : Nat)
    (name : List Nat) (nr : Int) (r : Int) (sb' : super_block)
    (h : add_dirent_at BS MAXFS NRD PPB m sb dir name nr = some (r, sb')) :
    sb'.inode_freemap = sb.inode_freemap ∧ sb'.tx_in_progress = sb.tx_in_progress ∧
      sb'.i_count = sb.i_count := by
  simp only [add_dirent_at] at h
  split_ifs at h
  cases hl : add_dirent_loop BS (sb.inodes dir) name (name.length + 1)
      ((sb.inodes dir).i_size + 1) 0 with
  | none => rw [hl] at h; simp at h
  | some x =>
    obtain ⟨ret, found, p⟩ := x
    rw [hl] at h
    simp only at h
    split_ifs at h
    · simp only [Option.some.injEq, Prod.mk.injEq] at h
      obtain ⟨-, rfl⟩ := h
      exact ⟨rfl, rfl, rfl⟩
    · exact write_dirent_at_frame BS MAXFS NRD PPB m sb dir name _ nr p r sb' h

theorem create_empty_dir_frame (BS MAXFS NRD PPB : Nat) (m1 m2 : Bool) (sb : super_block)
    (p cdir : Nat) (r : Int) (sb' : super_block)
    (h : testfs_create_empty_dir BS MAXFS NRD PPB m1 m2 sb p cdir = some (r, sb')) :
    sb'.inode_freemap = sb.inode_freemap ∧ sb'.tx_in_progress = sb.tx_in_progress := by
  simp only [testfs_create_empty_dir] at h
  split_ifs at h
  cases h1 : add_dirent_at BS MAXFS NRD PPB m1 sb cdir [DOT] cdir with
  | none => rw [h1] at h; simp at h
  | some r1 =>
    obtain ⟨ret1, sb1⟩ := r1
    obtain ⟨a1, a2, -⟩ := add_dirent_at_frame BS MAXFS NRD PPB m1 sb cdir _ _ _ _ h1
    rw [h1] at h
    simp only at h
    split_ifs at h
    · simp only [Option.some.injEq, Prod.mk.injEq] at h
      obtain ⟨-, rfl⟩ := h
      exact ⟨a1, a2⟩
    · cases h2 : add_dirent_at BS MAXFS NRD PPB m2 sb1 cdir [DOT, DOT] p with
      | none => rw [h2] at h; simp at h
      | some r2 =>
        obtain ⟨ret2, sb2⟩ := r2
        obtain ⟨b1, b2, -⟩ := add_dirent_at_frame BS MAXFS NRD PPB m2 sb1 cdir _ _ _ _ h2
        rw [h2] at h
        simp only at h
        split_ifs at h
        · cases h3 : testfs_remove_dirent BS MAXFS sb2 cdir [DOT] with
          | none => rw [h3] at h; simp at h
          | some r3 =>
            obtain ⟨ret3, sb3⟩ := r3
            obtain ⟨c1, -, c2⟩ := remove_dirent_frame BS MAXFS sb2 cdir _ _ _ h3
            rw [h3] at h
            simp only [Option.some.injEq, Prod.mk.injEq] at h
            obtain ⟨-, rfl⟩ := h
            exact ⟨c1.trans (b1.trans a1), c2.trans (b2.trans a2)⟩
        · simp only [Option.some.injEq, Prod.mk.injEq] at h
          obtain ⟨-, rfl⟩ := h
          exact ⟨b1.trans a1, b2.trans a2⟩

/-- The bit that `bitmap_alloc` sets was clear: clearing it gives the bitmap
back. -/
theorem bitmap_alloc_unmark (b : List Bool) (h : ¬ (bitmap_alloc b).1 < 0) :
    bitmap_unmark (bitmap_alloc b).2.1 (bitmap_alloc b).2.2 = some b := by
  simp only [bitmap_alloc] at h ⊢
  by_cases hi : b.findIdx (fun x => !x) < b.length
  · simp only [hi, if_true, bitmap_unmark, List.length_set, true_and]
    have hclear : b[b.findIdx (fun x => !x)] = false := by
      have := @List.findIdx_getElem _ _ _ hi
      simpa using this
    have hset : ((b.set (b.findIdx (fun x => !x)) true).getD (b.findIdx (fun x => !x)) false)
        = true := by
      simp [List.getD_eq_getElem?_getD, List.getElem?_set, hi]
    rw [if_pos hset, List.set_set]
    congr 1
    apply List.ext_getElem
    · simp
    · intro n h1 h2
      simp only [List.getElem_set]
      split_ifs with hn
      · subst hn; exact hclear.symm
      · rfl
  · simp only [hi, if_false] at h
    simp [ENOSPC] at h

theorem cmd_cd_frame (BS : Nat) (sb : super_block) (c : context) (ret : Int)
    (sb1 : super_block) (c1 : context) (h : cmd_cd BS sb c = some (ret, sb1, c1)) :
    same_but_counts sb sb1 ∧ (ret < 0 → c1.cur_dir = c.cur_dir) := by
  simp only [cmd_cd] at h
  split_ifs at h
  · simp only [Option.some.injEq, Prod.mk.injEq] at h
    obtain ⟨-, rfl, rfl⟩ := h
    exact ⟨same_but_counts_refl _, fun _ => rfl⟩
  · cases hr : testfs_dir_name_to_inode_nr BS sb c.cur_dir (c.cmd.getD 1 []) with
    | none => rw [hr] at h; simp at h
    | some r =>
      obtain ⟨nr, sb2, cur⟩ := r
      obtain ⟨hs, hcur⟩ := name_to_inode_nr_frame BS sb c.cur_dir _ _ _ _ hr
      rw [hr] at h
      simp only at h
      split_ifs at h
      all_goals simp only [Option.some.injEq, Prod.mk.injEq] at h
      all_goals obtain ⟨hret, rfl, rfl⟩ := h
      · exact ⟨hs, fun _ => hcur⟩
      · exact ⟨same_but_counts_trans hs ⟨rfl, rfl, rfl, rfl⟩, fun _ => hcur⟩
      · refine ⟨same_but_counts_trans hs ⟨rfl, rfl, rfl, rfl⟩, fun hneg => ?_⟩
        omega

theorem name_to_inode_nr_in_frame (BS : Nat) (sb : super_block) (dir before : Nat)
    (name : List Nat) (ret : Int) (sb' : super_block) (dir' : Nat)
    (h : testfs_dir_name_to_inode_nr_in BS sb dir before name = some (ret, sb', dir')) :
    same_but_counts sb sb' ∧ dir' = dir := by
  simp only [testfs_dir_name_to_inode_nr_in] at h
  split_ifs at h with h1 h2
  · simp only [Option.some.injEq, Prod.mk.injEq] at h
    obtain ⟨-, rfl, rfl⟩ := h
    exact ⟨same_but_counts_refl _, rfl⟩
  · split at h
    · simp at h
    · rename_i r sb1 dir1 hrec
      have hs := (rec_effect BS _ _ _ _ _ _ _ hrec).1
      split_ifs at h with h3
      · simp only [Option.some.injEq, Prod.mk.injEq] at h
        obtain ⟨-, rfl, rfl⟩ := h
        exact ⟨same_but_counts_trans hs ⟨rfl, rfl, rfl, rfl⟩, rfl⟩
      · simp only [Option.some.injEq, Prod.mk.injEq] at h
        obtain ⟨-, rfl, rfl⟩ := h
        exact ⟨hs, not_not.mp h3⟩
  · exact name_to_inode_nr_frame BS sb dir name ret sb' dir' h

/-! ## The body of `testfs_create_file_or_dir` -/

theorem create_inode_frame (sb : super_block) (type : inode_type) :
    (testfs_create_inode sb type).2.1.tx_in_progress = sb.tx_in_progress ∧
    ((testfs_create_inode sb type).1 < 0 → (testfs_create_inode sb type).2.1 = sb) ∧
    (¬ (testfs_create_inode sb type).1 < 0 →
      (testfs_create_inode sb type).2.1.inode_freemap = (bitmap_alloc sb.inode_freemap).2.1 ∧
      (testfs_create_inode sb type).2.2 = (bitmap_alloc sb.inode_freemap).2.2 ∧
      ¬ (bitmap_alloc sb.inode_freemap).1 < 0) := by
  simp only [testfs_create_inode]
  split_ifs with h
  · exact ⟨rfl, fun _ => rfl, fun h' => absurd h h'⟩
  · exact ⟨rfl, fun h' => absurd h' (by simp), fun _ => ⟨rfl, rfl, h⟩⟩

theorem remove_inode_frame (BS NRD PPB : Nat) (sb : super_block) (nr : Nat) (sb' : super_block)
    (h : testfs_remove_inode BS NRD PPB sb nr = some sb') :
    sb'.tx_in_progress = sb.tx_in_progress ∧
      bitmap_unmark sb.inode_freemap nr = some sb'.inode_freemap := by
  simp only [testfs_remove_inode] at h
  split at h
  · simp at h
  · rename_i b hb
    simp only [Option.some.injEq] at h
    subst h
    exact ⟨rfl, hb⟩

/-- The lookup at the start of the body, in its two forms. -/
theorem create_lookup_frame (BS : Nat) (sb : super_block) (dir : Nat) (before : Option Nat)
    (name : List Nat) (ret : Int) (sb' : super_block) (dir' : Nat)
    (h : create_lookup BS sb dir before name = some (ret, sb', dir')) :
    same_but_counts sb sb' ∧ dir' = dir := by
  simp only [create_lookup] at h
  cases before with
  | none => exact name_to_inode_nr_frame BS sb dir name ret sb' dir' h
  | some b => exact name_to_inode_nr_in_frame BS sb dir b name ret sb' dir' h

/-- After a failure behind `testfs_create_inode`, `testfs_remove_inode` gives
the inode freemap of before the creation back. -/
theorem remove_after_create (BS NRD PPB : Nat) (sb1 sb3 sb4 : super_block) (type : inode_type)
    (hok : ¬ (testfs_create_inode sb1 type).1 < 0)
    (hfm : sb3.inode_freemap = (testfs_create_inode sb1 type).2.1.inode_freemap)
    (hrm : testfs_remove_inode BS NRD PPB sb3 (testfs_create_inode sb1 type).2.2 = some sb4) :
    sb4.inode_freemap = sb1.inode_freemap := by
  obtain ⟨-, -, hc⟩ := create_inode_frame sb1 type
  obtain ⟨e1, e2, e3⟩ := hc hok
  obtain ⟨-, hun⟩ := remove_inode_frame BS NRD PPB sb3 _ sb4 hrm
  rw [hfm, e1, e2, bitmap_alloc_unmark _ e3] at hun
  simp only [Option.some.injEq] at hun
  exact hun.symm

theorem create_body_finish (BS MAXFS NRD PPB : Nat) (sb1 : super_block) (c : context)
    (type : inode_type) (ntc : List Nat) (r3 : Int) (sb3 : super_block) (ret : Int)
    (sb' : super_block) (c' : context)
    (hok : ¬ (testfs_create_inode sb1 type).1 < 0)
    (s1 : sb3.inode_freemap = (testfs_create_inode sb1 type).2.1.inode_freemap)
    (s2 : sb3.tx_in_progress = sb1.tx_in_progress)
    (h : (if r3 < 0 then
        match testfs_remove_inode BS NRD PPB sb3 (testfs_create_inode sb1 type).2.2 with
        | none => none
        | some sb4 => some (r3, sb4, c)
      else
        match add_dirent_at BS MAXFS NRD PPB true sb3 c.cur_dir ntc (testfs_create_inode sb1 type).2.2 with
        | none => none
        | some (ret, sb4) =>
          if ret < 0 then
            match testfs_remove_inode BS NRD PPB sb4 (testfs_create_inode sb1 type).2.2 with
            | none => none
            | some sb5 => some (ret, sb5, c)
          else some (0, testfs_put_inode sb4 (testfs_create_inode sb1 type).2.2, c))
      = some (ret, sb', c')) :
    c' = c ∧ sb'.tx_in_progress = sb1.tx_in_progress ∧
      (ret < 0 → sb'.inode_freemap = sb1.inode_freemap) := by
  split_ifs at h with h3
  · split at h
    · simp at h
    · rename_i sb4 hrm
      simp only [Option.some.injEq, Prod.mk.injEq] at h
      obtain ⟨-, rfl, rfl⟩ := h
      refine ⟨rfl, ?_, fun _ => ?_⟩
      · rw [(remove_inode_frame BS NRD PPB _ _ _ hrm).1, s2]
      · exact remove_after_create BS NRD PPB sb1 sb3 _ type hok s1 hrm
  · split at h
    · simp at h
    · rename_i r4 sb4 hadd
      obtain ⟨a1, a2, -⟩ := add_dirent_at_frame BS MAXFS NRD PPB true _ _ _ _ _ _ hadd
      split_ifs at h with h4
      · split at h
        · simp at h
        · rename_i sb5 hrm
          simp only [Option.some.injEq, Prod.mk.injEq] at h
          obtain ⟨-, rfl, rfl⟩ := h
          refine ⟨rfl, ?_, fun _ => ?_⟩
          · rw [(remove_inode_frame BS NRD PPB _ _ _ hrm).1, a2, s2]
          · exact remove_after_create BS NRD PPB sb1 sb4 _ type hok (a1.trans s1) hrm
      · simp only [Option.some.injEq, Prod.mk.injEq] at h
        obtain ⟨hret, rfl, rfl⟩ := h
        refine ⟨rfl, ?_, fun hneg => ?_⟩
        · show sb4.tx_in_progress = _
          rw [a2, s2]
        · omega

theorem create_body_frame (BS MAXFS NRD PPB : Nat) (sb : super_block) (c : context)
    (type : inode_type) (before : Option Nat) (ntc : List Nat) (ret : Int)
    (sb' : super_block) (c' : context)
    (h : create_body BS MAXFS NRD PPB sb c type before ntc = some (ret, sb', c')) :
    c'.cur_dir = c.cur_dir ∧ sb'.tx_in_progress = sb.tx_in_progress ∧
      (ret < 0 → sb'.inode_freemap = sb.inode_freemap) := by
  simp only [create_body] at h
  split at h
  · simp at h
  · rename_i nr sb1 cur hl
    obtain ⟨⟨-, hfm1, -, htx1⟩, hcur⟩ := create_lookup_frame BS sb c.cur_dir before ntc _ _ _ hl
    subst hcur
    obtain ⟨ctx, cfail, -⟩ := create_inode_frame sb1 type
    have hc : ({ cur_dir := c.cur_dir, cmd := c.cmd, nargs := c.nargs } : context) = c := rfl
    rw [hc] at h
    split_ifs at h with h1 h2 h3
    · simp only [Option.some.injEq, Prod.mk.injEq] at h
      obtain ⟨-, rfl, rfl⟩ := h
      exact ⟨rfl, htx1, fun _ => hfm1⟩
    · simp only [Option.some.injEq, Prod.mk.injEq] at h
      obtain ⟨-, rfl, rfl⟩ := h
      rw [cfail h2]
      exact ⟨rfl, htx1, fun _ => hfm1⟩
    · cases hstep : testfs_create_empty_dir BS MAXFS NRD PPB true true (testfs_create_inode sb1 type).2.1 c.cur_dir
          (testfs_create_inode sb1 type).2.2 with
      | none => rw [hstep] at h; simp at h
      | some x =>
        obtain ⟨r3, sb3⟩ := x
        obtain ⟨s1, s2⟩ := create_empty_dir_frame BS MAXFS NRD PPB true true _ _ _ _ _ hstep
        rw [hstep] at h
        obtain ⟨e1, e2, e3⟩ := create_body_finish BS MAXFS NRD PPB sb1 c type ntc r3 sb3 ret sb' c' h2 s1
          (s2.trans ctx) h
        exact ⟨by rw [e1], e2.trans htx1, fun hneg => (e3 hneg).trans hfm1⟩
    · obtain ⟨e1, e2, e3⟩ := create_body_finish BS MAXFS NRD PPB sb1 c type ntc 0
        (testfs_create_inode sb1 type).2.1 ret sb' c' h2 rfl ctx h
      exact ⟨by rw [e1], e2.trans htx1, fun hneg => (e3 hneg).trans hfm1⟩

/-! ## `testfs_create_file_or_dir` as a whole -/

theorem create_tail_frame (BS MAXFS NRD PPB : Nat) (sb : super_block) (c : context)
    (type : inode_type) (before : Option Nat) (ntc : List Nat) (name_offset : Int)
    (current : Nat) (ret : Int) (sb' : super_block) (c' : context)
    (h : create_tail BS MAXFS NRD PPB sb c type before ntc name_offset current = some (ret, sb', c')) :
    (ret < 0 → sb'.inode_freemap = sb.inode_freemap) ∧
    (sb.tx_in_progress = tx_type.TX_NONE → sb'.tx_in_progress = tx_type.TX_NONE) ∧
    (sizeof_dirent < BS → BS < 2147483648 →
      c'.cur_dir = if name_offset > 0 then current else c.cur_dir) := by
  simp only [create_tail] at h
  by_cases hg : ((BS : Int) - sizeof_dirent) % 18446744073709551616
      < (namelen + 1) % 18446744073709551616
  · rw [if_pos hg] at h
    simp only [Option.some.injEq, Prod.mk.injEq] at h
    obtain ⟨-, rfl, rfl⟩ := h
    refine ⟨fun _ => rfl, fun h => h, fun h1 h2 => ?_⟩
    simp only [sizeof_dirent, namelen] at hg h1
    omega
  · rw [if_neg hg] at h
    cases hst : testfs_tx_start sb tx_type.TX_CREATE with
    | none => rw [hst] at h; simp at h
    | some sb1 =>
      rw [hst] at h
      simp only at h
      have hsb1 : sb1.inode_freemap = sb.inode_freemap := by
        simp only [testfs_tx_start] at hst
        split_ifs at hst
        simp only [Option.some.injEq] at hst
        subst hst
        rfl
      cases hb : create_body BS MAXFS NRD PPB sb1 c type before ntc with
      | none => rw [hb] at h; simp at h
      | some x =>
        obtain ⟨r2, sb2, c1⟩ := x
        obtain ⟨b1, b2, b3⟩ := create_body_frame BS MAXFS NRD PPB _ c type before ntc _ _ _ hb
        rw [hb] at h
        simp only at h
        cases hcm : testfs_tx_commit sb2 tx_type.TX_CREATE with
        | none => rw [hcm] at h; simp at h
        | some sb3 =>
          rw [hcm] at h
          simp only at h
          have hsb3 : sb3.inode_freemap = sb2.inode_freemap ∧
              sb3.tx_in_progress = tx_type.TX_NONE := by
            simp only [testfs_tx_commit] at hcm
            split_ifs at hcm
            simp only [Option.some.injEq] at hcm
            subst hcm
            exact ⟨rfl, rfl⟩
          by_cases hn : name_offset > 0
          · rw [if_pos hn] at h
            simp only [Option.some.injEq, Prod.mk.injEq] at h
            obtain ⟨rfl, rfl, rfl⟩ := h
            refine ⟨fun hneg => ?_, fun _ => hsb3.2, fun _ _ => by rw [if_pos hn]⟩
            show sb3.inode_freemap = _
            rw [hsb3.1, b3 hneg, hsb1]
          · rw [if_neg hn] at h
            simp only [Option.some.injEq, Prod.mk.injEq] at h
            obtain ⟨rfl, rfl, rfl⟩ := h
            refine ⟨fun hneg => ?_, fun _ => hsb3.2, fun _ _ => by rw [if_neg hn, b1]⟩
            rw [hsb3.1, b3 hneg, hsb1]

theorem last_slash_lt (name : List Nat) : ∀ i : Nat, last_slash name i < i := by
  intro i
  induction i with
  | zero => simp [last_slash]
  | succ i ih =>
    simp only [last_slash]
    split_ifs
    · omega
    · push_cast; omega

theorem create_file_or_dir_frame (BS MAXFS NRD PPB : Nat) (sb : super_block) (c : context)
    (type : inode_type) (name : List Nat) (ret : Int) (sb' : super_block) (c' : context)
    (h : testfs_create_file_or_dir BS MAXFS NRD PPB sb c type name = some (ret, sb', c')) :
    (ret < 0 → sb'.inode_freemap = sb.inode_freemap) ∧
    (sb.tx_in_progress = tx_type.TX_NONE → sb'.tx_in_progress = tx_type.TX_NONE) ∧
    (sizeof_dirent < BS → BS < 2147483648 → c'.cur_dir = c.cur_dir) := by
  simp only [testfs_create_file_or_dir] at h
  split_ifs at h with h1 h2 h3
  · simp only [Option.some.injEq, Prod.mk.injEq] at h
    obtain ⟨-, rfl, rfl⟩ := h
    exact ⟨fun _ => rfl, fun h => h, fun _ _ => rfl⟩
  all_goals first
    | (cases hcd : cmd_cd BS sb { c with cmd := set_cmd1 c.cmd _ } with
       | none => rw [hcd] at h; simp at h
       | some x =>
         obtain ⟨r1, sb1, c1⟩ := x
         obtain ⟨⟨-, f1, -, f2⟩, f3⟩ := cmd_cd_frame BS sb _ _ _ _ hcd
         rw [hcd] at h
         simp only at h
         split_ifs at h with h4
         · simp only [Option.some.injEq, Prod.mk.injEq] at h
           obtain ⟨rfl, rfl, rfl⟩ := h
           exact ⟨fun _ => f1, fun h => f2.trans h, fun _ _ => f3 h4⟩
         · obtain ⟨t1, t2, t3⟩ := create_tail_frame BS MAXFS NRD PPB _ _ _ _ _ _ _ _ _ _ h
           refine ⟨fun hneg => (t1 hneg).trans f1, fun h => t2 (f2.trans h), fun a b => ?_⟩
           rw [t3 a b]
           rw [if_pos (by omega)])
    | (obtain ⟨t1, t2, t3⟩ := create_tail_frame BS MAXFS NRD PPB _ _ _ _ _ _ _ _ _ _ h
       refine ⟨t1, t2, fun a b => ?_⟩
       rw [t3 a b, if_neg (by omega)])

/-! ## Failure of `testfs_create_file_or_dir` behind `testfs_create_inode` -/

theorem remove_inode_or_keep_tx (BS NRD PPB : Nat) (sb : super_block) (nr : Nat) :
    (remove_inode_or_keep BS NRD PPB sb nr).tx_in_progress = sb.tx_in_progress := by
  simp only [remove_inode_or_keep]
  cases h : testfs_remove_inode BS NRD PPB sb nr with
  | none => rfl
  | some s => exact (remove_inode_frame BS NRD PPB sb nr s h).1

/-- `create_tail` aborts only where the body that it runs inside the
transaction aborts: the assertions of `testfs_tx_start` and of
`testfs_tx_commit` hold. -/
theorem create_tail_none (BS MAXFS NRD PPB : Nat) (sb : super_block) (c : context)
    (type : inode_type) (before : Option Nat) (ntc : List Nat) (no : Int) (cur0 : Nat)
    (htx : sb.tx_in_progress = tx_type.TX_NONE)
    (h : create_tail BS MAXFS NRD PPB sb c type before ntc no cur0 = none) :
    create_body BS MAXFS NRD PPB { sb with tx_in_progress := tx_type.TX_CREATE } c type before ntc
      = none := by
  simp only [create_tail, testfs_tx_start, htx, ne_eq, not_true_eq_false, if_false] at h
  by_cases hg : ((BS : Int) - sizeof_dirent) % 18446744073709551616
      < (namelen + 1) % 18446744073709551616
  · rw [if_pos hg] at h
    simp at h
  · rw [if_neg hg] at h
    cases hb : create_body BS MAXFS NRD PPB { sb with tx_in_progress := tx_type.TX_CREATE } c type
        before ntc with
    | none => rfl
    | some x =>
      obtain ⟨r2, sb2, c2⟩ := x
      obtain ⟨-, b2, -⟩ := create_body_frame BS MAXFS NRD PPB _ c type before ntc _ _ _ hb
      rw [hb] at h
      simp only [testfs_tx_commit, b2, ne_eq, not_true_eq_false, if_false] at h
      split_ifs at h

/-- `testfs_create_file_or_dir` aborts only where `cmd_cd` on the path of the
name, before the transaction, or its own body, run inside the transaction on
the volume that `testfs_tx_start` leaves, aborts: the assertions of
`testfs_tx_start` and of `testfs_tx_commit` hold. -/
theorem create_file_or_dir_none (BS MAXFS NRD PPB : Nat) (sb : super_block) (c : context)
    (type : inode_type) (name : List Nat) (htx : sb.tx_in_progress = tx_type.TX_NONE)
    (h : testfs_create_file_or_dir BS MAXFS NRD PPB sb c type name = none) :
    (last_slash name name.length < 0 ∧
      create_body BS MAXFS NRD PPB { sb with tx_in_progress := tx_type.TX_CREATE } c type none name
        = none) ∨
    (0 ≤ last_slash name name.length ∧
      (cmd_cd BS sb { c with cmd := set_cmd1 c.cmd (name.take (create_name_offset name).toNat) }
          = none ∨
        ∃ r sb1 c1,
          cmd_cd BS sb { c with cmd := set_cmd1 c.cmd (name.take (create_name_offset name).toNat) }
            = some (r, sb1, c1) ∧ 0 ≤ r ∧ sb1.tx_in_progress = tx_type.TX_NONE ∧
          create_body BS MAXFS NRD PPB { sb1 with tx_in_progress := tx_type.TX_CREATE } c1 type
            (some (name.getD (create_name_offset name).toNat 0))
            (name.drop ((create_name_offset name).toNat + 1)) = none)) := by
  unfold testfs_create_file_or_dir at h
  simp only at h
  by_cases h1 : name = [SLASH]
  · rw [if_pos h1] at h
    simp at h
  rw [if_neg h1] at h
  by_cases h2 : last_slash name name.length ≥ 0
  · rw [if_pos h2] at h
    refine Or.inr ⟨h2, ?_⟩
    have e : (if last_slash name name.length = 0 then last_slash name name.length + 1
        else last_slash name name.length) = create_name_offset name := rfl
    rw [e] at h
    cases hcd : cmd_cd BS sb
        { c with cmd := set_cmd1 c.cmd (name.take (create_name_offset name).toNat) } with
    | none => exact Or.inl rfl
    | some x =>
      obtain ⟨r1, sb1, c1⟩ := x
      obtain ⟨⟨-, -, -, f2⟩, -⟩ := cmd_cd_frame BS sb _ _ _ _ hcd
      rw [hcd] at h
      simp only at h
      by_cases h4 : r1 < 0
      · rw [if_pos h4] at h
        simp at h
      · rw [if_neg h4] at h
        exact Or.inr ⟨r1, sb1, c1, rfl, by omega, f2.trans htx,
          create_tail_none BS MAXFS NRD PPB sb1 c1 type _ _ _ _ (f2.trans htx) h⟩
  · rw [if_neg h2] at h
    exact Or.inl ⟨by omega, create_tail_none BS MAXFS NRD PPB sb c type _ _ _ _ htx h⟩

/-- When `cmd_create` returns, no transaction is in progress; and its loop
aborts only in one of its calls of `testfs_create_file_or_dir`, made after
`k` calls that returned no error, on the volume (with no transaction in
progress) and the context that these have left, for the argument of index
`i + k`. -/
theorem cmd_create_loop_tx (BS MAXFS NRD PPB : Nat) : ∀ (n i : Nat) (sb : super_block)
    (c : context), sb.tx_in_progress = tx_type.TX_NONE →
    (∀ ret sb' c', cmd_create_loop BS MAXFS NRD PPB n i sb c = some (ret, sb', c') →
      sb'.tx_in_progress = tx_type.TX_NONE) ∧
    (cmd_create_loop BS MAXFS NRD PPB n i sb c = none →
      ∃ k ret sbk ck, k < n ∧
        cmd_create_loop BS MAXFS NRD PPB k i sb c = some (ret, sbk, ck) ∧ 0 ≤ ret ∧
        sbk.tx_in_progress = tx_type.TX_NONE ∧
        testfs_create_file_or_dir BS MAXFS NRD PPB sbk ck inode_type.I_FILE
          (ck.cmd.getD (i + k) []) = none) := by
  intro n
  induction n with
  | zero =>
    intro i sb c htx
    refine ⟨fun ret sb' c' h => ?_, fun h => ?_⟩
    · simp only [cmd_create_loop, Option.some.injEq, Prod.mk.injEq] at h
      obtain ⟨-, rfl, -⟩ := h
      exact htx
    · simp [cmd_create_loop] at h
  | succ n ih =>
    intro i sb c htx
    simp only [cmd_create_loop]
    cases hc : testfs_create_file_or_dir BS MAXFS NRD PPB sb c inode_type.I_FILE
        (c.cmd.getD i []) with
    | none =>
      exact ⟨fun _ _ _ h => by simp at h,
        fun _ => ⟨0, 0, sb, c, Nat.succ_pos n, rfl, le_refl _, htx, hc⟩⟩
    | some x =>
      obtain ⟨r1, sb1, c1⟩ := x
      have h1 := (create_file_or_dir_frame BS MAXFS NRD PPB sb c _ _ _ _ _ hc).2.1 htx
      simp only
      by_cases hneg : r1 < 0
      · rw [if_pos hneg]
        refine ⟨fun ret sb' c' h => ?_, fun h => by simp at h⟩
        simp only [Option.some.injEq, Prod.mk.injEq] at h
        obtain ⟨-, rfl, -⟩ := h
        exact h1
      · rw [if_neg hneg]
        refine ⟨(ih (i + 1) sb1 c1 h1).1, fun h => ?_⟩
        obtain ⟨k, ret, sbk, ck, hk, hloop, hret, htxk, hnone⟩ := (ih (i + 1) sb1 c1 h1).2 h
        refine ⟨k + 1, ret, sbk, ck, by omega, ?_, hret, htxk, ?_⟩
        · simp only [cmd_create_loop, hc, if_neg hneg]
          exact hloop
        · have e : i + (k + 1) = i + 1 + k := by omega
          rw [e]
          exact hnone

theorem cmd_rm_tx (BS MAXFS NRD PPB : Nat) (sb : super_block) (c : context)
    (htx : sb.tx_in_progress = tx_type.TX_NONE) :
    (∀ ret sb' c', cmd_rm BS MAXFS (remove_inode_or_keep BS NRD PPB) sb c = some (ret, sb', c') →
      sb'.tx_in_progress = tx_type.TX_NONE) ∧
    (cmd_rm BS MAXFS (remove_inode_or_keep BS NRD PPB) sb c = none →
      testfs_remove_dirent BS MAXFS { sb with tx_in_progress := tx_type.TX_RM } c.cur_dir
        (c.cmd.getD 1 []) = none) := by
  simp only [cmd_rm, testfs_tx_start, htx, ne_eq, not_true_eq_false, if_false]
  by_cases hn : c.nargs = 2
  · simp only [hn, not_true_eq_false, if_false]
    cases hr : testfs_remove_dirent BS MAXFS { sb with tx_in_progress := tx_type.TX_RM } c.cur_dir
        (c.cmd.getD 1 []) with
    | none => exact ⟨fun _ _ _ h => by simp at h, fun _ => rfl⟩
    | some x =>
      obtain ⟨nr, sb2⟩ := x
      obtain ⟨-, -, f⟩ := remove_dirent_frame BS MAXFS _ _ _ _ _ hr
      simp only at f
      simp only [testfs_tx_commit, f, remove_inode_or_keep_tx, testfs_get_inode, ne_eq,
        not_true_eq_false, if_false]
      refine ⟨fun ret sb' c' h => ?_, fun h => ?_⟩
      · split_ifs at h
        all_goals simp only [Option.some.injEq, Prod.mk.injEq] at h
        all_goals obtain ⟨-, rfl, -⟩ := h
        all_goals rfl
      · split_ifs at h
  · simp only [hn, not_false_eq_true, if_true]
    refine ⟨fun ret sb' c' h => ?_, fun h => by simp at h⟩
    simp only [Option.some.injEq, Prod.mk.injEq] at h
    obtain ⟨-, rfl, -⟩ := h
    exact htx

theorem cmd_write_tx (BS MAXFS : Nat) (sb : super_block) (c : context)
    (htx : sb.tx_in_progress = tx_type.TX_NONE) :
    (∀ ret sb' c', cmd_write BS MAXFS sb c = some (ret, sb', c') →
      sb'.tx_in_progress = tx_type.TX_NONE) ∧
    (cmd_write BS MAXFS sb c = none →
      testfs_dir_name_to_inode_nr BS sb c.cur_dir (c.cmd.getD 1 []) = none) := by
  simp only [cmd_write]
  by_cases hn : c.nargs = 3
  · simp only [hn, ne_eq, not_true_eq_false, if_false]
    cases hr : testfs_dir_name_to_inode_nr BS sb c.cur_dir (c.cmd.getD 1 []) with
    | none => exact ⟨fun _ _ _ h => by simp at h, fun _ => rfl⟩
    | some x =>
      obtain ⟨nr, sb1, cur⟩ := x
      obtain ⟨⟨-, -, -, f⟩, -⟩ := name_to_inode_nr_frame BS sb c.cur_dir _ _ _ _ hr
      have f' := f.trans htx
      simp only [testfs_tx_start, testfs_tx_commit, testfs_get_inode, set_inode, f', ne_eq,
        not_true_eq_false, if_false, testfs_put_inode]
      refine ⟨fun ret sb' c' h => ?_, fun h => ?_⟩
      · split_ifs at h
        all_goals simp only [Option.some.injEq, Prod.mk.injEq] at h
        all_goals obtain ⟨-, rfl, -⟩ := h
        all_goals first | rfl | exact f'
      · split_ifs at h
  · simp only [hn, ne_eq, not_false_eq_true, if_true]
    refine ⟨fun ret sb' c' h => ?_, fun h => by simp at h⟩
    simp only [Option.some.injEq, Prod.mk.injEq] at h
    obtain ⟨-, rfl, -⟩ := h
    exact htx

theorem cmd_owrite_tx (BS MAXFS : Nat) (sb : super_block) (c : context)
    (htx : sb.tx_in_progress = tx_type.TX_NONE) :
    (∀ ret sb' c', cmd_owrite BS MAXFS sb c = some (ret, sb', c') →
      sb'.tx_in_progress = tx_type.TX_NONE) ∧
    (cmd_owrite BS MAXFS sb c = none →
      testfs_dir_name_to_inode_nr BS sb c.cur_dir (c.cmd.getD 1 []) = none) := by
  simp only [cmd_owrite]
  by_cases hn : c.nargs = 4
  · simp only [hn, ne_eq, not_true_eq_false, if_false]
    cases hr : testfs_dir_name_to_inode_nr BS sb c.cur_dir (c.cmd.getD 1 []) with
    | none =>
      refine ⟨fun ret sb' c' h => ?_, fun _ => rfl⟩
      split_ifs at h
      all_goals simp only [Option.some.injEq, Prod.mk.injEq] at h
      all_goals obtain ⟨-, rfl, -⟩ := h
      all_goals exact htx
    | some x =>
      obtain ⟨nr, sb1, cur⟩ := x
      obtain ⟨⟨-, -, -, f⟩, -⟩ := name_to_inode_nr_frame BS sb c.cur_dir _ _ _ _ hr
      have f' := f.trans htx
      simp only [testfs_tx_start, testfs_tx_commit, testfs_get_inode, set_inode, f', ne_eq,
        not_true_eq_false, if_false, testfs_put_inode]
      refine ⟨fun ret sb' c' h => ?_, fun h => ?_⟩
      · split_ifs at h
        all_goals simp only [Option.some.injEq, Prod.mk.injEq] at h
        all_goals obtain ⟨-, rfl, -⟩ := h
        all_goals first | rfl | exact f' | exact htx
      · split_ifs at h
  · simp only [hn, ne_eq, not_false_eq_true, if_true]
    refine ⟨fun ret sb' c' h => ?_, fun h => by simp at h⟩
    simp only [Option.some.injEq, Prod.mk.injEq] at h
    obtain ⟨-, rfl, -⟩ := h
    exact htx

/-! ## The claims on `testfs_create_file_or_dir` and on transactions -/

/-- C13: when `testfs_create_file_or_dir` returns, with success or with any
error, `c->cur_dir` is the inode with the same number as before the call, also
when the name holds a path (for a block size above the size of an entry
header, where the test of `namelen` never fires). -/
theorem create_restores_cur_dir (BS MAXFS NRD PPB : Nat) (sb : super_block) (c : context)
    (type : inode_type) (name : List Nat) (ret : Int) (sb' : super_block) (c' : context)
    (hBS : sizeof_dirent < BS) (hB31 : BS < 2147483648)
    (h : testfs_create_file_or_dir BS MAXFS NRD PPB sb c type name = some (ret, sb', c')) :
    c'.cur_dir = c.cur_dir :=
  (create_file_or_dir_frame BS MAXFS NRD PPB sb c type name ret sb' c' h).2.2 hBS hB31

set_option maxRecDepth 1000000 in
/-- Witness of C13: `mkdir a/y` and `mkdir a/b` (which exists) from the root of
the sample volume. -/
theorem create_restores_cur_dir_witness :
    ∃ ret sb' c' ret2 sb2 c2, sizeof_dirent < 256 ∧ 256 < 2147483648 ∧
      testfs_create_file_or_dir 256 65536 4 64 sample_sb ⟨0, [[109], [97, 47, 121]], 2⟩
        inode_type.I_DIR [97, 47, 121] = some (ret, sb', c') ∧ ret = 0 ∧
      c'.cur_dir = (⟨0, [[109], [97, 47, 121]], 2⟩ : context).cur_dir ∧
      testfs_create_file_or_dir 256 65536 4 64 sample_sb ⟨0, [[109], [97, 47, 98]], 2⟩
        inode_type.I_DIR [97, 47, 98] = some (ret2, sb2, c2) ∧ ret2 = -EEXIST ∧
      c2.cur_dir = (⟨0, [[109], [97, 47, 98]], 2⟩ : context).cur_dir := by
  have hsome : (testfs_create_file_or_dir 256 65536 4 64 sample_sb ⟨0, [[109], [97, 47, 121]], 2⟩
      inode_type.I_DIR [97, 47, 121]).isSome = true := by decide
  have hval : (testfs_create_file_or_dir 256 65536 4 64 sample_sb ⟨0, [[109], [97, 47, 121]], 2⟩
      inode_type.I_DIR [97, 47, 121]).map Prod.fst = some 0 := by decide
  have hsome2 : (testfs_create_file_or_dir 256 65536 4 64 sample_sb ⟨0, [[109], [97, 47, 98]], 2⟩
      inode_type.I_DIR [97, 47, 98]).isSome = true := by decide
  have hval2 : (testfs_create_file_or_dir 256 65536 4 64 sample_sb ⟨0, [[109], [97, 47, 98]], 2⟩
      inode_type.I_DIR [97, 47, 98]).map Prod.fst = some (-EEXIST) := by decide
  obtain ⟨⟨ret, sb', c'⟩, h⟩ := Option.isSome_iff_exists.mp hsome
  obtain ⟨⟨ret2, sb2, c2⟩, h2⟩ := Option.isSome_iff_exists.mp hsome2
  have hr : ret = 0 := by simpa [h] using hval
  have hr2 : ret2 = -EEXIST := by simpa [h2] using hval2
  exact ⟨ret, sb', c', ret2, sb2, c2, by decide, by decide, h, hr,
    create_restores_cur_dir 256 65536 4 64 sample_sb _ _ _ ret sb' c' (by decide) (by decide) h,
    h2, hr2,
    create_restores_cur_dir 256 65536 4 64 sample_sb _ _ _ ret2 sb2 c2 (by decide) (by decide) h2⟩

/-- C18: when no transaction is in progress at the entry of `cmd_create`,
`cmd_mkdir`, `cmd_rm`, `cmd_write` or `cmd_owrite`, none is in progress when
the handler returns, with success or with any error; and no assertion of
`testfs_tx_start` (no transaction in progress) or of `testfs_tx_commit` (the
kind is the one started) fails: a handler aborts only where the operation
that it runs before or inside its transaction aborts, on the very volume and
context that the handler passes to it.  For `cmd_create` that operation is
the call of `testfs_create_file_or_dir` for the argument of index `1 + k`,
after `k` calls without error, on the volume that these leave, on which no
transaction is in progress; and `testfs_create_file_or_dir` started with no
transaction in progress aborts only in `cmd_cd` on the path of the name, before
`testfs_tx_start`, or in its body, which calls neither `testfs_tx_start` nor
`testfs_tx_commit`, on the volume that `testfs_tx_start` leaves. -/
theorem handlers_bracket_transactions (BS MAXFS NRD PPB : Nat) (sb : super_block) (c : context)
    (htx : sb.tx_in_progress = tx_type.TX_NONE) :
    (∀ ret sb' c', cmd_create BS MAXFS NRD PPB sb c = some (ret, sb', c') →
      sb'.tx_in_progress = tx_type.TX_NONE) ∧
    (∀ ret sb' c', cmd_mkdir BS MAXFS NRD PPB sb c = some (ret, sb', c') →
      sb'.tx_in_progress = tx_type.TX_NONE) ∧
    (∀ ret sb' c', cmd_rm BS MAXFS (remove_inode_or_keep BS NRD PPB) sb c = some (ret, sb', c') →
      sb'.tx_in_progress = tx_type.TX_NONE) ∧
    (∀ ret sb' c', cmd_write BS MAXFS sb c = some (ret, sb', c') →
      sb'.tx_in_progress = tx_type.TX_NONE) ∧
    (∀ ret sb' c', cmd_owrite BS MAXFS sb c = some (ret, sb', c') →
      sb'.tx_in_progress = tx_type.TX_NONE) ∧
    (cmd_create BS MAXFS NRD PPB sb c = none →
      ∃ k ret sbk ck, k < c.nargs - 1 ∧
        cmd_create_loop BS MAXFS NRD PPB k 1 sb c = some (ret, sbk, ck) ∧ 0 ≤ ret ∧
        sbk.tx_in_progress = tx_type.TX_NONE ∧
        testfs_create_file_or_dir BS MAXFS NRD PPB sbk ck inode_type.I_FILE
          (ck.cmd.getD (1 + k) []) = none) ∧
    (cmd_mkdir BS MAXFS NRD PPB sb c = none →
      testfs_create_file_or_dir BS MAXFS NRD PPB sb c inode_type.I_DIR (c.cmd.getD 1 []) = none) ∧
    (∀ (sbq : super_block) (cq : context) (type : inode_type) (name : List Nat),
      sbq.tx_in_progress = tx_type.TX_NONE →
      testfs_create_file_or_dir BS MAXFS NRD PPB sbq cq type name = none →
      (last_slash name name.length < 0 ∧
        create_body BS MAXFS NRD PPB { sbq with tx_in_progress := tx_type.TX_CREATE } cq type none
          name = none) ∨
      (0 ≤ last_slash name name.length ∧
        (cmd_cd BS sbq
            { cq with cmd := set_cmd1 cq.cmd (name.take (create_name_offset name).toNat) }
            = none ∨
          ∃ r sb1 c1,
            cmd_cd BS sbq
              { cq with cmd := set_cmd1 cq.cmd (name.take (create_name_offset name).toNat) }
              = some (r, sb1, c1) ∧ 0 ≤ r ∧ sb1.tx_in_progress = tx_type.TX_NONE ∧
            create_body BS MAXFS NRD PPB { sb1 with tx_in_progress := tx_type.TX_CREATE } c1 type
              (some (name.getD (create_name_offset name).toNat 0))
              (name.drop ((create_name_offset name).toNat + 1)) = none))) ∧
    (cmd_rm BS MAXFS (remove_inode_or_keep BS NRD PPB) sb c = none →
      testfs_remove_dirent BS MAXFS { sb with tx_in_progress := tx_type.TX_RM } c.cur_dir
        (c.cmd.getD 1 []) = none) ∧
    (cmd_write BS MAXFS sb c = none →
      testfs_dir_name_to_inode_nr BS sb c.cur_dir (c.cmd.getD 1 []) = none) ∧
    (cmd_owrite BS MAXFS sb c = none →
      testfs_dir_name_to_inode_nr BS sb c.cur_dir (c.cmd.getD 1 []) = none) := by
  have hloop := cmd_create_loop_tx BS MAXFS NRD PPB (c.nargs - 1) 1 sb c htx
  refine ⟨?_, ?_, (cmd_rm_tx BS MAXFS NRD PPB sb c htx).1, (cmd_write_tx BS MAXFS sb c htx).1,
    (cmd_owrite_tx BS MAXFS sb c htx).1, ?_, ?_,
    fun sbq cq type name hq h => create_file_or_dir_none BS MAXFS NRD PPB sbq cq type name hq h,
    (cmd_rm_tx BS MAXFS NRD PPB sb c htx).2, (cmd_write_tx BS MAXFS sb c htx).2,
    (cmd_owrite_tx BS MAXFS sb c htx).2⟩
  · intro ret sb' c' h
    simp only [cmd_create] at h
    split_ifs at h
    · simp only [Option.some.injEq, Prod.mk.injEq] at h
      obtain ⟨-, rfl, -⟩ := h
      exact htx
    · exact hloop.1 ret sb' c' h
  · intro ret sb' c' h
    simp only [cmd_mkdir] at h
    split_ifs at h
    · simp only [Option.some.injEq, Prod.mk.injEq] at h
      obtain ⟨-, rfl, -⟩ := h
      exact htx
    · exact (create_file_or_dir_frame BS MAXFS NRD PPB sb c _ _ ret sb' c' h).2.1 htx
  · intro h
    simp only [cmd_create] at h
    split_ifs at h
    exact hloop.2 h
  · intro h
    simp only [cmd_mkdir] at h
    split_ifs at h
    exact h

set_option maxRecDepth 1000000 in
/-- Witness of C18: `mkdir d` and `rm a` (refused: `a` is not empty) in the
root of the sample volume; and `touch f/y/x`, which aborts in the name
resolution of `cmd_cd` on `f/y` (`f` is a regular file), in the first call of
`testfs_create_file_or_dir`, before any transaction is started. -/
theorem handlers_bracket_transactions_witness :
    sample_sb.tx_in_progress = tx_type.TX_NONE ∧
    (∃ ret sb' c' ret2 sb2 c2,
      cmd_mkdir 256 65536 4 64 sample_sb ⟨0, [[109], [100]], 2⟩ = some (ret, sb', c') ∧ ret = 0 ∧
      sb'.tx_in_progress = tx_type.TX_NONE ∧
      cmd_rm 256 65536 (remove_inode_or_keep 256 4 64) sample_sb ⟨0, [[114], [97]], 2⟩
        = some (ret2, sb2, c2) ∧ ret2 = -ENOTEMPTY ∧
      sb2.tx_in_progress = tx_type.TX_NONE) ∧
    cmd_create 256 65536 4 64 sample_sb ⟨0, [[116], [102, 47, 121, 47, 120]], 2⟩ = none ∧
    (∃ k ret sbk ck, k < (⟨0, [[116], [102, 47, 121, 47, 120]], 2⟩ : context).nargs - 1 ∧
      cmd_create_loop 256 65536 4 64 k 1 sample_sb ⟨0, [[116], [102, 47, 121, 47, 120]], 2⟩
        = some (ret, sbk, ck) ∧ 0 ≤ ret ∧
      sbk.tx_in_progress = tx_type.TX_NONE ∧
      testfs_create_file_or_dir 256 65536 4 64 sbk ck inode_type.I_FILE
        (ck.cmd.getD (1 + k) []) = none) ∧
    cmd_cd 256 sample_sb
      { (⟨0, [[116], [102, 47, 121, 47, 120]], 2⟩ : context) with
        cmd := set_cmd1 [[116], [102, 47, 121, 47, 120]]
          (([102, 47, 121, 47, 120] : List Nat).take
            (create_name_offset [102, 47, 121, 47, 120]).toNat) } = none := by
  have hsome : (cmd_mkdir 256 65536 4 64 sample_sb ⟨0, [[109], [100]], 2⟩).isSome = true := by
    decide
  have hval : (cmd_mkdir 256 65536 4 64 sample_sb ⟨0, [[109], [100]], 2⟩).map Prod.fst
      = some 0 := by
    decide
  have hsome2 : (cmd_rm 256 65536 (remove_inode_or_keep 256 4 64) sample_sb
      ⟨0, [[114], [97]], 2⟩).isSome = true := by decide
  have hval2 : (cmd_rm 256 65536 (remove_inode_or_keep 256 4 64) sample_sb
      ⟨0, [[114], [97]], 2⟩).map Prod.fst = some (-ENOTEMPTY) := by decide
  obtain ⟨⟨ret, sb', c'⟩, h⟩ := Option.isSome_iff_exists.mp hsome
  obtain ⟨⟨ret2, sb2, c2⟩, h2⟩ := Option.isSome_iff_exists.mp hsome2
  have hr : ret = 0 := by simpa [h] using hval
  have hr2 : ret2 = -ENOTEMPTY := by simpa [h2] using hval2
  have hnone : cmd_create 256 65536 4 64 sample_sb ⟨0, [[116], [102, 47, 121, 47, 120]], 2⟩
      = none := Option.isNone_iff_eq_none.mp (by decide)
  exact ⟨rfl, ⟨ret, sb', c', ret2, sb2, c2, h, hr,
    (handlers_bracket_transactions 256 65536 4 64 sample_sb ⟨0, [[109], [100]], 2⟩ rfl).2.1
      ret sb' c' h,
    h2, hr2,
    (handlers_bracket_transactions 256 65536 4 64 sample_sb ⟨0, [[114], [97]], 2⟩ rfl).2.2.1
      ret2 sb2 c2 h2⟩, hnone,
    (handlers_bracket_transactions 256 65536 4 64 sample_sb
      ⟨0, [[116], [102, 47, 121, 47, 120]], 2⟩ rfl).2.2.2.2.2.1 hnone,
    Option.isNone_iff_eq_none.mp (by decide)⟩

/-! ## The buffer of a bitmap -/

theorem bitmap_getdata_length (b : List Bool) :
    (bitmap_getdata b).length = (b.length + 7) / 8 := by
  simp [bitmap_getdata]

theorem bitmap_getdata_getD (b : List Bool) (j : Nat) :
    (bitmap_getdata b).getD j 0 = if j < (b.length + 7) / 8 then bitmap_byte b j else 0 := by
  simp only [bitmap_getdata, List.getD_eq_getElem?_getD, List.getElem?_map]
  split_ifs with h
  · rw [List.getElem?_range h]; rfl
  · rw [List.getElem?_eq_none (by simpa using h)]; rfl

theorem getD_set_ne (b : List Bool) (i m : Nat) (v : Bool) (h : m ≠ i) :
    (b.set i v).getD m false = b.getD m false := by
  simp only [List.getD_eq_getElem?_getD, List.getElem?_set]
  rw [if_neg (fun e => h e.symm)]

theorem bitmap_byte_set (b : List Bool) (i j : Nat) (v : Bool) (h : j ≠ i / 8) :
    bitmap_byte (b.set i v) j = bitmap_byte b j := by
  simp only [bitmap_byte]
  congr 1
  apply List.map_congr_left
  intro k hk
  rw [getD_set_ne]
  have := List.mem_range.mp hk
  omega

/-- Setting or clearing the bit `i` changes the byte `i / 8` of the buffer at
most. -/
theorem bitmap_getdata_set (b : List Bool) (i j : Nat) (v : Bool) (h : j ≠ i / 8) :
    (bitmap_getdata (b.set i v)).getD j 0 = (bitmap_getdata b).getD j 0 := by
  rw [bitmap_getdata_getD, bitmap_getdata_getD, List.length_set, bitmap_byte_set b i j v h]

theorem getD_drop (l : List Nat) (k m : Nat) : (l.drop k).getD m 0 = l.getD (k + m) 0 := by
  simp [List.getD_eq_getElem?_getD, List.getElem?_drop]

/-- The byte of the bit `index` lies in the block `index / (BLOCK_SIZE * 8)` of
the buffer. -/
theorem byte_in_block (BS index : Nat) (hBS : 0 < BS) :
    index / (BS * BITS_PER_WORD) * BS ≤ index / 8 ∧
      index / 8 < index / (BS * BITS_PER_WORD) * BS + BS := by
  simp only [BITS_PER_WORD]
  have h1 : index / (BS * 8) = index / 8 / BS := by
    rw [Nat.mul_comm, Nat.div_div_eq_div_mul]
  rw [h1]
  have h2 := Nat.div_add_mod (index / 8) BS
  have h3 := Nat.mod_lt (index / 8) hBS
  have h4 : BS * (index / 8 / BS) = index / 8 / BS * BS := Nat.mul_comm _ _
  omega

/-- Writing the block of the changed bit brings the region up to date. -/
theorem write_freemap_block (BS : Nat) (dev : device) (start : Nat) (b : List Bool)
    (i : Nat) (v : Bool) (hBS : 0 < BS) (h : freemap_on_disk BS dev start b) :
    freemap_on_disk BS
      (write_blocks BS dev ((bitmap_getdata (b.set i v)).drop (i / (BS * BITS_PER_WORD) * BS))
        (start + i / (BS * BITS_PER_WORD)) 1)
      start (b.set i v) := by
  intro j hj
  obtain ⟨hb1, hb2⟩ := byte_in_block BS i hBS
  have hlen : (bitmap_getdata (b.set i v)).length = (bitmap_getdata b).length := by
    rw [bitmap_getdata_length, bitmap_getdata_length, List.length_set]
  simp only [write_blocks, Nat.one_mul]
  have e : (start + i / (BS * BITS_PER_WORD)) * BS = start * BS + i / (BS * BITS_PER_WORD) * BS :=
    Nat.add_mul _ _ _
  rw [e]
  split_ifs with hin
  · rw [getD_drop]
    congr 1
    omega
  · rw [h j (hlen ▸ hj)]
    symm
    apply bitmap_getdata_set
    intro hji
    apply hin
    omega

/-- A write outside a region leaves it as it is. -/
theorem write_blocks_outside (BS : Nat) (dev : device) (blocks : List Nat) (start : Nat)
    (b : List Bool) (blk : Nat)
    (h : freemap_on_disk BS dev start b)
    (hout : blk + 1 ≤ start ∨ start * BS + (bitmap_getdata b).length ≤ blk * BS) :
    freemap_on_disk BS (write_blocks BS dev blocks blk 1) start b := by
  intro j hj
  simp only [write_blocks, Nat.one_mul]
  rw [if_neg, h j hj]
  intro hin
  rcases hout with hout | hout
  · have := Nat.mul_le_mul_right BS hout
    rw [Nat.add_mul, Nat.one_mul] at this
    omega
  · omega

theorem region_bytes (BS n : Nat) (b : List Bool) (h : b.length = BS * n * BITS_PER_WORD) :
    (bitmap_getdata b).length = n * BS := by
  simp only [BITS_PER_WORD] at h
  rw [bitmap_getdata_length, h, Nat.mul_comm BS n]
  omega

theorem block_of_index (BS n i : Nat) (h : i < BS * n * BITS_PER_WORD) :
    i / (BS * BITS_PER_WORD) < n := by
  apply Nat.div_lt_of_lt_mul
  have : BS * BITS_PER_WORD * n = BS * n * BITS_PER_WORD := by ring
  rw [this]; exact h

/-! ## The freemaps and their on-disk regions (`super.c`) -/

theorem block_freemap_update (BS ni nb : Nat) (sb : super_block) (dev : device) (i : Nat)
    (v : Bool) (hBS : 0 < BS) (hlay : freemap_layout BS ni nb sb dev)
    (hc : freemaps_on_disk BS sb dev) :
    freemaps_on_disk BS { sb with block_freemap := sb.block_freemap.set i v }
      (testfs_write_block_freemap BS { sb with block_freemap := sb.block_freemap.set i v }
        dev i) := by
  obtain ⟨l1, l2, l3, l4⟩ := hlay
  obtain ⟨c1, c2⟩ := hc
  have hreg := region_bytes BS ni sb.inode_freemap l1
  refine ⟨?_, ?_⟩
  · apply write_blocks_outside BS dev _ _ _ _ c1
    right
    rw [hreg, ← Nat.add_mul]
    apply Nat.mul_le_mul_right
    exact Nat.le_trans l3 (Nat.le_add_right _ _)
  · exact write_freemap_block BS dev dev.block_freemap_start sb.block_freemap i v hBS c2

theorem inode_freemap_update (BS ni nb : Nat) (sb : super_block) (dev : device) (i : Nat)
    (v : Bool) (hBS : 0 < BS) (hlay : freemap_layout BS ni nb sb dev)
    (hc : freemaps_on_disk BS sb dev) (hi : i < sb.inode_freemap.length) :
    freemaps_on_disk BS { sb with inode_freemap := sb.inode_freemap.set i v }
      (testfs_write_inode_freemap BS { sb with inode_freemap := sb.inode_freemap.set i v }
        dev i) := by
  obtain ⟨l1, l2, l3, l4⟩ := hlay
  obtain ⟨c1, c2⟩ := hc
  have hblk := block_of_index BS ni i (l1 ▸ hi)
  refine ⟨?_, ?_⟩
  · exact write_freemap_block BS dev dev.inode_freemap_start sb.inode_freemap i v hBS c1
  · apply write_blocks_outside BS dev _ _ _ _ c2
    left
    show dev.inode_freemap_start + i / (BS * BITS_PER_WORD) + 1 ≤ dev.block_freemap_start
    omega

theorem bitmap_alloc_index (b : List Bool) (h : ¬ (bitmap_alloc b).1 < 0) :
    (bitmap_alloc b).2.2 < b.length ∧
      (bitmap_alloc b).2.1 = b.set (bitmap_alloc b).2.2 true := by
  simp only [bitmap_alloc] at h ⊢
  split_ifs at h ⊢ with hi
  · exact ⟨hi, rfl⟩
  · simp [ENOSPC] at h

theorem bitmap_unmark_index (b b' : List Bool) (i : Nat) (h : bitmap_unmark b i = some b') :
    i < b.length ∧ b' = b.set i false := by
  simp only [bitmap_unmark] at h
  split_ifs at h with hi
  simp only [Option.some.injEq] at h
  exact ⟨hi.1, h.symm⟩

theorem get_block_freemap_on_disk (BS ni nb : Nat) (sb : super_block) (dev : device)
    (hBS : 0 < BS) (hlay : freemap_layout BS ni nb sb dev) (hc : freemaps_on_disk BS sb dev) :
    freemaps_on_disk BS (testfs_get_block_freemap BS sb dev).2.1
      (testfs_get_block_freemap BS sb dev).2.2 := by
  simp only [testfs_get_block_freemap]
  split_ifs with h
  · exact hc
  · obtain ⟨hi, hset⟩ := bitmap_alloc_index sb.block_freemap h
    simp only
    rw [hset]
    exact block_freemap_update BS ni nb sb dev _ true hBS hlay hc

theorem put_block_freemap_on_disk (BS ni nb : Nat) (sb : super_block) (dev : device)
    (block_nr : Nat) (sb' : super_block) (dev' : device)
    (hBS : 0 < BS) (hlay : freemap_layout BS ni nb sb dev) (hc : freemaps_on_disk BS sb dev)
    (h : testfs_put_block_freemap BS sb dev block_nr = some (sb', dev')) :
    freemaps_on_disk BS sb' dev' := by
  simp only [testfs_put_block_freemap] at h
  split at h
  · simp at h
  · rename_i b hb
    obtain ⟨hi, hset⟩ := bitmap_unmark_index _ _ _ hb
    simp only [Option.some.injEq, Prod.mk.injEq] at h
    obtain ⟨rfl, rfl⟩ := h
    rw [hset]
    exact block_freemap_update BS ni nb sb dev _ false hBS hlay hc

theorem get_inode_freemap_on_disk (BS ni nb : Nat) (sb : super_block) (dev : device)
    (hBS : 0 < BS) (hlay : freemap_layout BS ni nb sb dev) (hc : freemaps_on_disk BS sb dev) :
    freemaps_on_disk BS (testfs_get_inode_freemap BS sb dev).2.1
      (testfs_get_inode_freemap BS sb dev).2.2 := by
  simp only [testfs_get_inode_freemap]
  split_ifs with h
  · exact hc
  · obtain ⟨hi, hset⟩ := bitmap_alloc_index sb.inode_freemap h
    simp only
    rw [hset]
    exact inode_freemap_update BS ni nb sb dev _ true hBS hlay hc hi

theorem put_inode_freemap_on_disk (BS ni nb : Nat) (sb : super_block) (dev : device)
    (inode_nr : Nat) (sb' : super_block) (dev' : device)
    (hBS : 0 < BS) (hlay : freemap_layout BS ni nb sb dev) (hc : freemaps_on_disk BS sb dev)
    (h : testfs_put_inode_freemap BS sb dev inode_nr = some (sb', dev')) :
    freemaps_on_disk BS sb' dev' := by
  simp only [testfs_put_inode_freemap] at h
  split at h
  · simp at h
  · rename_i b hb
    obtain ⟨hi, hset⟩ := bitmap_unmark_index _ _ _ hb
    simp only [Option.some.injEq, Prod.mk.injEq] at h
    obtain ⟨rfl, rfl⟩ := h
    rw [hset]
    exact inode_freemap_update BS ni nb sb dev _ false hBS hlay hc hi

theorem alloc_block_on_disk (BS ni nb : Nat) (sb : super_block) (dev : device)
    (block : List Nat)
    (hBS : 0 < BS) (hlay : freemap_layout BS ni nb sb dev) (hc : freemaps_on_disk BS sb dev) :
    freemaps_on_disk BS (testfs_alloc_block BS sb dev block).2.1
      (testfs_alloc_block BS sb dev block).2.2.1 := by
  have := get_block_freemap_on_disk BS ni nb sb dev hBS hlay hc
  simp only [testfs_alloc_block]
  split_ifs <;> exact this

theorem zero_blocks_one (BS : Nat) (dev : device) (start : Nat) :
    zero_blocks BS dev start 1 = write_blocks BS dev (zeros BS) start 1 := by
  simp [zero_blocks, List.range_succ]

theorem free_block_on_disk (BS ni nb : Nat) (sb : super_block) (dev : device)
    (block_nr : Nat) (r : Int) (sb' : super_block) (dev' : device)
    (hBS : 0 < BS) (hlay : freemap_layout BS ni nb sb dev) (hc : freemaps_on_disk BS sb dev)
    (h : testfs_free_block BS sb dev block_nr = some (r, sb', dev')) :
    freemaps_on_disk BS sb' dev' := by
  simp only [testfs_free_block, zero_blocks_one] at h
  have hds : (write_blocks BS dev (zeros BS) block_nr 1).data_blocks_start
      = dev.data_blocks_start := rfl
  rw [hds] at h
  split_ifs at h with hrel
  split at h
  · simp at h
  · rename_i sb1 dev2 hput
    simp only [Option.some.injEq, Prod.mk.injEq] at h
    obtain ⟨-, rfl, rfl⟩ := h
    have hge : dev.data_blocks_start ≤ block_nr := by omega
    obtain ⟨l1, l2, l3, l4⟩ := hlay
    obtain ⟨c1, c2⟩ := hc
    have r1 := region_bytes BS ni sb.inode_freemap l1
    have r2 := region_bytes BS nb sb.block_freemap l2
    have hc1 : freemaps_on_disk BS sb (write_blocks BS dev (zeros BS) block_nr 1) := by
      refine ⟨write_blocks_outside BS dev _ _ _ _ c1 (Or.inr ?_),
        write_blocks_outside BS dev _ _ _ _ c2 (Or.inr ?_)⟩
      · show dev.inode_freemap_start * BS + _ ≤ _
        rw [r1, ← Nat.add_mul]
        exact Nat.mul_le_mul_right _ (by omega)
      · show dev.block_freemap_start * BS + _ ≤ _
        rw [r2, ← Nat.add_mul]
        exact Nat.mul_le_mul_right _ (by omega)
    exact put_block_freemap_on_disk BS ni nb sb (write_blocks BS dev (zeros BS) block_nr 1) _ _ _
      hBS ⟨l1, l2, l3, l4⟩ hc1 hput

/-! ## The claims on the freemaps -/

/-- C14: when the two on-disk freemap regions hold the buffers of the in-memory
freemaps before the call, they hold them again when `testfs_alloc_block`,
`testfs_free_block`, `testfs_get_inode_freemap` or `testfs_put_inode_freemap`
returns (the last two for the block freemap as well): the one block written,
number `index / (BLOCK_SIZE * BITS_PER_WORD)` of the region, is the block of
the buffer that holds the byte `index / 8` of the changed bit.  The two
functions that release a bit return when the bit is set (and the block lies
in the data region). -/
theorem freemaps_are_written_through (BS ni nb : Nat) (sb : super_block) (dev : device)
    (hBS : 0 < BS) (hlay : freemap_layout BS ni nb sb dev) (hc : freemaps_on_disk BS sb dev) :
    (∀ block, freemaps_on_disk BS (testfs_alloc_block BS sb dev block).2.1
      (testfs_alloc_block BS sb dev block).2.2.1) ∧
    (∀ block_nr r sb' dev', testfs_free_block BS sb dev block_nr = some (r, sb', dev') →
      freemaps_on_disk BS sb' dev') ∧
    freemaps_on_disk BS (testfs_get_inode_freemap BS sb dev).2.1
      (testfs_get_inode_freemap BS sb dev).2.2 ∧
    (∀ inode_nr sb' dev', testfs_put_inode_freemap BS sb dev inode_nr = some (sb', dev') →
      freemaps_on_disk BS sb' dev') ∧
    (∀ index, index / (BS * BITS_PER_WORD) * BS ≤ index / 8 ∧
      index / 8 < index / (BS * BITS_PER_WORD) * BS + BS) ∧
    (∀ block_nr, dev.data_blocks_start ≤ block_nr →
      sb.block_freemap.getD (block_nr - dev.data_blocks_start) false = true →
      (testfs_free_block BS sb dev block_nr).isSome = true) ∧
    (∀ inode_nr, sb.inode_freemap.getD inode_nr false = true →
      (testfs_put_inode_freemap BS sb dev inode_nr).isSome = true) := by
  have hset : ∀ (b : List Bool) (i : Nat), b.getD i false = true → i < b.length := by
    intro b i h
    by_contra hn
    rw [List.getD_eq_getElem?_getD, List.getElem?_eq_none (by omega)] at h
    simp at h
  refine ⟨fun block => alloc_block_on_disk BS ni nb sb dev block hBS hlay hc,
    fun block_nr r sb' dev' h => free_block_on_disk BS ni nb sb dev block_nr r sb' dev' hBS hlay
      hc h,
    get_inode_freemap_on_disk BS ni nb sb dev hBS hlay hc,
    fun inode_nr sb' dev' h => put_inode_freemap_on_disk BS ni nb sb dev inode_nr sb' dev' hBS
      hlay hc h,
    fun index => byte_in_block BS index hBS, ?_, ?_⟩
  · intro block_nr hge hbit
    have hds : (write_blocks BS dev (zeros BS) block_nr 1).data_blocks_start
        = dev.data_blocks_start := rfl
    have hrel : ¬ ((block_nr : Int) - dev.data_blocks_start < 0) := by omega
    have htn : ((block_nr : Int) - dev.data_blocks_start).toNat
        = block_nr - dev.data_blocks_start := by omega
    simp only [testfs_free_block, zero_blocks_one, hds, hrel, if_false, htn,
      testfs_put_block_freemap, bitmap_unmark, hset _ _ hbit, hbit, and_self, if_true,
      Option.isSome_some]
  · intro inode_nr hbit
    simp only [testfs_put_inode_freemap, bitmap_unmark, hset _ _ hbit, hbit, and_self, if_true,
      Option.isSome_some]

/-- Witness of C14: the volume of blocks of 2 bytes; `testfs_alloc_block` takes
the data block 3, and `testfs_free_block` frees the block 6 (data block 1). -/
theorem freemaps_are_written_through_witness :
    0 < 2 ∧ freemap_layout 2 1 1 small_sb small_dev ∧ freemaps_on_disk 2 small_sb small_dev ∧
    (testfs_alloc_block 2 small_sb small_dev [1, 1]).1 = 8 ∧
    freemaps_on_disk 2 (testfs_alloc_block 2 small_sb small_dev [1, 1]).2.1
      (testfs_alloc_block 2 small_sb small_dev [1, 1]).2.2.1 ∧
    ∃ r sb' dev', testfs_free_block 2 small_sb small_dev 6 = some (r, sb', dev') ∧
      freemaps_on_disk 2 sb' dev' := by
  have h := freemaps_are_written_through 2 1 1 small_sb small_dev (by decide) (by decide)
    (by decide)
  have hsome : (testfs_free_block 2 small_sb small_dev 6).isSome = true := by decide
  obtain ⟨⟨r, sb', dev'⟩, hf⟩ := Option.isSome_iff_exists.mp hsome
  exact ⟨by decide, by decide, by decide, by decide, h.1 [1, 1], r, sb', dev', hf,
    h.2.1 6 r sb' dev' hf⟩

/-- C15: when the block freemap has a clear bit, with `i` the lowest one,
`testfs_alloc_block` sets the bit `i` and no other, fills the `BLOCK_SIZE`
bytes of the caller's buffer with zeros and returns `data_blocks_start + i`;
when the freemap is full it returns a negative value (`-ENOSPC`) and changes
neither the volume nor the backing file nor the buffer. -/
theorem alloc_block_takes_lowest_clear_bit (BS : Nat) (sb : super_block) (dev : device)
    (block : List Nat) :
    (∀ i, i < sb.block_freemap.length → sb.block_freemap.getD i false = false →
      (∀ j, j < i → sb.block_freemap.getD j false = true) →
      (testfs_alloc_block BS sb dev block).1 = (dev.data_blocks_start : Int) + i ∧
      (testfs_alloc_block BS sb dev block).2.1.block_freemap = sb.block_freemap.set i true ∧
      (testfs_alloc_block BS sb dev block).2.1.inode_freemap = sb.inode_freemap ∧
      (testfs_alloc_block BS sb dev block).2.2.2 = zeros BS ++ block.drop BS) ∧
    ((∀ j, j < sb.block_freemap.length → sb.block_freemap.getD j false = true) →
      (testfs_alloc_block BS sb dev block).1 = -ENOSPC ∧
      (testfs_alloc_block BS sb dev block).1 < 0 ∧
      (testfs_alloc_block BS sb dev block).2.1 = sb ∧
      (testfs_alloc_block BS sb dev block).2.2.1 = dev ∧
      (testfs_alloc_block BS sb dev block).2.2.2 = block) := by
  refine ⟨fun i hi hclear hlow => ?_, fun hfull => ?_⟩
  · have hidx : sb.block_freemap.findIdx (fun x => !x) = i := by
      rw [List.findIdx_eq hi]
      refine ⟨?_, fun j hj => ?_⟩
      · have := hclear
        rw [List.getD_eq_getElem?_getD, List.getElem?_eq_getElem hi] at this
        simpa using this
      · have := hlow j hj
        rw [List.getD_eq_getElem?_getD, List.getElem?_eq_getElem (by omega)] at this
        simpa using this
    simp only [testfs_alloc_block, testfs_get_block_freemap, bitmap_alloc, hidx, hi, if_true,
      lt_self_iff_false, if_false, Int.natCast_nonneg, not_lt.mpr, read_into, zeros,
      List.length_replicate]
    simp only [Int.not_lt.mpr (Int.natCast_nonneg i), if_false, and_self, and_true]
    rfl
  · have hidx : ¬ sb.block_freemap.findIdx (fun x => !x) < sb.block_freemap.length := by
      rw [List.findIdx_lt_length]
      rintro ⟨x, hx, hp⟩
      obtain ⟨j, hj, rfl⟩ := List.getElem_of_mem hx
      have := hfull j hj
      rw [List.getD_eq_getElem?_getD, List.getElem?_eq_getElem hj] at this
      simp only [Option.getD_some] at this
      rw [this] at hp
      simp at hp
    simp only [testfs_alloc_block, testfs_get_block_freemap, bitmap_alloc, hidx, if_false,
      show (-ENOSPC : Int) < 0 by simp [ENOSPC], if_true, and_self]

/-- Witness of C15: in the volume of blocks of 2 bytes the lowest clear bit of
the block freemap is bit 3, and the data blocks start at block 5; the block
freemap of `full_sb` is full. -/
theorem alloc_block_takes_lowest_clear_bit_witness :
    ((testfs_alloc_block 2 small_sb small_dev [1, 1]).1 = ((5 : Nat) : Int) + (3 : Nat) ∧
      (testfs_alloc_block 2 small_sb small_dev [1, 1]).2.1.block_freemap
        = small_sb.block_freemap.set 3 true ∧
      (testfs_alloc_block 2 small_sb small_dev [1, 1]).2.1.inode_freemap
        = small_sb.inode_freemap ∧
      (testfs_alloc_block 2 small_sb small_dev [1, 1]).2.2.2 = zeros 2 ++ [1, 1].drop 2) ∧
    ((testfs_alloc_block 2 full_sb full_dev [1, 1]).1 = -ENOSPC ∧
      (testfs_alloc_block 2 full_sb full_dev [1, 1]).1 < 0 ∧
      (testfs_alloc_block 2 full_sb full_dev [1, 1]).2.1 = full_sb ∧
      (testfs_alloc_block 2 full_sb full_dev [1, 1]).2.2.1 = full_dev ∧
      (testfs_alloc_block 2 full_sb full_dev [1, 1]).2.2.2 = [1, 1]) :=
  ⟨(alloc_block_takes_lowest_clear_bit 2 small_sb small_dev [1, 1]).1 3 (by decide) (by decide)
      (by decide),
    (alloc_block_takes_lowest_clear_bit 2 full_sb full_dev [1, 1]).2 (by decide)⟩

/-! ## Counting the bits of a freemap -/

theorem bitmap_alloc_count (b : List Bool) (h : ¬ (bitmap_alloc b).1 < 0) :
    bitmap_nr_allocated (bitmap_alloc b).2.1 = bitmap_nr_allocated b + 1 := by
  simp only [bitmap_alloc] at h ⊢
  split_ifs at h ⊢ with hi
  · have hclear : b[b.findIdx (fun x => !x)] = false := by
      have := @List.findIdx_getElem _ _ _ hi
      simpa using this
    simp only [bitmap_nr_allocated]
    rw [List.count_set _ _ _ _ hi, hclear]
    simp
  · simp [ENOSPC] at h

theorem acquire_blocks_count : ∀ (n : Nat) (b b' : List Bool), acquire_blocks n b = some b' →
    bitmap_nr_allocated b' = bitmap_nr_allocated b + n := by
  intro n
  induction n with
  | zero =>
    intro b b' h
    simp only [acquire_blocks, Option.some.injEq] at h
    subst h
    rfl
  | succ n ih =>
    intro b b' h
    simp only [acquire_blocks] at h
    split_ifs at h with hneg
    rw [ih _ _ h, bitmap_alloc_count b hneg]
    omega

theorem count_eq_zero_of_not_contains (xs : List Bool) (h : xs.contains true = false) :
    xs.count true = 0 := by
  rw [List.count_eq_zero]
  intro hm
  have : xs.contains true = true := by simpa using hm
  rw [h] at this
  exact absurd this (by simp)

theorem clear_last_count : ∀ (b : List Bool),
    bitmap_nr_allocated (clear_last b) = bitmap_nr_allocated b - 1 := by
  intro b
  induction b with
  | nil => rfl
  | cons x xs ih =>
    simp only [bitmap_nr_allocated] at ih ⊢
    simp only [clear_last]
    cases hc : xs.contains true with
    | true =>
      have hpos : 0 < xs.count true := by
        rw [List.count_pos_iff]
        simpa using hc
      simp only [if_true, List.count_cons, ih]
      split_ifs <;> omega
    | false =>
      have hz := count_eq_zero_of_not_contains xs hc
      simp only [Bool.false_eq_true, if_false, List.count_cons, hz]
      cases x <;> simp

theorem release_blocks_count : ∀ (n : Nat) (b : List Bool),
    bitmap_nr_allocated (release_blocks n b) = bitmap_nr_allocated b - n := by
  intro n
  induction n with
  | zero => intro b; rfl
  | succ n ih =>
    intro b
    simp only [release_blocks]
    rw [ih, clear_last_count]
    omega

/-! ## The data of a directory grows -/

theorem write_data_length (MAXFS : Nat) (ino : inode) (start : Nat) (buf : List Nat) :
    ino.data.length ≤ (testfs_write_data MAXFS ino start buf).2.data.length := by
  simp only [testfs_write_data]
  split_ifs
  · exact Nat.le_refl _
  · simp only [write_bytes, List.length_append, List.length_take, List.length_drop, zeros,
      List.length_replicate]
    omega

theorem write_dirent_length (BS MAXFS : Nat) (dir : inode) (name : List Nat) (len : Nat)
    (nr : Int) (offset : Nat) (ret : Int) (dir' : inode)
    (h : testfs_write_dirent BS MAXFS dir name len nr offset = some (ret, dir')) :
    dir.data.length ≤ dir'.data.length := by
  simp only [testfs_write_dirent] at h
  split_ifs at h
  all_goals simp only [Option.some.injEq] at h
  · have := write_data_length MAXFS dir offset
      (zeros ((offset + (sizeof_dirent + len)) / BS * BS - offset))
    have h2 := congrArg Prod.snd h
    simp only at h2
    rw [h2] at this
    exact this
  · have h1 := write_data_length MAXFS dir offset
      (zeros ((offset + (sizeof_dirent + len)) / BS * BS - offset))
    have h2 := write_data_length MAXFS
      (testfs_write_data MAXFS dir offset
        (zeros ((offset + (sizeof_dirent + len)) / BS * BS - offset))).2
      ((offset + (sizeof_dirent + len)) / BS * BS) (dirent_bytes nr len name)
    rw [h] at h2
    exact Nat.le_trans h1 h2
  · have := write_data_length MAXFS dir offset (dirent_bytes nr len name)
    rw [h] at this
    exact this

theorem add_dirent_length (BS MAXFS : Nat) (dir : inode) (name : List Nat) (nr : Int)
    (ret : Int) (dir' : inode) (h : testfs_add_dirent BS MAXFS dir name nr = some (ret, dir')) :
    dir.data.length ≤ dir'.data.length := by
  simp only [testfs_add_dirent] at h
  split_ifs at h
  split at h
  · simp at h
  · split_ifs at h
    · simp only [Option.some.injEq, Prod.mk.injEq] at h
      rw [← h.2]
    · exact write_dirent_length BS MAXFS dir name _ nr _ ret dir' h

theorem nr_blocks_mono (BS NRD PPB : Nat) (a b : inode) (h : a.data.length ≤ b.data.length) :
    nr_blocks BS NRD PPB a ≤ nr_blocks BS NRD PPB b := by
  simp only [nr_blocks]
  have h1 : (a.data.length + BS - 1) / BS ≤ (b.data.length + BS - 1) / BS :=
    Nat.div_le_div_right (by omega)
  generalize (a.data.length + BS - 1) / BS = x at h1 ⊢
  generalize (b.data.length + BS - 1) / BS = y at h1 ⊢
  have h2 : (if NRD < x then 1 else 0) ≤ (if NRD < y then 1 else 0) := by
    split_ifs <;> omega
  have h3 : (if NRD + PPB < x then 1 + (x - (NRD + PPB) + PPB - 1) / PPB else 0)
      ≤ (if NRD + PPB < y then 1 + (y - (NRD + PPB) + PPB - 1) / PPB else 0) := by
    split_ifs with c1 c2
    · have : (x - (NRD + PPB) + PPB - 1) / PPB ≤ (y - (NRD + PPB) + PPB - 1) / PPB :=
        Nat.div_le_div_right (by omega)
      omega
    · omega
    · exact Nat.zero_le _
    · exact Nat.le_refl _
  generalize (if NRD < x then 1 else 0) = p2 at h2 ⊢
  generalize (if NRD < y then 1 else 0) = q2 at h2 ⊢
  generalize (if NRD + PPB < x then 1 + (x - (NRD + PPB) + PPB - 1) / PPB else 0) = p3 at h3 ⊢
  generalize (if NRD + PPB < y then 1 + (y - (NRD + PPB) + PPB - 1) / PPB else 0) = q3 at h3 ⊢
  omega

/-- An inode without data holds no block. -/
theorem nr_blocks_empty (BS NRD PPB : Nat) (ino : inode) (h : ino.data = []) :
    nr_blocks BS NRD PPB ino = 0 := by
  have z : (ino.data.length + BS - 1) / BS = 0 := by
    rw [h, List.length_nil, Nat.zero_add]
    by_cases hB : BS = 0
    · subst hB; rfl
    · exact Nat.div_eq_of_lt (by omega)
  simp only [nr_blocks, z]
  simp

/-! ## Inversion lemmas for `cmd_mkdir` followed by `cmd_rm` -/

theorem write_data_at_success (BS MAXFS NRD PPB : Nat) (sb : super_block) (nr start : Nat)
    (buf : List Nat) (h : 0 ≤ (write_data_at BS MAXFS NRD PPB sb nr start buf).1) :
    testfs_write_data MAXFS (sb.inodes nr) start buf
      = ((write_data_at BS MAXFS NRD PPB sb nr start buf).1,
          (write_data_at BS MAXFS NRD PPB sb nr start buf).2.inodes nr) ∧
    (∀ n, n ≠ nr → (write_data_at BS MAXFS NRD PPB sb nr start buf).2.inodes n = sb.inodes n) ∧
    bitmap_nr_allocated (write_data_at BS MAXFS NRD PPB sb nr start buf).2.block_freemap
      = bitmap_nr_allocated sb.block_freemap
        + (nr_blocks BS NRD PPB ((write_data_at BS MAXFS NRD PPB sb nr start buf).2.inodes nr)
          - nr_blocks BS NRD PPB (sb.inodes nr)) := by
  unfold write_data_at at h ⊢
  simp only at h ⊢
  by_cases hneg : (testfs_write_data MAXFS (sb.inodes nr) start buf).1 < 0
  · rw [if_pos hneg] at h
    simp only at h
    omega
  · rw [if_neg hneg] at h ⊢
    cases hq : acquire_blocks
        (nr_blocks BS NRD PPB (testfs_write_data MAXFS (sb.inodes nr) start buf).2
          - nr_blocks BS NRD PPB (sb.inodes nr)) sb.block_freemap with
    | none =>
      rw [hq] at h
      simp only [ENOSPC] at h
      omega
    | some b =>
      simp only
      refine ⟨?_, ?_, ?_⟩
      · simp [set_inode]
      · intro n hn
        simp [set_inode, hn]
      · have := acquire_blocks_count _ _ _ hq
        simp only [set_inode, if_true]
        exact this

theorem write_dirent_at_success (BS MAXFS NRD PPB : Nat) (m : Bool) (sb : super_block)
    (dir : Nat) (name : List Nat) (len : Nat) (nr : Int) (offset : Nat) (r : Int)
    (sb' : super_block)
    (h : write_dirent_at BS MAXFS NRD PPB m sb dir name len nr offset = some (r, sb'))
    (hr : 0 ≤ r) :
    testfs_write_dirent BS MAXFS (sb.inodes dir) name len nr offset = some (r, sb'.inodes dir) ∧
    (∀ n, n ≠ dir → sb'.inodes n = sb.inodes n) ∧
    bitmap_nr_allocated sb'.block_freemap = bitmap_nr_allocated sb.block_freemap
      + (nr_blocks BS NRD PPB (sb'.inodes dir) - nr_blocks BS NRD PPB (sb.inodes dir)) := by
  unfold write_dirent_at at h
  unfold testfs_write_dirent
  simp only at h ⊢
  by_cases hm : ¬ m = true
  · rw [if_pos hm] at h
    simp only [Option.some.injEq, Prod.mk.injEq, ENOMEM] at h
    omega
  rw [if_neg hm] at h
  by_cases hn : nr < 0
  · rw [if_pos hn] at h
    simp at h
  rw [if_neg hn] at h ⊢
  by_cases hs : (offset + (sizeof_dirent + len)) / BS > offset / BS
  · rw [if_pos hs] at h ⊢
    by_cases hr1 : (write_data_at BS MAXFS NRD PPB sb dir offset
        (zeros ((offset + (sizeof_dirent + len)) / BS * BS - offset))).1 < 0
    · rw [if_pos hr1] at h
      simp only [Option.some.injEq, Prod.mk.injEq] at h
      omega
    · rw [if_neg hr1] at h
      simp only [Option.some.injEq] at h
      obtain ⟨a1, a2, a3⟩ := write_data_at_success BS MAXFS NRD PPB sb dir offset
        (zeros ((offset + (sizeof_dirent + len)) / BS * BS - offset)) (by omega)
      have hr2 : 0 ≤ (write_data_at BS MAXFS NRD PPB
          (write_data_at BS MAXFS NRD PPB sb dir offset
            (zeros ((offset + (sizeof_dirent + len)) / BS * BS - offset))).2 dir
          ((offset + (sizeof_dirent + len)) / BS * BS) (dirent_bytes nr len name)).1 := by
        rw [h]; exact hr
      obtain ⟨b1, b2, b3⟩ := write_data_at_success BS MAXFS NRD PPB
        (write_data_at BS MAXFS NRD PPB sb dir offset
          (zeros ((offset + (sizeof_dirent + len)) / BS * BS - offset))).2 dir
        ((offset + (sizeof_dirent + len)) / BS * BS) (dirent_bytes nr len name) hr2
      rw [h] at b1 b2 b3
      simp only at b1 b2 b3
      have hr1' : ¬ (testfs_write_data MAXFS (sb.inodes dir) offset
          (zeros ((offset + (sizeof_dirent + len)) / BS * BS - offset))).1 < 0 := by
        rw [a1]; exact hr1
      rw [if_neg hr1', a1]
      simp only
      rw [b1]
      refine ⟨rfl, fun n hn => (b2 n hn).trans (a2 n hn), ?_⟩
      have m1 := nr_blocks_mono BS NRD PPB _ _ (write_data_length MAXFS (sb.inodes dir) offset
        (zeros ((offset + (sizeof_dirent + len)) / BS * BS - offset)))
      rw [a1] at m1
      simp only at m1
      have m2 := nr_blocks_mono BS NRD PPB _ _ (write_data_length MAXFS
        ((write_data_at BS MAXFS NRD PPB sb dir offset
          (zeros ((offset + (sizeof_dirent + len)) / BS * BS - offset))).2.inodes dir)
        ((offset + (sizeof_dirent + len)) / BS * BS) (dirent_bytes nr len name))
      rw [b1] at m2
      simp only at m2
      rw [b3, a3]
      omega
  · rw [if_neg hs] at h ⊢
    simp only [Option.some.injEq] at h
    have hr2 : 0 ≤ (write_data_at BS MAXFS NRD PPB sb dir offset
        (dirent_bytes nr len name)).1 := by
      rw [h]; exact hr
    obtain ⟨a1, a2, a3⟩ := write_data_at_success BS MAXFS NRD PPB sb dir offset
      (dirent_bytes nr len name) hr2
    rw [h] at a1 a2 a3
    simp only at a1 a2 a3
    exact ⟨by rw [a1], a2, a3⟩

theorem add_dirent_at_success (BS MAXFS NRD PPB : Nat) (m : Bool) (sb : super_block)
    (dir : Nat) (name : List Nat) (nr : Int) (r : Int) (sb' : super_block)
    (h : add_dirent_at BS MAXFS NRD PPB m sb dir name nr = some (r, sb')) (hr : 0 ≤ r) :
    ∃ ino', testfs_add_dirent BS MAXFS (sb.inodes dir) name nr = some (r, ino') ∧
      sb'.inodes dir = ino' ∧ (∀ n, n ≠ dir → sb'.inodes n = sb.inodes n) ∧
      bitmap_nr_allocated sb'.block_freemap = bitmap_nr_allocated sb.block_freemap
        + (nr_blocks BS NRD PPB ino' - nr_blocks BS NRD PPB (sb.inodes dir)) := by
  unfold add_dirent_at at h
  unfold testfs_add_dirent
  simp only at h ⊢
  by_cases hd : (sb.inodes dir).i_type ≠ inode_type.I_DIR
  · rw [if_pos hd] at h
    simp at h
  rw [if_neg hd] at h ⊢
  cases hl : add_dirent_loop BS (sb.inodes dir) name (name.length + 1)
      ((sb.inodes dir).i_size + 1) 0 with
  | none => rw [hl] at h; simp at h
  | some x =>
    obtain ⟨ret, found, p⟩ := x
    rw [hl] at h
    simp only at h ⊢
    by_cases hneg : ret < 0
    · rw [if_pos hneg] at h
      simp only [Option.some.injEq, Prod.mk.injEq] at h
      omega
    · rw [if_neg hneg] at h ⊢
      by_cases ha : ¬ (found = true ∨ p = (sb.inodes dir).i_size)
      · rw [if_pos ha] at h
        simp at h
      · rw [if_neg ha] at h ⊢
        obtain ⟨w1, w2, w3⟩ := write_dirent_at_success BS MAXFS NRD PPB m sb dir name _ nr p
          r sb' h hr
        exact ⟨sb'.inodes dir, w1, rfl, w2, w3⟩

/-- A successful `testfs_create_empty_dir` on a directory without data: the
blocks taken from the block freemap are those of the new directory. -/
theorem create_empty_dir_success (BS MAXFS NRD PPB : Nat) (m1 m2 : Bool) (sb : super_block)
    (p cdir : Nat)
    (r : Int) (sb' : super_block) (hempty : (sb.inodes cdir).data = [])
    (h : testfs_create_empty_dir BS MAXFS NRD PPB m1 m2 sb p cdir = some (r, sb')) (hr : 0 ≤ r) :
    (∀ n, n ≠ cdir → sb'.inodes n = sb.inodes n) ∧
    bitmap_nr_allocated sb'.block_freemap = bitmap_nr_allocated sb.block_freemap
      + nr_blocks BS NRD PPB (sb'.inodes cdir) := by
  simp only [testfs_create_empty_dir] at h
  split_ifs at h
  cases h1 : add_dirent_at BS MAXFS NRD PPB m1 sb cdir [DOT] cdir with
  | none => rw [h1] at h; simp at h
  | some x1 =>
    obtain ⟨ret1, sb1⟩ := x1
    rw [h1] at h
    simp only at h
    by_cases hn1 : ret1 < 0
    · rw [if_pos hn1] at h
      simp only [Option.some.injEq, Prod.mk.injEq] at h
      omega
    · rw [if_neg hn1] at h
      obtain ⟨i1, a1, a2, a3, a4⟩ := add_dirent_at_success BS MAXFS NRD PPB m1 sb cdir _ _ _ _ h1
        (by omega)
      cases h2 : add_dirent_at BS MAXFS NRD PPB m2 sb1 cdir [DOT, DOT] p with
      | none => rw [h2] at h; simp at h
      | some x2 =>
        obtain ⟨ret2, sb2⟩ := x2
        rw [h2] at h
        simp only at h
        by_cases hn2 : ret2 < 0
        · rw [if_pos hn2] at h
          split at h
          · simp at h
          · simp only [Option.some.injEq, Prod.mk.injEq] at h
            omega
        · rw [if_neg hn2] at h
          simp only [Option.some.injEq, Prod.mk.injEq] at h
          obtain ⟨-, rfl⟩ := h
          obtain ⟨i2, b1, b2, b3, b4⟩ := add_dirent_at_success BS MAXFS NRD PPB m2 sb1 cdir _ _ _ _ h2
            (by omega)
          refine ⟨fun n hn => (b3 n hn).trans (a3 n hn), ?_⟩
          have m1 := nr_blocks_mono BS NRD PPB _ _ (add_dirent_length BS MAXFS _ _ _ _ _ b1)
          have z : nr_blocks BS NRD PPB (sb.inodes cdir) = 0 :=
            nr_blocks_empty BS NRD PPB _ hempty
          rw [b4, a4, b2, z, a2]
          rw [a2] at m1
          omega

theorem remove_dirent_loop_found (BS MAXFS : Nat) (sb : super_block) (dir : Nat)
    (name : List Nat) (e : dirent) (r : Int) (sb' : super_block) : ∀ (fuel offset : Nat),
    ((dirents_from BS (sb.inodes dir) fuel offset).map Prod.snd).find? (live_named name)
      = some e →
    remove_dirent_loop BS MAXFS sb dir name fuel offset = some (r, sb') → 0 ≤ r →
    r = e.d_inode_nr ∧ (∀ n, n ≠ dir → sb'.inodes n = sb.inodes n) := by
  intro fuel
  induction fuel with
  | zero => intro offset h; simp [dirents_from] at h
  | succ fuel ih =>
    intro offset h hl hr
    simp only [dirents_from] at h
    simp only [remove_dirent_loop] at hl
    cases hn : testfs_next_dirent BS (sb.inodes dir) offset with
    | none => rw [hn] at h; simp at h
    | some x =>
      obtain ⟨od, o'⟩ := x
      cases od with
      | none => rw [hn] at h; simp at h
      | some d =>
        rw [hn] at h hl
        simp only [List.map_cons, List.find?_cons] at h
        simp only at hl
        by_cases hc : d.d_inode_nr < 0 ∨ cstr d.d_name ≠ name
        · have hln : live_named name d = false := by
            simp only [live_named, Bool.and_eq_false_iff, decide_eq_false_iff_not]
            rcases hc with hc | hc
            · left; omega
            · right; exact hc
          rw [hln] at h
          rw [if_pos hc] at hl
          exact ih o' h hl hr
        · have hln : live_named name d = true := by
            simp only [not_or, not_lt, ne_eq, not_not] at hc
            simp [live_named, hc.1, hc.2]
          rw [hln] at h
          simp only [Option.some.injEq] at h
          subst h
          rw [if_neg hc] at hl
          cases hall : testfs_remove_dirent_allowed BS sb d.d_inode_nr.toNat with
          | none => rw [hall] at hl; simp at hl
          | some y =>
            obtain ⟨ret, sb1⟩ := y
            obtain ⟨f1, -, -, -⟩ := remove_dirent_allowed_frame BS _ _ _ _ hall
            rw [hall] at hl
            simp only at hl
            by_cases hneg : ret < 0
            · rw [if_pos hneg] at hl
              simp only [Option.some.injEq, Prod.mk.injEq] at hl
              omega
            · rw [if_neg hneg] at hl
              simp only [Option.some.injEq, Prod.mk.injEq] at hl
              obtain ⟨hret, rfl⟩ := hl
              refine ⟨?_, fun n hn => ?_⟩
              · split_ifs at hret with hw
                · exact hret.symm
                · omega
              · simp only [set_inode, if_neg hn, f1]

theorem exists_first_split {α : Type} (p : α → Prop) [DecidablePred p] : ∀ (l : List α),
    (∃ x ∈ l, p x) → ∃ l1 t l2, l = l1 ++ t :: l2 ∧ p t ∧ ∀ x ∈ l1, ¬ p x := by
  intro l
  induction l with
  | nil => rintro ⟨x, hx, -⟩; simp at hx
  | cons a l ih =>
    intro h
    by_cases ha : p a
    · exact ⟨[], a, l, rfl, ha, by simp⟩
    · obtain ⟨x, hx, hp⟩ := h
      have hx' : x ∈ l := by
        rcases List.mem_cons.mp hx with hx | hx
        · subst hx; exact absurd hp ha
        · exact hx
      obtain ⟨l1, t, l2, rfl, ht, hl1⟩ := ih ⟨x, hx', hp⟩
      refine ⟨a :: l1, t, l2, rfl, ht, ?_⟩
      intro y hy
      rcases List.mem_cons.mp hy with hy | hy
      · subst hy; exact ha
      · exact hl1 y hy

theorem last_slash_none (name : List Nat) (h : SLASH ∉ name) : ∀ i : Nat, i ≤ name.length →
    last_slash name i = -1 := by
  intro i
  induction i with
  | zero => intro _; rfl
  | succ i ih =>
    intro hi
    simp only [last_slash]
    have hne : name.getD i 0 ≠ SLASH := by
      intro he
      apply h
      rw [List.getD_eq_getElem?_getD, List.getElem?_eq_getElem (by omega)] at he
      simp only [Option.getD_some] at he
      rw [← he]
      exact List.getElem_mem _
    rw [if_neg hne]
    exact ih (by omega)

/-! ## The entry that `testfs_add_dirent` leaves in a well-formed directory -/

theorem add_dirent_wf_result (BS MAXFS : Nat) (dir : inode) (es : List (List Nat × Int))
    (name : List Nat) (nr : Int) (ret : Int) (dir' : inode)
    (hBS : 0 < BS) (hB31 : BS < 2147483648) (hwf : wf_dir BS dir es)
    (hname : is_cstring name) (hfit : entry_total name ≤ BS) (hnr : nr < 2147483648)
    (hnolive : ∀ e ∈ es, ¬ is_live_named name e)
    (hres : testfs_add_dirent BS MAXFS dir name nr = some (ret, dir')) (hret : 0 ≤ ret) :
    0 ≤ nr ∧ ∃ es1 es2, wf_dir BS dir' (es1 ++ (name, nr) :: es2) ∧
      ∀ e ∈ es1, ¬ is_live_named name e := by
  by_cases hex : ∃ e ∈ es, is_reusable name e
  · obtain ⟨es1, t, es2, rfl, ht, hes1⟩ := exists_first_split (is_reusable name) es hex
    obtain ⟨h0, hty, hdata, hsize, -⟩ := add_dirent_wf_reuse BS MAXFS dir es1 es2 t name nr ret
      dir' hBS hB31 hwf
      (fun e he => ⟨hnolive e (List.mem_append_left _ he), hes1 e he⟩) ht hres hret
    obtain ⟨hdir, hdata0, hsize0, hv⟩ := hwf
    refine ⟨h0, es1, es2, ⟨hty, hdata, ?_, ?_⟩, fun e he => hnolive e (List.mem_append_left _ he)⟩
    · rw [hsize, hsize0, hdata, hdata0, lay_append BS hBS, lay_append BS hBS, lay_cons, lay_cons]
      simp only [List.length_append, zeros_length, dirent_bytes_length,
        entry_offset_congr BS _ _ _ ht.2, entry_total_congr _ _ ht.2]
    · intro x hx
      rcases List.mem_append.mp hx with hx | hx
      · exact hv x (List.mem_append_left _ hx)
      · rcases List.mem_cons.mp hx with hx | hx
        · subst hx
          exact ⟨hname, by omega, hnr, hfit⟩
        · exact hv x (List.mem_append_right _ (List.mem_cons_of_mem _ hx))
  · have hnone : ∀ e ∈ es, ¬ is_reusable name e := fun e he hr => hex ⟨e, he, hr⟩
    obtain ⟨h0, hty, hdata, hsize⟩ := add_dirent_wf_append BS MAXFS dir es name nr ret dir'
      hBS hB31 hwf (fun e he => ⟨hnolive e he, hnone e he⟩) hres hret
    obtain ⟨hdir, hdata0, hsize0, hv⟩ := hwf
    refine ⟨h0, es, [], ⟨hty, ?_, hsize, ?_⟩, hnolive⟩
    · rw [hdata, lay_append BS hBS, Nat.zero_add, hdata0, hsize0, hdata0]
    · intro x hx
      rcases List.mem_append.mp hx with hx | hx
      · exact hv x hx
      · rw [List.mem_singleton] at hx
        subst hx
        exact ⟨hname, by omega, hnr, hfit⟩

theorem find_new_entry (BS : Nat) (dir : inode) (es1 es2 : List (List Nat × Int))
    (name : List Nat) (nr : Int) (hBS : 0 < BS) (hB31 : BS < 2147483648)
    (hwf : wf_dir BS dir (es1 ++ (name, nr) :: es2)) (hnr : 0 ≤ nr)
    (hl : ∀ e ∈ es1, ¬ is_live_named name e) :
    (dirents BS dir).find? (live_named name) = some (entry_dirent (name, nr)) := by
  rw [dirents_wf BS dir _ hBS hB31 hwf]
  obtain ⟨-, -, -, hv⟩ := hwf
  have hv1 : ∀ e ∈ es1, is_cstring e.1 := fun e he => (hv e (List.mem_append_left _ he)).1
  have hvn : is_cstring name := (hv (name, nr) (List.mem_append_right _
    (List.mem_cons_self _ _))).1
  clear hv
  induction es1 with
  | nil =>
    simp only [List.nil_append, List.map_cons, List.find?_cons]
    have : live_named name (entry_dirent (name, nr)) = true := by
      have hc := cstr_entry_name (name, nr) hvn
      simp only [live_named, hc, decide_True, Bool.and_true, decide_eq_true_eq]
      exact hnr
    rw [this]
  | cons a t ih =>
    simp only [List.cons_append, List.map_cons, List.find?_cons]
    have ha := hl a (List.mem_cons_self _ _)
    have : live_named name (entry_dirent a) = false := by
      simp only [live_named, Bool.and_eq_false_iff, decide_eq_false_iff_not,
        cstr_entry_name a (hv1 a (List.mem_cons_self _ _))]
      simp only [is_live_named, not_and] at ha
      by_cases h0 : 0 ≤ a.2
      · right; exact ha h0
      · left; simpa [entry_dirent] using h0
    rw [this]
    exact ih (fun e he => hl e (List.mem_cons_of_mem _ he))
      (fun e he => hv1 e (List.mem_cons_of_mem _ he))

/-! ## What a successful `cmd_mkdir` with a plain name has done -/

theorem create_inode_success (sb : super_block) (type : inode_type)
    (h : ¬ (testfs_create_inode sb type).1 < 0) :
    (testfs_create_inode sb type).2.2 < sb.inode_freemap.length ∧
    sb.inode_freemap.getD (testfs_create_inode sb type).2.2 false = false ∧
    (testfs_create_inode sb type).2.1.inode_freemap
      = sb.inode_freemap.set (testfs_create_inode sb type).2.2 true ∧
    (testfs_create_inode sb type).2.1.block_freemap = sb.block_freemap ∧
    (testfs_create_inode sb type).2.1.inodes (testfs_create_inode sb type).2.2 = ⟨type, 0, []⟩ ∧
    (∀ n, n ≠ (testfs_create_inode sb type).2.2 →
      (testfs_create_inode sb type).2.1.inodes n = sb.inodes n) := by
  by_cases hi : sb.inode_freemap.findIdx (fun x => !x) < sb.inode_freemap.length
  · have e : testfs_create_inode sb type
        = (0, { sb with
            inode_freemap := sb.inode_freemap.set (sb.inode_freemap.findIdx (fun x => !x)) true,
            inodes := fun n => if n = sb.inode_freemap.findIdx (fun x => !x) then ⟨type, 0, []⟩
              else sb.inodes n,
            i_count := fun n => if n = sb.inode_freemap.findIdx (fun x => !x) then 1
              else sb.i_count n },
          sb.inode_freemap.findIdx (fun x => !x)) := by
      simp only [testfs_create_inode, bitmap_alloc, hi, if_true, show ¬ ((0 : Int) < 0) by omega,
        if_false]
    have hclear : sb.inode_freemap[sb.inode_freemap.findIdx (fun x => !x)] = false := by
      have := @List.findIdx_getElem _ _ _ hi
      simpa using this
    rw [e]
    refine ⟨hi, ?_, rfl, rfl, ?_, fun n hn => ?_⟩
    · rw [List.getD_eq_getElem?_getD, List.getElem?_eq_getElem hi]
      exact hclear
    · simp only [if_true]
    · simp only [if_neg hn]
  · exfalso
    apply h
    simp only [testfs_create_inode, bitmap_alloc, hi, if_false,
      show (-ENOSPC : Int) < 0 by simp [ENOSPC], if_true]

theorem create_plain_name (BS MAXFS NRD PPB : Nat) (sb : super_block) (c : context)
    (type : inode_type) (d : List Nat) (hns : SLASH ∉ d) :
    testfs_create_file_or_dir BS MAXFS NRD PPB sb c type d
      = create_tail BS MAXFS NRD PPB sb c type none d (-1) c.cur_dir := by
  have h1 : d ≠ [SLASH] := by
    intro h; apply hns; rw [h]; exact List.mem_singleton.mpr rfl
  simp only [testfs_create_file_or_dir, h1, if_false, last_slash_none d hns d.length (Nat.le_refl _),
    ge_iff_le, show ¬ ((0 : Int) ≤ -1) by omega]

theorem create_tail_success (BS MAXFS NRD PPB : Nat) (sb : super_block) (c : context)
    (type : inode_type) (ntc : List Nat) (cur0 : Nat) (sb' : super_block) (c' : context)
    (h : create_tail BS MAXFS NRD PPB sb c type none ntc (-1) cur0 = some (0, sb', c')) :
    sb.tx_in_progress = tx_type.TX_NONE ∧
    ∃ sbb, create_body BS MAXFS NRD PPB { sb with tx_in_progress := tx_type.TX_CREATE } c type none ntc
        = some (0, sbb, c') ∧
      sb' = { sbb with tx_in_progress := tx_type.TX_NONE } := by
  simp only [create_tail] at h
  by_cases hg : ((BS : Int) - sizeof_dirent) % 18446744073709551616
      < (namelen + 1) % 18446744073709551616
  · rw [if_pos hg] at h
    simp only [Option.some.injEq, Prod.mk.injEq, EINVAL] at h
    omega
  · rw [if_neg hg] at h
    simp only [testfs_tx_start] at h
    by_cases htx : sb.tx_in_progress = tx_type.TX_NONE
    · simp only [htx, ne_eq, not_true_eq_false, if_false] at h
      refine ⟨htx, ?_⟩
      cases hb : create_body BS MAXFS NRD PPB { sb with tx_in_progress := tx_type.TX_CREATE } c type none
          ntc with
      | none => rw [hb] at h; simp at h
      | some x =>
        obtain ⟨r2, sb2, c2⟩ := x
        rw [hb] at h
        simp only [testfs_tx_commit, show ¬ ((-1 : Int) > 0) by omega, if_false] at h
        by_cases hc : sb2.tx_in_progress ≠ tx_type.TX_CREATE
        · rw [if_pos hc] at h
          simp at h
        · rw [if_neg hc] at h
          simp only [Option.some.injEq, Prod.mk.injEq] at h
          obtain ⟨rfl, rfl, rfl⟩ := h
          exact ⟨sb2, rfl, rfl⟩
    · simp only [ne_eq, htx, not_false_eq_true, if_true] at h
      simp at h

theorem create_body_success (BS MAXFS NRD PPB : Nat) (sb : super_block) (c : context)
    (ntc : List Nat) (sb' : super_block) (c' : context)
    (h : create_body BS MAXFS NRD PPB sb c inode_type.I_DIR none ntc = some (0, sb', c')) :
    ∃ nr sbL r3 sb3 r4 sb4,
      testfs_dir_name_to_inode_nr BS sb c.cur_dir ntc = some (nr, sbL, c.cur_dir) ∧ nr < 0 ∧
      ¬ (testfs_create_inode sbL inode_type.I_DIR).1 < 0 ∧
      testfs_create_empty_dir BS MAXFS NRD PPB true true (testfs_create_inode sbL inode_type.I_DIR).2.1 c.cur_dir
        (testfs_create_inode sbL inode_type.I_DIR).2.2 = some (r3, sb3) ∧ 0 ≤ r3 ∧
      add_dirent_at BS MAXFS NRD PPB true sb3 c.cur_dir ntc (testfs_create_inode sbL inode_type.I_DIR).2.2
        = some (r4, sb4) ∧ 0 ≤ r4 ∧
      sb' = testfs_put_inode sb4 (testfs_create_inode sbL inode_type.I_DIR).2.2 ∧
      c'.cur_dir = c.cur_dir := by
  simp only [create_body, create_lookup] at h
  cases hl : testfs_dir_name_to_inode_nr BS sb c.cur_dir ntc with
  | none => rw [hl] at h; simp at h
  | some x =>
    obtain ⟨nr, sbL, cur⟩ := x
    obtain ⟨-, hcur⟩ := name_to_inode_nr_frame BS sb c.cur_dir ntc _ _ _ hl
    subst hcur
    rw [hl] at h
    simp only at h
    by_cases hnr : nr ≥ 0
    · rw [if_pos hnr] at h
      simp only [Option.some.injEq, Prod.mk.injEq, EEXIST] at h
      omega
    · rw [if_neg hnr] at h
      by_cases hok : (testfs_create_inode sbL inode_type.I_DIR).1 < 0
      · rw [if_pos hok] at h
        simp only [Option.some.injEq, Prod.mk.injEq] at h
        omega
      · rw [if_neg hok] at h
        simp only [if_true] at h
        cases he : testfs_create_empty_dir BS MAXFS NRD PPB true true (testfs_create_inode sbL inode_type.I_DIR).2.1
            c.cur_dir (testfs_create_inode sbL inode_type.I_DIR).2.2 with
        | none => rw [he] at h; simp at h
        | some y =>
          obtain ⟨r3, sb3⟩ := y
          rw [he] at h
          simp only at h
          by_cases h3 : r3 < 0
          · rw [if_pos h3] at h
            split at h
            · simp at h
            · simp only [Option.some.injEq, Prod.mk.injEq] at h
              omega
          · rw [if_neg h3] at h
            cases ha : add_dirent_at BS MAXFS NRD PPB true sb3 c.cur_dir ntc
                (testfs_create_inode sbL inode_type.I_DIR).2.2 with
            | none => rw [ha] at h; simp at h
            | some z =>
              obtain ⟨r4, sb4⟩ := z
              rw [ha] at h
              simp only at h
              by_cases h4 : r4 < 0
              · rw [if_pos h4] at h
                split at h
                · simp at h
                · simp only [Option.some.injEq, Prod.mk.injEq] at h
                  omega
              · rw [if_neg h4] at h
                simp only [Option.some.injEq, Prod.mk.injEq] at h
                obtain ⟨-, rfl, rfl⟩ := h
                exact ⟨nr, sbL, r3, sb3, r4, sb4, rfl, by omega, hok, he, by omega, ha,
                  by omega, rfl, rfl⟩

/-! ## `cmd_mkdir` followed by `cmd_rm` -/

/-- What a successful `cmd_mkdir d` has done, for a plain name `d` that the
well-formed current directory does not hold: the new inode `i` took the lowest
clear bit of the inode freemap, the current directory holds the entry of `d`
as the first live entry with that name, and the block freemap holds the
blocks of the new directory and those that the current directory gained. -/
theorem mkdir_success (BS MAXFS NRD PPB : Nat) (sb sb1 : super_block) (cur : Nat) (mk d : List Nat)
    (c1 : context) (es : List (List Nat × Int))
    (hBS : 0 < BS) (hB31 : BS < 2147483648) (hcap : sb.inode_freemap.length ≤ 2147483648)
    (hd : is_cstring d) (hns : SLASH ∉ d) (hfit : entry_total d ≤ BS)
    (hwf : wf_dir BS (sb.inodes cur) es) (habs : ∀ e ∈ es, ¬ is_live_named d e)
    (hcur : sb.inode_freemap.getD cur false = true)
    (hmk : cmd_mkdir BS MAXFS NRD PPB sb ⟨cur, [mk, d], 2⟩ = some (0, sb1, c1)) :
    ∃ i : Nat, i ≠ cur ∧ i < sb.inode_freemap.length ∧ sb.inode_freemap.getD i false = false ∧
      sb1.inode_freemap = sb.inode_freemap.set i true ∧
      sb1.tx_in_progress = tx_type.TX_NONE ∧ c1.cur_dir = cur ∧
      (dirents BS (sb1.inodes cur)).find? (live_named d) = some (entry_dirent (d, (i : Int))) ∧
      (sb1.inodes cur).i_type = inode_type.I_DIR ∧
      bitmap_nr_allocated sb1.block_freemap = bitmap_nr_allocated sb.block_freemap
        + nr_blocks BS NRD PPB (sb1.inodes i)
        + (nr_blocks BS NRD PPB (sb1.inodes cur) - nr_blocks BS NRD PPB (sb.inodes cur)) := by
  simp only [cmd_mkdir, ne_eq, not_true_eq_false, if_false, List.getD_cons_succ,
    List.getD_cons_zero] at hmk
  rw [create_plain_name BS MAXFS NRD PPB sb _ _ d hns] at hmk
  obtain ⟨htx, sbb, hbody, rfl⟩ := create_tail_success BS MAXFS NRD PPB sb _ _ d _ sb1 c1 hmk
  obtain ⟨nr, sbL, r3, sb3, r4, sb4, hl, hnr, hok, he, h3, ha, h4, rfl, hc1⟩ :=
    create_body_success BS MAXFS NRD PPB _ _ d sbb c1 hbody
  simp only at hl he ha hc1
  obtain ⟨⟨lin, lif, lbf, -⟩, -⟩ := name_to_inode_nr_frame BS _ cur d _ _ _ hl
  simp only at lin lif lbf
  obtain ⟨i1, i2, i3, i4, i5, i6⟩ := create_inode_success sbL inode_type.I_DIR hok
  generalize (testfs_create_inode sbL inode_type.I_DIR).2.2 = i at *
  generalize (testfs_create_inode sbL inode_type.I_DIR).2.1 = sbI at *
  rw [lif] at i1 i2 i3
  have hne : i ≠ cur := by
    intro h
    rw [h, hcur] at i2
    exact absurd i2 (by simp)
  obtain ⟨e1, e2⟩ := create_empty_dir_success BS MAXFS NRD PPB true true sbI cur i r3 sb3 (by rw [i5]) he h3
  obtain ⟨ef, -⟩ := create_empty_dir_frame BS MAXFS NRD PPB true true sbI cur i r3 sb3 he
  obtain ⟨ino', a1, a2, a3, a4⟩ := add_dirent_at_success BS MAXFS NRD PPB true sb3 cur d i r4 sb4 ha h4
  obtain ⟨af, -, -⟩ := add_dirent_at_frame BS MAXFS NRD PPB true sb3 cur d i r4 sb4 ha
  have hpar : sb3.inodes cur = sb.inodes cur := by
    rw [e1 cur (Ne.symm hne), i6 cur (Ne.symm hne), lin]
  rw [hpar] at a1 a4
  obtain ⟨-, es1, es2, hwf', hl1⟩ := add_dirent_wf_result BS MAXFS (sb.inodes cur) es d i r4 ino'
    hBS hB31 hwf hd hfit (by omega) habs a1 h4
  have hfind := find_new_entry BS ino' es1 es2 d i hBS hB31 hwf' (by omega) hl1
  refine ⟨i, hne, i1, i2, ?_, rfl, hc1, ?_, ?_, ?_⟩
  · show sb4.inode_freemap = _
    rw [af, ef, i3]
  · show (dirents BS (sb4.inodes cur)).find? _ = _
    rw [a2]; exact hfind
  · show (sb4.inodes cur).i_type = _
    rw [a2]; exact hwf'.1
  · show bitmap_nr_allocated sb4.block_freemap = _ + nr_blocks BS NRD PPB (sb4.inodes i)
      + (nr_blocks BS NRD PPB (sb4.inodes cur) - _)
    rw [a4, e2, i4, lbf, a2, a3 i hne]

theorem unmark_after_set (fm : List Bool) (i : Nat) (hi : i < fm.length)
    (hclear : fm.getD i false = false) :
    bitmap_unmark (fm.set i true) i = some fm := by
  have hset : ((fm.set i true).getD i false) = true := by
    simp [List.getD_eq_getElem?_getD, List.getElem?_set, hi]
  simp only [bitmap_unmark, List.length_set, hi, hset, and_self, if_true, List.set_set]
  congr 1
  apply List.ext_getElem
  · simp
  · intro n h1 h2
    simp only [List.getElem_set]
    split_ifs with hn
    · subst hn
      rw [List.getD_eq_getElem?_getD, List.getElem?_eq_getElem hi] at hclear
      exact hclear.symm
    · rfl

/-- What a successful `cmd_rm d` does after `cmd_mkdir d`: it removes the inode
`i` of the first live entry named `d`, gives its bit and its blocks back. -/
theorem rm_success (BS MAXFS NRD PPB : Nat) (sb1 sb2 : super_block) (cur i : Nat) (rm d : List Nat)
    (c2 : context) (fm : List Bool) (hne : i ≠ cur) (hi : i < fm.length)
    (hclear : fm.getD i false = false) (hfm : sb1.inode_freemap = fm.set i true)
    (htx : sb1.tx_in_progress = tx_type.TX_NONE)
    (hfind : (dirents BS (sb1.inodes cur)).find? (live_named d)
      = some (entry_dirent (d, (i : Int))))
    (hrm : cmd_rm BS MAXFS (remove_inode_or_keep BS NRD PPB) sb1 ⟨cur, [rm, d], 2⟩ = some (0, sb2, c2)) :
    sb2.inode_freemap = fm ∧
    bitmap_nr_allocated sb2.block_freemap
      = bitmap_nr_allocated sb1.block_freemap - nr_blocks BS NRD PPB (sb1.inodes i) := by
  simp only [cmd_rm, ne_eq, not_true_eq_false, if_false, testfs_tx_start, htx,
    List.getD_cons_succ, List.getD_cons_zero] at hrm
  cases hr : testfs_remove_dirent BS MAXFS { sb1 with tx_in_progress := tx_type.TX_RM } cur d with
  | none => rw [hr] at hrm; simp at hrm
  | some x =>
    obtain ⟨nr2, sb5⟩ := x
    obtain ⟨f1, f2, f3⟩ := remove_dirent_frame BS MAXFS _ cur d nr2 sb5 hr
    simp only at f1 f2 f3
    rw [hr] at hrm
    simp only at hrm
    by_cases hneg : nr2 < 0
    · rw [if_pos hneg] at hrm
      split at hrm
      · simp at hrm
      · simp only [Option.some.injEq, Prod.mk.injEq] at hrm
        omega
    · rw [if_neg hneg] at hrm
      have hloop : nr2 = (i : Int) ∧ ∀ n, n ≠ cur → sb5.inodes n = sb1.inodes n := by
        simp only [testfs_remove_dirent] at hr
        split_ifs at hr with hdot
        · simp only [Option.some.injEq, Prod.mk.injEq, EINVAL] at hr
          omega
        · exact remove_dirent_loop_found BS MAXFS { sb1 with tx_in_progress := tx_type.TX_RM }
            cur d _ nr2 sb5 _ _ hfind hr (by omega)
      obtain ⟨rfl, hin⟩ := hloop
      simp only [Int.toNat_ofNat] at hrm
      have hun : bitmap_unmark (testfs_get_inode sb5 i).inode_freemap i = some fm := by
        show bitmap_unmark sb5.inode_freemap i = some fm
        rw [f1, hfm]
        exact unmark_after_set fm i hi hclear
      have hrem : remove_inode_or_keep BS NRD PPB (testfs_get_inode sb5 i) i
          = { testfs_get_inode sb5 i with
              inode_freemap := fm,
              block_freemap := release_blocks
                (nr_blocks BS NRD PPB ((testfs_get_inode sb5 i).inodes i))
                (testfs_get_inode sb5 i).block_freemap,
              inodes := fun n => if n = i then ⟨inode_type.I_NONE, 0, []⟩
                else (testfs_get_inode sb5 i).inodes n,
              i_count := fun n => if n = i then 0 else (testfs_get_inode sb5 i).i_count n } := by
        simp only [remove_inode_or_keep, testfs_remove_inode, hun, Option.getD_some]
      rw [hrem] at hrm
      simp only [testfs_tx_commit, testfs_get_inode, f3, ne_eq, not_true_eq_false, if_false,
        Option.some.injEq, Prod.mk.injEq] at hrm
      obtain ⟨-, rfl, -⟩ := hrm
      refine ⟨rfl, ?_⟩
      show bitmap_nr_allocated (release_blocks (nr_blocks BS NRD PPB (sb5.inodes i))
        sb5.block_freemap) = _
      rw [release_blocks_count, f2, hin i hne]

/-- C20 (amended): let `d` be a plain name (a non-empty C string without `/`
that fits in a block with its header) that the well-formed current directory
does not hold, and let `cmd_mkdir d` and then `cmd_rm d` both return 0.  Then
the inode freemap is the one of before the `mkdir`, with the same popcount,
and the popcount of the block freemap has grown by the number of blocks, data
blocks and pointer blocks, that the current directory gained for the entry of
`d`, which the removal leaves to it: it is the same as before when the entry
was stored in the blocks that the directory had. -/
theorem mkdir_then_rm_popcounts (BS MAXFS NRD PPB : Nat) (sb sb1 sb2 : super_block) (cur : Nat)
    (mk rm d : List Nat) (c1 c2 : context) (es : List (List Nat × Int))
    (hBS : 0 < BS) (hB31 : BS < 2147483648) (hcap : sb.inode_freemap.length ≤ 2147483648)
    (hd : is_cstring d) (hns : SLASH ∉ d) (hfit : entry_total d ≤ BS)
    (hwf : wf_dir BS (sb.inodes cur) es) (habs : ∀ e ∈ es, ¬ is_live_named d e)
    (hcur : sb.inode_freemap.getD cur false = true)
    (hmk : cmd_mkdir BS MAXFS NRD PPB sb ⟨cur, [mk, d], 2⟩ = some (0, sb1, c1))
    (hrm : cmd_rm BS MAXFS (remove_inode_or_keep BS NRD PPB) sb1 ⟨c1.cur_dir, [rm, d], 2⟩
      = some (0, sb2, c2)) :
    sb2.inode_freemap = sb.inode_freemap ∧
    bitmap_nr_allocated sb2.inode_freemap = bitmap_nr_allocated sb.inode_freemap ∧
    bitmap_nr_allocated sb2.block_freemap = bitmap_nr_allocated sb.block_freemap
      + (nr_blocks BS NRD PPB (sb1.inodes cur) - nr_blocks BS NRD PPB (sb.inodes cur)) ∧
    (nr_blocks BS NRD PPB (sb1.inodes cur) = nr_blocks BS NRD PPB (sb.inodes cur) →
      bitmap_nr_allocated sb2.block_freemap = bitmap_nr_allocated sb.block_freemap) := by
  obtain ⟨i, hne, hi, hclear, hfm, htx, hc1, hfind, -, hcount⟩ :=
    mkdir_success BS MAXFS NRD PPB sb sb1 cur mk d c1 es hBS hB31 hcap hd hns hfit hwf habs hcur hmk
  rw [hc1] at hrm
  obtain ⟨r1, r2⟩ := rm_success BS MAXFS NRD PPB sb1 sb2 cur i rm d c2 sb.inode_freemap hne hi hclear hfm
    htx hfind hrm
  have hb : bitmap_nr_allocated sb2.block_freemap = bitmap_nr_allocated sb.block_freemap
      + (nr_blocks BS NRD PPB (sb1.inodes cur) - nr_blocks BS NRD PPB (sb.inodes cur)) := by
    rw [r2, hcount]
    omega
  refine ⟨r1, by rw [r1], hb, fun heq => ?_⟩
  rw [hb, heq]
  omega

set_option maxRecDepth 1000000 in
/-- Witness of C20 (amended): `mkdir d` and `rm d` in the root of the freshly
formatted volume, where the entry of `d` is stored in the first block of the
root. -/
theorem mkdir_then_rm_popcounts_witness :
    ∃ sb1 c1 sb2 c2, 0 < 256 ∧ 256 < 2147483648 ∧
      fresh_sb.inode_freemap.length ≤ 2147483648 ∧ is_cstring [100] ∧ SLASH ∉ [100] ∧
      entry_total [100] ≤ 256 ∧
      wf_dir 256 (fresh_sb.inodes 0) [([46], 0), ([46, 46], 0)] ∧
      (∀ e ∈ [([46], (0 : Int)), ([46, 46], 0)], ¬ is_live_named [100] e) ∧
      fresh_sb.inode_freemap.getD 0 false = true ∧
      cmd_mkdir 256 65536 4 64 fresh_sb ⟨0, [[109], [100]], 2⟩ = some (0, sb1, c1) ∧
      cmd_rm 256 65536 (remove_inode_or_keep 256 4 64) sb1 ⟨c1.cur_dir, [[114], [100]], 2⟩
        = some (0, sb2, c2) ∧
      sb2.inode_freemap = fresh_sb.inode_freemap ∧
      bitmap_nr_allocated sb2.inode_freemap = bitmap_nr_allocated fresh_sb.inode_freemap ∧
      bitmap_nr_allocated sb2.block_freemap = bitmap_nr_allocated fresh_sb.block_freemap
        + (nr_blocks 256 4 64 (sb1.inodes 0) - nr_blocks 256 4 64 (fresh_sb.inodes 0)) ∧
      (nr_blocks 256 4 64 (sb1.inodes 0) = nr_blocks 256 4 64 (fresh_sb.inodes 0) →
        bitmap_nr_allocated sb2.block_freemap = bitmap_nr_allocated fresh_sb.block_freemap) := by
  have hsome : (cmd_mkdir 256 65536 4 64 fresh_sb ⟨0, [[109], [100]], 2⟩).isSome = true := by decide
  have hval : (cmd_mkdir 256 65536 4 64 fresh_sb ⟨0, [[109], [100]], 2⟩).map Prod.fst = some 0 := by
    decide
  have hsome2 : ((cmd_mkdir 256 65536 4 64 fresh_sb ⟨0, [[109], [100]], 2⟩).bind (fun x =>
      cmd_rm 256 65536 (remove_inode_or_keep 256 4 64) x.2.1
        ⟨x.2.2.cur_dir, [[114], [100]], 2⟩)).isSome = true := by decide
  have hval2 : ((cmd_mkdir 256 65536 4 64 fresh_sb ⟨0, [[109], [100]], 2⟩).bind (fun x =>
      cmd_rm 256 65536 (remove_inode_or_keep 256 4 64) x.2.1
        ⟨x.2.2.cur_dir, [[114], [100]], 2⟩)).map Prod.fst = some 0 := by decide
  obtain ⟨⟨ret, sb1, c1⟩, h⟩ := Option.isSome_iff_exists.mp hsome
  have hr : ret = 0 := by simpa [h] using hval
  subst hr
  rw [h] at hsome2 hval2
  simp only [Option.some_bind] at hsome2 hval2
  obtain ⟨⟨ret2, sb2, c2⟩, h2⟩ := Option.isSome_iff_exists.mp hsome2
  have hr2 : ret2 = 0 := by simpa [h2] using hval2
  subst hr2
  have hwf : wf_dir 256 (fresh_sb.inodes 0) [([46], 0), ([46, 46], 0)] :=
    ⟨rfl, rfl, by decide, by decide⟩
  exact ⟨sb1, c1, sb2, c2, by decide, by decide, by decide, by decide, by decide, by decide, hwf,
    by decide, by decide, h, h2,
    mkdir_then_rm_popcounts 256 65536 4 64 fresh_sb sb1 sb2 0 [109] [114] [100] c1 c2
      [([46], 0), ([46, 46], 0)] (by decide) (by decide) (by decide) (by decide) (by decide)
      (by decide) hwf (by decide) (by decide) h h2⟩

set_option maxRecDepth 1000000 in
/-- C20 (counterexample): in a volume of blocks of 64 bytes (with 4 direct
blocks to the inode) whose root holds `.`, `..` and three files in 54 bytes,
the entry of `d` (10 bytes) goes to the second block of the root.  `mkdir d`
and `rm d` both return 0; the popcount of the inode freemap is 4 as before,
and the popcount of the block freemap is 2, where it was 1: the root keeps its
second block. -/
theorem mkdir_then_rm_keeps_a_block :
    ((cmd_mkdir 64 65536 4 16 brim_sb ⟨0, [[109], [100]], 2⟩).bind (fun r1 =>
      (cmd_rm 64 65536 (remove_inode_or_keep 64 4 16) r1.2.1
          ⟨r1.2.2.cur_dir, [[114], [100]], 2⟩).map (fun r2 =>
        [r1.1, r2.1, (bitmap_nr_allocated r2.2.1.inode_freemap : Int),
          (bitmap_nr_allocated r2.2.1.block_freemap : Int)])))
      = some [0, 0, 4, 2] ∧
    bitmap_nr_allocated brim_sb.inode_freemap = 4 ∧
    bitmap_nr_allocated brim_sb.block_freemap = 1 ∧
    (dirents 64 (brim_sb.inodes 0)).find? (live_named [100]) = none := by
  decide

/-! ## `testfs_remove_dirent` on names that it does not remove -/

/-- In a list of valid entries in which every entry with the name is a
tombstone, no returned entry is live and has the name. -/
theorem find_live_named_tombstones (BS : Nat) (name : List Nat) :
    ∀ (es : List (List Nat × Int)), (∀ e ∈ es, valid_entry BS e) →
    (∀ e ∈ es, e.1 = name → e.2 < 0) →
    (es.map entry_dirent).find? (live_named name) = none := by
  intro es hv ht
  rw [List.find?_eq_none]
  intro d hd
  obtain ⟨e, he, rfl⟩ := List.mem_map.mp hd
  have hc := cstr_entry_name e (hv e he).1
  have h1 : (entry_dirent e).d_inode_nr = e.2 := rfl
  simp only [live_named, hc, h1, Bool.and_eq_true, decide_eq_true_eq, not_and]
  intro h0 hn
  have := ht e he hn
  omega

/-- C22: `testfs_remove_dirent` returns `-EINVAL` and leaves the volume as it
was when the name is `.` or `..`.  For any other name it returns `-ENOENT`
and leaves the volume as it was when the scan of the directory returns no live
entry with that name; in particular in a well-formed directory in which every
entry with that name is a tombstone: a tombstone is not a match. -/
theorem remove_dirent_rejects (BS MAXFS : Nat) (sb : super_block) (dir : Nat) (name : List Nat)
    (hBS : 0 < BS) (hdir : (sb.inodes dir).i_type = inode_type.I_DIR) :
    (name = [DOT] ∨ name = [DOT, DOT] →
      testfs_remove_dirent BS MAXFS sb dir name = some (-EINVAL, sb)) ∧
    (name ≠ [DOT] → name ≠ [DOT, DOT] →
      (dirents BS (sb.inodes dir)).find? (live_named name) = none →
      testfs_remove_dirent BS MAXFS sb dir name = some (-ENOENT, sb)) ∧
    (∀ es : List (List Nat × Int), BS < 2147483648 → wf_dir BS (sb.inodes dir) es →
      (∀ e ∈ es, e.1 = name → e.2 < 0) → name ≠ [DOT] → name ≠ [DOT, DOT] →
      testfs_remove_dirent BS MAXFS sb dir name = some (-ENOENT, sb)) := by
  have h2 : name ≠ [DOT] → name ≠ [DOT, DOT] →
      (dirents BS (sb.inodes dir)).find? (live_named name) = none →
      testfs_remove_dirent BS MAXFS sb dir name = some (-ENOENT, sb) := by
    intro n1 n2 habs
    have hd : ¬ (name = [DOT] ∨ name = [DOT, DOT]) := by
      rintro (h | h)
      · exact n1 h
      · exact n2 h
    simp only [testfs_remove_dirent, hd, if_false]
    exact remove_dirent_loop_absent BS MAXFS sb dir name hBS hdir
      ((sb.inodes dir).i_size + 1) 0 (by omega) habs
  refine ⟨?_, h2, ?_⟩
  · intro h
    simp only [testfs_remove_dirent, h, if_true]
  · intro es hB31 hwf ht n1 n2
    apply h2 n1 n2
    rw [dirents_wf BS _ es hBS hB31 hwf]
    exact find_live_named_tombstones BS name es hwf.2.2.2 ht

/-- Witness of C22: the root directory of `tombstone_sb` holds a tombstone with
the name `ab` and the live entry `cd`; removing `ab` returns `-ENOENT`. -/
theorem remove_dirent_rejects_witness :
    wf_dir 256 (tombstone_sb.inodes 0) [([97, 98], -1), ([99, 100], 2)] ∧
    testfs_remove_dirent 256 65536 tombstone_sb 0 [97, 98] = some (-ENOENT, tombstone_sb) ∧
    testfs_remove_dirent 256 65536 tombstone_sb 0 [46, 46] = some (-EINVAL, tombstone_sb) :=
  have hwf : wf_dir 256 (tombstone_sb.inodes 0) [([97, 98], -1), ([99, 100], 2)] :=
    ⟨rfl, rfl, by decide, by decide⟩
  ⟨hwf,
    (remove_dirent_rejects 256 65536 tombstone_sb 0 [97, 98] (by decide) rfl).2.2
      [([97, 98], -1), ([99, 100], 2)] (by decide) hwf (by decide) (by decide) (by decide),
    (remove_dirent_rejects 256 65536 tombstone_sb 0 [46, 46] (by decide) rfl).1
      (Or.inr rfl)⟩

/-! ## The return value of `testfs_init_super_block` -/

/-- C24: when `open` fails because the backing file does not exist, `errno` is
`ENOENT`, and `testfs_init_super_block` returns it as it is: the positive
value 2, although the function is documented to return a negative value on
error.  The caller in `testfs.c` tests `ret` for being non-zero. -/
theorem init_super_block_returns_errno (BS ifs bfs cts : Nat) (bytes : Nat → Nat) (size : Nat) :
    testfs_init_super_block BS ifs bfs cts ⟨true, ENOENT, 0, 0, 0, true⟩ bytes size
      = some (ENOENT, none) ∧
    testfs_init_super_block BS ifs bfs cts ⟨true, 0, ENOMEM, 0, 0, true⟩ bytes size
      = some (ENOMEM, none) ∧
    (0 : Int) < ENOENT ∧ (0 : Int) < ENOMEM := by
  refine ⟨?_, ?_, by decide, by decide⟩
  · simp [testfs_init_super_block, ENOENT]
  · simp [testfs_init_super_block, ENOMEM]

/-! ## The length check of `testfs_create_file_or_dir` -/

set_option maxRecDepth 1000000 in
/-- C25: in a volume of blocks of 16 bytes, `BLOCK_SIZE - sizeof(struct dirent)`
is 8.  The name `aaaaaaaa` has length 8, and 8 + 1 > 8, but
`testfs_create_file_or_dir` returns 0 for it: inode 1 and the data blocks 2 and
3 are allocated, and the root directory holds an entry of 17 bytes, which lies
across the blocks 2 and 3 of the directory.  The test of the source compares
the global `namelen`, which is never assigned, and not the length of the
name. -/
theorem create_accepts_long_name :
    (testfs_create_file_or_dir 16 65536 4 4 narrow_sb
        ⟨0, [[99], [97, 97, 97, 97, 97, 97, 97, 97]], 2⟩ inode_type.I_FILE
        [97, 97, 97, 97, 97, 97, 97, 97]).map Prod.fst = some 0 ∧
    (testfs_create_file_or_dir 16 65536 4 4 narrow_sb
        ⟨0, [[99], [97, 97, 97, 97, 97, 97, 97, 97]], 2⟩ inode_type.I_FILE
        [97, 97, 97, 97, 97, 97, 97, 97]).map (fun r => r.2.1.inode_freemap)
      = some [true, true, false, false] ∧
    (testfs_create_file_or_dir 16 65536 4 4 narrow_sb
        ⟨0, [[99], [97, 97, 97, 97, 97, 97, 97, 97]], 2⟩ inode_type.I_FILE
        [97, 97, 97, 97, 97, 97, 97, 97]).map (fun r => r.2.1.block_freemap)
      = some [true, true, true, true, false, false, false, false] ∧
    (testfs_create_file_or_dir 16 65536 4 4 narrow_sb
        ⟨0, [[99], [97, 97, 97, 97, 97, 97, 97, 97]], 2⟩ inode_type.I_FILE
        [97, 97, 97, 97, 97, 97, 97, 97]).map
      (fun r => (dirents_from 16 (r.2.1.inodes 0) 4 0).map
        (fun d => [(d.1 : Int), d.2.d_inode_nr, d.2.d_name_len]))
      = some [[0, 0, 2], [16, 0, 3], [32, 1, 9]] ∧
    narrow_sb.inode_freemap = [true, false, false, false] ∧
    narrow_sb.block_freemap = [true, true, false, false, false, false, false, false] ∧
    ([97, 97, 97, 97, 97, 97, 97, 97] : List Nat).length + 1 > 16 - sizeof_dirent ∧
    namelen = 0 := by
  decide

/-! ## A regular file in the middle of a path -/

/-- The recursion of the name resolution fails at its assertion when `*dir` is
not a directory. -/
theorem rec_not_dir (BS fuel : Nat) (sb : super_block) (dir : Nat) (name : List Nat)
    (h : (sb.inodes dir).i_type ≠ inode_type.I_DIR) :
    testfs_dir_name_to_inode_nr_rec BS fuel sb dir name = none := by
  cases fuel with
  | zero => rfl
  | succ n => simp only [testfs_dir_name_to_inode_nr_rec, h, ne_eq, not_false_eq_true, if_true]

/-- The recursion of the name resolution on `f/x` in the root of the sample
volume fails at the assertion on the inode type, at every depth that the fuel
allows. -/
theorem rec_file_component (fuel : Nat) :
    testfs_dir_name_to_inode_nr_rec 256 fuel sample_sb 0 [102, 47, 120] = none := by
  match fuel with
  | 0 => rfl
  | n + 1 =>
    have h3 : lookup_loop 256 (sample_sb.inodes 0) [102] ((sample_sb.inodes 0).i_size + 1) 0
        = some 2 := by decide
    have h1 : (sample_sb.inodes 0).i_type = inode_type.I_DIR := rfl
    have h2 : first_slash [102, 47, 120] 0 = 1 := by decide
    have h4 : ((testfs_put_inode (testfs_get_inode sample_sb 2) 0).inodes 2).i_type
        ≠ inode_type.I_DIR := by decide
    rw [testfs_dir_name_to_inode_nr_rec]
    simp [h1, h2, h3, SLASH]
    exact rec_not_dir 256 n _ 2 [120] h4

/-- C26: in the sample volume `f` is a regular file (inode 2) of the root
directory.  Resolving `f/x` from the root looks `f` up, makes its inode the
directory of the recursive call, and that call fails at
`assert(testfs_inode_get_type(*dir) == I_DIR)`: the model has no return value,
whatever the depth allowed to the recursion. -/
theorem file_component_fails_assertion :
    testfs_dir_name_to_inode_nr 256 sample_sb 0 [102, 47, 120] = none ∧
    (∀ fuel, testfs_dir_name_to_inode_nr_rec 256 fuel sample_sb 0 [102, 47, 120] = none) ∧
    (sample_sb.inodes 2).i_type = inode_type.I_FILE ∧
    lookup_loop 256 (sample_sb.inodes 0) [102] ((sample_sb.inodes 0).i_size + 1) 0 = some 2 := by
  refine ⟨Option.isNone_iff_eq_none.mp (by decide), rec_file_component, rfl, by decide⟩

/-! ## `cmd_catr` and a failing recursive call -/

set_option maxRecDepth 1000000 in
/-- C28: in the volume `tree_sb` the root holds the directory `a` (inode 1)
and `a` the directory `s` (inode 2).  `catr a` in the root resolves `a`, finds
`s` in it and calls itself with `s` as the current directory; the recursive
call resolves `a` again, now in `s`, and returns `-ENOENT`.  `cmd_catr` then
returns 0, not a negative value, and leaves `s` as the current directory of
the context, where it was the root at entry; the reference of the context is
still the one on the root, and `s` has no reference. -/
theorem catr_keeps_subdirectory :
    (cmd_catr 256 5 tree_sb ⟨0, [[99], [97]], 2⟩).map
      (fun r => (r.1, r.2.2.1.cur_dir, (List.range 3).map r.2.1.i_count))
      = some (0, 2, [1, 0, 0]) ∧
    (cmd_catr 256 4 (testfs_get_inode (testfs_get_inode tree_sb 1) 2) ⟨2, [[99], [97]], 2⟩).map
      (fun r => (r.1, r.2.2.1.cur_dir)) = some (-ENOENT, 2) ∧
    (List.range 3).map tree_sb.i_count = [1, 0, 0] := by
  decide

/-! ## The super block in memory and on disk -/

theorem int32_id (z : Int) (h1 : -2147483648 ≤ z) (h2 : z < 2147483648) : int32 z = z := by
  unfold int32
  omega

theorem int32_range (z : Int) : -2147483648 ≤ int32 z ∧ int32 z < 2147483648 := by
  unfold int32
  omega

/-- The four bytes of the `int` that four bytes hold are these bytes. -/
theorem int_bytes_bytes_int (a b c d : Nat) (rest : List Nat) (ha : a < 256) (hb : b < 256)
    (hc : c < 256) (hd : d < 256) :
    int_bytes (bytes_int (a :: b :: c :: d :: rest)) = [a, b, c, d] := by
  simp only [bytes_int, int_bytes, List.getD_cons_zero, List.getD_cons_succ]
  have key : (((if a + 256 * b + 65536 * c + 16777216 * d < 2147483648
      then ((a + 256 * b + 65536 * c + 16777216 * d : Nat) : Int)
      else ((a + 256 * b + 65536 * c + 16777216 * d : Nat) : Int) - 4294967296)
        % 4294967296).toNat) = a + 256 * b + 65536 * c + 16777216 * d := by
    split_ifs with h <;> omega
  rw [key]
  have e1 : (a + 256 * b + 65536 * c + 16777216 * d) % 256 = a := by omega
  have e2 : (a + 256 * b + 65536 * c + 16777216 * d) / 256 % 256 = b := by omega
  have e3 : (a + 256 * b + 65536 * c + 16777216 * d) / 65536 % 256 = c := by omega
  have e4 : (a + 256 * b + 65536 * c + 16777216 * d) / 16777216 % 256 = d := by omega
  rw [e1, e2, e3, e4]

/-- The bytes of a `struct dsuper_block` are read back as the same struct. -/
theorem bytes_dsuper_bytes (d : dsuper_block)
    (h1 : -2147483648 ≤ d.inode_freemap_start ∧ d.inode_freemap_start < 2147483648)
    (h2 : -2147483648 ≤ d.block_freemap_start ∧ d.block_freemap_start < 2147483648)
    (h3 : -2147483648 ≤ d.csum_table_start ∧ d.csum_table_start < 2147483648)
    (h4 : -2147483648 ≤ d.inode_blocks_start ∧ d.inode_blocks_start < 2147483648)
    (h5 : -2147483648 ≤ d.data_blocks_start ∧ d.data_blocks_start < 2147483648)
    (h6 : -2147483648 ≤ d.modification_time ∧ d.modification_time < 2147483648) :
    bytes_dsuper (dsuper_bytes d) = d := by
  have hd : ∀ (z : Int) (rest : List Nat), List.drop 4 (int_bytes z ++ rest) = rest := by
    intro z rest
    simp [int_bytes]
  have e1 : bytes_int (dsuper_bytes d) = d.inode_freemap_start := by
    simp only [dsuper_bytes, List.append_assoc]
    exact bytes_int_int_bytes _ _ h1.1 h1.2
  have e2 : bytes_int ((dsuper_bytes d).drop 4) = d.block_freemap_start := by
    simp only [dsuper_bytes, List.append_assoc, hd]
    exact bytes_int_int_bytes _ _ h2.1 h2.2
  have k8 : ∀ l : List Nat, l.drop 8 = (l.drop 4).drop 4 := by intro l; simp
  have k12 : ∀ l : List Nat, l.drop 12 = ((l.drop 4).drop 4).drop 4 := by intro l; simp
  have k16 : ∀ l : List Nat, l.drop 16 = (((l.drop 4).drop 4).drop 4).drop 4 := by intro l; simp
  have k20 : ∀ l : List Nat, l.drop 20 = ((((l.drop 4).drop 4).drop 4).drop 4).drop 4 := by
    intro l; simp
  have e3 : bytes_int ((dsuper_bytes d).drop 8) = d.csum_table_start := by
    rw [k8]
    simp only [dsuper_bytes, List.append_assoc, hd]
    exact bytes_int_int_bytes _ _ h3.1 h3.2
  have e4 : bytes_int ((dsuper_bytes d).drop 12) = d.inode_blocks_start := by
    rw [k12]
    simp only [dsuper_bytes, List.append_assoc, hd]
    exact bytes_int_int_bytes _ _ h4.1 h4.2
  have e5 : bytes_int ((dsuper_bytes d).drop 16) = d.data_blocks_start := by
    rw [k16]
    simp only [dsuper_bytes, List.append_assoc, hd]
    exact bytes_int_int_bytes _ _ h5.1 h5.2
  have e6 : bytes_int ((dsuper_bytes d).drop 20) = d.modification_time := by
    rw [k20]
    simp only [dsuper_bytes, List.append_assoc, hd]
    have := bytes_int_int_bytes d.modification_time [] h6.1 h6.2
    simpa using this
  simp only [bytes_dsuper, e1, e2, e3, e4, e5, e6]

theorem dsuper_bytes_length (d : dsuper_block) : (dsuper_bytes d).length = 24 := rfl

/-- The block that `testfs_write_super_block` writes: the bytes of the struct,
then zero bytes. -/
theorem super_block_buffer (BS : Nat) (d : dsuper_block) (p : Nat) :
    (read_into (zeros BS) (dsuper_bytes d)).getD p 0
      = if p < 24 then (dsuper_bytes d).getD p 0 else 0 := by
  simp only [read_into, dsuper_bytes_length]
  split_ifs with h
  · rw [List.getD_append _ _ _ _ (by rw [dsuper_bytes_length]; exact h)]
  · rw [List.getD_append_right _ _ _ _ (by rw [dsuper_bytes_length]; omega)]
    simp only [zeros, List.drop_replicate, List.getD_eq_getElem?_getD, List.getElem?_replicate]
    split_ifs <;> rfl

/-- The backing file after `testfs_write_super_block`. -/
theorem write_super_block_bytes (BS : Nat) (now : Int) (sb : dsuper_block) (dev : device)
    (hBS : sizeof_dsuper_block ≤ BS) :
    testfs_write_super_block BS now sb dev
      = some ({ sb with modification_time := int32 now },
          write_blocks BS dev
            (read_into (zeros BS) (dsuper_bytes { sb with modification_time := int32 now })) 0 1) ∧
    ∀ p, (write_blocks BS dev
        (read_into (zeros BS) (dsuper_bytes { sb with modification_time := int32 now })) 0 1).bytes p
      = if p < BS then
          (if p < 24 then (dsuper_bytes { sb with modification_time := int32 now }).getD p 0 else 0)
        else dev.bytes p := by
  constructor
  · simp only [testfs_write_super_block, hBS, not_true_eq_false, if_false]
  · intro p
    simp only [write_blocks, Nat.zero_mul, Nat.zero_le, true_and, Nat.zero_add, Nat.one_mul,
      Nat.sub_zero, super_block_buffer]

/-! ## The region offsets of `testfs_make_super_block` -/

/-- C23: for positive region sizes whose sum is an `int`,
`testfs_make_super_block` stores `inode_freemap_start = SUPER_BLOCK_SIZE`, and
each of `block_freemap_start`, `csum_table_start`, `inode_blocks_start` and
`data_blocks_start` is the previous start plus the size of the region that
starts there (`INODE_FREEMAP_SIZE`, `BLOCK_FREEMAP_SIZE`, `CSUM_TABLE_SIZE`,
`NR_INODE_BLOCKS`), so that the starts increase strictly from above 0.  The
first 24 bytes of the backing file hold these values: read back, they give the
super block that the function returns. -/
theorem make_super_block_offsets (BS : Nat) (S I B C N now : Int)
    (hBS : sizeof_dsuper_block ≤ BS) (hS : 0 < S) (hI : 0 < I) (hB : 0 < B) (hC : 0 < C)
    (hN : 0 < N) (hsum : S + I + B + C + N < 2147483648) :
    ∃ sb dev, testfs_make_super_block BS S I B C N now = some (sb, dev) ∧
      sb.inode_freemap_start = S ∧
      sb.block_freemap_start = sb.inode_freemap_start + I ∧
      sb.csum_table_start = sb.block_freemap_start + B ∧
      sb.inode_blocks_start = sb.csum_table_start + C ∧
      sb.data_blocks_start = sb.inode_blocks_start + N ∧
      0 < sb.inode_freemap_start ∧ sb.inode_freemap_start < sb.block_freemap_start ∧
      sb.block_freemap_start < sb.csum_table_start ∧
      sb.csum_table_start < sb.inode_blocks_start ∧
      sb.inode_blocks_start < sb.data_blocks_start ∧
      bytes_dsuper ((List.range sizeof_dsuper_block).map dev.bytes) = sb := by
  have e1 : int32 S = S := int32_id S (by omega) (by omega)
  have e2 : int32 (S + I) = S + I := int32_id _ (by omega) (by omega)
  have e3 : int32 (S + I + B) = S + I + B := int32_id _ (by omega) (by omega)
  have e4 : int32 (S + I + B + C) = S + I + B + C := int32_id _ (by omega) (by omega)
  have e5 : int32 (S + I + B + C + N) = S + I + B + C + N := int32_id _ (by omega) (by omega)
  obtain ⟨hw, hb⟩ := write_super_block_bytes BS now
    ⟨S, S + I, S + I + B, S + I + B + C, S + I + B + C + N, 0⟩
    ⟨fun _ => 0, S.toNat, (S + I).toNat, (S + I + B + C + N).toNat⟩ hBS
  have hb2 : ∀ p, (write_blocks BS
      ⟨fun _ => 0, S.toNat, (S + I).toNat, (S + I + B + C + N).toNat⟩
      (read_into (zeros BS) (dsuper_bytes
        ⟨S, S + I, S + I + B, S + I + B + C, S + I + B + C + N, int32 now⟩)) 0 1).bytes p
      = if p < BS then
          (if p < 24 then (dsuper_bytes
            ⟨S, S + I, S + I + B, S + I + B + C, S + I + B + C + N, int32 now⟩).getD p 0 else 0)
        else 0 := hb
  refine ⟨⟨S, S + I, S + I + B, S + I + B + C, S + I + B + C + N, int32 now⟩,
    write_blocks BS ⟨fun _ => 0, S.toNat, (S + I).toNat, (S + I + B + C + N).toNat⟩
      (read_into (zeros BS) (dsuper_bytes
        ⟨S, S + I, S + I + B, S + I + B + C, S + I + B + C + N, int32 now⟩)) 0 1, ?_, ?_⟩
  · simp only [testfs_make_super_block, e1, e2, e3, e4, e5]
    exact hw
  · refine ⟨rfl, rfl, rfl, rfl, rfl, hS, ?_, ?_, ?_, ?_, ?_⟩
    · show S < S + I
      omega
    · show S + I < S + I + B
      omega
    · show S + I + B < S + I + B + C
      omega
    · show S + I + B + C < S + I + B + C + N
      omega
    · have hmap : (List.range sizeof_dsuper_block).map (write_blocks BS
          ⟨fun _ => 0, S.toNat, (S + I).toNat, (S + I + B + C + N).toNat⟩
          (read_into (zeros BS) (dsuper_bytes
            ⟨S, S + I, S + I + B, S + I + B + C, S + I + B + C + N, int32 now⟩)) 0 1).bytes
          = dsuper_bytes ⟨S, S + I, S + I + B, S + I + B + C, S + I + B + C + N, int32 now⟩ := by
        apply List.ext_getElem
        · simp [sizeof_dsuper_block, dsuper_bytes_length]
        · intro i h1 h2
          simp only [List.length_map, List.length_range, sizeof_dsuper_block] at h1
          simp only [sizeof_dsuper_block] at hBS
          rw [List.getElem_map, List.getElem_range, hb2 i, if_pos (by omega), if_pos h1]
          simp [List.getD_eq_getElem?_getD, List.getElem?_eq_getElem h2]
      rw [hmap]
      have hr := int32_range now
      exact bytes_dsuper_bytes _ ⟨by show _ ≤ S; omega, by show S < _; omega⟩
        ⟨by show _ ≤ S + I; omega, by show S + I < _; omega⟩
        ⟨by show _ ≤ S + I + B; omega, by show S + I + B < _; omega⟩
        ⟨by show _ ≤ S + I + B + C; omega, by show S + I + B + C < _; omega⟩
        ⟨by show _ ≤ S + I + B + C + N; omega, by show S + I + B + C + N < _; omega⟩
        ⟨hr.1, hr.2⟩

/-- Witness of C23: blocks of 64 bytes, one block for the super block and for
each of the free maps and the checksum table, and four inode blocks. -/
theorem make_super_block_offsets_witness :
    ∃ sb dev, testfs_make_super_block 64 1 1 1 1 4 7 = some (sb, dev) ∧
      sb.inode_freemap_start = 1 ∧
      sb.block_freemap_start = sb.inode_freemap_start + 1 ∧
      sb.csum_table_start = sb.block_freemap_start + 1 ∧
      sb.inode_blocks_start = sb.csum_table_start + 1 ∧
      sb.data_blocks_start = sb.inode_blocks_start + 4 ∧
      0 < sb.inode_freemap_start ∧ sb.inode_freemap_start < sb.block_freemap_start ∧
      sb.block_freemap_start < sb.csum_table_start ∧
      sb.csum_table_start < sb.inode_blocks_start ∧
      sb.inode_blocks_start < sb.data_blocks_start ∧
      bytes_dsuper ((List.range sizeof_dsuper_block).map dev.bytes) = sb :=
  make_super_block_offsets 64 1 1 1 1 4 7 (by decide) (by decide) (by decide) (by decide)
    (by decide) (by decide) (by decide)

/-! ## Mounting and unmounting -/

/-- The four bytes of the `int` that the first four bytes of a buffer hold. -/
theorem int_bytes_bytes_int_getD (l : List Nat) (h0 : l.getD 0 0 < 256) (h1 : l.getD 1 0 < 256)
    (h2 : l.getD 2 0 < 256) (h3 : l.getD 3 0 < 256) :
    int_bytes (bytes_int l) = [l.getD 0 0, l.getD 1 0, l.getD 2 0, l.getD 3 0] := by
  have := int_bytes_bytes_int (l.getD 0 0) (l.getD 1 0) (l.getD 2 0) (l.getD 3 0) [] h0 h1 h2 h3
  simpa only [bytes_int, List.getD_cons_zero, List.getD_cons_succ] using this

theorem read_blocks_some (BS : Nat) (bytes : Nat → Nat) (size : Nat) (start : Int) (nr : Nat)
    (buf : List Nat) (h : read_blocks BS bytes size start nr = some buf) :
    0 ≤ start ∧ ¬ (size - start.toNat * BS) / BS < nr ∧
      buf = (List.range (nr * BS)).map (fun i => bytes (start.toNat * BS + i)) := by
  simp only [read_blocks] at h
  split_ifs at h with hs hz
  exact ⟨by omega, hz, (Option.some.inj h).symm⟩

/-- The blocks that `read_blocks` has read lie in front of the end of the
file. -/
theorem region_below_size (BS size s nr p : Nat) (h : ¬ (size - s * BS) / BS < nr)
    (hp : s * BS ≤ p ∧ p < s * BS + nr * BS) : p < size := by
  have h1 : nr ≤ (size - s * BS) / BS := by omega
  have h2 : nr * BS ≤ (size - s * BS) / BS * BS := Nat.mul_le_mul_right BS h1
  have h3 : (size - s * BS) / BS * BS ≤ size - s * BS := Nat.div_mul_le_self _ _
  omega

/-- Writing back the blocks that were read from a region restores the bytes of
the region. -/
theorem write_back_region (BS : Nat) (dev : device) (bytes : Nat → Nat) (s nr p : Nat) :
    (write_blocks BS dev ((List.range (nr * BS)).map (fun i => bytes (s * BS + i))) s nr).bytes p
      = if s * BS ≤ p ∧ p < s * BS + nr * BS then bytes p else dev.bytes p := by
  simp only [write_blocks]
  split_ifs with h
  · have hlt : p - s * BS < nr * BS := by omega
    simp only [List.getD_eq_getElem?_getD, List.getElem?_map, List.getElem?_range hlt,
      Option.map_some', Option.getD_some]
    congr 1
    omega
  · rfl

/-- The state after a mount that returns 0. -/
theorem init_success (BS ifs bfs cts : Nat) (env : environment) (bytes : Nat → Nat)
    (size : Nat) (m : mounted)
    (h : testfs_init_super_block BS ifs bfs cts env bytes size = some (0, some m)) :
    m.sb = bytes_dsuper ((List.range (1 * BS)).map (fun i => bytes ((0 : Int).toNat * BS + i))) ∧
    0 ≤ m.sb.inode_freemap_start ∧
    m.inode_freemap
      = (List.range (ifs * BS)).map (fun i => bytes (m.sb.inode_freemap_start.toNat * BS + i)) ∧
    0 ≤ m.sb.block_freemap_start ∧
    m.block_freemap
      = (List.range (bfs * BS)).map (fun i => bytes (m.sb.block_freemap_start.toNat * BS + i)) ∧
    m.tx_in_progress = tx_type.TX_NONE ∧ m.dev.bytes = bytes ∧
    ¬ (size - (0 : Int).toNat * BS) / BS < 1 ∧
    ¬ (size - m.sb.inode_freemap_start.toNat * BS) / BS < ifs ∧
    ¬ (size - m.sb.block_freemap_start.toNat * BS) / BS < bfs := by
  simp only [testfs_init_super_block] at h
  by_cases c1 : ¬ env.malloc_sb = true
  · rw [if_pos c1] at h; simp at h
  rw [if_neg c1] at h
  by_cases c2 : env.open_errno ≠ 0
  · rw [if_pos c2] at h; simp at h
  rw [if_neg c2] at h
  by_cases c3 : env.fdopen_errno ≠ 0
  · rw [if_pos c3] at h; simp at h
  rw [if_neg c3] at h
  cases h0 : read_blocks BS bytes size 0 1 with
  | none => rw [h0] at h; simp at h
  | some block =>
    rw [h0] at h
    simp only at h
    obtain ⟨-, hz0, hblock⟩ := read_blocks_some BS bytes size 0 1 block h0
    by_cases c4 : env.bitmap_create_inode < 0
    · rw [if_pos c4] at h; simp at h
    rw [if_neg c4] at h
    cases h1 : read_blocks BS bytes size (bytes_dsuper block).inode_freemap_start ifs with
    | none => rw [h1] at h; simp at h
    | some b1 =>
      rw [h1] at h
      simp only at h
      obtain ⟨hs1, hz1, hb1⟩ := read_blocks_some BS bytes size _ ifs b1 h1
      by_cases c5 : env.bitmap_create_block < 0
      · rw [if_pos c5] at h; simp at h
      rw [if_neg c5] at h
      cases h2 : read_blocks BS bytes size (bytes_dsuper block).block_freemap_start bfs with
      | none => rw [h2] at h; simp at h
      | some b2 =>
        rw [h2] at h
        simp only at h
        obtain ⟨hs2, hz2, hb2⟩ := read_blocks_some BS bytes size _ bfs b2 h2
        by_cases c6 : ¬ env.malloc_csum = true
        · rw [if_pos c6] at h; simp at h
        rw [if_neg c6] at h
        cases h3 : read_blocks BS bytes size (bytes_dsuper block).csum_table_start cts with
        | none => rw [h3] at h; simp at h
        | some b3 =>
          rw [h3] at h
          simp only [Option.some.injEq, Prod.mk.injEq, true_and] at h
          subst h
          subst hblock
          exact ⟨rfl, hs1, hb1, hs2, hb2, rfl, rfl, hz0, hz1, hz2⟩

/-- The first 20 bytes of the super block that is written back are the bytes
that were read. -/
theorem super_block_written_back (BS : Nat) (bytes : Nat → Nat) (t : Int) (p : Nat)
    (hBS : 24 ≤ BS) (hbyte : ∀ q, bytes q < 256) (hp : p < 20) :
    (dsuper_bytes { bytes_dsuper ((List.range (1 * BS)).map
        (fun i => bytes ((0 : Int).toNat * BS + i))) with modification_time := t }).getD p 0
      = bytes p := by
  have hg : ∀ k, k < 24 → ((List.range (1 * BS)).map
      (fun i => bytes ((0 : Int).toNat * BS + i))).getD k 0 = bytes k := by
    intro k hk
    have hk2 : k < 1 * BS := by omega
    simp only [List.getD_eq_getElem?_getD, List.getElem?_map, List.getElem?_range hk2,
      Option.map_some', Option.getD_some]
    congr 1
    simp
  have hf : ∀ k, k + 4 ≤ 24 → int_bytes (bytes_int (((List.range (1 * BS)).map
      (fun i => bytes ((0 : Int).toNat * BS + i))).drop k))
      = [bytes k, bytes (k + 1), bytes (k + 2), bytes (k + 3)] := by
    intro k hk
    rw [int_bytes_bytes_int_getD]
    · simp only [getD_drop]
      rw [hg _ (by omega), hg _ (by omega), hg _ (by omega), hg _ (by omega)]
      rfl
    all_goals (rw [getD_drop, hg _ (by omega)]; exact hbyte _)
  have h0 := hf 0 (by omega)
  rw [List.drop_zero] at h0
  simp only [dsuper_bytes, bytes_dsuper, h0, hf 4 (by omega), hf 8 (by omega), hf 12 (by omega),
    hf 16 (by omega), List.cons_append, List.nil_append]
  interval_cases p <;> rfl

/-- C21 (amended): on a volume on which the mount returns 0,
`testfs_close_super_block`, called directly after `testfs_init_super_block`,
returns, and the bytes of the backing file are then these.  A byte in one of
the two free map regions, whose starts are those of block 0, is unchanged,
also where such a region lies over block 0.  Of the other bytes of block 0,
the first 20 (the region starts) are unchanged, the next 4 (the timestamp) are
the bytes of the current time, and those behind the 24 bytes of the super
block are zero, whatever they were.  Every other byte (checksum table, inode
table, data blocks) is unchanged, and the file is not made longer. -/
theorem mount_then_unmount (BS ifs bfs cts : Nat) (env : environment) (bytes : Nat → Nat)
    (size : Nat) (now : Int) (m : mounted) (hBS : sizeof_dsuper_block ≤ BS)
    (hbyte : ∀ q, bytes q < 256)
    (hinit : testfs_init_super_block BS ifs bfs cts env bytes size = some (0, some m)) :
    m.sb = bytes_dsuper ((List.range sizeof_dsuper_block).map bytes) ∧
    ∃ dev, testfs_close_super_block BS ifs bfs now m = some dev ∧
      (∀ p, dev.bytes p =
        if in_region BS m.sb.block_freemap_start bfs p
            ∨ in_region BS m.sb.inode_freemap_start ifs p then bytes p
        else if p < 20 then bytes p
        else if p < 24 then (int_bytes (int32 now)).getD (p - 20) 0
        else if p < BS then 0
        else bytes p) ∧
      (∀ p, size ≤ p → dev.bytes p = bytes p) := by
  obtain ⟨hsb, hs1, hb1, hs2, hb2, htx, hdev, hz0, hz1, hz2⟩ :=
    init_success BS ifs bfs cts env bytes size m hinit
  obtain ⟨hw, hb⟩ := write_super_block_bytes BS now m.sb m.dev hBS
  have hclose : testfs_close_super_block BS ifs bfs now m
      = some (write_blocks BS (write_blocks BS (write_blocks BS m.dev
          (read_into (zeros BS) (dsuper_bytes { m.sb with modification_time := int32 now })) 0 1)
          m.inode_freemap m.sb.inode_freemap_start.toNat ifs)
          m.block_freemap m.sb.block_freemap_start.toNat bfs) := by
    simp only [testfs_close_super_block, htx, ne_eq, not_true_eq_false, if_false, hw,
      show ¬ m.sb.inode_freemap_start < 0 by omega, show ¬ m.sb.block_freemap_start < 0 by omega]
  have hval : ∀ p, (write_blocks BS (write_blocks BS (write_blocks BS m.dev
          (read_into (zeros BS) (dsuper_bytes { m.sb with modification_time := int32 now })) 0 1)
          m.inode_freemap m.sb.inode_freemap_start.toNat ifs)
          m.block_freemap m.sb.block_freemap_start.toNat bfs).bytes p
      = if m.sb.block_freemap_start.toNat * BS ≤ p
            ∧ p < m.sb.block_freemap_start.toNat * BS + bfs * BS then bytes p
        else if m.sb.inode_freemap_start.toNat * BS ≤ p
            ∧ p < m.sb.inode_freemap_start.toNat * BS + ifs * BS then bytes p
        else if p < BS then
          (if p < 24 then
            (dsuper_bytes { m.sb with modification_time := int32 now }).getD p 0 else 0)
        else bytes p := by
    intro p
    rw [hb2, write_back_region, hb1, write_back_region, hb p, hdev]
  simp only [sizeof_dsuper_block] at hBS
  have hform : ∀ p, (write_blocks BS (write_blocks BS (write_blocks BS m.dev
          (read_into (zeros BS) (dsuper_bytes { m.sb with modification_time := int32 now })) 0 1)
          m.inode_freemap m.sb.inode_freemap_start.toNat ifs)
          m.block_freemap m.sb.block_freemap_start.toNat bfs).bytes p
      = if in_region BS m.sb.block_freemap_start bfs p
            ∨ in_region BS m.sb.inode_freemap_start ifs p then bytes p
        else if p < 20 then bytes p
        else if p < 24 then (int_bytes (int32 now)).getD (p - 20) 0
        else if p < BS then 0
        else bytes p := by
    intro p
    rw [hval p]
    simp only [in_region]
    by_cases c1 : m.sb.block_freemap_start.toNat * BS ≤ p
        ∧ p < m.sb.block_freemap_start.toNat * BS + bfs * BS
    · simp only [c1, true_or, if_true, and_self]
    · by_cases c2 : m.sb.inode_freemap_start.toNat * BS ≤ p
          ∧ p < m.sb.inode_freemap_start.toNat * BS + ifs * BS
      · simp only [c1, c2, or_true, if_true, if_false, and_self]
      · simp only [c1, c2, or_self, if_false]
        by_cases c3 : p < 20
        · have c5 : p < BS := by omega
          have c4 : p < 24 := by omega
          simp only [c3, c4, c5, if_true]
          rw [hsb]
          exact super_block_written_back BS bytes _ p hBS hbyte c3
        · by_cases c4 : p < 24
          · have c5 : p < BS := by omega
            simp only [c3, c4, c5, if_true, if_false]
            simp only [dsuper_bytes]
            rw [List.getD_append_right _ _ _ _ (by simp [int_bytes_length]; omega)]
            simp [int_bytes_length]
          · by_cases c5 : p < BS
            · simp only [c3, c4, c5, if_true, if_false]
            · simp only [c3, c4, c5, if_false]
  refine ⟨?_, _, hclose, hform, ?_⟩
  · rw [hsb]
    have hg : ∀ k, k < 24 → ((List.range (1 * BS)).map
        (fun i => bytes ((0 : Int).toNat * BS + i))).getD k 0
          = ((List.range sizeof_dsuper_block).map bytes).getD k 0 := by
      intro k hk
      have hk2 : k < 1 * BS := by omega
      have hk3 : k < sizeof_dsuper_block := hk
      simp only [List.getD_eq_getElem?_getD, List.getElem?_map, List.getElem?_range hk2,
        List.getElem?_range hk3, Option.map_some', Option.getD_some]
      congr 1
      simp
    simp only [bytes_dsuper, bytes_int, getD_drop]
    rw [hg 0 (by omega), hg 1 (by omega), hg 2 (by omega), hg 3 (by omega),
      hg (4 + 0) (by omega), hg (4 + 1) (by omega), hg (4 + 2) (by omega), hg (4 + 3) (by omega),
      hg (8 + 0) (by omega), hg (8 + 1) (by omega), hg (8 + 2) (by omega), hg (8 + 3) (by omega),
      hg (12 + 0) (by omega), hg (12 + 1) (by omega), hg (12 + 2) (by omega),
      hg (12 + 3) (by omega), hg (16 + 0) (by omega), hg (16 + 1) (by omega),
      hg (16 + 2) (by omega), hg (16 + 3) (by omega), hg (20 + 0) (by omega),
      hg (20 + 1) (by omega), hg (20 + 2) (by omega), hg (20 + 3) (by omega)]
  · intro p hp
    rw [hval p]
    have hBsize : BS ≤ size := by
      have h1 : 1 ≤ (size - (0 : Int).toNat * BS) / BS := by omega
      have h2 : 1 * BS ≤ (size - (0 : Int).toNat * BS) / BS * BS := Nat.mul_le_mul_right BS h1
      have h3 : (size - (0 : Int).toNat * BS) / BS * BS ≤ size - (0 : Int).toNat * BS :=
        Nat.div_mul_le_self _ _
      omega
    split_ifs with c1 c2 c3 c4
    · rfl
    · rfl
    · omega
    · omega
    · rfl

/-! ## Mounting and unmounting the sample disk -/

theorem sample_disk_byte (extra q : Nat) : sample_disk extra q < 256 := by
  unfold sample_disk
  split_ifs with h
  · decide
  · by_cases hq : q < 24
    · interval_cases q <;> decide
    · have : (dsuper_bytes ⟨1, 2, 3, 4, 5, 7⟩).length ≤ q := by
        rw [dsuper_bytes_length]; omega
      rw [List.getD_eq_default _ _ this]
      decide

set_option maxRecDepth 1000000 in
/-- Witness of C21 (amended): the sample disk of five blocks of 64 bytes, whose
inode free map (block 1) starts with the byte 9. -/
theorem mount_then_unmount_witness :
    ∃ m, testfs_init_super_block 64 1 1 1 good_env (sample_disk 64) 320 = some (0, some m) ∧
      m.sb = bytes_dsuper ((List.range sizeof_dsuper_block).map (sample_disk 64)) ∧
      ∃ dev, testfs_close_super_block 64 1 1 8 m = some dev ∧
        (∀ p, dev.bytes p =
          if in_region 64 m.sb.block_freemap_start 1 p
              ∨ in_region 64 m.sb.inode_freemap_start 1 p then sample_disk 64 p
          else if p < 20 then sample_disk 64 p
          else if p < 24 then (int_bytes (int32 8)).getD (p - 20) 0
          else if p < 64 then 0
          else sample_disk 64 p) ∧
        (∀ p, 320 ≤ p → dev.bytes p = sample_disk 64 p) := by
  have hs : ((testfs_init_super_block 64 1 1 1 good_env (sample_disk 64) 320).bind
      (fun r => r.2)).isSome = true := by decide
  have hv : (testfs_init_super_block 64 1 1 1 good_env (sample_disk 64) 320).map Prod.fst
      = some 0 := by decide
  cases h : testfs_init_super_block 64 1 1 1 good_env (sample_disk 64) 320 with
  | none => rw [h] at hv; simp at hv
  | some r =>
    obtain ⟨ret, om⟩ := r
    rw [h] at hs hv
    cases om with
    | none => simp at hs
    | some m =>
      have hr : ret = 0 := by simpa using hv
      subst hr
      exact ⟨m, rfl, mount_then_unmount 64 1 1 1 good_env (sample_disk 64) 320 8 m (by decide)
        (sample_disk_byte 64) h⟩

set_option maxRecDepth 1000000 in
/-- C21 (counterexample): on the sample disk of five blocks of 64 bytes whose
byte 30, in block 0 behind the 24 bytes of the super block and outside the
timestamp, is 9, the mount returns 0, and after the unmount that follows it
the byte 30 is 0. -/
theorem unmount_clears_block_zero :
    (testfs_init_super_block 64 1 1 1 good_env (sample_disk 30) 320).map Prod.fst = some 0 ∧
    ((testfs_init_super_block 64 1 1 1 good_env (sample_disk 30) 320).bind (fun r =>
      r.2.bind (testfs_close_super_block 64 1 1 8))).map (fun d => d.bytes 30) = some 0 ∧
    sample_disk 30 30 = 9 ∧ sizeof_dsuper_block ≤ 30 ∧ 30 < 64 := by
  decide

/-! ## `testfs_next_dirent` on a directory with padded blocks -/

theorem stored_offset_ge (BS p : Nat) (skip : Bool) (hBS : 0 < BS) :
    p ≤ stored_offset BS p skip := by
  unfold stored_offset
  split_ifs
  · exact le_of_lt (lt_next_block BS p hBS)
  · exact le_refl _

/-- `testfs_next_dirent`, called at the end of the previous entry, returns the
entry that is stored next, directly or at the start of the next block. -/
theorem next_dirent_stored (BS : Nat) (dir : inode) (pre rest : List Nat) (e : List Nat × Int)
    (skip : Bool) (hBS : 0 < BS) (hB31 : BS < 2147483648)
    (hdir : dir.i_type = inode_type.I_DIR) (hv : valid_entry BS e)
    (hin : stored_offset BS pre.length skip / BS
      = (stored_offset BS pre.length skip + entry_total e.1 - 1) / BS)
    (hdata : dir.data = pre ++ zeros (stored_offset BS pre.length skip - pre.length)
      ++ dirent_bytes e.2 (e.1.length + 1) e.1 ++ rest)
    (hsize : stored_offset BS pre.length skip + entry_total e.1 ≤ dir.i_size) :
    testfs_next_dirent BS dir pre.length
      = some (some (entry_dirent e), stored_offset BS pre.length skip + entry_total e.1) := by
  have hge := stored_offset_ge BS pre.length skip hBS
  have hlen : (pre ++ zeros (stored_offset BS pre.length skip - pre.length)).length
      = stored_offset BS pre.length skip := by
    simp [zeros_length]; omega
  obtain ⟨r1, r2⟩ := read_entry_at dir
    (pre ++ zeros (stored_offset BS pre.length skip - pre.length)) rest e hdata
    (by rw [hlen]; exact hsize)
  rw [hlen] at r1 r2
  have hnl := header_name_len e BS hB31 hv
  have hnr : bytes_int (int_bytes e.2 ++ int_bytes ((e.1.length + 1 : Nat) : Int)) = e.2 :=
    bytes_int_int_bytes _ _ hv.2.1 hv.2.2.1
  have ht8 : 8 < entry_total e.1 := by simp [entry_total, sizeof_dirent]
  have hB8 : 8 ≤ BS := by
    have := hv.2.2.2
    omega
  have hhdr : read_into (zeros 8) (int_bytes e.2 ++ int_bytes ((e.1.length + 1 : Nat) : Int))
      = int_bytes e.2 ++ int_bytes ((e.1.length + 1 : Nat) : Int) := by
    simp [read_into, int_bytes_length, zeros]
  have hhdr' : read_into (zeros 8) (zeros 8) = zeros 8 := by decide
  have hname : read_into (zeros (e.1.length + 1)) (e.1 ++ [0]) = e.1 ++ [0] := by
    simp [read_into, zeros]
  have hlt : ¬ dir.i_size ≤ pre.length := by omega
  have hne0 : ¬ (((e.1.length + 1 : Nat) : Int) = 0) := by omega
  have hnn : ¬ (((e.1.length + 1 : Nat) : Int) < 0) := by omega
  simp only [testfs_next_dirent, hdir, ne_eq, not_true_eq_false, if_false, hlt, sizeof_dirent]
  cases skip with
  | true =>
    have hq : stored_offset BS pre.length true = (pre.length / BS + 1) * BS := by
      simp [stored_offset]
    by_cases hh : (pre.length + 8) / BS > pre.length / BS
    · have hh' : (pre.length + 8) / BS = pre.length / BS + 1 :=
        cross_next BS _ _ hBS hB8 hh
      have ho1 : (pre.length + 8) / BS * BS = stored_offset BS pre.length true := by
        rw [hh', hq]
      simp only [gt_iff_lt] at hh
      simp only [gt_iff_lt, if_pos hh, ho1, r1, hhdr, hnl, hne0, if_false, hnn, hnr,
        Int.toNat_ofNat, r2, hname, entry_dirent, entry_total, sizeof_dirent]
      congr 2
      omega
    · have hroom := no_header_cross BS pre.length hBS hh
      have hz : testfs_read_data dir pre.length 8 = zeros 8 := by
        have hsplit : zeros (stored_offset BS pre.length true - pre.length)
            = zeros 8 ++ zeros (stored_offset BS pre.length true - pre.length - 8) := by
          rw [← zeros_add]; congr 1; omega
        have := read_data_segment dir pre (zeros 8)
          (zeros (stored_offset BS pre.length true - pre.length - 8)
            ++ dirent_bytes e.2 (e.1.length + 1) e.1 ++ rest)
          (by rw [hdata, hsplit]; simp) (by simp [zeros_length]; omega)
        simpa [zeros_length] using this
      simp only [gt_iff_lt] at hh
      simp only [gt_iff_lt, if_neg hh, hz, hhdr', bytes_int_zeros, if_true, ← hq, r1, hhdr,
        hnl, hnn, if_false, hnr, Int.toNat_ofNat, r2, hname, entry_dirent, entry_total,
        sizeof_dirent]
      congr 2
      omega
  | false =>
    have hq : stored_offset BS pre.length false = pre.length := by
      simp [stored_offset]
    rw [hq] at r1 r2 hin ⊢
    have hh : ¬ (pre.length / BS < (pre.length + 8) / BS) := by
      have : (pre.length + 8) / BS ≤ (pre.length + entry_total e.1 - 1) / BS :=
        Nat.div_le_div_right (by omega)
      omega
    simp only [gt_iff_lt, if_neg hh, r1, hhdr, hnl, hne0, if_false, hnn, hnr,
      Int.toNat_ofNat, r2, hname, entry_dirent, entry_total, sizeof_dirent]
    congr 2
    omega

theorem lay_blocks_length_ge (BS : Nat) : ∀ (es : List ((List Nat × Int) × Bool)) (p : Nat),
    9 * es.length ≤ (lay_blocks BS p es).length := by
  intro es
  induction es with
  | nil => intro p; simp
  | cons g es ih =>
    intro p
    obtain ⟨e, skip⟩ := g
    have := ih (stored_offset BS p skip + entry_total e.1)
    simp only [lay_blocks, List.length_append, zeros_length, dirent_bytes_length,
      List.length_cons, entry_total, sizeof_dirent] at this ⊢
    omega

/-! ## The loop of `testfs_add_dirent` on a directory with padded blocks -/

/-- The loop of `testfs_add_dirent`, started at the end of an entry of a
well-formed directory, ends with an error, with a tombstone found, or at the
size of the directory. -/
theorem add_loop_blocks (BS : Nat) (dir : inode) (name : List Nat) (hBS : 0 < BS)
    (hB31 : BS < 2147483648) (hdir : dir.i_type = inode_type.I_DIR)
    (hsize : dir.i_size = dir.data.length) :
    ∀ (es : List ((List Nat × Int) × Bool)) (pre : List Nat) (fuel : Nat),
    (∀ g ∈ es, valid_entry BS g.1) → in_one_block BS pre.length es →
    dir.data = pre ++ lay_blocks BS pre.length es → es.length < fuel →
    ∃ ret found p, add_dirent_loop BS dir name (name.length + 1) fuel pre.length
        = some (ret, found, p) ∧
      (ret < 0 ∨ found = true ∨ p = dir.i_size) := by
  intro es
  induction es with
  | nil =>
    intro pre fuel _ _ hdata hfuel
    obtain ⟨f, rfl⟩ : ∃ f, fuel = f + 1 := ⟨fuel - 1, by simp at hfuel; omega⟩
    have hend : dir.i_size ≤ pre.length := by
      rw [hsize, hdata]; simp [lay_blocks]
    have hsz : pre.length = dir.i_size := by
      rw [hsize, hdata]; simp [lay_blocks]
    refine ⟨0, false, pre.length, ?_, Or.inr (Or.inr hsz)⟩
    simp only [add_dirent_loop, next_dirent_at_end BS dir pre.length hdir hend]
  | cons g es ih =>
    intro pre fuel hv hin hdata hfuel
    obtain ⟨e, skip⟩ := g
    obtain ⟨f, rfl⟩ : ∃ f, fuel = f + 1 := ⟨fuel - 1, by simp at hfuel; omega⟩
    have hve : valid_entry BS e := hv (e, skip) (List.mem_cons_self _ _)
    have hge := stored_offset_ge BS pre.length skip hBS
    simp only [lay_blocks] at hdata
    simp only [in_one_block] at hin
    have hdata2 : dir.data = pre ++ zeros (stored_offset BS pre.length skip - pre.length)
        ++ dirent_bytes e.2 (e.1.length + 1) e.1
        ++ lay_blocks BS (stored_offset BS pre.length skip + entry_total e.1) es := by
      rw [hdata]; simp only [List.append_assoc]
    have hsz : stored_offset BS pre.length skip + entry_total e.1 ≤ dir.i_size := by
      rw [hsize, hdata2]
      simp only [List.length_append, zeros_length, dirent_bytes_length]
      omega
    have hn := next_dirent_stored BS dir pre _ e skip hBS hB31 hdir hve hin.1 hdata2 hsz
    have hl : (pre ++ zeros (stored_offset BS pre.length skip - pre.length)
        ++ dirent_bytes e.2 (e.1.length + 1) e.1).length
        = stored_offset BS pre.length skip + entry_total e.1 := by
      simp only [List.length_append, zeros_length, dirent_bytes_length]
      omega
    simp only [add_dirent_loop, hn]
    split_ifs with h1 h2
    · exact ⟨_, _, _, rfl, Or.inl (by decide)⟩
    · rw [← hl]
      apply ih
      · intro g hg
        exact hv g (List.mem_cons_of_mem _ hg)
      · rw [hl]; exact hin.2
      · rw [hl]; exact hdata2
      · simp only [List.length_cons] at hfuel
        omega
    · exact ⟨_, _, _, rfl, Or.inr (Or.inl rfl)⟩

/-- C27: in a well-formed directory (each entry lies inside one block, zero
bytes occur only between the end of an entry and the start of the next block,
the size is the end of the last entry) the loop of `testfs_add_dirent` ends,
for every name, and when its `ret` is not negative, so that the assertion
`found || p_offset == testfs_inode_get_size(dir)` is reached, the assertion
holds: without a reusable tombstone the scan stops with `p_offset` at the size
of the directory.  `testfs_add_dirent` then fails no assertion for an inode
number that is not negative. -/
theorem add_dirent_assertion_holds (BS : Nat) (dir : inode) (name : List Nat)
    (es : List ((List Nat × Int) × Bool)) (hBS : 0 < BS) (hB31 : BS < 2147483648)
    (hwf : wf_blocks_dir BS dir es) :
    (∃ ret found p_offset,
      add_dirent_loop BS dir name (name.length + 1) (dir.i_size + 1) 0
        = some (ret, found, p_offset) ∧
      (0 ≤ ret → found = true ∨ p_offset = dir.i_size) ∧
      (0 ≤ ret → found = false → p_offset = dir.i_size)) ∧
    ∀ (MAXFS : Nat) (inode_nr : Int), 0 ≤ inode_nr →
      testfs_add_dirent BS MAXFS dir name inode_nr ≠ none := by
  obtain ⟨hdir, hdata, hsize, hv, hin⟩ := hwf
  have hlen := lay_blocks_length_ge BS es 0
  obtain ⟨ret, found, p, hloop, hor⟩ := add_loop_blocks BS dir name hBS hB31 hdir hsize es []
    (dir.i_size + 1) hv hin (by simpa using hdata) (by rw [hsize, hdata]; omega)
  simp only [List.length_nil] at hloop
  have hassert : 0 ≤ ret → found = true ∨ p = dir.i_size := by
    intro h0
    rcases hor with h | h
    · omega
    · exact h
  refine ⟨⟨ret, found, p, hloop, hassert, ?_⟩, ?_⟩
  · intro h0 hf
    rcases hassert h0 with h | h
    · rw [hf] at h; exact absurd h (by decide)
    · exact h
  · intro MAXFS inode_nr hnr
    simp only [testfs_add_dirent, hdir, ne_eq, not_true_eq_false, if_false, hloop]
    by_cases hr : ret < 0
    · simp [hr]
    · have := hassert (by omega)
      simp only [hr, if_false, this, not_true_eq_false, testfs_write_dirent,
        show ¬ inode_nr < 0 by omega]
      split_ifs <;> simp

set_option maxRecDepth 1000000 in
/-- Witness of C27: the directory `gap_dir`, whose first block ends with zero
bytes behind the entry `a` and whose second block starts with a tombstone of
two name bytes; for the name `cd`, of three name bytes, no tombstone is
reusable. -/
theorem add_dirent_assertion_holds_witness :
    wf_blocks_dir 256 gap_dir [(([97], 1), false), (([98], -1), true)] ∧
    (∃ ret found p_offset,
      add_dirent_loop 256 gap_dir [99, 100] (([99, 100] : List Nat).length + 1)
          (gap_dir.i_size + 1) 0 = some (ret, found, p_offset) ∧
      (0 ≤ ret → found = true ∨ p_offset = gap_dir.i_size) ∧
      (0 ≤ ret → found = false → p_offset = gap_dir.i_size)) ∧
    ∀ (MAXFS : Nat) (inode_nr : Int), 0 ≤ inode_nr →
      testfs_add_dirent 256 MAXFS gap_dir [99, 100] inode_nr ≠ none :=
  have hwf : wf_blocks_dir 256 gap_dir [(([97], 1), false), (([98], -1), true)] := by decide
  ⟨hwf, add_dirent_assertion_holds 256 gap_dir [99, 100]
    [(([97], 1), false), (([98], -1), true)] (by decide) (by decide) hwf⟩

/-! ## `testfs_add_dirent` and a name that exists -/

end TestFS
